import Mathlib

/-!
# simavr: interrupt controller, IRQ signal bus, peripheral chain, GDB stub, run loop

A shallow embedding of the interrupt controller (`avr_raise_interupt`,
`avr_service_interupts`, `avr_clear_interupt` of `simavr.c`), of the I-flag edge
detection of `avr_run` (`sim_avr.c` and `simavr.c`), of the IRQ bus
(`avr_irq_register_notify`, `avr_raise_irq`, `avr_connect_irq` of `simavr.c`), of
the guarded accessors `avr_core_watch_write` and `avr_core_watch_read`, of
`avr_reset`, `avr_ioctl`, `avr_register_io` and the port loop of `avr_run`
(`sim_avr.c`, `sim_io.c`), of `avr_make_mcu_by_name` (`sim_avr.c`), of the GDB
stub (`gdb_change_breakpoint`, `gdb_send_reply`, `read_hex_string`,
`gdb_handle_command`, `avr_gdb_processor` of `sim_gdb.c`), of the two variants
of `avr_run` (`sim_avr.c`, `simavr.c`), of `avr_sadly_crashed`, `avr_init` and
`avr_loadcode` (`sim_avr.c`) and of the TWI block of the megax8 descriptor
(`sim_megax8.h`).

Conventions of the embedding:
* machine integers are `Nat`; a store into a byte is reduced modulo 256;
* `data[]`, `sreg[]`, `pending[]`, `vector[]` are total functions of the index;
  the theorems state the index bounds under which the C code is defined;
* a C pointer to an interrupt vector descriptor is an `Option`; IRQ and function
  pointers are addresses, `0` being `NULL`;
* handlers of peripherals are functions on the MCU state, kept in `avr_hooks`
  next to it; a function that can end in `CRASH()` returns an `outcome`;
* a C string is a list of characters, one per byte, that ends where the NUL
  stands; the packets given to `send` are collected in the field `sent`;
* functions that are not among the sources (`avr_run_one`, the cycle timers)
  and the contents of uninitialised locals are parameters, gathered in
  `gdb_env` and `run_env`; a call of `avr_run` ends in a `run_result`.
-/

namespace Simavr

/-! ## Data model -/

/-- Modelled from the spec: index of the global interrupt flag in `sreg[]`; the
flags are kept in the order C,Z,N,V,S,H,T,I (the constant is declared in
`simavr.h`, which is not among the sources). -/
def S_I : Nat := 7

/-- Modelled from the spec: data-space address of the low stack-pointer byte
(`R_SPL` of `simavr.h`; I/O register 0x3d of the AVR, mapped 32 bytes up). -/
def R_SPL : Nat := 32 + 0x3d

/-- Modelled from the spec: data-space address of the high stack-pointer byte
(`R_SPH` of `simavr.h`; I/O register 0x3e of the AVR, mapped 32 bytes up). -/
def R_SPH : Nat := 32 + 0x3e

/-- Modelled from the spec: data-space address of the SREG mirror byte
(`R_SREG` of `simavr.h`; I/O register 0x3f of the AVR, mapped 32 bytes up). -/
def R_SREG : Nat := 32 + 0x3f

/-- Modelled from the spec: the CPU states {Limbo, Stopped, Running, Sleeping,
Step, StepDone, Done, Crashed}, under the enumerator names `simavr.c` and
`sim_avr.c` use (the enumeration is declared in a header that is not among the
sources). -/
inductive cpu_state where
  | cpu_Limbo
  | cpu_Stopped
  | cpu_Running
  | cpu_Sleeping
  | cpu_Step
  | cpu_StepDone
  | cpu_Done
  | cpu_Crashed
deriving DecidableEq, Repr

open cpu_state

/-- Modelled from the spec: the register-bit selector, a tuple
`(reg_addr, bit_offset, mask)` (`avr_regbit_t` of `simavr.h`). -/
structure avr_regbit_t where
  reg : Nat
  bit : Nat
  mask : Nat
deriving DecidableEq, Repr

/-- Modelled from the spec: the interrupt vector descriptor `(vector_number,
enable_selector, raised_selector)` (`avr_int_vector_t` of `simavr.h`), with the
field names `simavr.c` uses. -/
structure avr_int_vector_t where
  vector : Nat
  enable : avr_regbit_t
  raised : avr_regbit_t
deriving DecidableEq, Repr

/-- Modelled from the spec: the MCU state (`avr_t` of `simavr.h`), reduced to the
fields that the interrupt controller and the run loop read or write, under the
names they have in `simavr.c` and `sim_avr.c`. -/
structure avr_t where
  ramend : Nat
  flashend : Nat
  vector_size : Nat
  pc : Nat
  cycle : Nat
  state : cpu_state
  sreg : Nat → Nat
  data : Nat → Nat
  flash : Nat → Nat
  pending : Nat → Nat
  pending_wait : Nat
  i_shadow : Nat
  vector : Nat → Option avr_int_vector_t

/-- Store of one byte into `data[]`. -/
def set_data (avr : avr_t) (addr v : Nat) : avr_t :=
  { avr with data := fun a => if a = addr then v % 256 else avr.data a }

/-- Modelled from the spec: `avr_regbit_set` of `simavr.h` writes the selected
field to all ones, `data[reg] |= mask << bit` in a byte. -/
def avr_regbit_set (avr : avr_t) (rb : avr_regbit_t) : avr_t :=
  set_data avr rb.reg (avr.data rb.reg ||| ((rb.mask <<< rb.bit) % 256))

/-- Modelled from the spec: `avr_regbit_get` of `simavr.h` reads the selected
field, `(data[reg] >> bit) & mask`. -/
def avr_regbit_get (avr : avr_t) (rb : avr_regbit_t) : Nat :=
  (avr.data rb.reg >>> rb.bit) &&& rb.mask

/-- Modelled from the spec: `avr_regbit_clear` of `simavr.h` writes the selected
field to zero, `data[reg] &= ~(mask << bit)` in a byte. -/
def avr_regbit_clear (avr : avr_t) (rb : avr_regbit_t) : avr_t :=
  set_data avr rb.reg (avr.data rb.reg &&& (((rb.mask <<< rb.bit) % 256) ^^^ 255))

/-- Modelled from the spec: `_avr_sp_get` (declared in `sim_core.h`, defined in
the absent `sim_core.c`) reads the stack pointer from its two bytes. -/
def _avr_sp_get (avr : avr_t) : Nat :=
  avr.data R_SPL ||| (avr.data R_SPH <<< 8)

/-- Modelled from the spec: `_avr_sp_set` (declared in `sim_core.h`) stores a
16-bit stack pointer into its two bytes. -/
def _avr_sp_set (avr : avr_t) (sp : Nat) : avr_t :=
  set_data (set_data avr R_SPL (sp &&& 0xff)) R_SPH ((sp % 65536) >>> 8)

/-- Modelled from the spec: `_avr_push16` (declared in `sim_core.h`) writes the
high byte, then the low byte below it, and decrements SP by 2. -/
def _avr_push16 (avr : avr_t) (v : Nat) : avr_t :=
  let sp := _avr_sp_get avr
  let avr1 := set_data avr sp ((v % 65536) >>> 8)
  let avr2 := set_data avr1 ((sp + 65535) % 65536) (v &&& 0xff)
  _avr_sp_set avr2 ((sp + 65534) % 65536)

/-! ## Interrupt controller (`simavr.c`) -/

/-- The function `avr_has_pending_interupts`: `pending[0] || pending[1]`. -/
def avr_has_pending_interupts (avr : avr_t) : Bool :=
  avr.pending 0 ≠ 0 || avr.pending 1 ≠ 0

/-- The expression `pending[v >> 5] & (1 << (v & 0x1f))` that
`avr_is_interupt_pending` evaluates for vector number `v`. -/
def pending_bit (avr : avr_t) (v : Nat) : Nat :=
  avr.pending (v >>> 5) &&& (1 <<< (v &&& 0x1f))

/-- The function `avr_is_interupt_pending`. -/
def avr_is_interupt_pending (avr : avr_t) (vector : avr_int_vector_t) : Nat :=
  pending_bit avr vector.vector

/-- The statement `pending[v >> 5] |= (1 << (v & 0x1f))`. -/
def set_pending (avr : avr_t) (v : Nat) : avr_t :=
  { avr with pending := fun i =>
      if i = v >>> 5 then avr.pending i ||| (1 <<< (v &&& 0x1f)) else avr.pending i }

/-- The statement `pending[v >> 5] &= ~(1 << (v & 0x1f))` on a 32-bit word. -/
def clear_pending (avr : avr_t) (v : Nat) : avr_t :=
  { avr with pending := fun i =>
      if i = v >>> 5 then avr.pending i &&& ((1 <<< (v &&& 0x1f)) ^^^ 0xffffffff)
      else avr.pending i }

/-- Lines 148-149 of `avr_raise_interupt`: the raised flag is marked when the
descriptor has a raised selector. -/
def mark_raised (avr : avr_t) (vec : avr_int_vector_t) : avr_t :=
  if vec.raised.reg ≠ 0 then avr_regbit_set avr vec.raised else avr

/-- Lines 154-163 of `avr_raise_interupt`: the vector is queued unless it is
already pending. -/
def queue_pending (avr : avr_t) (vec : avr_int_vector_t) : avr_t :=
  if avr_is_interupt_pending avr vec = 0 then
    let avr1 := if avr.pending_wait = 0 then { avr with pending_wait := 2 } else avr
    let avr2 := set_pending avr1 vec.vector
    if avr2.state ≠ cpu_Running then { avr2 with state := cpu_Running } else avr2
  else avr

/-- The function `avr_raise_interupt`; the result is the state after the call and
the returned `int`. -/
def avr_raise_interupt (avr : avr_t) (vector : Option avr_int_vector_t) : avr_t × Nat :=
  match vector with
  | none => (avr, 0)
  | some vec =>
    if vec.vector = 0 then (avr, 0)
    else
      let avr1 := mark_raised avr vec
      if vec.enable.reg ≠ 0 ∧ avr_regbit_get avr1 vec.enable = 0 then (avr1, 0)
      else (queue_pending avr1 vec, 1)

/-- The function `avr_clear_interupt`. -/
def avr_clear_interupt (avr : avr_t) (v : Nat) : avr_t :=
  let vector := avr.vector v
  let avr1 := clear_pending avr v
  match vector with
  | none => avr1
  | some vec => if vec.raised.reg ≠ 0 then avr_regbit_clear avr1 vec.raised else avr1

/-- Lines 300-308 of `avr_service_interupts`: entry into vector `v`. -/
def service_vector (avr : avr_t) (v : Nat) : avr_t :=
  let avr1 := _avr_push16 avr ((avr.pc >>> 1) % 65536)
  let avr2 := { avr1 with sreg := fun i => if i = S_I then 0 else avr1.sreg i }
  let avr3 := { avr2 with pc := v * avr2.vector_size }
  avr_clear_interupt avr3 v

/-- The inner loop `for (ii = ...; ii < 32 && !done; ii++)` with `n` iterations
left: the first set bit of `pending[bi]` from `ii` on is serviced and ends it. -/
def scan_bits (avr : avr_t) (bi : Nat) : Nat → Nat → avr_t
  | 0, _ => avr
  | n + 1, ii =>
    if avr.pending bi &&& (1 <<< ii) ≠ 0 then service_vector avr (bi * 32 + ii)
    else scan_bits avr bi n (ii + 1)

/-- The outer loop `for (bi = ...; bi < 2 && !done; bi++)` with `n` iterations
left: the first non-zero word is scanned, and the `break` after the inner loop
ends the outer one. -/
def scan_words (avr : avr_t) : Nat → Nat → avr_t
  | 0, _ => avr
  | n + 1, bi =>
    if avr.pending bi ≠ 0 then scan_bits avr bi 32 0
    else scan_words avr n (bi + 1)

/-- The function `avr_service_interupts`. -/
def avr_service_interupts (avr : avr_t) : avr_t :=
  if avr.sreg S_I = 0 then avr
  else if avr_has_pending_interupts avr then
    if avr.pending_wait ≠ 0 then
      let avr1 := { avr with pending_wait := avr.pending_wait - 1 }
      if avr1.pending_wait = 0 then scan_words avr1 2 0 else avr1
    else { avr with pending_wait := 2 }
  else avr

/-! ## I-flag edge detection of `avr_run` -/

/-- Lines 146-150 of `avr_run` in `sim_avr.c`: the I flag is double buffered in
`i_shadow` and its rising edge increments `pending_wait`. -/
def avr_run_edge (avr : avr_t) : avr_t :=
  let avr1 :=
    if avr.sreg S_I ≠ 0 ∧ avr.i_shadow = 0 then
      { avr with pending_wait := avr.pending_wait + 1 }
    else avr
  { avr1 with i_shadow := avr1.sreg S_I }

/-- Lines 333-339 of `avr_run` in `simavr.c`: the older variant compares the I
flag with bit `S_I` of the SREG mirror byte. -/
def avr_run_edge_sreg (avr : avr_t) : avr_t :=
  if avr.sreg S_I ≠ 0 ∧ avr.data R_SREG &&& (1 <<< S_I) = 0 then
    { avr with pending_wait := avr.pending_wait + 1 }
  else avr

/-! ## IRQ signal bus (`simavr.c`) -/

/-- Modelled from the spec: one element of the hook list of an IRQ
(`avr_irq_hook_t` of `simavr.h`), with the field names `simavr.c` uses: the
callback (a function pointer, `0` for `NULL`), its payload and the re-entrancy
counter. -/
structure avr_irq_hook_t where
  notify : Nat
  param : Nat
  busy : Nat
deriving DecidableEq, Repr

/-- Modelled from the spec: an IRQ (`avr_irq_t` of `simavr.h`), with the field
names `simavr.c` uses: identity, current value and the hook list, head first (the
`next` chain starting at `irq->hook`). -/
structure avr_irq_t where
  irq : Nat
  value : Nat
  hook : List avr_irq_hook_t
deriving DecidableEq, Repr

/-- One invocation `hook->notify(avr, irq, value, hook->param)`. -/
structure hook_call where
  notify : Nat
  irq : Nat
  value : Nat
  param : Nat
deriving DecidableEq, Repr

/-- The IRQs in memory, by address, and the trace of callback invocations made
so far, oldest first. -/
structure irq_bus where
  irqs : Nat → avr_irq_t
  calls : List hook_call

/-- What the code behind a callback pointer does when it is invoked with
`(irq, value, param)`: the `avr_raise_irq(target, value)` calls it makes, in
order. -/
abbrev callbacks := Nat → Nat → Nat → Nat → List (Nat × Nat)

/-- The callback `_avr_irq_connect`: it raises the IRQ it got as `param` with
`value != 0`. -/
def _avr_irq_connect (_irq value param : Nat) : List (Nat × Nat) :=
  [(param, if value ≠ 0 then 1 else 0)]

/-- Update of the IRQ stored at address `p`. -/
def set_irq (w : irq_bus) (p : Nat) (q : avr_irq_t) : irq_bus :=
  { w with irqs := fun a => if a = p then q else w.irqs a }

/-- The statements `hook->busy++` and `hook->busy--` on the `k`-th hook of the
IRQ at `p`. -/
def set_busy (w : irq_bus) (p k : Nat) (f : Nat → Nat) : irq_bus :=
  set_irq w p { w.irqs p with
    hook := (w.irqs p).hook.modify (fun h => { h with busy := f h.busy }) k }

/-- The function `avr_irq_register_notify`. -/
def avr_irq_register_notify (w : irq_bus) (irq notify param : Nat) : irq_bus :=
  if irq = 0 ∨ notify = 0 then w
  else if (w.irqs irq).hook.any (fun h => h.notify = notify && h.param = param) then w
  else set_irq w irq { w.irqs irq with
    hook := { notify := notify, param := param, busy := 0 } :: (w.irqs irq).hook }

/-- The body of a callback: its raises are performed in order by `raise`. -/
def run_raises (raise : irq_bus → Nat → Nat → Option irq_bus) :
    List (Nat × Nat) → irq_bus → Option irq_bus
  | [], w => some w
  | (target, value) :: rest, w =>
    match raise w target value with
    | none => none
    | some w1 => run_raises raise rest w1

/-- The loop `while (hook)` of `avr_raise_irq` over the hooks of the IRQ at `p`,
standing at the `k`-th hook with `n` hooks left; `raise` performs the
`avr_raise_irq` calls made from inside a callback. -/
def walk_hooks (cb : callbacks) (raise : irq_bus → Nat → Nat → Option irq_bus)
    (p value : Nat) : Nat → Nat → irq_bus → Option irq_bus
  | 0, _, w => some w
  | n + 1, k, w =>
    match (w.irqs p).hook[k]? with
    | none => some w
    | some h =>
      if h.notify ≠ 0 ∧ h.busy = 0 then
        let w1 := set_busy w p k (fun b => b + 1)
        let w2 := { w1 with calls := w1.calls ++
          [{ notify := h.notify, irq := p, value := value, param := h.param }] }
        match run_raises raise (cb h.notify p value h.param) w2 with
        | none => none
        | some w3 => walk_hooks cb raise p value n (k + 1) (set_busy w3 p k (fun b => b - 1))
      else walk_hooks cb raise p value n (k + 1) w

/-- The function `avr_raise_irq`. The first argument bounds the nesting depth of
`avr_raise_irq` calls made from callbacks; `none` means the bound was reached. -/
def avr_raise_irq (cb : callbacks) : Nat → irq_bus → Nat → Nat → Option irq_bus
  | 0, _, _, _ => none
  | fuel + 1, w, irq, value =>
    if irq = 0 ∨ (w.irqs irq).value = value then some w
    else
      match walk_hooks cb (avr_raise_irq cb fuel) irq value (w.irqs irq).hook.length 0 w with
      | none => none
      | some w1 => some (set_irq w1 irq { w1.irqs irq with value := value })

/-- The function `avr_connect_irq`; `connect` is the address of
`_avr_irq_connect`. -/
def avr_connect_irq (connect : Nat) (w : irq_bus) (src dst : Nat) : irq_bus :=
  avr_irq_register_notify w src connect dst

/-- An IRQ bus without hooks and without invocations. -/
def empty_bus : irq_bus :=
  { irqs := fun a => { irq := a, value := 0, hook := [] }, calls := [] }

/-- Whether the loop of `avr_raise_irq` invokes a hook: it has a callback and is
not busy. -/
def hook_fires (h : avr_irq_hook_t) : Bool :=
  h.notify ≠ 0 && h.busy = 0

/-- The invocation the loop of `avr_raise_irq` makes for hook `h` of the IRQ at
`p` when raising `value`. -/
def call_of (p value : Nat) (h : avr_irq_hook_t) : hook_call :=
  { notify := h.notify, irq := p, value := value, param := h.param }

/-! ## Concrete states used as witnesses -/

/-- A timer-overflow style descriptor: vector 16, enable bit 0 of register 0x6e,
raised bit 0 of register 0x35. -/
def demo_vector : avr_int_vector_t :=
  { vector := 16, enable := { reg := 0x6e, bit := 0, mask := 1 },
    raised := { reg := 0x35, bit := 0, mask := 1 } }

/-- The same selectors under vector number 0. -/
def demo_vector_zero : avr_int_vector_t :=
  { vector := 0, enable := { reg := 0x6e, bit := 0, mask := 1 },
    raised := { reg := 0x35, bit := 0, mask := 1 } }

/-- A sleeping MCU with interrupts enabled, `demo_vector` enabled (bit 0 of
`data[0x6e]`), nothing pending, `pc = 0x100`, `SP = 0x04ff`. -/
def demo_avr : avr_t :=
  { ramend := 0x4ff, flashend := 0x3fff, vector_size := 2, pc := 0x100, cycle := 0,
    state := cpu_Sleeping,
    sreg := fun i => if i = 7 then 1 else 0,
    data := fun a => if a = 0x6e then 1 else if a = 0x5d then 0xff else if a = 0x5e then 4 else 0,
    flash := fun _ => 0xff,
    pending := fun _ => 0,
    pending_wait := 0,
    i_shadow := 0,
    vector := fun v => if v = 16 then some demo_vector else none }

/-- The state `demo_avr` with vectors 2, 16 and 35 pending and one cycle of
latency left. -/
def demo_avr_pending : avr_t :=
  { demo_avr with
    pending := fun i => if i = 0 then 0x10004 else if i = 1 then 8 else 0,
    pending_wait := 1 }

/-- The state `demo_avr` with the I flag clear and vector 16 pending. -/
def demo_avr_cli : avr_t :=
  { demo_avr with
    sreg := fun _ => 0,
    pending := fun i => if i = 0 then 0x10000 else 0,
    pending_wait := 1 }

/-- A descriptor of vector 16 whose enable selector is the bit of its raised
selector. -/
def demo_vector_same_bit : avr_int_vector_t :=
  { vector := 16, enable := { reg := 0x35, bit := 0, mask := 1 },
    raised := { reg := 0x35, bit := 0, mask := 1 } }

/-- A running MCU with the I flag clear (in `sreg` and in `i_shadow`), vector 16
pending and `pending_wait == 0`: the state in which a handler runs that was
entered while vector 16 was pending as well. -/
def demo_avr_in_handler : avr_t :=
  { demo_avr with
    state := cpu_Running,
    sreg := fun _ => 0,
    pending := fun i => if i = 0 then 0x10000 else 0 }

/-- The state `demo_avr_in_handler` once its instruction has set the I flag. -/
def demo_avr_edge : avr_t :=
  { demo_avr_in_handler with sreg := fun i => if i = S_I then 1 else 0 }

/-- Callbacks that raise no IRQ. -/
def quiet_callbacks : callbacks := fun _ _ _ _ => []

/-- Callback 1 raises again the IRQ it is invoked for, with the same value; every
other callback raises nothing. -/
def reraising_callbacks : callbacks :=
  fun notify irq value _ => if notify = 1 then [(irq, value)] else []

/-- The IRQ at address 10 with hook A = (callback 1, payload 100). -/
def demo_bus_one : irq_bus := avr_irq_register_notify empty_bus 10 1 100

/-- The IRQ at address 10 after A = (1, 100) and then B = (2, 200) were
registered. -/
def demo_bus_two : irq_bus := avr_irq_register_notify demo_bus_one 10 2 200

/-! ## Registration sequences on the IRQ bus -/

/-- The pair `(callback, payload)` that identifies a hook. -/
def hook_pair (h : avr_irq_hook_t) : Nat × Nat :=
  (h.notify, h.param)

/-- A sequence of `avr_irq_register_notify(irq, notify, param)` calls, performed
in order. -/
def register_all (w : irq_bus) (reqs : List (Nat × Nat × Nat)) : irq_bus :=
  reqs.foldl (fun b r => avr_irq_register_notify b r.1 r.2.1 r.2.2) w

/-- Callback 9 is `_avr_irq_connect`; every other callback raises nothing. -/
def connect_callbacks : callbacks :=
  fun notify irq value param => if notify = 9 then _avr_irq_connect irq value param else []

/-- A bus whose IRQ 20 has the hook (callback 3, payload 300) and holds 0. -/
def demo_bus_dst : irq_bus := avr_irq_register_notify empty_bus 20 3 300

/-! ## Guarded data accessors (`simavr.c`) -/

/-- What a function that may go through `CRASH()` produces: its result, or the
state in which the macro called `exit(1)`. -/
inductive outcome (α : Type) where
  | done : α → outcome α
  | crash : avr_t → outcome α

/-- The function `avr_core_watch_write`; `addr` is a `uint16_t`, `v` a byte. -/
def avr_core_watch_write (avr : avr_t) (addr v : Nat) : outcome avr_t :=
  if addr > avr.ramend then outcome.crash avr
  else if addr < 32 then outcome.crash avr
  else outcome.done (set_data avr addr v)

/-- The function `avr_core_watch_read`: the state after the call and the byte
returned. -/
def avr_core_watch_read (avr : avr_t) (addr : Nat) : outcome (avr_t × Nat) :=
  if addr > avr.ramend then outcome.crash avr
  else outcome.done (avr, avr.data addr)

/-! ## Peripheral chain, reset and ioctl (`sim_avr.c`, `sim_io.c`) -/

/-- Modelled from the spec: the peripheral descriptor (`avr_io_t` of `sim_io.h`):
a `kind` tag and the optional `reset`, `run` and `ioctl` handlers, which act on
the MCU state; an `ioctl` handler gets `(ctl, io_param)` and returns a status. -/
structure avr_io_t where
  kind : String
  reset : Option (avr_t → avr_t)
  run : Option (avr_t → avr_t)
  ioctl : Option (avr_t → Nat → Nat → avr_t × Int)

/-- Modelled from the spec: the function-valued members of `avr_t`, kept apart
from the data members they act on: the core hooks `init` and `reset` and the
peripheral chain `io_port`, head first. -/
structure avr_hooks where
  init : Option (avr_t → avr_t)
  reset : Option (avr_t → avr_t)
  io_port : List avr_io_t

/-- The statement `memset(avr->data, 0x0, avr->ramend + 1)`. -/
def clear_data (avr : avr_t) : avr_t :=
  { avr with data := fun a => if a ≤ avr.ramend then 0 else avr.data a }

/-- The loop `for (int i = 0; i < 8; i++) avr->sreg[i] = 0`. -/
def clear_sreg (avr : avr_t) : avr_t :=
  { avr with sreg := fun i => if i < 8 then 0 else avr.sreg i }

/-- The loop of `avr_reset` over the peripheral chain: every `reset` handler is
called, in chain order. -/
def reset_ports : List avr_io_t → avr_t → avr_t
  | [], avr => avr
  | port :: rest, avr =>
    match port.reset with
    | some f => reset_ports rest (f avr)
    | none => reset_ports rest avr

/-- The function `avr_reset` (the same in `sim_avr.c` and `simavr.c`). -/
def avr_reset (hooks : avr_hooks) (avr : avr_t) : avr_t :=
  let avr1 := clear_data avr
  let avr2 := _avr_sp_set avr1 avr1.ramend
  let avr3 := { avr2 with pc := 0 }
  let avr4 := clear_sreg avr3
  let avr5 := match hooks.reset with
    | some f => f avr4
    | none => avr4
  reset_ports hooks.io_port avr5

/-- The loop of `avr_ioctl`, with the value of `res` so far and the kinds of the
peripherals whose handler has been called, oldest first. -/
def ioctl_loop (ctl io_param : Nat) :
    List avr_io_t → avr_t → Int → List String → avr_t × Int × List String
  | [], avr, res, called => (avr, res, called)
  | port :: rest, avr, res, called =>
    if res = -1 then
      match port.ioctl with
      | some f =>
        ioctl_loop ctl io_param rest (f avr ctl io_param).1 (f avr ctl io_param).2
          (called ++ [port.kind])
      | none => ioctl_loop ctl io_param rest avr res called
    else (avr, res, called)

/-- The function `avr_ioctl`: the state after the call, the value returned and
the kinds of the peripherals whose handler was called, in call order. -/
def avr_ioctl (hooks : avr_hooks) (avr : avr_t) (ctl io_param : Nat) :
    avr_t × Int × List String :=
  ioctl_loop ctl io_param hooks.io_port avr (-1) []

/-- The function `avr_register_io`. -/
def avr_register_io (hooks : avr_hooks) (io : avr_io_t) : avr_hooks :=
  { hooks with io_port := io :: hooks.io_port }

/-- Lines 152-158 of `avr_run` in `sim_avr.c` (340-345 in `simavr.c`): the `run`
handler of every peripheral that has one is called, in chain order; the second
component lists the kinds of the peripherals called, oldest first. -/
def run_ports : List avr_io_t → avr_t → List String → avr_t × List String
  | [], avr, called => (avr, called)
  | port :: rest, avr, called =>
    match port.run with
    | some f => run_ports rest (f avr) (called ++ [port.kind])
    | none => run_ports rest avr called

/-! ## MCU factory (`sim_avr.c`) -/

/-- Modelled from the spec: an entry of the table of named AVR variants
(`avr_kind_t`): the NULL-terminated array `names` and the function `make`. -/
structure avr_kind_t where
  names : List String
  make : Unit → avr_t

/-- The inner loop of `avr_make_mcu_by_name` over `names[j]`. -/
def kind_has_name (name : String) : List String → Bool
  | [] => false
  | n :: rest => if n = name then true else kind_has_name name rest

/-- The outer loop of `avr_make_mcu_by_name` over `avr_kind[i]`, ended by the
first entry that sets `maker`. -/
def find_maker (name : String) : List avr_kind_t → Option avr_kind_t
  | [] => none
  | k :: rest => if kind_has_name name k.names then some k else find_maker name rest

/-- The function `avr_make_mcu_by_name` over the table `avr_kind`; `none` is the
`NULL` result. -/
def avr_make_mcu_by_name (avr_kind : List avr_kind_t) (name : String) : Option avr_t :=
  match find_maker name avr_kind with
  | none => none
  | some maker => some (maker.make ())

/-! ## Helpers to state the chain claims -/

/-- The state after the `ioctl` handlers of a stretch of the chain were called
one after the other. -/
def ioctl_misses (ctl io_param : Nat) : List avr_io_t → avr_t → avr_t
  | [], avr => avr
  | port :: rest, avr =>
    match port.ioctl with
    | some f => ioctl_misses ctl io_param rest (f avr ctl io_param).1
    | none => ioctl_misses ctl io_param rest avr

/-- The kinds of the peripherals of a stretch of the chain that have an `ioctl`
handler, in chain order. -/
def ioctl_kinds : List avr_io_t → List String
  | [] => []
  | port :: rest =>
    match port.ioctl with
    | some _ => port.kind :: ioctl_kinds rest
    | none => ioctl_kinds rest

/-- A peripheral without `reset` whose `run` bumps the cycle counter and whose
`ioctl` answers `res` whatever it is asked. -/
def demo_port (kind : String) (res : Int) : avr_io_t :=
  { kind := kind, reset := none,
    run := some (fun avr => { avr with cycle := avr.cycle + 1 }),
    ioctl := some (fun avr _ _ => (avr, res)) }

/-- A peripheral with no handler at all. -/
def demo_port_bare : avr_io_t :=
  { kind := "bare", reset := none, run := none, ioctl := none }

/-- No core hooks and an empty peripheral chain. -/
def demo_hooks_empty : avr_hooks :=
  { init := none, reset := none, io_port := [] }

/-- The chain after "uart" (answers -1), "bare", "eeprom" (answers 0) and "twi"
(answers 7) were registered, in that order. -/
def demo_hooks : avr_hooks :=
  avr_register_io (avr_register_io (avr_register_io (avr_register_io demo_hooks_empty
    (demo_port "uart" (-1))) demo_port_bare) (demo_port "eeprom" 0)) (demo_port "twi" 7)

/-- A table of two variants, the second with an alias. -/
def demo_kinds : List avr_kind_t :=
  [{ names := ["attiny85"], make := fun _ => demo_avr },
   { names := ["atmega48", "mega48"], make := fun _ => demo_avr_cli }]

/-! ## Breakpoint table of the GDB stub (`sim_gdb.c`) -/

/-- One slot of `watch[32]` in `avr_gdb_t`. -/
structure watch_t where
  pc : Nat
  len : Nat
  kind : Int
deriving DecidableEq, Repr

/-- The breakpoint table of `avr_gdb_t`: the bitmap `watchmap` of the active
slots and the slots `watch[32]`. -/
structure avr_gdb_t where
  watchmap : Nat
  watch : Nat → watch_t

/-- The test `(g->watchmap & (1 << i)) && g->watch[i].pc == addr`. -/
def watch_hit (g : avr_gdb_t) (addr i : Nat) : Bool :=
  g.watchmap &&& (1 <<< i) ≠ 0 && (g.watch i).pc = addr

/-- Lines 117-121 of `gdb_change_breakpoint`, with `n` iterations left: the first
active slot that holds `addr` gets the new `len`, which ends the function with
0; `none` when the loop runs out. -/
def update_loop (g : avr_gdb_t) (addr len : Nat) : Nat → Nat → Option avr_gdb_t
  | 0, _ => none
  | n + 1, i =>
    if watch_hit g addr i then
      some { g with watch := fun j => if j = i then { g.watch i with len := len } else g.watch j }
    else update_loop g addr len n (i + 1)

/-- Lines 122-129 of `gdb_change_breakpoint`, with `n` iterations left: the first
free slot is taken, which ends the function with 0; `none` when the loop runs
out. -/
def insert_loop (g : avr_gdb_t) (kind : Int) (addr len : Nat) : Nat → Nat → Option avr_gdb_t
  | 0, _ => none
  | n + 1, i =>
    if g.watchmap &&& (1 <<< i) = 0 then
      some { watchmap := g.watchmap ||| (1 <<< i),
             watch := fun j =>
               if j = i then { pc := addr, len := len, kind := kind } else g.watch j }
    else insert_loop g kind addr len n (i + 1)

/-- Lines 131-138 of `gdb_change_breakpoint`, with `n` iterations left: the first
active slot that holds `addr` is zeroed and its bit cleared, which ends the
function with 0; `none` when the loop runs out. -/
def remove_loop (g : avr_gdb_t) (addr : Nat) : Nat → Nat → Option avr_gdb_t
  | 0, _ => none
  | n + 1, i =>
    if watch_hit g addr i then
      some { watchmap := g.watchmap &&& ((1 <<< i) ^^^ 0xffffffff),
             watch := fun j => if j = i then { pc := 0, len := 0, kind := 0 } else g.watch j }
    else remove_loop g addr n (i + 1)

/-- The function `gdb_change_breakpoint`: the table after the call and the value
returned. -/
def gdb_change_breakpoint (g : avr_gdb_t) (set : Bool) (kind : Int) (addr len : Nat) :
    avr_gdb_t × Int :=
  if set then
    if g.watchmap = 0xffffffff then (g, -1)
    else
      match update_loop g addr len 32 0 with
      | some g1 => (g1, 0)
      | none =>
        match insert_loop g kind addr len 32 0 with
        | some g1 => (g1, 0)
        | none => (g, -1)
  else
    match remove_loop g addr 32 0 with
    | some g1 => (g1, 0)
    | none => (g, -1)

/-- Lines 230-246 of `gdb_handle_command`: what a `Z` or `z` packet does once
`kind`, `addr` and `len` have been scanned: the table after it and the payload
handed to `gdb_send_reply`. -/
def gdb_handle_breakpoint (g : avr_gdb_t) (flashend : Nat) (command : Char)
    (kind addr len : Nat) : avr_gdb_t × String :=
  if kind = 0 ∨ kind = 1 then
    if addr ≤ flashend then
      if (gdb_change_breakpoint g (command == 'Z') (kind : Int) addr len).2 ≠ 0 then
        ((gdb_change_breakpoint g (command == 'Z') (kind : Int) addr len).1, "E01")
      else ((gdb_change_breakpoint g (command == 'Z') (kind : Int) addr len).1, "OK")
    else (g, "E01")
  else (g, "")

/-- Number of bits set among the low `n` bits of a bitmap. -/
def count_bits (w : Nat) : Nat → Nat
  | 0 => 0
  | n + 1 => count_bits w n + (if w &&& (1 <<< n) ≠ 0 then 1 else 0)

/-- Number of active entries of the breakpoint table. -/
def active_count (g : avr_gdb_t) : Nat :=
  count_bits g.watchmap 32

/-- The zeroed table `avr_gdb_init` leaves. -/
def empty_gdb : avr_gdb_t :=
  { watchmap := 0, watch := fun _ => { pc := 0, len := 0, kind := 0 } }

/-- A full table: slot `i` holds the software breakpoint at byte address `2 * i`
with `len == 2`. -/
def full_gdb : avr_gdb_t :=
  { watchmap := 0xffffffff, watch := fun i => { pc := 2 * i, len := 2, kind := 0 } }

/-- A table with the two breakpoints 0x40 (slot 0) and 0x80 (slot 1). -/
def demo_gdb : avr_gdb_t :=
  { watchmap := 3,
    watch := fun i =>
      if i = 0 then { pc := 0x40, len := 2, kind := 0 }
      else if i = 1 then { pc := 0x80, len := 2, kind := 1 }
      else { pc := 0, len := 0, kind := 0 } }

/-- The bus `demo_bus_dst` after IRQ 10 was connected to IRQ 20 (connection
callback 9) and then got the hook (callback 4, payload 400). -/
def demo_bus_connected : irq_bus :=
  avr_irq_register_notify (avr_connect_irq 9 demo_bus_dst 10 20) 10 4 400

/-- Tables that calls of `gdb_change_breakpoint` build from the zeroed table of
`avr_gdb_init`. -/
inductive gdb_reachable : avr_gdb_t → Prop
  | init : gdb_reachable empty_gdb
  | change (g : avr_gdb_t) (set : Bool) (kind : Int) (addr len : Nat) :
      gdb_reachable g → gdb_reachable (gdb_change_breakpoint g set kind addr len).1

/-- The table after `Z0,40,2` on the zeroed table. -/
def demo_gdb_one : avr_gdb_t :=
  (gdb_change_breakpoint empty_gdb true 0 0x40 2).1

/-! ## GDB remote protocol (`sim_gdb.c`)

C strings are lists of characters, one character per byte; the list ends where
the terminating NUL stands. -/

/-- The characters of a C string in front of its terminating NUL. -/
def c_string : List Char → List Char
  | [] => []
  | c :: rest => if c.toNat = 0 then [] else c :: c_string rest

/-- One lower-case hexadecimal digit. -/
def hex_digit (n : Nat) : Char :=
  "0123456789abcdef".toList.getD (n % 16) '0'

/-- The two characters the conversion `%02x` prints for a byte. -/
def hex2 (n : Nat) : List Char :=
  [hex_digit (n / 16 % 16), hex_digit (n % 16)]

/-- Lines 89-92 of `gdb_send_reply`: the copy loop, with the `uint8_t` sum
`check` and the bytes put into `reply` so far; it ends at the NUL. -/
def reply_loop : List Char → Nat → List Char → Nat × List Char
  | [], check, reply => (check, reply)
  | c :: cmd, check, reply =>
    if c.toNat = 0 then (check, reply)
    else reply_loop cmd ((check + c.toNat) % 256) (reply ++ [c])

/-- Lines 85-95 of `gdb_send_reply`: the `dst - reply + 3` bytes handed to
`send`. -/
def reply_packet (cmd : List Char) : List Char :=
  (reply_loop cmd 0 ['$']).2 ++ '#' :: hex2 (reply_loop cmd 0 ['$']).1

/-- The connection part of `avr_gdb_t`: the breakpoint table, the query buffer
and, in `sent`, the packets given to `send` on the socket, oldest first. -/
structure gdb_conn where
  table : avr_gdb_t
  query_len : Nat
  query : List Char
  sent : List (List Char)

/-- The function `gdb_send_reply`. -/
def gdb_send_reply (g : gdb_conn) (cmd : List Char) : gdb_conn :=
  { g with sent := g.sent ++ [reply_packet cmd] }

/-- The text `gdb_send_quick_status` prints into `cmd`. -/
def quick_status (avr : avr_t) (signal : Nat) : List Char :=
  'T' :: hex2 signal ++ "20:".toList ++ hex2 (avr.data R_SREG) ++ ";21:".toList
    ++ hex2 (avr.data R_SPL) ++ hex2 (avr.data R_SPH) ++ ";22:".toList
    ++ hex2 (avr.pc &&& 0xff) ++ hex2 ((avr.pc >>> 8) &&& 0xff)
    ++ hex2 ((avr.pc >>> 16) &&& 0xff) ++ "00;".toList

/-- The function `gdb_send_quick_status`. -/
def gdb_send_quick_status (avr : avr_t) (g : gdb_conn) (signal : Nat) : gdb_conn :=
  gdb_send_reply g (quick_status avr signal)

/-- The white space a conversion of the C library function `sscanf` skips. -/
def is_space (c : Char) : Bool :=
  c.toNat = 32 || (9 ≤ c.toNat && c.toNat ≤ 13)

/-- Value of a digit of the C library conversions `%d` (base 10) and `%x`
(base 16); `none` for any other character. -/
def digit_value (base : Nat) (c : Char) : Option Nat :=
  if 48 ≤ c.toNat ∧ c.toNat ≤ 57 then some (c.toNat - 48)
  else if base = 16 ∧ 97 ≤ c.toNat ∧ c.toNat ≤ 102 then some (c.toNat - 87)
  else if base = 16 ∧ 65 ≤ c.toNat ∧ c.toNat ≤ 70 then some (c.toNat - 55)
  else none

/-- The digits a conversion consumes: the value read so far and the text left. -/
def scan_digits (base : Nat) : List Char → Nat → Nat × List Char
  | [], acc => (acc, [])
  | c :: rest, acc =>
    match digit_value base c with
    | some d => scan_digits base rest (acc * base + d)
    | none => (acc, c :: rest)

/-- Leading white space dropped. -/
def skip_space : List Char → List Char
  | [] => []
  | c :: rest => if is_space c then skip_space rest else c :: rest

/-- One conversion `%d` or `%x` of the C library function `sscanf` into a 32-bit
variable, as the C standard describes it: white space is skipped, then come an
optional sign, for `%x` an optional `0x`, and at least one digit. The result is
the value, reduced to 32 bits, and the text left; `none` when no digit is
found, in which case `sscanf` stops and assigns nothing more. Two inputs are
left to the C library and lie outside what is proved from this definition: a
number whose value does not fit the conversion (17 hexadecimal digits or more),
which a library may saturate instead of reducing it, and a `0x` that no digit
follows, where a library may consume the `x`; here the first is reduced modulo
`2 ^ 32` and the second reads as 0 with the `x` left. -/
def scan_number (base : Nat) (s : List Char) : Option (Nat × List Char) :=
  let s1 := skip_space s
  let neg : Bool := match s1 with
    | c :: _ => c = '-'
    | [] => false
  let s2 := match s1 with
    | c :: r => if c = '-' ∨ c = '+' then r else s1
    | [] => s1
  let s3 := match s2 with
    | z :: x :: d :: r =>
      if base = 16 ∧ z = '0' ∧ (x = 'x' ∨ x = 'X') ∧ (digit_value 16 d).isSome then d :: r
      else s2
    | _ => s2
  match s3 with
  | [] => none
  | c :: _ =>
    if (digit_value base c).isSome then
      some ((if neg then 2 ^ 32 - (scan_digits base s3 0).1 % 2 ^ 32
             else (scan_digits base s3 0).1) % 2 ^ 32, (scan_digits base s3 0).2)
    else none

/-- The call `sscanf(cmd, "%x", &regi)`: the value of `regi` after it. -/
def sscanf_x (cmd : List Char) (regi : Nat) : Nat :=
  match scan_number 16 cmd with
  | some (v, _) => v
  | none => regi

/-- The call `sscanf(cmd, "%x,%x", &addr, &len)`: `addr` and `len` after it. -/
def sscanf_x_x (cmd : List Char) (addr len : Nat) : Nat × Nat :=
  match scan_number 16 cmd with
  | none => (addr, len)
  | some (a, rest) =>
    match rest with
    | c :: rest1 =>
      if c = ',' then
        match scan_number 16 rest1 with
        | some (l, _) => (a, l)
        | none => (a, len)
      else (a, len)
    | [] => (a, len)

/-- The call `sscanf(cmd, "%d,%x,%x", &kind, &addr, &len)`: `kind`, `addr` and
`len` after it. -/
def sscanf_d_x_x (cmd : List Char) (kind addr len : Nat) : Nat × Nat × Nat :=
  match scan_number 10 cmd with
  | none => (kind, addr, len)
  | some (k, rest) =>
    match rest with
    | c :: rest1 =>
      if c = ',' then (k, sscanf_x_x rest1 addr len) else (k, addr, len)
    | [] => (k, addr, len)

/-- The loop of `read_hex_string` (lines 61-78) with the text left, `maxlen`,
`ls`, `b` and the bytes stored through `dst` so far; the result is these bytes
and the value returned. The comparison `c > ' '` is the one of a signed `char`. -/
def read_hex_loop : List Char → Int → Nat → Nat → List Nat → List Nat × Int
  | [], _, _, _, out => (out, out.length)
  | c :: src, maxlen, ls, b, out =>
    if c.toNat = 0 ∨ maxlen = 0 then (out, out.length)
    else if 'a' ≤ c ∧ c ≤ 'f' then
      if ls % 2 = 1 then
        read_hex_loop src (maxlen - 1) (ls + 1) 0
          (out ++ [((b <<< 4) ||| (c.toNat - 97 + 10)) % 256])
      else read_hex_loop src (maxlen - 1) (ls + 1) (((b <<< 4) ||| (c.toNat - 97 + 10)) % 256) out
    else if 'A' ≤ c ∧ c ≤ 'F' then
      if ls % 2 = 1 then
        read_hex_loop src (maxlen - 1) (ls + 1) 0
          (out ++ [((b <<< 4) ||| (c.toNat - 65 + 10)) % 256])
      else read_hex_loop src (maxlen - 1) (ls + 1) (((b <<< 4) ||| (c.toNat - 65 + 10)) % 256) out
    else if '0' ≤ c ∧ c ≤ '9' then
      if ls % 2 = 1 then
        read_hex_loop src (maxlen - 1) (ls + 1) 0 (out ++ [((b <<< 4) ||| (c.toNat - 48)) % 256])
      else read_hex_loop src (maxlen - 1) (ls + 1) (((b <<< 4) ||| (c.toNat - 48)) % 256) out
    else if 32 < c.toNat ∧ c.toNat < 128 then (out, -1)
    else read_hex_loop src (maxlen - 1) ls b out

/-- The function `read_hex_string`: the bytes it stores at `buffer`, in order,
and the value it returns. -/
def read_hex_string (src : List Char) (maxlen : Int) : List Nat × Int :=
  read_hex_loop src maxlen 0 0 []

/-- A memory after `bytes` were stored from address `base` on. -/
def store_bytes (mem : Nat → Nat) (base : Nat) (bytes : List Nat) : Nat → Nat :=
  fun a => if base ≤ a ∧ a < base + bytes.length then bytes.getD (a - base) 0 else mem a

/-- The call `strchr(cmd, ':')`: the text behind the first colon, `none` for
`NULL`. -/
def after_colon : List Char → Option (List Char)
  | [] => none
  | c :: rest => if c = ':' then some rest else after_colon rest

/-- Lines 190-195 of `gdb_handle_command`: `len` bytes read through `src` are
printed with `%02x`; `i` is the number of bytes read before. -/
def dump_loop (src : Nat → Nat) : Nat → Nat → List Char
  | 0, _ => []
  | len + 1, i => hex2 (src i) ++ dump_loop src len (i + 1)

/-- What `gdb_handle_command` finds around it: the indeterminate contents of its
uninitialised locals `rep`, `kind`, `addr` and `len`, the handler chain of the
MCU, the request code `AVR_IOCTL_EEPROM_GET` (`avr_eeprom.h` is not among the
sources) and, in `ee`, what that request leaves in the field `ee` of the
descriptor for a given MCU state and offset: the bytes found from that pointer
on, `none` for `NULL`. -/
structure gdb_env where
  rep : List Char
  kind : Nat
  addr : Nat
  len : Nat
  hooks : avr_hooks
  eeprom_get : Nat
  ee : avr_t → Nat → Option (Nat → Nat)

/-- The function `gdb_handle_command`: the MCU and the connection after the
command in `query` was handled; `none` where the code reads through the `NULL`
pointer (an `m` command on the EEPROM window of an MCU without EEPROM, with
`len > 0`). -/
def gdb_handle_command (env : gdb_env) (avr : avr_t) (g : gdb_conn) :
    Option (avr_t × gdb_conn) :=
  match c_string g.query with
  | [] => some (avr, gdb_send_reply g [])
  | command :: cmd =>
    if command = '?' then some (avr, gdb_send_reply g "S00".toList)
    else if command = 'p' then
      let regi := sscanf_x cmd 0
      let rep :=
        if regi ≤ 31 then hex2 (avr.data regi)
        else if regi = 32 then hex2 (avr.data R_SREG)
        else if regi = 33 then hex2 (avr.data R_SPL) ++ hex2 (avr.data R_SPH)
        else if regi = 34 then
          hex2 (avr.pc &&& 0xff) ++ hex2 ((avr.pc >>> 8) &&& 0xff)
            ++ hex2 ((avr.pc >>> 16) &&& 0xff) ++ "00".toList
        else env.rep
      some (avr, gdb_send_reply g rep)
    else if command = 'm' then
      let addr := (sscanf_x_x cmd env.addr env.len).1
      let len := (sscanf_x_x cmd env.addr env.len).2
      if addr < 0xffff then
        some (avr, gdb_send_reply g (dump_loop (fun i => avr.flash (addr + i)) len 0))
      else if addr ≥ 0x800000 ∧ addr - 0x800000 ≤ avr.ramend then
        some (avr, gdb_send_reply g (dump_loop (fun i => avr.data (addr - 0x800000 + i)) len 0))
      else if addr ≥ 0x810000 ∧ addr - 0x810000 ≤ 16 * 1024 then
        let avr1 := (avr_ioctl env.hooks avr env.eeprom_get (addr - 0x810000)).1
        match env.ee avr (addr - 0x810000) with
        | some src => some (avr1, gdb_send_reply g (dump_loop src len 0))
        | none =>
          if len = 0 then some (avr1, gdb_send_reply (gdb_send_reply g "E01".toList) [])
          else none
      else some (avr, gdb_send_reply g "E01".toList)
    else if command = 'M' then
      let addr := (sscanf_x_x cmd env.addr env.len).1
      match after_colon cmd with
      | none => some (avr, gdb_send_reply g "E01".toList)
      | some start =>
        let bytes := (read_hex_string start start.length).1
        if addr < 0xffff then
          some ({ avr with flash := store_bytes avr.flash addr bytes },
                gdb_send_reply g "OK".toList)
        else if addr ≥ 0x800000 ∧ addr - 0x800000 ≤ avr.ramend then
          some ({ avr with data := store_bytes avr.data (addr - 0x800000) bytes },
                gdb_send_reply g "OK".toList)
        else some (avr, gdb_send_reply g "E01".toList)
    else if command = 'c' then some ({ avr with state := cpu_Running }, g)
    else if command = 's' then some ({ avr with state := cpu_Step }, g)
    else if command = 'Z' ∨ command = 'z' then
      let kind := (sscanf_d_x_x cmd env.kind env.addr env.len).1
      let addr := (sscanf_d_x_x cmd env.kind env.addr env.len).2.1
      let len := (sscanf_d_x_x cmd env.kind env.addr env.len).2.2
      some (avr,
        gdb_send_reply
          { g with table := (gdb_handle_breakpoint g.table avr.flashend command kind addr len).1 }
          (gdb_handle_breakpoint g.table avr.flashend command kind addr len).2.toList)
    else some (avr, gdb_send_reply g [])

/-- The MCU together with the members `gdb` (the stub, `none` for `NULL`) and
`gdb_port` of `avr_t`, which `sim_avr.c` reads. -/
structure avr_sim where
  avr : avr_t
  gdb : Option gdb_conn
  gdb_port : Nat

/-- Lines 260-266 of `avr_gdb_processor`, with `n` iterations left: every active
slot whose `pc` is the one of the MCU sends a stop reply and stops the MCU; the
loop has no `break`. -/
def hit_loop (avr : avr_t) (g : gdb_conn) : Nat → Nat → avr_t × gdb_conn
  | 0, _ => (avr, g)
  | n + 1, i =>
    if watch_hit g.table avr.pc i then
      hit_loop { avr with state := cpu_Stopped } (gdb_send_quick_status avr g 0) n (i + 1)
    else hit_loop avr g n (i + 1)

/-- The breakpoint test of `avr_gdb_processor` (lines 259-267). -/
def gdb_check_breakpoints (avr : avr_t) (g : gdb_conn) : avr_t × gdb_conn :=
  if g.table.watchmap ≠ 0 ∧ avr.state = cpu_Running then hit_loop avr g 32 0 else (avr, g)

/-- The step test of `avr_gdb_processor` (lines 268-271). -/
def gdb_check_step (avr : avr_t) (g : gdb_conn) : avr_t × gdb_conn :=
  if avr.state = cpu_StepDone then
    ({ avr with state := cpu_Stopped }, gdb_send_quick_status avr g 0)
  else (avr, g)

/-- The function `avr_gdb_processor` of `sim_gdb.c`; `none` where the command
handler reads through `NULL`. -/
def avr_gdb_processor (env : gdb_env) (m : avr_sim) : Option avr_sim :=
  match m.gdb with
  | none => some m
  | some g =>
    let r1 := gdb_check_breakpoints m.avr g
    let r2 := gdb_check_step r1.1 r1.2
    if r2.2.query_len ≠ 0 then
      match gdb_handle_command env r2.1 { r2.2 with query_len := 0 } with
      | some r3 => some { m with avr := r3.1, gdb := some r3.2 }
      | none => none
    else some { m with avr := r2.1, gdb := some r2.2 }

/-- An environment of the command handler: junk in the uninitialised locals, no
handlers, no EEPROM. -/
def demo_env : gdb_env :=
  { rep := "junk".toList, kind := 7, addr := 0xdead, len := 3,
    hooks := demo_hooks_empty, eeprom_get := 0, ee := fun _ _ => none }

/-- A connection with the table of `demo_gdb_one`, nothing sent yet and the
query `q` waiting. -/
def demo_conn (q : String) : gdb_conn :=
  { table := demo_gdb_one, query_len := q.length, query := q.toList, sent := [] }

/-- The state `demo_avr` with 64 KiB of flash. -/
def demo_avr_64k : avr_t :=
  { demo_avr with flashend := 0xffff }

/-- Number of active slots among `i`, ..., `i + n - 1` that hold `pc`. -/
def hit_count (t : avr_gdb_t) (pc : Nat) : Nat → Nat → Nat
  | 0, _ => 0
  | n + 1, i => (if watch_hit t pc i then 1 else 0) + hit_count t pc n (i + 1)

/-- A running MCU at byte address `pc` with a stub attached: the table of
`demo_gdb_one` (breakpoint 0x40), no command waiting, nothing sent. -/
def demo_sim (pc : Nat) : avr_sim :=
  { avr := { demo_avr with state := cpu_Running, pc := pc },
    gdb := some (demo_conn ""),
    gdb_port := 1234 }

/-- The machine `demo_sim pc` with the command `q` waiting in the query buffer of
its stub. -/
def demo_sim_waiting (pc : Nat) (q : String) : avr_sim :=
  { demo_sim pc with gdb := some (demo_conn q) }

/-! ## Run loop, crash and initialisation (`sim_avr.c`, `simavr.c`) -/

/-- What a call ends in: it returns, with the state it leaves and the number of
calls of `avr_run_one` it made; or the process exits with a status, in a state;
or the behaviour is undefined. -/
inductive run_result (σ : Type) where
  | returned : σ → Nat → run_result σ
  | exited : Nat → σ → run_result σ
  | undefined : run_result σ

/-- The state a call returns in. -/
def returned_state {σ : Type} : run_result σ → Option σ
  | run_result.returned s _ => some s
  | _ => none

/-- The number of calls of `avr_run_one` a returning call made. -/
def returned_ran {σ : Type} : run_result σ → Option Nat
  | run_result.returned _ n => some n
  | _ => none

/-- The exit status of a call that ends the process. -/
def exit_status {σ : Type} : run_result σ → Option Nat
  | run_result.exited c _ => some c
  | _ => none

/-- What `avr_run` finds around it, next to what the command handler finds:
`run_one` is `avr_run_one` of `sim_core.c` (the state after the instruction and
the value returned, or `CRASH()`), `cycle_timer_process` is
`avr_cycle_timer_process`, `gdb_wait` is the loop
`while (avr_gdb_processor(avr, usec))` of a sleeping MCU, which calls the
two-argument function of a later stub, and `sleep` is the number of cycles the
`float` product of `simavr.c` gives; none of them is among the sources. -/
structure run_env where
  gdb : gdb_env
  run_one : avr_t → outcome (avr_t × Nat)
  cycle_timer_process : avr_t → avr_t × Nat
  gdb_wait : avr_sim → avr_sim
  sleep : avr_t → Nat

/-- Lines 146-164 of `avr_run` in `sim_avr.c`: the I flag edge, the `run`
handlers, the cycle timers and the store of the `uint16_t` `new_pc`; the second
component is the value `sleep`. -/
def avr_run_io (env : run_env) (avr : avr_t) (new_pc : Nat) : avr_t × Nat :=
  let avr1 := avr_run_edge avr
  let avr2 := (run_ports env.gdb.hooks.io_port avr1 []).1
  let r := env.cycle_timer_process avr2
  ({ r.1 with pc := new_pc % 65536 }, r.2)

/-- Lines 166-192 of `avr_run` in `sim_avr.c`, with the value of `step`, the
value of `sleep` and the number of instructions run so far. The function
`avr_service_interrupts` of `sim_interrupts.c` is not among the sources; the
`avr_service_interupts` of `simavr.c` stands for it. -/
def avr_run_finish (env : run_env) (step : Bool) (m : avr_sim) (sleep ran : Nat) :
    run_result avr_sim :=
  if m.avr.state = cpu_Sleeping ∧ m.avr.sreg S_I = 0 then run_result.exited 0 m
  else
    let m1 :=
      if m.avr.state = cpu_Sleeping then
        let m2 := match m.gdb with
          | some _ => env.gdb_wait m
          | none => m
        { m2 with avr := { m2.avr with cycle := m2.avr.cycle + (1 + sleep) } }
      else m
    let avr3 :=
      if m1.avr.state = cpu_Running ∨ m1.avr.state = cpu_Sleeping then
        avr_service_interupts m1.avr
      else m1.avr
    let avr4 := if step then { avr3 with state := cpu_StepDone } else avr3
    run_result.returned { m1 with avr := avr4 } ran

/-- The function `avr_run` of `sim_avr.c`. -/
def avr_run (env : run_env) (m : avr_sim) : run_result avr_sim :=
  match avr_gdb_processor env.gdb m with
  | none => run_result.undefined
  | some m1 =>
    if m1.avr.state = cpu_Stopped then run_result.returned m1 0
    else
      let step : Bool := decide (m1.avr.state = cpu_Step)
      let avr1 := if step then { m1.avr with state := cpu_Running } else m1.avr
      if avr1.state = cpu_Running then
        match env.run_one avr1 with
        | outcome.crash avr2 => run_result.exited 1 { m1 with avr := avr2 }
        | outcome.done r =>
          avr_run_finish env step { m1 with avr := (avr_run_io env r.1 r.2).1 }
            (avr_run_io env r.1 r.2).2 1
      else
        avr_run_finish env step { m1 with avr := (avr_run_io env avr1 avr1.pc).1 }
          (avr_run_io env avr1 avr1.pc).2 0

/-- Lines 363-370 of `avr_run` in `simavr.c`, with `n` iterations left: a flag
above 1 ends in `CRASH()`, a flag that is set puts its bit into the byte
`data[R_SREG]`. -/
def sreg_loop : Nat → Nat → avr_t → outcome avr_t
  | 0, _, avr => outcome.done avr
  | n + 1, i, avr =>
    if avr.sreg i > 1 then outcome.crash avr
    else if avr.sreg i ≠ 0 then
      sreg_loop n (i + 1) (set_data avr R_SREG (avr.data R_SREG ||| (1 <<< i)))
    else sreg_loop n (i + 1) avr

/-- Lines 320-347 of `avr_run` in `simavr.c` for an MCU that is not Stopped and
whose instruction, if one ran, left `avr` and `new_pc`: the I flag edge, the
`run` handlers and the store of the `uint16_t` `new_pc`. -/
def avr_run_io_simavr (env : run_env) (avr : avr_t) (new_pc : Nat) : avr_t :=
  let avr1 := avr_run_edge_sreg avr
  let avr2 := (run_ports env.gdb.hooks.io_port avr1 []).1
  { avr2 with pc := new_pc % 65536 }

/-- Lines 349-371 of `avr_run` in `simavr.c`. -/
def avr_run_finish_simavr (env : run_env) (avr : avr_t) (ran : Nat) : run_result avr_t :=
  if avr.state = cpu_Sleeping ∧ avr.sreg S_I = 0 then run_result.exited 0 avr
  else
    let avr1 :=
      if avr.state = cpu_Sleeping then { avr with cycle := avr.cycle + env.sleep avr } else avr
    if avr1.state = cpu_Running ∨ avr1.state = cpu_Sleeping then
      match sreg_loop 8 0 (set_data (avr_service_interupts avr1) R_SREG 0) with
      | outcome.done avr2 => run_result.returned avr2 ran
      | outcome.crash avr2 => run_result.exited 1 avr2
    else run_result.returned avr1 ran

/-- The function `avr_run` of `simavr.c`. -/
def avr_run_simavr (env : run_env) (avr : avr_t) : run_result avr_t :=
  if avr.state = cpu_Stopped then run_result.returned avr 0
  else if avr.state = cpu_Running then
    match env.run_one avr with
    | outcome.crash avr1 => run_result.exited 1 avr1
    | outcome.done r => avr_run_finish_simavr env (avr_run_io_simavr env r.1 r.2) 1
  else
    avr_run_finish_simavr env
      (avr_run_io_simavr env { avr with cycle := avr.cycle + 1 } avr.pc) 0

/-- The function `avr_gdb_init`: the zeroed stub is attached when `ok`, that is
when the socket could be created and bound; otherwise `gdb` is `NULL`. -/
def avr_gdb_init (ok : Bool) (m : avr_sim) : avr_sim :=
  { m with gdb :=
      if ok then some { table := empty_gdb, query_len := 0, query := [], sent := [] }
      else none }

/-- The function `avr_sadly_crashed`. -/
def avr_sadly_crashed (ok : Bool) (m : avr_sim) (_signal : Nat) : run_result avr_sim :=
  let m1 := { m with avr := { m.avr with state := cpu_Stopped } }
  let m2 :=
    if m1.gdb_port ≠ 0 then
      match m1.gdb with
      | none => avr_gdb_init ok m1
      | some _ => m1
    else m1
  match m2.gdb with
  | none => run_result.exited 1 m2
  | some _ => run_result.returned m2 0

/-- The function `avr_init` of `sim_avr.c`; the member `frequency` it sets is
outside the fields this development keeps of `avr_t`. -/
def avr_init (hooks : avr_hooks) (avr : avr_t) : avr_t :=
  let avr1 := { avr with flash := fun a => if a ≤ avr.flashend then 0xff else avr.flash a }
  let avr2 := { avr1 with data := fun a => if a ≤ avr1.ramend then 0 else avr1.data a }
  let avr3 := { avr2 with state := cpu_Limbo }
  let avr4 := match hooks.init with
    | some f => f avr3
    | none => avr3
  let avr5 := { avr4 with state := cpu_Running }
  avr_reset hooks avr5

/-- The function `avr_loadcode`: `size` bytes found at `code` are copied to
`flash + address`. -/
def avr_loadcode (avr : avr_t) (code : Nat → Nat) (size address : Nat) : avr_t :=
  { avr with flash := fun a =>
      if address ≤ a ∧ a < address + size then code (a - address) else avr.flash a }

/-- A handler that leaves the flash, its size and the CPU state as they are. -/
def keeps_flash_and_state (f : avr_t → avr_t) : Prop :=
  ∀ avr, (f avr).flash = avr.flash ∧ (f avr).flashend = avr.flashend ∧
    (f avr).state = avr.state

/-- A handler that leaves the flash and its size as they are. -/
def keeps_flash (f : avr_t → avr_t) : Prop :=
  ∀ avr, (f avr).flash = avr.flash ∧ (f avr).flashend = avr.flashend

/-- An environment of the run loop: the instruction adds 2 to `pc` and one
cycle, no timers, no wait. -/
def demo_run_env : run_env :=
  { gdb := demo_env,
    run_one := fun avr => outcome.done ({ avr with cycle := avr.cycle + 1 }, avr.pc + 2),
    cycle_timer_process := fun avr => (avr, 0),
    gdb_wait := fun m => m,
    sleep := fun _ => 2000 }

/-- An environment of the run loop whose instruction sets the I flag, as `sei`
and `reti` do, adds 2 to `pc` and one cycle. -/
def demo_sei_env : run_env :=
  { gdb := demo_env,
    run_one := fun avr =>
      outcome.done ({ avr with sreg := fun i => if i = S_I then 1 else avr.sreg i,
                               cycle := avr.cycle + 1 }, avr.pc + 2),
    cycle_timer_process := fun avr => (avr, 0),
    gdb_wait := fun m => m,
    sleep := fun _ => 2000 }

/-- The MCU `demo_avr_in_handler` without a stub. -/
def demo_sim_in_handler : avr_sim :=
  { avr := demo_avr_in_handler, gdb := none, gdb_port := 0 }

/-- A running MCU whose SREG byte mirrors the I flag and whose vector 16 is
entered in this tick. -/
def demo_avr_due : avr_t :=
  { demo_avr with
    state := cpu_Running,
    data := fun a => if a = R_SREG then 0x80 else demo_avr.data a,
    pending := fun i => if i = 0 then 0x10000 else 0,
    pending_wait := 1 }

/-- The state `demo_avr_due` with the value 2 in the carry flag. -/
def demo_avr_bad_flag : avr_t :=
  { demo_avr_due with sreg := fun i => if i = 7 then 1 else if i = 0 then 2 else 0 }

/-- Core hooks and one peripheral with handlers that touch neither the flash nor
the CPU state. -/
def demo_hooks_init : avr_hooks :=
  { init := some (fun avr => { avr with vector_size := 2 }),
    reset := some (fun avr => { avr with cycle := 0 }),
    io_port := [{ kind := "uart", reset := some (fun avr => set_data avr 0xc0 0x20),
                  run := none, ioctl := none }] }

/-- A stopped MCU with junk in its flash. -/
def demo_avr_raw : avr_t :=
  { demo_avr with state := cpu_Stopped, flash := fun a => a % 7 }

/-- The loop `while (hook)` of `avr_raise_irq` once more, as `walk_hooks`: the
result is the list of the bus states in which the callbacks of this loop are
entered, in order (the state right before `hook->notify(...)` runs, its
invocation already in the trace). -/
def hook_entries (cb : callbacks) (raise : irq_bus → Nat → Nat → Option irq_bus)
    (p value : Nat) : Nat → Nat → irq_bus → List irq_bus
  | 0, _, _ => []
  | n + 1, k, w =>
    match (w.irqs p).hook[k]? with
    | none => []
    | some h =>
      if h.notify ≠ 0 ∧ h.busy = 0 then
        let w1 := set_busy w p k (fun b => b + 1)
        let w2 := { w1 with calls := w1.calls ++
          [{ notify := h.notify, irq := p, value := value, param := h.param }] }
        match run_raises raise (cb h.notify p value h.param) w2 with
        | none => [w2]
        | some w3 =>
          w2 :: hook_entries cb raise p value n (k + 1) (set_busy w3 p k (fun b => b - 1))
      else hook_entries cb raise p value n (k + 1) w

/-- The bus states in which one call `avr_raise_irq(irq, value)` enters the
callbacks of the hooks of `irq`; none when the call returns at once. -/
def raise_entries (cb : callbacks) (fuel : Nat) (w : irq_bus) (irq value : Nat) :
    List irq_bus :=
  if irq = 0 ∨ (w.irqs irq).value = value then []
  else hook_entries cb (avr_raise_irq cb fuel) irq value (w.irqs irq).hook.length 0 w

/-! ## The TWI block of the megax8 descriptor (`sim_megax8.h`) -/

/-- Modelled from the spec: the macro `AVR_IO_REGBIT(_io, _bit)` of `simavr.h`,
the selector of the single bit `_bit` of the register `_io`. -/
def AVR_IO_REGBIT (io bit : Nat) : avr_regbit_t :=
  { reg := io, bit := bit, mask := 1 }

/-- Modelled from the spec: the macro `AVR_IO_REGBITS(_io, _bit, _mask)` of
`simavr.h`, the selector of the field of width `_mask` that starts at `_bit`. -/
def AVR_IO_REGBITS (io bit mask : Nat) : avr_regbit_t :=
  { reg := io, bit := bit, mask := mask }

/-- The values the chip header of avr-libc gives the names that lines 208-232 of
`sim_megax8.h` use: register addresses, bit numbers and the vector number (the
header is not among the sources). -/
structure twi_names where
  PRR : Nat
  PRTWI : Nat
  TWCR : Nat
  TWSR : Nat
  TWBR : Nat
  TWDR : Nat
  TWAR : Nat
  TWAMR : Nat
  TWEN : Nat
  TWEA : Nat
  TWSTA : Nat
  TWSTO : Nat
  TWWC : Nat
  TWS3 : Nat
  TWPS0 : Nat
  TWIE : Nat
  TWINT : Nat
  TWI_vect : Nat

/-- Modelled from the spec: the TWI peripheral descriptor (`avr_twi_t` of
`avr_twi.h`), with the members `sim_megax8.h` initialises. -/
structure avr_twi_t where
  disabled : avr_regbit_t
  r_twcr : Nat
  r_twsr : Nat
  r_twbr : Nat
  r_twdr : Nat
  r_twar : Nat
  r_twamr : Nat
  twen : avr_regbit_t
  twea : avr_regbit_t
  twsta : avr_regbit_t
  twsto : avr_regbit_t
  twwc : avr_regbit_t
  twsr : avr_regbit_t
  twps : avr_regbit_t
  twi : avr_int_vector_t

/-- Lines 208-232 of `sim_megax8.h`: the member `.twi` of `SIM_CORENAME`. -/
def megax8_twi (c : twi_names) : avr_twi_t :=
  { disabled := AVR_IO_REGBIT c.PRR c.PRTWI,
    r_twcr := c.TWCR,
    r_twsr := c.TWSR,
    r_twbr := c.TWBR,
    r_twdr := c.TWDR,
    r_twar := c.TWAR,
    r_twamr := c.TWAMR,
    twen := AVR_IO_REGBIT c.TWCR c.TWEN,
    twea := AVR_IO_REGBIT c.TWCR c.TWEA,
    twsta := AVR_IO_REGBIT c.TWCR c.TWSTA,
    twsto := AVR_IO_REGBIT c.TWCR c.TWSTO,
    twwc := AVR_IO_REGBIT c.TWCR c.TWWC,
    twsr := AVR_IO_REGBITS c.TWSR c.TWS3 0x1f,
    twps := AVR_IO_REGBITS c.TWSR c.TWPS0 0x3,
    twi := { enable := AVR_IO_REGBIT c.TWCR c.TWIE,
             raised := AVR_IO_REGBIT c.TWSR c.TWINT,
             vector := c.TWI_vect } }

/-- Modelled from the spec: the names of `twi_names` on the ATmega48/88/168, as
the datasheet of the chip has them: TWBR to TWAMR at 0xb8 to 0xbd, TWINT, TWEA,
TWSTA, TWSTO, TWWC, TWEN and TWIE at bits 7, 6, 5, 4, 3, 2 and 0 of TWCR, the
status field from bit 3 and the prescaler from bit 0 of TWSR, vector 24. -/
def mega88_twi_names : twi_names :=
  { PRR := 0x64, PRTWI := 7, TWCR := 0xbc, TWSR := 0xb9, TWBR := 0xb8, TWDR := 0xbb,
    TWAR := 0xba, TWAMR := 0xbd, TWEN := 2, TWEA := 6, TWSTA := 5, TWSTO := 4, TWWC := 3,
    TWS3 := 3, TWPS0 := 0, TWIE := 0, TWINT := 7, TWI_vect := 24 }

/-- The state `demo_avr` with TWEN and TWIE set in TWCR and every other byte of
`data[]` at 0. -/
def demo_avr_twi : avr_t :=
  { demo_avr with data := fun a => if a = 0xbc then 0x05 else 0 }

/-- The addresses the active slots of the table hold, in slot order. -/
def active_addrs (g : avr_gdb_t) : List Nat :=
  ((List.range 32).filter (fun i => decide (g.watchmap &&& (1 <<< i) ≠ 0))).map
    (fun i => (g.watch i).pc)

/-- The table after `Z0,40,2`, `Z1,80,2`, `z0,40,2` and `Z0,100,4` on the zeroed
table. -/
def demo_gdb_seq : avr_gdb_t :=
  (gdb_change_breakpoint
    (gdb_change_breakpoint
      (gdb_change_breakpoint demo_gdb_one true 1 0x80 2).1 false 0 0x40 2).1
    true 0 0x100 4).1

/-! ## What `read_hex_string` is to compute -/

/-- Value of a hexadecimal digit, lower or upper case; `none` for any other
character. -/
def hex_value (c : Char) : Option Nat :=
  if 'a' ≤ c ∧ c ≤ 'f' then some (c.toNat - 97 + 10)
  else if 'A' ≤ c ∧ c ≤ 'F' then some (c.toNat - 65 + 10)
  else if '0' ≤ c ∧ c ≤ '9' then some (c.toNat - 48)
  else none

/-- The first `maxlen` characters of `src` in front of its terminating NUL. -/
def hex_input (src : List Char) (maxlen : Nat) : List Char :=
  (c_string src).take maxlen

/-- The values of the hexadecimal digits among the characters, in order. -/
def hex_digits (s : List Char) : List Nat :=
  s.filterMap hex_value

/-- Digit values paired into bytes, high digit first; a last digit without a
partner is dropped. -/
def pair_bytes : List Nat → List Nat
  | a :: b :: rest => (16 * a + b) :: pair_bytes rest
  | _ => []

/-! ## Frames of a raise on the IRQ bus -/

/-- The hook lists of two buses are the same, busy counters included; the values
of the IRQs and the traces may differ. -/
def same_hooks (w w1 : irq_bus) : Prop :=
  ∀ a, (w1.irqs a).hook = (w.irqs a).hook

/-- The invocations made between the bus `w` and the later bus `w1`. -/
def new_calls (w w1 : irq_bus) : List hook_call :=
  w1.calls.drop w.calls.length

/-- Number of hooks on the IRQs listed in `S` that the loop of `avr_raise_irq`
would invoke: those with a callback that are not busy. -/
def idle_hooks (w : irq_bus) (S : List Nat) : Nat :=
  (S.map (fun a => ((w.irqs a).hook.filter hook_fires).length)).sum

/-- The hook lists of two buses hold the same `(callback, payload)` pairs in the
same order; busy counters, values and traces may differ. -/
def same_hook_pairs (w w1 : irq_bus) : Prop :=
  ∀ a, (w1.irqs a).hook.map hook_pair = (w.irqs a).hook.map hook_pair

/-- The bus `demo_bus_connected` (IRQ 10 connected to IRQ 20, which has hook
(3, 300); hook (4, 400) on IRQ 10) with a fan-out and a chain added: IRQ 10 is
connected to IRQ 30 as well, IRQ 20 is connected on to IRQ 40, and IRQs 40 and
30 have the hooks (5, 500) and (6, 600). -/
def demo_bus_chain : irq_bus :=
  avr_irq_register_notify
    (avr_irq_register_notify
      (avr_connect_irq 9 (avr_connect_irq 9 demo_bus_connected 10 30) 20 40) 40 5 500)
    30 6 600

/-- Callback 9 is `_avr_irq_connect`, callback 7 raises the IRQ it got as payload
with the value 7; every other callback raises nothing. -/
def override_callbacks : callbacks :=
  fun notify irq value param =>
    if notify = 9 then _avr_irq_connect irq value param
    else if notify = 7 then [(param, 7)] else []

/-- The bus `demo_bus_dst` with hook (7, 20) on IRQ 10. -/
def demo_bus_override : irq_bus := avr_irq_register_notify demo_bus_dst 10 7 20

/-- The bus `demo_bus_dst` with IRQ 10 connected to IRQ 20 and the connection
hook busy, as it is while its callback runs. -/
def demo_bus_busy : irq_bus :=
  set_busy (avr_connect_irq 9 demo_bus_dst 10 20) 10 0 (fun b => b + 1)

/-- The bus `demo_bus_chain` with IRQ 20 holding 1 already. -/
def demo_bus_chain_high : irq_bus :=
  set_irq demo_bus_chain 20 { demo_bus_chain.irqs 20 with value := 1 }

/-- A bus whose IRQ 20 holds 1 and has the hook (3, 300), with IRQ 10 connected
to IRQ 20 and the hook (7, 20) registered on IRQ 10 after the connection. -/
def demo_bus_override_late : irq_bus :=
  avr_irq_register_notify
    (avr_connect_irq 9 (set_irq demo_bus_dst 20 { demo_bus_dst.irqs 20 with value := 1 }) 10 20)
    10 7 20

/-! # Theorems -/

/-! ## Bit-level facts -/

theorem and_one_shiftLeft_ne_zero (p k : Nat) :
    p &&& (1 <<< k) ≠ 0 ↔ p.testBit k = true := by
  rw [Nat.one_shiftLeft]
  constructor
  · intro h
    obtain ⟨i, hi⟩ := Nat.ne_zero_implies_bit_true h
    rw [Nat.testBit_and, Nat.testBit_two_pow] at hi
    simp at hi
    obtain ⟨h1, h2⟩ := hi
    subst h2; exact h1
  · intro h h0
    have : (p &&& 2 ^ k).testBit k = true := by
      rw [Nat.testBit_and, Nat.testBit_two_pow_self, h]; rfl
    rw [h0] at this
    simp at this

theorem and_one_shiftLeft_eq_zero (p k : Nat) :
    p &&& (1 <<< k) = 0 ↔ p.testBit k = false := by
  have := and_one_shiftLeft_ne_zero p k
  constructor
  · intro h
    by_contra hc
    simp at hc
    exact (this.mpr hc) h
  · intro h
    by_contra hc
    have := this.mp hc
    simp [h] at this

theorem regbit_get_set (d bit mask : Nat) (h : mask <<< bit < 256) :
    (((d ||| ((mask <<< bit) % 256)) % 256) >>> bit) &&& mask = mask := by
  apply Nat.eq_of_testBit_eq
  intro i
  have e8 : (256 : Nat) = 2 ^ 8 := by norm_num
  rw [Nat.mod_eq_of_lt h]
  rw [Nat.testBit_and, Nat.testBit_shiftRight, e8, Nat.testBit_mod_two_pow, Nat.testBit_or,
    Nat.testBit_shiftLeft]
  cases hm : mask.testBit i
  · simp
  · have hlt : bit + i < 8 := by
      by_contra hge
      have hge : 8 ≤ bit + i := by omega
      have hb : (mask <<< bit).testBit (bit + i) = true := by
        rw [Nat.testBit_shiftLeft]; simp [hm]
      have := Nat.testBit_implies_ge hb
      have h2 : 2 ^ 8 ≤ 2 ^ (bit + i) := Nat.pow_le_pow_right (by norm_num) hge
      omega
    simp [hlt, hm]

theorem regbit_get_clear (d bit mask : Nat) :
    (((d &&& (((mask <<< bit) % 256) ^^^ 255)) % 256) >>> bit) &&& mask = 0 := by
  apply Nat.eq_of_testBit_eq
  intro i
  have e8 : (256 : Nat) = 2 ^ 8 := by norm_num
  have e255 : (255 : Nat) = 2 ^ 8 - 1 := by norm_num
  rw [Nat.testBit_and, Nat.testBit_shiftRight, e8, Nat.testBit_mod_two_pow, Nat.testBit_and,
    Nat.testBit_xor, Nat.testBit_mod_two_pow, e255, Nat.testBit_two_pow_sub_one,
    Nat.testBit_shiftLeft]
  by_cases hlt : bit + i < 8
  · cases hm : mask.testBit i <;> simp [hlt, hm]
  · simp [hlt]

theorem shift5_and31 (v : Nat) : v >>> 5 = v / 32 ∧ v &&& 0x1f = v % 32 := by
  constructor
  · rw [Nat.shiftRight_eq_div_pow]
  · have : (0x1f : Nat) = 2 ^ 5 - 1 := by norm_num
    rw [this, Nat.and_pow_two_sub_one_eq_mod]

theorem pending_bit_ne_zero_iff (s : avr_t) (v : Nat) :
    pending_bit s v ≠ 0 ↔ (s.pending (v / 32)).testBit (v % 32) = true := by
  unfold pending_bit
  rw [(shift5_and31 v).1, (shift5_and31 v).2]
  exact and_one_shiftLeft_ne_zero _ _

theorem pending_bit_eq_zero_iff (s : avr_t) (v : Nat) :
    pending_bit s v = 0 ↔ (s.pending (v / 32)).testBit (v % 32) = false := by
  unfold pending_bit
  rw [(shift5_and31 v).1, (shift5_and31 v).2]
  exact and_one_shiftLeft_eq_zero _ _

theorem lowest_set_bit (p : Nat) (h : p ≠ 0) (hlt : p < 2 ^ 32) :
    ∃ k, k < 32 ∧ p.testBit k = true ∧ ∀ j, j < k → p.testBit j = false := by
  have hex : ∃ i, p.testBit i = true := Nat.ne_zero_implies_bit_true h
  refine ⟨Nat.find hex, ?_, Nat.find_spec hex, ?_⟩
  · by_contra hge
    have hge : 32 ≤ Nat.find hex := by omega
    have h1 := Nat.testBit_implies_ge (Nat.find_spec hex)
    have h2 : 2 ^ 32 ≤ 2 ^ Nat.find hex := Nat.pow_le_pow_right (by norm_num) hge
    omega
  · intro j hj
    have := Nat.find_min hex hj
    simpa using this

theorem clear_pending_bit_self (s : avr_t) (v : Nat) :
    pending_bit (clear_pending s v) v = 0 := by
  unfold pending_bit clear_pending
  simp only [if_true]
  apply Nat.eq_of_testBit_eq
  intro i
  have e : (0xffffffff : Nat) = 2 ^ 32 - 1 := by norm_num
  rw [Nat.one_shiftLeft, Nat.testBit_and, Nat.testBit_and, Nat.testBit_xor, Nat.testBit_two_pow,
    e, Nat.testBit_two_pow_sub_one, Nat.zero_testBit]
  by_cases h : v &&& 31 = i
  · have : i < 32 := by
      rw [← h, (shift5_and31 v).2]; omega
    simp [h, this]
  · simp [h]

theorem clear_pending_bit_other (s : avr_t) (v u : Nat) (h : u ≠ v) :
    pending_bit (clear_pending s v) u = pending_bit s u := by
  unfold pending_bit clear_pending
  dsimp only
  by_cases hw : u >>> 5 = v >>> 5
  · rw [if_pos hw]
    have hb : v &&& 0x1f ≠ u &&& 0x1f := by
      intro hb
      rw [(shift5_and31 v).2, (shift5_and31 u).2] at hb
      rw [(shift5_and31 v).1, (shift5_and31 u).1] at hw
      omega
    apply Nat.eq_of_testBit_eq
    intro i
    have e : (0xffffffff : Nat) = 2 ^ 32 - 1 := by norm_num
    rw [Nat.one_shiftLeft, Nat.one_shiftLeft, Nat.testBit_and, Nat.testBit_and, Nat.testBit_xor,
      Nat.testBit_two_pow, Nat.testBit_and, Nat.testBit_two_pow, e, Nat.testBit_two_pow_sub_one]
    by_cases hi : u &&& 31 = i
    · have hlt : i < 32 := by
        rw [← hi, (shift5_and31 u).2]; omega
      have hvi : ¬ (v &&& 31 = i) := by
        intro hvi; exact hb (hvi.trans hi.symm)
      simp [hi, hlt, hvi]
    · simp [hi]
  · rw [if_neg hw]

theorem set_pending_bit_self (s : avr_t) (v : Nat) :
    pending_bit (set_pending s v) v ≠ 0 := by
  unfold pending_bit set_pending
  simp only [if_true]
  rw [and_one_shiftLeft_ne_zero, Nat.testBit_or, Nat.one_shiftLeft, Nat.testBit_two_pow_self]
  simp

theorem regbit_get_after_clear (s : avr_t) (rb : avr_regbit_t) :
    avr_regbit_get (avr_regbit_clear s rb) rb = 0 := by
  unfold avr_regbit_get avr_regbit_clear set_data
  simp only [if_true]
  exact regbit_get_clear _ _ _

theorem regbit_get_after_set (s : avr_t) (rb : avr_regbit_t) (h : rb.mask <<< rb.bit < 256) :
    avr_regbit_get (avr_regbit_set s rb) rb = rb.mask := by
  unfold avr_regbit_get avr_regbit_set set_data
  simp only [if_true]
  exact regbit_get_set _ _ _ h

/-! ## The service loop -/

theorem scan_bits_eq (s : avr_t) (bi k : Nat) (hk : (s.pending bi).testBit k = true) :
    ∀ n ii, ii ≤ k → k < ii + n →
      (∀ j, ii ≤ j → j < k → (s.pending bi).testBit j = false) →
      scan_bits s bi n ii = service_vector s (bi * 32 + k) := by
  intro n
  induction n with
  | zero => intro ii h1 h2; omega
  | succ n ih =>
    intro ii h1 h2 hlow
    unfold scan_bits
    by_cases hii : ii = k
    · subst hii
      rw [if_pos ((and_one_shiftLeft_ne_zero _ _).mpr hk)]
    · have hlt : ii < k := by omega
      have hz := (and_one_shiftLeft_eq_zero (s.pending bi) ii).mpr (hlow ii (le_refl _) hlt)
      rw [if_neg (by simp [hz])]
      exact ih (ii + 1) (by omega) (by omega) (fun j hj1 hj2 => hlow j (by omega) hj2)

theorem service_eq (s : avr_t) (hI : s.sreg S_I ≠ 0) (hw : s.pending_wait = 1)
    (hp : s.pending 0 ≠ 0 ∨ s.pending 1 ≠ 0)
    (h0 : s.pending 0 < 2 ^ 32) (h1 : s.pending 1 < 2 ^ 32) :
    ∃ v, v < 64 ∧ pending_bit s v ≠ 0 ∧ (∀ u, u < v → pending_bit s u = 0) ∧
      avr_service_interupts s = service_vector { s with pending_wait := 0 } v := by
  have hhas : avr_has_pending_interupts s = true := by
    unfold avr_has_pending_interupts
    rcases hp with h | h <;> simp [h]
  have hstep : avr_service_interupts s = scan_words { s with pending_wait := 0 } 2 0 := by
    unfold avr_service_interupts
    rw [if_neg hI, if_pos hhas, if_pos (by rw [hw]; decide)]
    simp [hw]
  rw [hstep]
  by_cases hz : s.pending 0 = 0
  · have hn1 : s.pending 1 ≠ 0 := by
      rcases hp with h | h
      · exact absurd hz h
      · exact h
    obtain ⟨k, hk32, hk, hlow⟩ := lowest_set_bit _ hn1 h1
    refine ⟨32 + k, by omega, ?_, ?_, ?_⟩
    · rw [pending_bit_ne_zero_iff]
      have e1 : (32 + k) / 32 = 1 := by omega
      have e2 : (32 + k) % 32 = k := by omega
      rw [e1, e2]; exact hk
    · intro u hu
      rw [pending_bit_eq_zero_iff]
      by_cases hu32 : u < 32
      · have e1 : u / 32 = 0 := by omega
        rw [e1, hz]; exact Nat.zero_testBit _
      · have e1 : u / 32 = 1 := by omega
        rw [e1]; exact hlow _ (by omega)
    · have hs := scan_bits_eq { s with pending_wait := 0 } 1 k hk 32 0 (by omega) (by omega)
        (fun j _ hj => hlow j hj)
      simp only [scan_words]
      rw [if_neg (by simpa using hz), if_pos (by simpa using hn1), hs]
  · obtain ⟨k, hk32, hk, hlow⟩ := lowest_set_bit _ hz h0
    refine ⟨k, by omega, ?_, ?_, ?_⟩
    · rw [pending_bit_ne_zero_iff]
      have e1 : k / 32 = 0 := by omega
      have e2 : k % 32 = k := by omega
      rw [e1, e2]; exact hk
    · intro u hu
      rw [pending_bit_eq_zero_iff]
      have e1 : u / 32 = 0 := by omega
      have e2 : u % 32 = u := by omega
      rw [e1, e2]; exact hlow _ hu
    · have hs := scan_bits_eq { s with pending_wait := 0 } 0 k hk 32 0 (by omega) (by omega)
        (fun j _ hj => hlow j hj)
      simp only [scan_words]
      rw [if_pos (by simpa using hz), hs, Nat.zero_mul, Nat.zero_add]

theorem service_vector_pc (s : avr_t) (v : Nat) :
    (service_vector s v).pc = v * s.vector_size := by
  unfold service_vector avr_clear_interupt
  dsimp only
  split
  · rfl
  · split <;> rfl

theorem service_vector_sreg (s : avr_t) (v i : Nat) :
    (service_vector s v).sreg i = if i = S_I then 0 else s.sreg i := by
  unfold service_vector avr_clear_interupt
  dsimp only
  split
  · rfl
  · split <;> rfl

theorem service_vector_pending (s : avr_t) (v : Nat) :
    (service_vector s v).pending = (clear_pending s v).pending := by
  unfold service_vector avr_clear_interupt
  dsimp only
  split
  · rfl
  · split <;> rfl

theorem service_vector_misc (s : avr_t) (v : Nat) :
    (service_vector s v).pending_wait = s.pending_wait ∧
    (service_vector s v).state = s.state ∧
    (service_vector s v).vector = s.vector := by
  unfold service_vector avr_clear_interupt
  dsimp only
  split
  · simp [clear_pending, _avr_push16, _avr_sp_set, set_data]
  · split <;> simp [clear_pending, _avr_push16, _avr_sp_set, set_data, avr_regbit_clear]

theorem service_vector_raised (s : avr_t) (v : Nat) (vec : avr_int_vector_t)
    (hvec : s.vector v = some vec) (hreg : vec.raised.reg ≠ 0) :
    avr_regbit_get (service_vector s v) vec.raised = 0 := by
  have hv : (_avr_push16 s ((s.pc >>> 1) % 65536)).vector v = some vec := by
    simp [_avr_push16, _avr_sp_set, set_data, hvec]
  unfold service_vector avr_clear_interupt
  dsimp only
  rw [hv]
  dsimp only
  rw [if_pos hreg]
  exact regbit_get_after_clear _ _

theorem service_vector_data (s : avr_t) (v a : Nat)
    (ha : ∀ vec, s.vector v = some vec → vec.raised.reg = 0 ∨ vec.raised.reg ≠ a) :
    (service_vector s v).data a = (_avr_push16 s ((s.pc >>> 1) % 65536)).data a := by
  have hv : (_avr_push16 s ((s.pc >>> 1) % 65536)).vector v = s.vector v := by
    simp [_avr_push16, _avr_sp_set, set_data]
  unfold service_vector avr_clear_interupt
  dsimp only
  rw [hv]
  cases hvec : s.vector v with
  | none => rfl
  | some vec =>
    dsimp only
    rcases ha vec hvec with h | h
    · rw [if_neg (by simp [h])]
      rfl
    · by_cases hreg : vec.raised.reg = 0
      · rw [if_neg (by simp [hreg])]
        rfl
      · rw [if_pos hreg]
        unfold avr_regbit_clear set_data
        dsimp only
        rw [if_neg (fun e => h e.symm)]
        rfl

/-- A call of `avr_service_interupts` that does not find `pending_wait == 1`
changes at most `pending_wait`. -/
theorem service_waits (t : avr_t) (h : t.pending_wait ≠ 1) :
    (avr_service_interupts t).pc = t.pc ∧
    (avr_service_interupts t).sreg = t.sreg ∧
    (avr_service_interupts t).pending = t.pending ∧
    (avr_service_interupts t).data = t.data := by
  unfold avr_service_interupts
  split
  · exact ⟨rfl, rfl, rfl, rfl⟩
  · split
    · split
      · dsimp only
        rw [if_neg (by omega)]
        exact ⟨rfl, rfl, rfl, rfl⟩
      · exact ⟨rfl, rfl, rfl, rfl⟩
    · exact ⟨rfl, rfl, rfl, rfl⟩

/-- The first call of `avr_service_interupts` on a state with the latency counter at 2
and something pending only counts the counter down. -/
theorem service_counts_down (t : avr_t) (hI : t.sreg S_I ≠ 0) (hw : t.pending_wait = 2)
    (hp : t.pending 0 ≠ 0 ∨ t.pending 1 ≠ 0) :
    avr_service_interupts t = { t with pending_wait := 1 } := by
  have hhas : avr_has_pending_interupts t = true := by
    unfold avr_has_pending_interupts
    rcases hp with h | h <;> simp [h]
  unfold avr_service_interupts
  rw [if_neg hI, if_pos hhas, if_pos (by rw [hw]; decide)]
  simp [hw]

/-! ## Raising an interrupt -/

theorem queue_pending_data (s : avr_t) (vec : avr_int_vector_t) :
    (queue_pending s vec).data = s.data := by
  unfold queue_pending set_pending
  dsimp only
  split
  · split <;> split <;> rfl
  · rfl

theorem mark_raised_frame (s : avr_t) (vec : avr_int_vector_t) :
    (mark_raised s vec).pending = s.pending ∧
    (mark_raised s vec).pending_wait = s.pending_wait ∧
    (mark_raised s vec).state = s.state ∧
    (mark_raised s vec).sreg = s.sreg ∧
    (mark_raised s vec).pc = s.pc ∧
    (mark_raised s vec).vector = s.vector ∧
    (mark_raised s vec).vector_size = s.vector_size := by
  unfold mark_raised avr_regbit_set set_data
  split <;> exact ⟨rfl, rfl, rfl, rfl, rfl, rfl, rfl⟩

theorem queue_pending_bit (s : avr_t) (vec : avr_int_vector_t) :
    pending_bit (queue_pending s vec) vec.vector ≠ 0 := by
  unfold queue_pending
  dsimp only
  by_cases hp : avr_is_interupt_pending s vec = 0
  · rw [if_pos hp]
    have key : ∀ t : avr_t, pending_bit
        (if (set_pending t vec.vector).state ≠ cpu_Running then
          { set_pending t vec.vector with state := cpu_Running }
        else set_pending t vec.vector) vec.vector ≠ 0 := by
      intro t
      split
      · exact set_pending_bit_self t vec.vector
      · exact set_pending_bit_self t vec.vector
    exact key _
  · rw [if_neg hp]
    exact hp

theorem wake_state (t : avr_t) :
    (if t.state ≠ cpu_Running then { t with state := cpu_Running } else t).state
      = cpu_Running := by
  by_cases h : t.state = cpu_Running
  · rw [if_neg (by simpa using h)]
    exact h
  · rw [if_pos h]

theorem wake_frame (t : avr_t) :
    (if t.state ≠ cpu_Running then { t with state := cpu_Running } else t).pending = t.pending ∧
    (if t.state ≠ cpu_Running then { t with state := cpu_Running } else t).pending_wait
      = t.pending_wait ∧
    (if t.state ≠ cpu_Running then { t with state := cpu_Running } else t).sreg = t.sreg ∧
    (if t.state ≠ cpu_Running then { t with state := cpu_Running } else t).pc = t.pc ∧
    (if t.state ≠ cpu_Running then { t with state := cpu_Running } else t).vector_size
      = t.vector_size := by
  split <;> exact ⟨rfl, rfl, rfl, rfl, rfl⟩

theorem queue_pending_state (s : avr_t) (vec : avr_int_vector_t)
    (hp : avr_is_interupt_pending s vec = 0) :
    (queue_pending s vec).state = cpu_Running := by
  unfold queue_pending
  dsimp only
  rw [if_pos hp]
  exact wake_state _

/-- A descriptor with vector number 0 is returned on like `NULL` (lines 142-143):
the call changes nothing and returns 0. -/
theorem raise_zero_vector (s : avr_t) (vec : avr_int_vector_t) (hv : vec.vector = 0) :
    avr_raise_interupt s (some vec) = (s, 0) := by
  unfold avr_raise_interupt
  simp only
  rw [if_pos hv]

/-- The raised flag after `avr_raise_interupt` of a descriptor with a non-zero
vector number is the one `mark_raised` wrote. -/
theorem raise_data (s : avr_t) (vec : avr_int_vector_t) (hv : vec.vector ≠ 0) :
    (avr_raise_interupt s (some vec)).1.data = (mark_raised s vec).data := by
  unfold avr_raise_interupt
  dsimp only
  rw [if_neg hv]
  split
  · rfl
  · exact queue_pending_data _ _

theorem raise_enabled (s : avr_t) (vec : avr_int_vector_t) (hv : vec.vector ≠ 0)
    (hen : vec.enable.reg = 0 ∨ avr_regbit_get (mark_raised s vec) vec.enable ≠ 0) :
    avr_raise_interupt s (some vec) = (queue_pending (mark_raised s vec) vec, 1) := by
  unfold avr_raise_interupt
  dsimp only
  rw [if_neg hv, if_neg]
  intro ⟨h1, h2⟩
  rcases hen with h | h
  · exact h1 h
  · exact h h2

theorem raise_disabled (s : avr_t) (vec : avr_int_vector_t) (hv : vec.vector ≠ 0)
    (hen : ¬ (vec.enable.reg = 0 ∨ avr_regbit_get (mark_raised s vec) vec.enable ≠ 0)) :
    avr_raise_interupt s (some vec) = (mark_raised s vec, 0) := by
  unfold avr_raise_interupt
  dsimp only
  rw [if_neg hv, if_pos]
  constructor
  · intro h; exact hen (Or.inl h)
  · by_contra h; exact hen (Or.inr h)

/-- Raising an enabled vector while nothing is pending and no latency is
counting: the latency counter is armed and only the bit of the vector is set. -/
theorem raise_fresh (s : avr_t) (vec : avr_int_vector_t)
    (hv : vec.vector ≠ 0) (hv64 : vec.vector < 64)
    (hw : s.pending_wait = 0) (hp0 : s.pending 0 = 0) (hp1 : s.pending 1 = 0)
    (hen : vec.enable.reg = 0 ∨ avr_regbit_get (mark_raised s vec) vec.enable ≠ 0) :
    (avr_raise_interupt s (some vec)).1.pending_wait = 2 ∧
    (avr_raise_interupt s (some vec)).1.pending = (set_pending s vec.vector).pending ∧
    (avr_raise_interupt s (some vec)).1.sreg = s.sreg ∧
    (avr_raise_interupt s (some vec)).1.pc = s.pc ∧
    (avr_raise_interupt s (some vec)).1.vector_size = s.vector_size := by
  rw [raise_enabled s vec hv hen]
  have hf := mark_raised_frame s vec
  have hword : s.pending (vec.vector >>> 5) = 0 := by
    rw [(shift5_and31 vec.vector).1]
    have : vec.vector / 32 = 0 ∨ vec.vector / 32 = 1 := by omega
    rcases this with h | h <;> rw [h] <;> assumption
  have hp : avr_is_interupt_pending (mark_raised s vec) vec = 0 := by
    unfold avr_is_interupt_pending pending_bit
    rw [hf.1, hword, Nat.zero_and]
  have hw2 : (mark_raised s vec).pending_wait = 0 := by rw [hf.2.1]; exact hw
  unfold queue_pending
  dsimp only
  rw [if_pos hp, if_pos hw2]
  have hk := wake_frame (set_pending { mark_raised s vec with pending_wait := 2 } vec.vector)
  refine ⟨?_, ?_, ?_, ?_, ?_⟩
  · rw [hk.2.1]; rfl
  · rw [hk.1]
    unfold set_pending
    dsimp only
    rw [hf.1]
  · rw [hk.2.2.1]; exact hf.2.2.2.1
  · rw [hk.2.2.2.1]; exact hf.2.2.2.2.1
  · rw [hk.2.2.2.2]; exact hf.2.2.2.2.2.2

theorem set_pending_only (s : avr_t) (v w : Nat) (hv64 : v < 64)
    (hp0 : s.pending 0 = 0) (hp1 : s.pending 1 = 0)
    (hw : pending_bit (set_pending s v) w ≠ 0) (hw64 : w < 64) : w = v := by
  rw [pending_bit_ne_zero_iff] at hw
  unfold set_pending at hw
  dsimp only at hw
  rw [(shift5_and31 v).1, (shift5_and31 v).2] at hw
  have hzero : ∀ i, i < 2 → s.pending i = 0 := by
    intro i hi
    have : i = 0 ∨ i = 1 := by omega
    rcases this with h | h <;> rw [h] <;> assumption
  by_cases hword : w / 32 = v / 32
  · rw [if_pos hword, hzero (w / 32) (by omega), Nat.zero_or, Nat.one_shiftLeft,
      Nat.testBit_two_pow] at hw
    simp at hw
    omega
  · rw [if_neg hword, hzero (w / 32) (by omega), Nat.zero_testBit] at hw
    exact absurd hw (by simp)

theorem set_pending_words (s : avr_t) (v : Nat) (hv64 : v < 64)
    (hp0 : s.pending 0 = 0) (hp1 : s.pending 1 = 0) :
    ((set_pending s v).pending 0 ≠ 0 ∨ (set_pending s v).pending 1 ≠ 0) ∧
    (set_pending s v).pending 0 < 2 ^ 32 ∧ (set_pending s v).pending 1 < 2 ^ 32 := by
  have hb : v % 32 < 32 := by omega
  have hpow : 2 ^ (v % 32) < 2 ^ 32 := Nat.pow_lt_pow_right (by norm_num) hb
  have hpos : 2 ^ (v % 32) ≠ 0 := by positivity
  unfold set_pending
  dsimp only
  rw [(shift5_and31 v).1, (shift5_and31 v).2, Nat.one_shiftLeft]
  have : v / 32 = 0 ∨ v / 32 = 1 := by omega
  rcases this with h | h
  · rw [h]
    simp only [if_true, hp0, hp1, Nat.zero_or]
    refine ⟨Or.inl hpos, hpow, ?_⟩
    simp
  · rw [h]
    simp only [if_true, hp0, hp1, Nat.zero_or]
    refine ⟨Or.inr hpos, ?_, hpow⟩
    simp

/-- The enable test of `avr_raise_interupt` reads the value from before the call
when marking the raised flag cannot touch the enable field: the selectors are in
different registers, or on disjoint bits of one byte. -/
theorem enable_read_unchanged (s : avr_t) (vec : avr_int_vector_t)
    (h : vec.raised.reg ≠ vec.enable.reg ∨
      (s.data vec.enable.reg < 256 ∧
        ((vec.raised.mask <<< vec.raised.bit) % 256) &&&
          (vec.enable.mask <<< vec.enable.bit) = 0)) :
    avr_regbit_get (mark_raised s vec) vec.enable = avr_regbit_get s vec.enable := by
  unfold mark_raised
  split
  · unfold avr_regbit_get avr_regbit_set set_data
    dsimp only
    by_cases hreg : vec.enable.reg = vec.raised.reg
    · rw [if_pos hreg]
      rcases h with h | ⟨hd, hdis⟩
      · exact absurd hreg.symm h
      · rw [← hreg]
        apply Nat.eq_of_testBit_eq
        intro i
        have e8 : (256 : Nat) = 2 ^ 8 := by norm_num
        rw [Nat.testBit_and, Nat.testBit_and, Nat.testBit_shiftRight, Nat.testBit_shiftRight]
        cases hm : vec.enable.mask.testBit i
        · simp
        · have hdj : ((vec.raised.mask <<< vec.raised.bit) % 256).testBit (vec.enable.bit + i)
              = false := by
            have hz : (((vec.raised.mask <<< vec.raised.bit) % 256) &&&
                (vec.enable.mask <<< vec.enable.bit)).testBit (vec.enable.bit + i) = false := by
              rw [hdis]; exact Nat.zero_testBit _
            rw [Nat.testBit_and, Nat.testBit_shiftLeft] at hz
            simpa [hm] using hz
          rw [e8, Nat.testBit_mod_two_pow, Nat.testBit_or, ← e8, hdj]
          by_cases hlt : vec.enable.bit + i < 8
          · simp [hlt]
          · have hge : 8 ≤ vec.enable.bit + i := by omega
            have h2 : 2 ^ 8 ≤ 2 ^ (vec.enable.bit + i) := Nat.pow_le_pow_right (by norm_num) hge
            have : (s.data vec.enable.reg).testBit (vec.enable.bit + i) = false :=
              Nat.testBit_lt_two_pow (by omega)
            simp [hlt, this]
    · rw [if_neg hreg]
  · rfl

/-! ## Claims on the interrupt controller -/

/-- Claim C1: with `S_I` set, `pending_wait == 1` and a vector pending,
`avr_service_interupts` services exactly the lowest-numbered pending vector `v`:
it is the entry into `v` (push of the PC in words, `S_I` cleared,
`pc = v * vector_size`, pending bit and raised selector of `v` cleared), the
latency counter reaches 0, every data byte other than the raised register holds
what the push left, and every other pending bit keeps its value. -/
theorem service_lowest_pending_vector (s : avr_t)
    (hI : s.sreg S_I ≠ 0) (hw : s.pending_wait = 1)
    (hp : s.pending 0 ≠ 0 ∨ s.pending 1 ≠ 0)
    (h0 : s.pending 0 < 2 ^ 32) (h1 : s.pending 1 < 2 ^ 32) :
    ∃ v, v < 64 ∧ pending_bit s v ≠ 0 ∧ (∀ u, u < v → pending_bit s u = 0) ∧
      avr_service_interupts s = service_vector { s with pending_wait := 0 } v ∧
      (avr_service_interupts s).pc = v * s.vector_size ∧
      (avr_service_interupts s).sreg S_I = 0 ∧
      (∀ i, i ≠ S_I → (avr_service_interupts s).sreg i = s.sreg i) ∧
      (avr_service_interupts s).pending_wait = 0 ∧
      (∀ a, (∀ vec, s.vector v = some vec → vec.raised.reg = 0 ∨ vec.raised.reg ≠ a) →
        (avr_service_interupts s).data a = (_avr_push16 s ((s.pc >>> 1) % 65536)).data a) ∧
      pending_bit (avr_service_interupts s) v = 0 ∧
      (∀ vec, s.vector v = some vec → vec.raised.reg ≠ 0 →
        avr_regbit_get (avr_service_interupts s) vec.raised = 0) ∧
      (∀ u, u ≠ v → pending_bit (avr_service_interupts s) u = pending_bit s u) := by
  obtain ⟨v, hv, hset, hlow, heq⟩ := service_eq s hI hw hp h0 h1
  refine ⟨v, hv, hset, hlow, heq, ?_, ?_, ?_, ?_, ?_, ?_, ?_, ?_⟩
  · rw [heq, service_vector_pc]
  · rw [heq, service_vector_sreg]; simp
  · intro i hi
    rw [heq, service_vector_sreg, if_neg hi]
  · rw [heq, (service_vector_misc _ _).1]
  · intro a ha
    rw [heq]
    exact service_vector_data { s with pending_wait := 0 } v a ha
  · rw [heq, pending_bit]
    rw [service_vector_pending]
    exact clear_pending_bit_self { s with pending_wait := 0 } v
  · intro vec hvec hreg
    rw [heq]
    exact service_vector_raised { s with pending_wait := 0 } v vec hvec hreg
  · intro u hu
    rw [heq, pending_bit, service_vector_pending]
    exact clear_pending_bit_other { s with pending_wait := 0 } v u hu

/-- Claim C1, witness: vectors 2, 16 and 35 pending, one cycle of latency left. -/
theorem service_lowest_pending_vector_witness :
    (demo_avr_pending.sreg S_I ≠ 0 ∧ demo_avr_pending.pending_wait = 1 ∧
      (demo_avr_pending.pending 0 ≠ 0 ∨ demo_avr_pending.pending 1 ≠ 0) ∧
      demo_avr_pending.pending 0 < 2 ^ 32 ∧ demo_avr_pending.pending 1 < 2 ^ 32) ∧
    (avr_service_interupts demo_avr_pending).pc = 4 ∧
    ∃ v, v < 64 ∧ pending_bit demo_avr_pending v ≠ 0 ∧
      (∀ u, u < v → pending_bit demo_avr_pending u = 0) ∧
      avr_service_interupts demo_avr_pending =
        service_vector { demo_avr_pending with pending_wait := 0 } v ∧
      (avr_service_interupts demo_avr_pending).pc = v * demo_avr_pending.vector_size ∧
      (avr_service_interupts demo_avr_pending).sreg S_I = 0 ∧
      (∀ i, i ≠ S_I → (avr_service_interupts demo_avr_pending).sreg i = demo_avr_pending.sreg i) ∧
      (avr_service_interupts demo_avr_pending).pending_wait = 0 ∧
      (∀ a, (∀ vec, demo_avr_pending.vector v = some vec →
          vec.raised.reg = 0 ∨ vec.raised.reg ≠ a) →
        (avr_service_interupts demo_avr_pending).data a =
          (_avr_push16 demo_avr_pending ((demo_avr_pending.pc >>> 1) % 65536)).data a) ∧
      pending_bit (avr_service_interupts demo_avr_pending) v = 0 ∧
      (∀ vec, demo_avr_pending.vector v = some vec → vec.raised.reg ≠ 0 →
        avr_regbit_get (avr_service_interupts demo_avr_pending) vec.raised = 0) ∧
      (∀ u, u ≠ v →
        pending_bit (avr_service_interupts demo_avr_pending) u = pending_bit demo_avr_pending u) :=
  ⟨⟨by decide, by decide, by decide, by decide, by decide⟩, by decide,
   service_lowest_pending_vector demo_avr_pending (by decide) (by decide) (by decide)
     (by decide) (by decide)⟩

/-- Claim C2 (as amended): for a descriptor with a non-zero vector number and a
raised selector whose field lies within the register byte, `avr_raise_interupt`
leaves the raised field set, whatever the enable bit and the CPU state; every
descriptor with vector number 0 is ignored like the null one: the state is the
one before the call and the call returns 0. -/
theorem raise_sets_raised_bit (s : avr_t) (vec : avr_int_vector_t) :
    (vec.vector ≠ 0 → vec.raised.reg ≠ 0 → vec.raised.mask <<< vec.raised.bit < 256 →
      avr_regbit_get (avr_raise_interupt s (some vec)).1 vec.raised = vec.raised.mask) ∧
    (vec.vector = 0 → avr_raise_interupt s (some vec) = (s, 0)) ∧
    avr_raise_interupt s none = (s, 0) := by
  refine ⟨?_, raise_zero_vector s vec, rfl⟩
  intro hv hreg hfield
  have hd := raise_data s vec hv
  unfold avr_regbit_get
  rw [hd]
  have := regbit_get_after_set s vec.raised hfield
  unfold avr_regbit_get at this
  unfold mark_raised
  rw [if_pos hreg]
  exact this

/-- Claim C2, witness: a sleeping MCU with an enabled timer descriptor, and the
same selectors under vector number 0. -/
theorem raise_sets_raised_bit_witness :
    (demo_vector.vector ≠ 0 ∧ demo_vector.raised.reg ≠ 0 ∧
      demo_vector.raised.mask <<< demo_vector.raised.bit < 256 ∧
      demo_vector_zero.vector = 0) ∧
    avr_regbit_get (avr_raise_interupt demo_avr (some demo_vector)).1 demo_vector.raised =
        demo_vector.raised.mask ∧
    avr_raise_interupt demo_avr (some demo_vector_zero) = (demo_avr, 0) ∧
    avr_raise_interupt demo_avr none = (demo_avr, 0) :=
  ⟨⟨by decide, by decide, by decide, by decide⟩,
   (raise_sets_raised_bit demo_avr demo_vector).1 (by decide) (by decide) (by decide),
   (raise_sets_raised_bit demo_avr demo_vector_zero).2.1 (by decide),
   (raise_sets_raised_bit demo_avr demo_vector).2.2⟩

/-- Claim C2, counterexample: a non-null descriptor with a raised selector and
vector number 0 is ignored, its raised bit stays clear and the call returns 0. -/
theorem raise_vector_zero_not_raised :
    demo_vector_zero.raised.reg ≠ 0 ∧
    avr_regbit_get demo_avr demo_vector_zero.raised = 0 ∧
    avr_regbit_get (avr_raise_interupt demo_avr (some demo_vector_zero)).1
      demo_vector_zero.raised = 0 ∧
    (avr_raise_interupt demo_avr (some demo_vector_zero)).2 = 0 := by
  refine ⟨by decide, by decide, by decide, by decide⟩

/-- Claim C3 (as amended): for a descriptor with a vector number in 1..63, the
vector is queued exactly when the enable test of `avr_raise_interupt` lets it
through (no enable selector, or the enable field reads non-zero once the raised
flag has been marked): then the call returns 1 and the vector is pending
afterwards, also when it was pending before; otherwise the call returns 0 and
`pending[]`, `pending_wait` and the CPU state are unchanged. With the two
selectors in different registers, or on disjoint bits of one byte, the enable
test reads the value from before the call. -/
theorem raise_queues_iff_enabled (s : avr_t) (vec : avr_int_vector_t)
    (hv : vec.vector ≠ 0) (_hv64 : vec.vector < 64) :
    ((vec.enable.reg = 0 ∨ avr_regbit_get (mark_raised s vec) vec.enable ≠ 0) →
      (avr_raise_interupt s (some vec)).2 = 1 ∧
      avr_is_interupt_pending (avr_raise_interupt s (some vec)).1 vec ≠ 0) ∧
    (¬ (vec.enable.reg = 0 ∨ avr_regbit_get (mark_raised s vec) vec.enable ≠ 0) →
      (avr_raise_interupt s (some vec)).2 = 0 ∧
      (avr_raise_interupt s (some vec)).1.pending = s.pending ∧
      (avr_raise_interupt s (some vec)).1.pending_wait = s.pending_wait ∧
      (avr_raise_interupt s (some vec)).1.state = s.state) ∧
    (vec.raised.reg ≠ vec.enable.reg ∨
        (s.data vec.enable.reg < 256 ∧
          ((vec.raised.mask <<< vec.raised.bit) % 256) &&&
            (vec.enable.mask <<< vec.enable.bit) = 0) →
      avr_regbit_get (mark_raised s vec) vec.enable = avr_regbit_get s vec.enable) := by
  refine ⟨?_, ?_, enable_read_unchanged s vec⟩
  · intro hen
    rw [raise_enabled s vec hv hen]
    exact ⟨rfl, queue_pending_bit _ vec⟩
  · intro hen
    rw [raise_disabled s vec hv hen]
    have hf := mark_raised_frame s vec
    exact ⟨rfl, hf.1, hf.2.1, hf.2.2.1⟩

/-- Claim C3, witness: the enabled timer descriptor on the sleeping MCU. -/
theorem raise_queues_iff_enabled_witness :
    (demo_vector.vector ≠ 0 ∧ demo_vector.vector < 64) ∧
    (avr_raise_interupt demo_avr (some demo_vector)).2 = 1 ∧
    (avr_raise_interupt demo_avr (some demo_vector)).1.pending 0 = 0x10000 ∧
    (((demo_vector.enable.reg = 0 ∨
        avr_regbit_get (mark_raised demo_avr demo_vector) demo_vector.enable ≠ 0) →
      (avr_raise_interupt demo_avr (some demo_vector)).2 = 1 ∧
      avr_is_interupt_pending (avr_raise_interupt demo_avr (some demo_vector)).1 demo_vector ≠ 0) ∧
    (¬ (demo_vector.enable.reg = 0 ∨
        avr_regbit_get (mark_raised demo_avr demo_vector) demo_vector.enable ≠ 0) →
      (avr_raise_interupt demo_avr (some demo_vector)).2 = 0 ∧
      (avr_raise_interupt demo_avr (some demo_vector)).1.pending = demo_avr.pending ∧
      (avr_raise_interupt demo_avr (some demo_vector)).1.pending_wait = demo_avr.pending_wait ∧
      (avr_raise_interupt demo_avr (some demo_vector)).1.state = demo_avr.state) ∧
    (demo_vector.raised.reg ≠ demo_vector.enable.reg ∨
        (demo_avr.data demo_vector.enable.reg < 256 ∧
          ((demo_vector.raised.mask <<< demo_vector.raised.bit) % 256) &&&
            (demo_vector.enable.mask <<< demo_vector.enable.bit) = 0) →
      avr_regbit_get (mark_raised demo_avr demo_vector) demo_vector.enable =
        avr_regbit_get demo_avr demo_vector.enable)) :=
  ⟨⟨by decide, by decide⟩, by decide, by decide,
   raise_queues_iff_enabled demo_avr demo_vector (by decide) (by decide)⟩

/-- Claim C3, counterexample: a descriptor whose enable bit is set but whose
vector number is 0 is not queued (the call returns 0 and `pending[]` stays
empty); and a descriptor whose enable selector is the bit of its raised selector
is queued although its enable bit is clear at the moment of raising, since the
enable test comes after the raised flag was marked. -/
theorem raise_enabled_vector_zero_not_queued :
    (demo_vector_zero.enable.reg ≠ 0 ∧
      avr_regbit_get demo_avr demo_vector_zero.enable ≠ 0 ∧
      (avr_raise_interupt demo_avr (some demo_vector_zero)).2 = 0 ∧
      avr_is_interupt_pending (avr_raise_interupt demo_avr (some demo_vector_zero)).1
        demo_vector_zero = 0 ∧
      (avr_raise_interupt demo_avr (some demo_vector_zero)).1.pending 0 = 0 ∧
      (avr_raise_interupt demo_avr (some demo_vector_zero)).1.pending 1 = 0) ∧
    (demo_vector_same_bit.enable.reg ≠ 0 ∧
      avr_regbit_get demo_avr demo_vector_same_bit.enable = 0 ∧
      (avr_raise_interupt demo_avr (some demo_vector_same_bit)).2 = 1 ∧
      avr_is_interupt_pending (avr_raise_interupt demo_avr (some demo_vector_same_bit)).1
        demo_vector_same_bit ≠ 0) := by
  refine ⟨⟨by decide, by decide, by decide, by decide, by decide, by decide⟩,
    by decide, by decide, by decide, by decide⟩

/-- Claim C4 (as amended): from a state with `S_I` set, `pending_wait == 0` and nothing
pending, raising an enabled vector (number in 1..63) arms the latency counter
with 2; the first following `avr_service_interupts` does not service it (pc,
`sreg` and data unchanged, vector still pending), the second one does (pc at the
vector, `S_I` cleared, vector no longer pending). In general a call that does
not find `pending_wait == 1` on entry leaves pc, `sreg`, `pending[]` and data
alone. -/
theorem two_cycle_latency (s : avr_t) (vec : avr_int_vector_t)
    (hv : vec.vector ≠ 0) (hv64 : vec.vector < 64)
    (hI : s.sreg S_I ≠ 0) (hw : s.pending_wait = 0)
    (hp0 : s.pending 0 = 0) (hp1 : s.pending 1 = 0)
    (hen : vec.enable.reg = 0 ∨ avr_regbit_get (mark_raised s vec) vec.enable ≠ 0) :
    let s1 := (avr_raise_interupt s (some vec)).1
    let s2 := avr_service_interupts s1
    let s3 := avr_service_interupts s2
    (s1.pending_wait = 2 ∧ avr_is_interupt_pending s1 vec ≠ 0) ∧
    (s2.pc = s.pc ∧ s2.sreg = s.sreg ∧ s2.data = s1.data ∧
      avr_is_interupt_pending s2 vec ≠ 0) ∧
    (s3.pc = vec.vector * s.vector_size ∧ s3.sreg S_I = 0 ∧
      avr_is_interupt_pending s3 vec = 0) ∧
    (∀ t : avr_t, t.pending_wait ≠ 1 →
      (avr_service_interupts t).pc = t.pc ∧ (avr_service_interupts t).sreg = t.sreg ∧
      (avr_service_interupts t).pending = t.pending ∧
      (avr_service_interupts t).data = t.data) := by
  intro s1 s2 s3
  obtain ⟨f1, f2, f3, f4, f5⟩ := raise_fresh s vec hv hv64 hw hp0 hp1 hen
  obtain ⟨w1, w2, w3⟩ := set_pending_words s vec.vector hv64 hp0 hp1
  have hI1 : s1.sreg S_I ≠ 0 := by
    show (avr_raise_interupt s (some vec)).1.sreg S_I ≠ 0
    rw [f3]; exact hI
  have hp1s : s1.pending 0 ≠ 0 ∨ s1.pending 1 ≠ 0 := by
    show (avr_raise_interupt s (some vec)).1.pending 0 ≠ 0 ∨
      (avr_raise_interupt s (some vec)).1.pending 1 ≠ 0
    rw [f2]; exact w1
  have hbit1 : pending_bit s1 vec.vector ≠ 0 := by
    show pending_bit (avr_raise_interupt s (some vec)).1 vec.vector ≠ 0
    unfold pending_bit
    rw [f2]
    exact set_pending_bit_self s vec.vector
  have e2 : s2 = { s1 with pending_wait := 1 } := service_counts_down s1 hI1 f1 hp1s
  have hI2 : s2.sreg S_I ≠ 0 := by rw [e2]; exact hI1
  have hp2 : s2.pending 0 ≠ 0 ∨ s2.pending 1 ≠ 0 := by rw [e2]; exact hp1s
  have hlt0 : s2.pending 0 < 2 ^ 32 := by
    rw [e2]
    show (avr_raise_interupt s (some vec)).1.pending 0 < 2 ^ 32
    rw [f2]; exact w2
  have hlt1 : s2.pending 1 < 2 ^ 32 := by
    rw [e2]
    show (avr_raise_interupt s (some vec)).1.pending 1 < 2 ^ 32
    rw [f2]; exact w3
  obtain ⟨w, hw64, hwset, _, heq⟩ :=
    service_eq s2 hI2 (by rw [e2]) hp2 hlt0 hlt1
  have hwv : w = vec.vector := by
    apply set_pending_only s vec.vector w hv64 hp0 hp1 _ hw64
    have : pending_bit s2 w = pending_bit (set_pending s vec.vector) w := by
      rw [e2]
      show (avr_raise_interupt s (some vec)).1.pending (w >>> 5) &&& _ = _
      rw [f2]
      rfl
    rw [← this]; exact hwset
  subst hwv
  refine ⟨⟨f1, hbit1⟩, ⟨?_, ?_, ?_, ?_⟩, ⟨?_, ?_, ?_⟩, service_waits⟩
  · rw [e2]; exact f4
  · rw [e2]; exact f3
  · rw [e2]
  · rw [e2]; exact hbit1
  · show (avr_service_interupts s2).pc = _
    rw [heq, service_vector_pc]
    show vec.vector * s2.vector_size = _
    rw [e2]
    show vec.vector * (avr_raise_interupt s (some vec)).1.vector_size = _
    rw [f5]
  · show (avr_service_interupts s2).sreg S_I = 0
    rw [heq, service_vector_sreg]; simp
  · show pending_bit (avr_service_interupts s2) vec.vector = 0
    rw [heq, pending_bit, service_vector_pending]
    exact clear_pending_bit_self { s2 with pending_wait := 0 } vec.vector

/-- Claim C4, witness: the timer descriptor raised on the sleeping MCU, whose pc
is unchanged by the first service call and is `16 * 2` after the second. -/
theorem two_cycle_latency_witness :
    (demo_vector.vector ≠ 0 ∧ demo_vector.vector < 64 ∧ demo_avr.sreg S_I ≠ 0 ∧
      demo_avr.pending_wait = 0 ∧ demo_avr.pending 0 = 0 ∧ demo_avr.pending 1 = 0 ∧
      (demo_vector.enable.reg = 0 ∨
        avr_regbit_get (mark_raised demo_avr demo_vector) demo_vector.enable ≠ 0)) ∧
    (avr_service_interupts (avr_raise_interupt demo_avr (some demo_vector)).1).pc = 0x100 ∧
    (avr_service_interupts
      (avr_service_interupts (avr_raise_interupt demo_avr (some demo_vector)).1)).pc = 32 ∧
    (((avr_raise_interupt demo_avr (some demo_vector)).1.pending_wait = 2 ∧
      avr_is_interupt_pending (avr_raise_interupt demo_avr (some demo_vector)).1
        demo_vector ≠ 0) ∧
    ((avr_service_interupts (avr_raise_interupt demo_avr (some demo_vector)).1).pc
        = demo_avr.pc ∧
      (avr_service_interupts (avr_raise_interupt demo_avr (some demo_vector)).1).sreg
        = demo_avr.sreg ∧
      (avr_service_interupts (avr_raise_interupt demo_avr (some demo_vector)).1).data
        = (avr_raise_interupt demo_avr (some demo_vector)).1.data ∧
      avr_is_interupt_pending
        (avr_service_interupts (avr_raise_interupt demo_avr (some demo_vector)).1)
        demo_vector ≠ 0) ∧
    ((avr_service_interupts
        (avr_service_interupts (avr_raise_interupt demo_avr (some demo_vector)).1)).pc
        = demo_vector.vector * demo_avr.vector_size ∧
      (avr_service_interupts
        (avr_service_interupts (avr_raise_interupt demo_avr (some demo_vector)).1)).sreg S_I
        = 0 ∧
      avr_is_interupt_pending
        (avr_service_interupts
          (avr_service_interupts (avr_raise_interupt demo_avr (some demo_vector)).1))
        demo_vector = 0) ∧
    (∀ t : avr_t, t.pending_wait ≠ 1 →
      (avr_service_interupts t).pc = t.pc ∧ (avr_service_interupts t).sreg = t.sreg ∧
      (avr_service_interupts t).pending = t.pending ∧
      (avr_service_interupts t).data = t.data)) :=
  ⟨⟨by decide, by decide, by decide, by decide, by decide, by decide, by decide⟩,
   by decide, by decide,
   two_cycle_latency demo_avr demo_vector (by decide) (by decide) (by decide) (by decide)
     (by decide) (by decide) (by decide)⟩

/-- Claim C4, counterexample: from a state with `S_I` set, `pending_wait == 0`
and nothing pending, the raise of an enabled descriptor with vector number 0
leaves `pending_wait` at 0 and nothing pending, and the second following call of
`avr_service_interupts` services nothing: pc and `S_I` are as before. -/
theorem raise_vector_zero_arms_no_latency :
    demo_avr.sreg S_I ≠ 0 ∧ demo_avr.pending_wait = 0 ∧
    demo_avr.pending 0 = 0 ∧ demo_avr.pending 1 = 0 ∧
    avr_regbit_get demo_avr demo_vector_zero.enable ≠ 0 ∧
    (avr_raise_interupt demo_avr (some demo_vector_zero)).1.pending_wait = 0 ∧
    (avr_raise_interupt demo_avr (some demo_vector_zero)).1.pending_wait ≠ 2 ∧
    avr_has_pending_interupts (avr_raise_interupt demo_avr (some demo_vector_zero)).1
      = false ∧
    (avr_service_interupts
      (avr_service_interupts (avr_raise_interupt demo_avr (some demo_vector_zero)).1)).pc
      = demo_avr.pc ∧
    (avr_service_interupts
      (avr_service_interupts (avr_raise_interupt demo_avr (some demo_vector_zero)).1)).sreg S_I
      ≠ 0 := by
  refine ⟨by decide, by decide, by decide, by decide, by decide, by decide, by decide,
    by decide, by decide, by decide⟩

/-- Claim C5: with `S_I` clear `avr_service_interupts` returns at once; the whole
state (pc, stack, `pending[]`, `pending_wait`, `sreg`, raised bits) is the one
before the call. -/
theorem service_nothing_when_I_clear (s : avr_t) (hI : s.sreg S_I = 0) :
    avr_service_interupts s = s := by
  unfold avr_service_interupts
  rw [if_pos hI]

/-- Claim C5, witness: vector 16 pending, latency elapsed, I flag clear. -/
theorem service_nothing_when_I_clear_witness :
    demo_avr_cli.sreg S_I = 0 ∧ avr_has_pending_interupts demo_avr_cli = true ∧
    demo_avr_cli.pending_wait = 1 ∧
    avr_service_interupts demo_avr_cli = demo_avr_cli :=
  ⟨by decide, by decide, by decide, service_nothing_when_I_clear demo_avr_cli (by decide)⟩

/-- The edge detection of `avr_run`: on a rising edge of the I flag it
increments `pending_wait` by one (the counter being below its maximum), and
without a rising edge it leaves `pending_wait` unchanged. This holds for the
`i_shadow` test of `sim_avr.c` and for the SREG-mirror test of `simavr.c`. -/
theorem run_edge_increments (s : avr_t) (_hpw : s.pending_wait < 255) :
    ((s.sreg S_I ≠ 0 ∧ s.i_shadow = 0) →
      (avr_run_edge s).pending_wait = s.pending_wait + 1) ∧
    (¬ (s.sreg S_I ≠ 0 ∧ s.i_shadow = 0) →
      (avr_run_edge s).pending_wait = s.pending_wait) ∧
    (avr_run_edge s).i_shadow = s.sreg S_I ∧
    ((s.sreg S_I ≠ 0 ∧ s.data R_SREG &&& (1 <<< S_I) = 0) →
      (avr_run_edge_sreg s).pending_wait = s.pending_wait + 1) ∧
    (¬ (s.sreg S_I ≠ 0 ∧ s.data R_SREG &&& (1 <<< S_I) = 0) →
      (avr_run_edge_sreg s).pending_wait = s.pending_wait) := by
  refine ⟨?_, ?_, ?_, ?_, ?_⟩
  · intro h
    unfold avr_run_edge
    dsimp only
    rw [if_pos h]
  · intro h
    unfold avr_run_edge
    dsimp only
    rw [if_neg h]
  · unfold avr_run_edge
    dsimp only
    split <;> rfl
  · intro h
    unfold avr_run_edge_sreg
    rw [if_pos h]
  · intro h
    unfold avr_run_edge_sreg
    rw [if_neg h]

/-- Claim C6: the code departs from the claim where the I flag rises with
`pending_wait == 0` and a vector pending. The edge detection of both `avr_run`
variants leaves `pending_wait` at 1, not at the 2 that the claim states and that
`avr_raise_interupt` and `avr_service_interupts` arm; the
`avr_service_interupts` of the same tick then counts it down to 0 and enters
vector 16, so the tick whose instruction set the I flag ends at the vector with
the address after that instruction pushed. With the 2 of the claim the same
call leaves pc and the I flag alone. -/
theorem run_edge_from_zero_loses_latency :
    (demo_avr_edge.sreg S_I ≠ 0 ∧ demo_avr_edge.i_shadow = 0 ∧
      demo_avr_edge.data R_SREG &&& (1 <<< S_I) = 0 ∧
      demo_avr_edge.pending_wait = 0 ∧
      avr_is_interupt_pending demo_avr_edge demo_vector ≠ 0) ∧
    ((avr_run_edge demo_avr_edge).pending_wait = 1 ∧
      (avr_run_edge_sreg demo_avr_edge).pending_wait = 1 ∧
      (avr_run_edge demo_avr_edge).pending_wait ≠ 2 ∧
      (avr_run_edge_sreg demo_avr_edge).pending_wait ≠ 2) ∧
    ((avr_service_interupts (avr_run_edge demo_avr_edge)).pc = 16 * 2 ∧
      (avr_service_interupts (avr_run_edge demo_avr_edge)).sreg S_I = 0 ∧
      (avr_service_interupts (avr_run_edge_sreg demo_avr_edge)).pc = 16 * 2) ∧
    ((returned_state (avr_run demo_sei_env demo_sim_in_handler)).map
        (fun m => (m.avr.pc, m.avr.sreg S_I, m.avr.data 0x4fe, m.avr.pending 0))
        = some (16 * 2, 0, 0x102 >>> 1, 0) ∧
      returned_ran (avr_run demo_sei_env demo_sim_in_handler) = some 1 ∧
      (returned_state (avr_run_simavr demo_sei_env demo_avr_in_handler)).map
        (fun a => (a.pc, a.sreg S_I, a.pending 0)) = some (16 * 2, 0, 0)) ∧
    ((avr_service_interupts { avr_run_edge demo_avr_edge with pending_wait := 2 }).pc
        = demo_avr_edge.pc ∧
      (avr_service_interupts { avr_run_edge demo_avr_edge with pending_wait := 2 }).sreg S_I
        ≠ 0 ∧
      avr_is_interupt_pending
        (avr_service_interupts { avr_run_edge demo_avr_edge with pending_wait := 2 })
        demo_vector ≠ 0) := by
  refine ⟨⟨by decide, by decide, by decide, by decide, by decide⟩,
    ⟨by decide, by decide, by decide, by decide⟩,
    ⟨by decide, by decide, by decide⟩,
    ⟨by decide, by decide, by decide⟩,
    ⟨by decide, by decide, by decide⟩⟩

/-- Claim C7 (as amended): raising an enabled vector with a number in 1..63 that
is not yet pending leaves the CPU Running whatever its state was, in particular
when it was Sleeping. -/
theorem raise_wakes_sleeping_cpu (s : avr_t) (vec : avr_int_vector_t)
    (hv : vec.vector ≠ 0) (_hv64 : vec.vector < 64)
    (hen : vec.enable.reg = 0 ∨ avr_regbit_get (mark_raised s vec) vec.enable ≠ 0)
    (hnp : avr_is_interupt_pending s vec = 0) :
    (avr_raise_interupt s (some vec)).1.state = cpu_Running := by
  rw [raise_enabled s vec hv hen]
  have hf := mark_raised_frame s vec
  have hp : avr_is_interupt_pending (mark_raised s vec) vec = 0 := by
    unfold avr_is_interupt_pending pending_bit
    rw [hf.1]
    exact hnp
  exact queue_pending_state _ vec hp

/-- Claim C7, witness: the sleeping MCU and the enabled timer descriptor. -/
theorem raise_wakes_sleeping_cpu_witness :
    (demo_vector.vector ≠ 0 ∧ demo_vector.vector < 64 ∧ demo_avr.state = cpu_Sleeping ∧
      (demo_vector.enable.reg = 0 ∨
        avr_regbit_get (mark_raised demo_avr demo_vector) demo_vector.enable ≠ 0) ∧
      avr_is_interupt_pending demo_avr demo_vector = 0) ∧
    (avr_raise_interupt demo_avr (some demo_vector)).1.state = cpu_Running :=
  ⟨⟨by decide, by decide, by decide, by decide, by decide⟩,
   raise_wakes_sleeping_cpu demo_avr demo_vector (by decide) (by decide) (by decide)
     (by decide)⟩

/-- Claim C7, counterexample: a Sleeping CPU on which an enabled descriptor
that is not pending, with vector number 0, is raised stays Sleeping. -/
theorem raise_vector_zero_stays_sleeping :
    demo_avr.state = cpu_Sleeping ∧
    avr_regbit_get demo_avr demo_vector_zero.enable ≠ 0 ∧
    avr_is_interupt_pending demo_avr demo_vector_zero = 0 ∧
    (avr_raise_interupt demo_avr (some demo_vector_zero)).1.state = cpu_Sleeping ∧
    (avr_raise_interupt demo_avr (some demo_vector_zero)).1.state ≠ cpu_Running := by
  refine ⟨by decide, by decide, by decide, by decide, by decide⟩

/-! ## The hook loop -/

theorem modify_busy_back (l : List avr_irq_hook_t) :
    ∀ k h, l[k]? = some h → h.busy = 0 →
      List.modify (fun x : avr_irq_hook_t => { x with busy := x.busy - 1 }) k
        (List.modify (fun x : avr_irq_hook_t => { x with busy := x.busy + 1 }) k l) = l := by
  induction l with
  | nil => intro k h hk; simp at hk
  | cons a t ih =>
    intro k h hk hb
    cases k with
    | zero =>
      simp at hk
      subst hk
      cases a with
      | mk n q b =>
        simp only at hb
        subst hb
        simp [List.modify]
    | succ k =>
      simp at hk
      simp [List.modify]
      exact ih k h hk hb

theorem set_busy_calls (w : irq_bus) (p k : Nat) (f : Nat → Nat) :
    (set_busy w p k f).calls = w.calls := rfl

theorem set_busy_back (w : irq_bus) (p k : Nat) (h : avr_irq_hook_t) (c : List hook_call)
    (hk : (w.irqs p).hook[k]? = some h) (hb : h.busy = 0) :
    set_busy { set_busy w p k (fun b => b + 1) with calls := c } p k (fun b => b - 1)
      = { irqs := w.irqs, calls := c } := by
  unfold set_busy set_irq
  simp only [if_true]
  congr 1
  funext a
  by_cases ha : a = p
  · subst ha
    simp only [if_true]
    rw [modify_busy_back _ k h hk hb]
  · simp only [if_neg ha]

theorem walk_hooks_quiet (cb : callbacks) (raise : irq_bus → Nat → Nat → Option irq_bus)
    (p value : Nat) (l : List avr_irq_hook_t)
    (hcb : ∀ h ∈ l, cb h.notify p value h.param = []) :
    ∀ n k (w : irq_bus), (w.irqs p).hook = l → l.length ≤ n + k →
      walk_hooks cb raise p value n k w =
        some { irqs := w.irqs,
               calls := w.calls ++ ((l.drop k).filter hook_fires).map (call_of p value) } := by
  intro n
  induction n with
  | zero =>
    intro k w _ hlen
    have : l.drop k = [] := List.drop_eq_nil_of_le (by omega)
    simp [walk_hooks, this]
  | succ n ih =>
    intro k w hl hlen
    unfold walk_hooks
    cases hk : (w.irqs p).hook[k]? with
    | none =>
      have hk2 : l.length ≤ k := by
        rw [hl] at hk
        exact List.getElem?_eq_none_iff.mp hk
      have : l.drop k = [] := List.drop_eq_nil_of_le hk2
      simp [this]
    | some h =>
      have hk0 := hk
      rw [hl] at hk
      obtain ⟨hklt, hget⟩ := List.getElem?_eq_some.mp hk
      have hdrop : l.drop k = h :: l.drop (k + 1) := by
        rw [← hget]; exact List.drop_eq_getElem_cons hklt
      have hmem : h ∈ l := by rw [← hget]; exact List.getElem_mem _
      dsimp only
      by_cases hf : h.notify ≠ 0 ∧ h.busy = 0
      · rw [if_pos hf, hcb h hmem]
        simp only [run_raises]
        rw [set_busy_back w p k h _ hk0 hf.2]
        rw [ih (k + 1) _ (by exact hl) (by omega), hdrop]
        have : hook_fires h = true := by
          unfold hook_fires; simp [hf.1, hf.2]
        simp [List.filter, this, call_of, set_busy_calls]
      · rw [if_neg hf]
        rw [ih (k + 1) w hl (by omega), hdrop]
        have : hook_fires h = false := by
          unfold hook_fires
          by_cases h1 : h.notify = 0
          · simp [h1]
          · have : h.busy ≠ 0 := fun h2 => hf ⟨h1, h2⟩
            simp [this]
        simp [List.filter, this]

/-- A raise of a changed value whose callbacks raise nothing: the hooks that
fire are invoked once each, in list order, and then the value is stored. -/
theorem raise_quiet (cb : callbacks) (fuel : Nat) (w : irq_bus) (irq v : Nat)
    (hirq : irq ≠ 0) (hv : (w.irqs irq).value ≠ v)
    (hcb : ∀ h ∈ (w.irqs irq).hook, cb h.notify irq v h.param = []) :
    avr_raise_irq cb (fuel + 1) w irq v =
      some (set_irq
        { irqs := w.irqs,
          calls := w.calls ++ ((w.irqs irq).hook.filter hook_fires).map (call_of irq v) }
        irq { w.irqs irq with value := v }) := by
  unfold avr_raise_irq
  rw [if_neg (by intro h; rcases h with h | h; exact hirq h; exact hv h)]
  rw [walk_hooks_quiet cb _ irq v (w.irqs irq).hook hcb _ 0 w rfl (by omega)]
  simp

theorem filter_all_fire (l : List avr_irq_hook_t)
    (h : ∀ x ∈ l, x.notify ≠ 0 ∧ x.busy = 0) : l.filter hook_fires = l := by
  apply List.filter_eq_self.mpr
  intro x hx
  unfold hook_fires
  simp [(h x hx).1, (h x hx).2]

theorem call_of_nodup (p v : Nat) (l : List avr_irq_hook_t)
    (hd : (l.map (fun h => (h.notify, h.param))).Nodup) :
    (l.map (call_of p v)).Nodup := by
  have hinj : Function.Injective
      (fun q : Nat × Nat => ({ notify := q.1, irq := p, value := v, param := q.2 } : hook_call)) := by
    intro a b hab
    simp only [hook_call.mk.injEq] at hab
    exact Prod.ext hab.1 hab.2.2.2
  have := List.Nodup.map hinj hd
  rw [List.map_map] at this
  exact this

/-- A nested `avr_raise_irq` on an IRQ whose only hook is busy invokes nothing:
it stores the value at most. -/
theorem raise_busy_single (cb : callbacks) (fuel : Nat) (w : irq_bus) (irq u : Nat)
    (h : avr_irq_hook_t) (hb : h.busy ≠ 0) (hl : (w.irqs irq).hook = [h]) :
    ∃ w1, avr_raise_irq cb (fuel + 1) w irq u = some w1 ∧ w1.calls = w.calls ∧
      (w1.irqs irq).hook = [h] := by
  unfold avr_raise_irq
  by_cases hc : irq = 0 ∨ (w.irqs irq).value = u
  · rw [if_pos hc]
    exact ⟨w, rfl, rfl, hl⟩
  · rw [if_neg hc, hl]
    have hwalk : walk_hooks cb (avr_raise_irq cb fuel) irq u [h].length 0 w = some w := by
      simp only [List.length_singleton]
      unfold walk_hooks
      rw [hl]
      simp only [List.getElem?_cons_zero]
      rw [if_neg (fun hh => hb hh.2)]
      unfold walk_hooks
      rfl
    rw [hwalk]
    refine ⟨_, rfl, rfl, ?_⟩
    simp [set_irq, hl]

theorem run_raises_busy_single (cb : callbacks) (fuel : Nat) (irq : Nat)
    (h : avr_irq_hook_t) (hb : h.busy ≠ 0) :
    ∀ (acts : List (Nat × Nat)) (w : irq_bus), (∀ q ∈ acts, q.1 = irq) →
      (w.irqs irq).hook = [h] →
      ∃ w1, run_raises (avr_raise_irq cb (fuel + 1)) acts w = some w1 ∧ w1.calls = w.calls ∧
        (w1.irqs irq).hook = [h] := by
  intro acts
  induction acts with
  | nil => intro w _ hl; exact ⟨w, rfl, rfl, hl⟩
  | cons q rest ih =>
    intro w hq hl
    obtain ⟨t, u⟩ := q
    have ht : t = irq := hq (t, u) (List.mem_cons_self _ _)
    subst ht
    obtain ⟨w1, e1, c1, l1⟩ := raise_busy_single cb fuel w t u h hb hl
    obtain ⟨w2, e2, c2, l2⟩ := ih w1 (fun q hq2 => hq q (List.mem_cons_of_mem _ hq2)) l1
    refine ⟨w2, ?_, by rw [c2, c1], l2⟩
    simp only [run_raises]
    rw [e1]
    exact e2

/-- A raise of a changed value on an IRQ with a single hook whose callback
raises only that same IRQ: the hook is invoked once, its re-entry is dropped. -/
theorem raise_single_reentrant (cb : callbacks) (fuel : Nat) (w : irq_bus) (irq v : Nat)
    (h : avr_irq_hook_t) (hirq : irq ≠ 0) (hv : (w.irqs irq).value ≠ v)
    (hl : (w.irqs irq).hook = [h]) (hn : h.notify ≠ 0) (hb : h.busy = 0)
    (hq : ∀ q ∈ cb h.notify irq v h.param, q.1 = irq) :
    ∃ w1, avr_raise_irq cb (fuel + 2) w irq v = some w1 ∧
      w1.calls = w.calls ++ [call_of irq v h] ∧
      (w1.irqs irq).value = v ∧ (w1.irqs irq).hook = [h] := by
  have hbusy1 : ({ h with busy := h.busy + 1 } : avr_irq_hook_t).busy ≠ 0 := by simp
  have hl1 : ∀ c, (({ set_busy w irq 0 (fun b => b + 1) with calls := c } : irq_bus).irqs irq).hook
      = [{ h with busy := h.busy + 1 }] := by
    intro c
    simp [set_busy, set_irq, hl, List.modify]
  obtain ⟨w3, e3, c3, l3⟩ := run_raises_busy_single cb fuel irq _ hbusy1
    (cb h.notify irq v h.param)
    { set_busy w irq 0 (fun b => b + 1) with
      calls := (set_busy w irq 0 (fun b => b + 1)).calls ++
        [{ notify := h.notify, irq := irq, value := v, param := h.param }] }
    hq (hl1 _)
  have hwalk : walk_hooks cb (avr_raise_irq cb (fuel + 1)) irq v (w.irqs irq).hook.length 0 w
      = some (set_busy w3 irq 0 (fun b => b - 1)) := by
    rw [hl]
    simp only [List.length_singleton]
    unfold walk_hooks
    rw [hl]
    simp only [List.getElem?_cons_zero]
    rw [if_pos ⟨hn, hb⟩]
    rw [e3]
    dsimp only
    unfold walk_hooks
    rfl
  refine ⟨set_irq (set_busy w3 irq 0 (fun b => b - 1)) irq
    { (set_busy w3 irq 0 (fun b => b - 1)).irqs irq with value := v }, ?_, ?_, ?_, ?_⟩
  · show avr_raise_irq cb (fuel + 1 + 1) w irq v = _
    unfold avr_raise_irq
    rw [if_neg (by intro hh; rcases hh with hh | hh; exact hirq hh; exact hv hh), hwalk]
  · show w3.calls = _
    rw [c3]
    rfl
  · simp [set_irq]
  · cases h with
    | mk n q b =>
      simp only at hb
      subst hb
      simp [set_irq, set_busy, l3, List.modify]

theorem register_new (w : irq_bus) (irq notify param : Nat) (hirq : irq ≠ 0)
    (hn : notify ≠ 0)
    (hnew : ∀ h ∈ (w.irqs irq).hook, ¬ (h.notify = notify ∧ h.param = param)) :
    avr_irq_register_notify w irq notify param =
      set_irq w irq { w.irqs irq with
        hook := { notify := notify, param := param, busy := 0 } :: (w.irqs irq).hook } := by
  unfold avr_irq_register_notify
  rw [if_neg (by intro h; rcases h with h | h; exact hirq h; exact hn h), if_neg]
  simp only [List.any_eq_true, Bool.and_eq_true, decide_eq_true_eq, not_exists, not_and]
  intro h hmem h1 h2
  exact hnew h hmem ⟨h1, h2⟩

/-! ## Claims on the IRQ bus -/

/-- Claim C8: raising an IRQ with its current value, or raising a null IRQ,
returns at once: no hook is invoked and the bus (value, hook lists, busy
counters, trace) is unchanged. -/
theorem raise_same_value_is_noop (cb : callbacks) (fuel : Nat) (w : irq_bus) (irq v : Nat)
    (h : irq = 0 ∨ (w.irqs irq).value = v) :
    avr_raise_irq cb (fuel + 1) w irq v = some w := by
  unfold avr_raise_irq
  rw [if_pos h]

/-- Claim C8, witness: IRQ 10 holds 0 and is raised with 0 while hooks A and B
are registered. -/
theorem raise_same_value_is_noop_witness :
    ((10 : Nat) = 0 ∨ (demo_bus_two.irqs 10).value = 0) ∧
    avr_raise_irq reraising_callbacks (0 + 1) demo_bus_two 10 0 = some demo_bus_two :=
  ⟨by decide, raise_same_value_is_noop reraising_callbacks 0 demo_bus_two 10 0 (by decide)⟩

theorem register_noop_of_present (w : irq_bus) (irq notify param : Nat)
    (hp : ∃ h ∈ (w.irqs irq).hook, h.notify = notify ∧ h.param = param) :
    avr_irq_register_notify w irq notify param = w := by
  unfold avr_irq_register_notify
  split
  · rfl
  · rw [if_pos]
    obtain ⟨h, hm, h1, h2⟩ := hp
    simp only [List.any_eq_true, Bool.and_eq_true, decide_eq_true_eq]
    exact ⟨h, hm, h1, h2⟩

theorem register_other_irq (w : irq_bus) (irq notify param a : Nat) (ha : a ≠ irq) :
    (avr_irq_register_notify w irq notify param).irqs a = w.irqs a := by
  unfold avr_irq_register_notify
  split
  · rfl
  · split
    · rfl
    · simp [set_irq, ha]

theorem register_keeps_nodup (w : irq_bus) (irq notify param a : Nat)
    (hd : ((w.irqs a).hook.map hook_pair).Nodup) :
    (((avr_irq_register_notify w irq notify param).irqs a).hook.map hook_pair).Nodup := by
  by_cases ha : a = irq
  · subst ha
    by_cases h0 : a = 0 ∨ notify = 0
    · unfold avr_irq_register_notify
      rw [if_pos h0]; exact hd
    · by_cases hp : ∃ h ∈ (w.irqs a).hook, h.notify = notify ∧ h.param = param
      · rw [register_noop_of_present w a notify param hp]; exact hd
      · have hnew : ∀ h ∈ (w.irqs a).hook, ¬ (h.notify = notify ∧ h.param = param) := by
          intro h hm hh; exact hp ⟨h, hm, hh⟩
        rw [register_new w a notify param (fun h => h0 (Or.inl h)) (fun h => h0 (Or.inr h)) hnew]
        simp only [set_irq, if_true, List.map_cons, List.nodup_cons]
        refine ⟨?_, hd⟩
        intro hmem
        obtain ⟨h, hm, he⟩ := List.mem_map.mp hmem
        unfold hook_pair at he
        simp only [Prod.mk.injEq] at he
        exact hnew h hm he
  · rw [register_other_irq w irq notify param a ha]; exact hd

theorem register_all_nodup (reqs : List (Nat × Nat × Nat)) :
    ∀ (w : irq_bus) (a : Nat), ((w.irqs a).hook.map hook_pair).Nodup →
      (((register_all w reqs).irqs a).hook.map hook_pair).Nodup := by
  induction reqs with
  | nil => intro w a hd; exact hd
  | cons r rest ih =>
    intro w a hd
    unfold register_all
    rw [List.foldl_cons]
    exact ih _ a (register_keeps_nodup w r.1 r.2.1 r.2.2 a hd)

/-- Claim C11: `avr_irq_register_notify` deduplicates by the pair (callback,
payload). A null IRQ or a null callback registers nothing; a pair already on the
hook list leaves the bus unchanged; a new pair is put on the list, which gets
longer by exactly one and keeps all earlier hooks, other IRQs being untouched; so
a list without a repeated pair stays so, and every list built from hook-less
IRQs by registrations has no pair twice. -/
theorem register_notify_deduplicates (w : irq_bus) (irq notify param : Nat) :
    ((irq = 0 ∨ notify = 0) → avr_irq_register_notify w irq notify param = w) ∧
    ((∃ h ∈ (w.irqs irq).hook, h.notify = notify ∧ h.param = param) →
      avr_irq_register_notify w irq notify param = w) ∧
    (irq ≠ 0 → notify ≠ 0 →
      (∀ h ∈ (w.irqs irq).hook, ¬ (h.notify = notify ∧ h.param = param)) →
      ((avr_irq_register_notify w irq notify param).irqs irq).hook =
          { notify := notify, param := param, busy := 0 } :: (w.irqs irq).hook ∧
        ((avr_irq_register_notify w irq notify param).irqs irq).hook.length =
          (w.irqs irq).hook.length + 1 ∧
        (∀ h ∈ (w.irqs irq).hook,
          h ∈ ((avr_irq_register_notify w irq notify param).irqs irq).hook) ∧
        ((avr_irq_register_notify w irq notify param).irqs irq).value = (w.irqs irq).value) ∧
    (∀ a, a ≠ irq → (avr_irq_register_notify w irq notify param).irqs a = w.irqs a) ∧
    (∀ a, ((w.irqs a).hook.map hook_pair).Nodup →
      (((avr_irq_register_notify w irq notify param).irqs a).hook.map hook_pair).Nodup) ∧
    (∀ (reqs : List (Nat × Nat × Nat)) (a : Nat),
      (((register_all empty_bus reqs).irqs a).hook.map hook_pair).Nodup) := by
  refine ⟨?_, register_noop_of_present w irq notify param, ?_,
    fun a ha => register_other_irq w irq notify param a ha,
    fun a hd => register_keeps_nodup w irq notify param a hd, ?_⟩
  · intro h0
    unfold avr_irq_register_notify
    rw [if_pos h0]
  · intro hirq hn hnew
    rw [register_new w irq notify param hirq hn hnew]
    simp only [set_irq, if_true, List.length_cons, true_and, and_true]
    exact fun h hm => List.mem_cons_of_mem _ hm
  · intro reqs a
    apply register_all_nodup reqs empty_bus a
    simp [empty_bus]

/-- Claim C11, evaluated: registering A = (1, 100), B = (2, 200) and A again on
IRQ 10 leaves the list [B, A]; a null callback and a null IRQ register nothing. -/
theorem register_notify_deduplicates_witness :
    ((register_all empty_bus [(10, 1, 100), (10, 2, 200), (10, 1, 100)]).irqs 10).hook =
      [{ notify := 2, param := 200, busy := 0 }, { notify := 1, param := 100, busy := 0 }] ∧
    ((avr_irq_register_notify demo_bus_two 10 0 7).irqs 10).hook = (demo_bus_two.irqs 10).hook ∧
    ((avr_irq_register_notify demo_bus_two 0 3 7).irqs 0).hook = [] ∧
    (((register_all empty_bus [(10, 1, 100), (10, 2, 200), (10, 1, 100)]).irqs 10).hook.map
      hook_pair).Nodup :=
  ⟨by decide, by decide, by decide,
   (register_notify_deduplicates empty_bus 10 1 100).2.2.2.2.2
     [(10, 1, 100), (10, 2, 200), (10, 1, 100)] 10⟩

/-- The hook loop from position `k` on, when the callbacks of the hooks from `k`
on raise nothing. -/
theorem walk_hooks_quiet_from (cb : callbacks)
    (raise : irq_bus → Nat → Nat → Option irq_bus) (p value : Nat)
    (l : List avr_irq_hook_t) :
    ∀ n k (w : irq_bus), (w.irqs p).hook = l → l.length ≤ n + k →
      (∀ h ∈ l.drop k, cb h.notify p value h.param = []) →
      walk_hooks cb raise p value n k w =
        some { irqs := w.irqs,
               calls := w.calls ++ ((l.drop k).filter hook_fires).map (call_of p value) } := by
  intro n
  induction n with
  | zero =>
    intro k w _ hlen _
    have : l.drop k = [] := List.drop_eq_nil_of_le (by omega)
    simp [walk_hooks, this]
  | succ n ih =>
    intro k w hl hlen hcb
    unfold walk_hooks
    cases hk : (w.irqs p).hook[k]? with
    | none =>
      have hk2 : l.length ≤ k := by
        rw [hl] at hk
        exact List.getElem?_eq_none_iff.mp hk
      have : l.drop k = [] := List.drop_eq_nil_of_le hk2
      simp [this]
    | some h =>
      have hk0 := hk
      rw [hl] at hk
      obtain ⟨hklt, hget⟩ := List.getElem?_eq_some.mp hk
      have hdrop : l.drop k = h :: l.drop (k + 1) := by
        rw [← hget]; exact List.drop_eq_getElem_cons hklt
      have hmem : h ∈ l.drop k := by rw [hdrop]; exact List.mem_cons_self _ _
      have hrest : ∀ x ∈ l.drop (k + 1), cb x.notify p value x.param = [] := by
        intro x hx
        apply hcb x
        rw [hdrop]; exact List.mem_cons_of_mem _ hx
      dsimp only
      by_cases hf : h.notify ≠ 0 ∧ h.busy = 0
      · rw [if_pos hf, hcb h hmem]
        simp only [run_raises]
        rw [set_busy_back w p k h _ hk0 hf.2]
        rw [ih (k + 1) _ (by exact hl) (by omega) hrest, hdrop]
        have : hook_fires h = true := by
          unfold hook_fires; simp [hf.1, hf.2]
        simp [List.filter, this, call_of, set_busy_calls]
      · rw [if_neg hf]
        rw [ih (k + 1) w hl (by omega) hrest, hdrop]
        have : hook_fires h = false := by
          unfold hook_fires
          by_cases h1 : h.notify = 0
          · simp [h1]
          · have : h.busy ≠ 0 := fun h2 => hf ⟨h1, h2⟩
            simp [this]
        simp [List.filter, this]

/-- A raise on an IRQ whose callbacks raise nothing: it returns, the IRQ holds the
value afterwards, its hooks are invoked exactly when the value changes, and
every other IRQ is untouched. -/
theorem raise_quiet_target (cb : callbacks) (fuel : Nat) (w : irq_bus) (dst b : Nat)
    (hdst : dst ≠ 0)
    (hq : ∀ h ∈ (w.irqs dst).hook, cb h.notify dst b h.param = []) :
    ∃ w3, avr_raise_irq cb (fuel + 1) w dst b = some w3 ∧
      (w3.irqs dst).value = b ∧ (∀ a, a ≠ dst → w3.irqs a = w.irqs a) ∧
      w3.calls = w.calls ++
        (if (w.irqs dst).value = b then []
         else ((w.irqs dst).hook.filter hook_fires).map (call_of dst b)) := by
  by_cases hv : (w.irqs dst).value = b
  · refine ⟨w, ?_, hv, fun _ _ => rfl, ?_⟩
    · unfold avr_raise_irq
      rw [if_pos (Or.inr hv)]
    · rw [if_pos hv, List.append_nil]
  · refine ⟨_, raise_quiet cb fuel w dst b hdst hv hq, ?_, ?_, ?_⟩
    · simp [set_irq]
    · intro a ha
      simp [set_irq, ha]
    · rw [if_neg hv]
      rfl

/-- One turn of the hook loop on a hook that fires. -/
theorem walk_hooks_fire (cb : callbacks) (raise : irq_bus → Nat → Nat → Option irq_bus)
    (p value n k : Nat) (w w3 : irq_bus) (h : avr_irq_hook_t)
    (hk : (w.irqs p).hook[k]? = some h) (hf : h.notify ≠ 0 ∧ h.busy = 0)
    (hrun : run_raises raise (cb h.notify p value h.param)
      { set_busy w p k (fun b => b + 1) with
        calls := (set_busy w p k (fun b => b + 1)).calls ++
          [{ notify := h.notify, irq := p, value := value, param := h.param }] } = some w3) :
    walk_hooks cb raise p value (n + 1) k w =
      walk_hooks cb raise p value n (k + 1) (set_busy w3 p k (fun b => b - 1)) := by
  rw [walk_hooks, hk]
  dsimp only
  rw [if_pos hf, hrun]

/-! ## Claims on the guarded accessors and on reset -/

/-- Claim C13: `avr_core_watch_write(addr, v)` goes through `CRASH()` exactly when
`addr > ramend` or `addr < 32`, and then `data[]` (the whole state) is as before
the call; otherwise it returns, `data[addr]` holds the byte `v` and every other
byte of `data[]` is unchanged. -/
theorem watch_write_faults_iff (avr : avr_t) (addr v : Nat) :
    ((addr > avr.ramend ∨ addr < 32) →
      avr_core_watch_write avr addr v = outcome.crash avr) ∧
    (¬ (addr > avr.ramend ∨ addr < 32) →
      ∃ avr1, avr_core_watch_write avr addr v = outcome.done avr1 ∧
        avr1.data addr = v % 256 ∧ (v < 256 → avr1.data addr = v) ∧
        (∀ a, a ≠ addr → avr1.data a = avr.data a) ∧
        avr1 = { avr with data := avr1.data }) := by
  constructor
  · intro h
    unfold avr_core_watch_write
    by_cases h1 : addr > avr.ramend
    · rw [if_pos h1]
    · rw [if_neg h1, if_pos (by rcases h with h | h; exact absurd h h1; exact h)]
  · intro h
    have h1 : ¬ addr > avr.ramend := fun hh => h (Or.inl hh)
    have h2 : ¬ addr < 32 := fun hh => h (Or.inr hh)
    refine ⟨set_data avr addr v, ?_, ?_, ?_, ?_, rfl⟩
    · unfold avr_core_watch_write
      rw [if_neg h1, if_neg h2]
    · simp [set_data]
    · intro hv
      simp [set_data, Nat.mod_eq_of_lt hv]
    · intro a ha
      simp [set_data, ha]

/-- Claim C13, evaluated: on the MCU with `ramend = 0x4ff` a write to 0x500 and a
write to register 31 crash, a write of 0xab to 0x100 is stored. -/
theorem watch_write_faults_iff_witness :
    (∃ avr1, avr_core_watch_write demo_avr 0x100 0xab = outcome.done avr1 ∧
      avr1.data 0x100 = 0xab % 256 ∧ ((0xab : Nat) < 256 → avr1.data 0x100 = 0xab) ∧
      (∀ a, a ≠ 0x100 → avr1.data a = demo_avr.data a) ∧
      avr1 = { demo_avr with data := avr1.data }) ∧
    avr_core_watch_write demo_avr 0x500 1 = outcome.crash demo_avr ∧
    avr_core_watch_write demo_avr 31 1 = outcome.crash demo_avr :=
  ⟨(watch_write_faults_iff demo_avr 0x100 0xab).2 (by decide),
   (watch_write_faults_iff demo_avr 0x500 1).1 (by decide),
   (watch_write_faults_iff demo_avr 31 1).1 (by decide)⟩

/-- Claim C14: for `32 <= addr <= ramend` and a byte `v`, the write returns and a
read of `addr` in the state it leaves returns `v`; `avr_core_watch_read` goes
through `CRASH()` exactly when `addr > ramend`, and in either case the state,
`data[]` included, is the one before the call. -/
theorem watch_read_after_write (avr : avr_t) (addr v : Nat)
    (hlo : 32 ≤ addr) (hhi : addr ≤ avr.ramend) (hv : v < 256) :
    (∃ avr1, avr_core_watch_write avr addr v = outcome.done avr1 ∧
      avr_core_watch_read avr1 addr = outcome.done (avr1, v)) ∧
    (∀ (s : avr_t) (a : Nat),
      (a > s.ramend → avr_core_watch_read s a = outcome.crash s) ∧
      (¬ a > s.ramend → avr_core_watch_read s a = outcome.done (s, s.data a))) := by
  constructor
  · refine ⟨set_data avr addr v, ?_, ?_⟩
    · unfold avr_core_watch_write
      rw [if_neg (by omega), if_neg (by omega)]
    · unfold avr_core_watch_read
      have : ¬ addr > (set_data avr addr v).ramend := by
        show ¬ addr > avr.ramend
        omega
      rw [if_neg this]
      simp [set_data, Nat.mod_eq_of_lt hv]
  · intro s a
    constructor
    · intro h
      unfold avr_core_watch_read
      rw [if_pos h]
    · intro h
      unfold avr_core_watch_read
      rw [if_neg h]

/-- Claim C14, witness: 0xab written to and read back from `data[0x100]`. -/
theorem watch_read_after_write_witness :
    ((32 : Nat) ≤ 0x100 ∧ 0x100 ≤ demo_avr.ramend ∧ (0xab : Nat) < 256) ∧
    ((∃ avr1, avr_core_watch_write demo_avr 0x100 0xab = outcome.done avr1 ∧
      avr_core_watch_read avr1 0x100 = outcome.done (avr1, 0xab)) ∧
    (∀ (s : avr_t) (a : Nat),
      (a > s.ramend → avr_core_watch_read s a = outcome.crash s) ∧
      (¬ a > s.ramend → avr_core_watch_read s a = outcome.done (s, s.data a)))) :=
  ⟨⟨by decide, by decide, by decide⟩,
   watch_read_after_write demo_avr 0x100 0xab (by decide) (by decide) (by decide)⟩

theorem reset_ports_no_hooks (ports : List avr_io_t) (h : ∀ p ∈ ports, p.reset = none) :
    ∀ avr, reset_ports ports avr = avr := by
  induction ports with
  | nil => intro avr; rfl
  | cons p rest ih =>
    intro avr
    unfold reset_ports
    rw [h p (List.mem_cons_self _ _)]
    exact ih (fun q hq => h q (List.mem_cons_of_mem _ hq)) avr

/-- The state `avr_reset` leaves when there is no reset hook. -/
theorem reset_no_hooks (hooks : avr_hooks) (avr : avr_t)
    (hcore : hooks.reset = none) (hports : ∀ p ∈ hooks.io_port, p.reset = none) :
    avr_reset hooks avr =
      clear_sreg { _avr_sp_set (clear_data avr) avr.ramend with pc := 0 } := by
  unfold avr_reset
  dsimp only
  rw [hcore]
  exact reset_ports_no_hooks _ hports _

theorem sp_get_after_set (avr : avr_t) (sp : Nat) (h : sp < 65536) :
    _avr_sp_get (_avr_sp_set avr sp) = sp := by
  unfold _avr_sp_get _avr_sp_set set_data R_SPL R_SPH
  simp only [if_true]
  have e1 : (32 + 61 : Nat) = 32 + 62 ↔ False := by decide
  simp only [e1, if_false]
  have hh : sp >>> 8 < 256 := by
    rw [Nat.shiftRight_eq_div_pow]
    omega
  rw [Nat.mod_eq_of_lt h, Nat.mod_eq_of_lt hh]
  have hl : (sp &&& 255) % 256 = sp % 256 := by
    have : (255 : Nat) = 2 ^ 8 - 1 := by norm_num
    rw [this, Nat.and_pow_two_sub_one_eq_mod]
    norm_num
  rw [hl]
  apply Nat.eq_of_testBit_eq
  intro i
  have e8 : (256 : Nat) = 2 ^ 8 := by norm_num
  rw [Nat.testBit_or, Nat.testBit_shiftLeft, Nat.testBit_shiftRight, e8, Nat.testBit_mod_two_pow]
  by_cases hi : i < 8
  · have : ¬ i ≥ 8 := by omega
    simp [hi, this]
  · have h8 : i ≥ 8 := by omega
    have : 8 + (i - 8) = i := by omega
    simp [hi, h8, this]

/-- Claim C15: after `avr_reset` with no core and no peripheral reset hook,
`pc == 0`, the eight `sreg` flags are 0, SP is `ramend` (a 16-bit value) and
every byte of `data[0..ramend]` other than the two stack-pointer bytes is 0; a
second `avr_reset` leaves that state as it is. -/
theorem reset_gives_power_on_state (hooks : avr_hooks) (avr : avr_t)
    (hcore : hooks.reset = none) (hports : ∀ p ∈ hooks.io_port, p.reset = none)
    (hram : avr.ramend < 65536) :
    (avr_reset hooks avr).pc = 0 ∧
    (∀ i, i < 8 → (avr_reset hooks avr).sreg i = 0) ∧
    _avr_sp_get (avr_reset hooks avr) = avr.ramend ∧
    (∀ a, a ≤ avr.ramend → a ≠ R_SPL → a ≠ R_SPH → (avr_reset hooks avr).data a = 0) ∧
    avr_reset hooks (avr_reset hooks avr) = avr_reset hooks avr := by
  rw [reset_no_hooks hooks avr hcore hports, reset_no_hooks hooks _ hcore hports]
  refine ⟨rfl, ?_, ?_, ?_, ?_⟩
  · intro i hi
    simp [clear_sreg, hi]
  · have := sp_get_after_set (clear_data avr) avr.ramend hram
    unfold _avr_sp_get at this ⊢
    exact this
  · intro a ha h1 h2
    simp [clear_sreg, _avr_sp_set, set_data, clear_data, ha, h1, h2]
  · simp only [clear_sreg, _avr_sp_set, clear_data, set_data]
    congr 1
    · funext i
      by_cases hi : i < 8 <;> simp [hi]
    · funext a
      by_cases h2 : a = R_SPH
      · simp [h2]
      · by_cases h1 : a = R_SPL
        · simp [h1, h2]
        · by_cases ha : a ≤ avr.ramend <;> simp [h1, h2, ha]

/-- Claim C15, witness: the sleeping MCU, whose chain has no reset handler. -/
theorem reset_gives_power_on_state_witness :
    (demo_hooks.reset = none ∧ (∀ p ∈ demo_hooks.io_port, p.reset = none) ∧
      demo_avr.ramend < 65536) ∧
    (avr_reset demo_hooks demo_avr).data R_SPL = 0xff ∧
    (avr_reset demo_hooks demo_avr).data R_SPH = 4 ∧
    (avr_reset demo_hooks demo_avr).data 0x6e = 0 ∧
    ((avr_reset demo_hooks demo_avr).pc = 0 ∧
    (∀ i, i < 8 → (avr_reset demo_hooks demo_avr).sreg i = 0) ∧
    _avr_sp_get (avr_reset demo_hooks demo_avr) = demo_avr.ramend ∧
    (∀ a, a ≤ demo_avr.ramend → a ≠ R_SPL → a ≠ R_SPH →
      (avr_reset demo_hooks demo_avr).data a = 0) ∧
    avr_reset demo_hooks (avr_reset demo_hooks demo_avr) = avr_reset demo_hooks demo_avr) :=
  ⟨⟨rfl, by
      intro p hp
      simp only [demo_hooks, avr_register_io, demo_hooks_empty, List.mem_cons,
        List.mem_singleton, List.not_mem_nil, or_false] at hp
      rcases hp with h | h | h | h <;> rw [h] <;> rfl,
    by decide⟩,
   by decide, by decide, by decide,
   reset_gives_power_on_state demo_hooks demo_avr rfl (by
      intro p hp
      simp only [demo_hooks, avr_register_io, demo_hooks_empty, List.mem_cons,
        List.mem_singleton, List.not_mem_nil, or_false] at hp
      rcases hp with h | h | h | h <;> rw [h] <;> rfl) (by decide)⟩

/-! ## Claims on the peripheral chain -/

theorem ioctl_loop_done (ctl io_param : Nat) (ports : List avr_io_t) (avr : avr_t)
    (res : Int) (called : List String) (h : res ≠ -1) :
    ioctl_loop ctl io_param ports avr res called = (avr, res, called) := by
  cases ports with
  | nil => rfl
  | cons p rest =>
    unfold ioctl_loop
    rw [if_neg h]

theorem ioctl_loop_misses (ctl io_param : Nat) (pre : List avr_io_t)
    (hmiss : ∀ q ∈ pre, ∀ g, q.ioctl = some g → ∀ s, (g s ctl io_param).2 = -1) :
    ∀ (rest : List avr_io_t) (avr : avr_t) (called : List String),
      ioctl_loop ctl io_param (pre ++ rest) avr (-1) called =
        ioctl_loop ctl io_param rest (ioctl_misses ctl io_param pre avr) (-1)
          (called ++ ioctl_kinds pre) := by
  induction pre with
  | nil =>
    intro rest avr called
    simp [ioctl_misses, ioctl_kinds]
  | cons q pre ih =>
    intro rest avr called
    have ih2 := ih (fun x hx => hmiss x (List.mem_cons_of_mem _ hx))
    rw [List.cons_append, ioctl_loop, if_pos rfl]
    cases hq : q.ioctl with
    | none =>
      simp only [ioctl_misses, ioctl_kinds, hq]
      exact ih2 rest avr called
    | some g =>
      simp only [ioctl_misses, ioctl_kinds, hq]
      rw [hmiss q (List.mem_cons_self _ _) g hq avr, ih2]
      simp

/-- Claim C16: `avr_ioctl` returns -1 on an empty chain; when the handlers before
a peripheral all answer -1 and its own handler answers something else, that
answer is returned and the handlers called are those before it and its own, no
later one; peripherals without a handler are skipped; when every handler answers
-1, the result is -1 and every handler was called. -/
theorem ioctl_returns_first_handled (hooks : avr_hooks) (avr : avr_t) (ctl io_param : Nat) :
    (hooks.io_port = [] → avr_ioctl hooks avr ctl io_param = (avr, -1, [])) ∧
    (∀ pre p post f, hooks.io_port = pre ++ p :: post → p.ioctl = some f →
      (∀ q ∈ pre, ∀ g, q.ioctl = some g → ∀ s, (g s ctl io_param).2 = -1) →
      (f (ioctl_misses ctl io_param pre avr) ctl io_param).2 ≠ -1 →
      avr_ioctl hooks avr ctl io_param =
        ((f (ioctl_misses ctl io_param pre avr) ctl io_param).1,
         (f (ioctl_misses ctl io_param pre avr) ctl io_param).2,
         ioctl_kinds pre ++ [p.kind])) ∧
    ((∀ q ∈ hooks.io_port, ∀ g, q.ioctl = some g → ∀ s, (g s ctl io_param).2 = -1) →
      avr_ioctl hooks avr ctl io_param =
        (ioctl_misses ctl io_param hooks.io_port avr, -1, ioctl_kinds hooks.io_port)) := by
  refine ⟨?_, ?_, ?_⟩
  · intro h
    unfold avr_ioctl
    rw [h]
    rfl
  · intro pre p post f hchain hp hmiss hhit
    unfold avr_ioctl
    rw [hchain, ioctl_loop_misses ctl io_param pre hmiss, ioctl_loop, if_pos rfl, hp]
    dsimp only
    rw [ioctl_loop_done ctl io_param post _ _ _ hhit]
    simp
  · intro hmiss
    unfold avr_ioctl
    have := ioctl_loop_misses ctl io_param hooks.io_port hmiss [] avr []
    rw [List.append_nil] at this
    rw [this]
    simp [ioctl_loop]

/-- Claim C16, evaluated: on the chain twi (7), eeprom (0), bare, uart (-1) the
handler of twi answers 7 and no other handler is called; behind a handler that
answers -1 and a peripheral without handler the answer of eeprom is returned. -/
theorem ioctl_returns_first_handled_witness :
    (avr_ioctl demo_hooks demo_avr 1 2).2 = (7, ["twi"]) ∧
    (avr_ioctl { demo_hooks with
        io_port := [demo_port "uart" (-1), demo_port_bare, demo_port "eeprom" 0,
          demo_port "twi" 7] } demo_avr 1 2).2 = (0, ["uart", "eeprom"]) ∧
    (avr_ioctl { demo_hooks with io_port := [demo_port "uart" (-1), demo_port_bare] }
        demo_avr 1 2).2 = (-1, ["uart"]) ∧
    avr_ioctl demo_hooks_empty demo_avr 1 2 = (demo_avr, -1, []) :=
  ⟨by decide, by decide, by decide,
   (ioctl_returns_first_handled demo_hooks_empty demo_avr 1 2).1 rfl⟩

theorem run_ports_called (ports : List avr_io_t) :
    ∀ (avr : avr_t) (called : List String),
      run_ports ports avr called =
        ((run_ports ports avr []).1, called ++ (run_ports ports avr []).2) := by
  induction ports with
  | nil => intro avr called; simp [run_ports]
  | cons p rest ih =>
    intro avr called
    unfold run_ports
    cases hp : p.run with
    | none =>
      dsimp only
      exact ih avr called
    | some f =>
      dsimp only
      rw [ih (f avr) (called ++ [p.kind]), ih (f avr) ([] ++ [p.kind])]
      simp

/-- Claim C17 (as amended): registration order is the reverse of run order.
`avr_register_io` puts the peripheral at the head of the chain, so when A and
then B are registered, the port loop of an `avr_run` tick calls the `run` of B
first, then the `run` of A, then those of the peripherals registered earlier. -/
theorem run_order_reverses_registration (hooks : avr_hooks) (a b : avr_io_t)
    (fa fb : avr_t → avr_t) (avr : avr_t)
    (ha : a.run = some fa) (hb : b.run = some fb) :
    (avr_register_io (avr_register_io hooks a) b).io_port = b :: a :: hooks.io_port ∧
    (run_ports (avr_register_io (avr_register_io hooks a) b).io_port avr []).2 =
      b.kind :: a.kind :: (run_ports hooks.io_port (fa (fb avr)) []).2 ∧
    (run_ports (avr_register_io (avr_register_io hooks a) b).io_port avr []).1 =
      (run_ports hooks.io_port (fa (fb avr)) []).1 := by
  refine ⟨rfl, ?_, ?_⟩
  · show (run_ports (b :: a :: hooks.io_port) avr []).2 = _
    rw [run_ports, hb]
    dsimp only
    rw [run_ports, ha]
    dsimp only
    rw [run_ports_called]
    simp
  · show (run_ports (b :: a :: hooks.io_port) avr []).1 = _
    rw [run_ports, hb]
    dsimp only
    rw [run_ports, ha]
    dsimp only
    rw [run_ports_called]

/-- Claim C17, witness: "uart" and then "twi" registered on an empty chain. -/
theorem run_order_reverses_registration_witness :
    ((demo_port "uart" (-1)).run = some (fun avr => { avr with cycle := avr.cycle + 1 }) ∧
      (demo_port "twi" 7).run = some (fun avr => { avr with cycle := avr.cycle + 1 })) ∧
    ((avr_register_io (avr_register_io demo_hooks_empty (demo_port "uart" (-1)))
        (demo_port "twi" 7)).io_port
      = demo_port "twi" 7 :: demo_port "uart" (-1) :: demo_hooks_empty.io_port ∧
    (run_ports (avr_register_io (avr_register_io demo_hooks_empty (demo_port "uart" (-1)))
        (demo_port "twi" 7)).io_port demo_avr []).2 =
      (demo_port "twi" 7).kind :: (demo_port "uart" (-1)).kind ::
        (run_ports demo_hooks_empty.io_port
          ((fun avr : avr_t => { avr with cycle := avr.cycle + 1 })
            ((fun avr : avr_t => { avr with cycle := avr.cycle + 1 }) demo_avr)) []).2 ∧
    (run_ports (avr_register_io (avr_register_io demo_hooks_empty (demo_port "uart" (-1)))
        (demo_port "twi" 7)).io_port demo_avr []).1 =
      (run_ports demo_hooks_empty.io_port
        ((fun avr : avr_t => { avr with cycle := avr.cycle + 1 })
          ((fun avr : avr_t => { avr with cycle := avr.cycle + 1 }) demo_avr)) []).1) :=
  ⟨⟨rfl, rfl⟩,
   run_order_reverses_registration demo_hooks_empty (demo_port "uart" (-1))
     (demo_port "twi" 7) _ _ demo_avr rfl rfl⟩

/-- Claim C17, counterexample: "uart" is registered before "twi", and the port
loop calls the `run` of "twi" before the `run` of "uart". -/
theorem later_peripheral_runs_first :
    (run_ports (avr_register_io (avr_register_io demo_hooks_empty (demo_port "uart" (-1)))
        (demo_port "twi" 7)).io_port demo_avr []).2 = ["twi", "uart"] := by
  decide

/-! ## Claims on the MCU factory -/

theorem kind_has_name_iff (name : String) (names : List String) :
    kind_has_name name names = true ↔ name ∈ names := by
  induction names with
  | nil => simp [kind_has_name]
  | cons n rest ih =>
    unfold kind_has_name
    by_cases h : n = name
    · simp [h]
    · rw [if_neg h, ih, List.mem_cons]
      constructor
      · exact fun hm => Or.inr hm
      · intro hm
        rcases hm with e | hm
        · exact absurd e.symm h
        · exact hm

theorem find_maker_none_iff (name : String) (table : List avr_kind_t) :
    find_maker name table = none ↔ ∀ k ∈ table, name ∉ k.names := by
  induction table with
  | nil => simp [find_maker]
  | cons k rest ih =>
    unfold find_maker
    by_cases h : kind_has_name name k.names = true
    · rw [if_pos h]
      simp only [List.mem_cons, forall_eq_or_imp, false_iff, not_and, reduceCtorEq]
      intro hk
      exact absurd ((kind_has_name_iff name k.names).mp h) hk
    · rw [if_neg h, ih]
      have : name ∉ k.names := fun hm => h ((kind_has_name_iff name k.names).mpr hm)
      simp [this]

theorem find_maker_first (name : String) (pre : List avr_kind_t) (k : avr_kind_t)
    (post : List avr_kind_t) (hk : name ∈ k.names) (hpre : ∀ q ∈ pre, name ∉ q.names) :
    find_maker name (pre ++ k :: post) = some k := by
  induction pre with
  | nil =>
    simp only [List.nil_append, find_maker]
    rw [if_pos ((kind_has_name_iff name k.names).mpr hk)]
  | cons q pre ih =>
    rw [List.cons_append, find_maker]
    have hq : ¬ kind_has_name name q.names = true := fun h =>
      hpre q (List.mem_cons_self _ _) ((kind_has_name_iff name q.names).mp h)
    rw [if_neg hq]
    exact ih (fun x hx => hpre x (List.mem_cons_of_mem _ hx))

/-- Claim C18: `avr_make_mcu_by_name(name)` returns NULL exactly when no entry of
the table lists `name`; otherwise it returns what `make` of the first entry that
lists `name` returns; in a table whose entries share no name, every name of an
entry, alias or primary, selects that entry. -/
theorem make_mcu_by_name_first_entry (avr_kind : List avr_kind_t) (name : String) :
    (avr_make_mcu_by_name avr_kind name = none ↔ ∀ k ∈ avr_kind, name ∉ k.names) ∧
    (∀ pre k post, avr_kind = pre ++ k :: post → name ∈ k.names →
      (∀ q ∈ pre, name ∉ q.names) →
      avr_make_mcu_by_name avr_kind name = some (k.make ())) ∧
    (avr_kind.Pairwise (fun k1 k2 => ∀ n ∈ k1.names, n ∉ k2.names) →
      ∀ k ∈ avr_kind, ∀ alias_name ∈ k.names, ∀ primary ∈ k.names,
        avr_make_mcu_by_name avr_kind alias_name = some (k.make ()) ∧
        avr_make_mcu_by_name avr_kind alias_name =
          avr_make_mcu_by_name avr_kind primary) := by
  have first : ∀ (nm : String) pre k post, avr_kind = pre ++ k :: post → nm ∈ k.names →
      (∀ q ∈ pre, nm ∉ q.names) → avr_make_mcu_by_name avr_kind nm = some (k.make ()) := by
    intro nm pre k post ht hk hpre
    unfold avr_make_mcu_by_name
    rw [ht, find_maker_first nm pre k post hk hpre]
  refine ⟨?_, first name, ?_⟩
  · unfold avr_make_mcu_by_name
    rw [← find_maker_none_iff]
    cases find_maker name avr_kind <;> simp
  · intro hpw k hk
    obtain ⟨pre, post, ht⟩ := List.append_of_mem hk
    have hdis : ∀ q ∈ pre, ∀ n ∈ q.names, n ∉ k.names := by
      rw [ht, List.pairwise_append] at hpw
      intro q hq
      exact hpw.2.2 q hq k (List.mem_cons_self _ _)
    have sel : ∀ nm ∈ k.names, avr_make_mcu_by_name avr_kind nm = some (k.make ()) := by
      intro nm hnm
      exact first nm pre k post ht hnm (fun q hq hmem => hdis q hq nm hmem hnm)
    intro a ha p hp
    exact ⟨sel a ha, by rw [sel a ha, sel p hp]⟩

/-- Claim C18, evaluated: in a table of two variants the alias "mega48" and the
primary name "atmega48" select the second one, an unknown name gives NULL. -/
theorem make_mcu_by_name_first_entry_witness :
    (avr_make_mcu_by_name demo_kinds "mega48").map (fun m => m.pending_wait) = some 1 ∧
    (avr_make_mcu_by_name demo_kinds "atmega48").map (fun m => m.pending_wait) = some 1 ∧
    (avr_make_mcu_by_name demo_kinds "attiny85").map (fun m => m.pending_wait) = some 0 ∧
    (avr_make_mcu_by_name demo_kinds "atmega8" = none ↔
      ∀ k ∈ demo_kinds, "atmega8" ∉ k.names) :=
  ⟨by decide, by decide, by decide,
   (make_mcu_by_name_first_entry demo_kinds "atmega8").1⟩

/-! ## Claims on the breakpoint table -/

theorem change_on_full (g : avr_gdb_t) (kind : Int) (addr len : Nat)
    (hfull : g.watchmap = 0xffffffff) :
    gdb_change_breakpoint g true kind addr len = (g, -1) := by
  unfold gdb_change_breakpoint
  rw [if_pos rfl, if_pos hfull]

theorem update_loop_spec (g : avr_gdb_t) (addr len k : Nat)
    (hk : watch_hit g addr k = true) :
    ∀ n i, i ≤ k → k < i + n → (∀ j, i ≤ j → j < k → watch_hit g addr j = false) →
      update_loop g addr len n i =
        some { g with watch := fun j =>
          if j = k then { g.watch k with len := len } else g.watch j } := by
  intro n
  induction n with
  | zero => intro i h1 h2; omega
  | succ n ih =>
    intro i h1 h2 hlow
    unfold update_loop
    by_cases hik : i = k
    · subst hik
      rw [if_pos hk]
    · have : watch_hit g addr i = false := hlow i (le_refl _) (by omega)
      rw [this]
      simp only [Bool.false_eq_true, if_false]
      exact ih (i + 1) (by omega) (by omega) (fun j h3 h4 => hlow j (by omega) h4)

theorem update_loop_none (g : avr_gdb_t) (addr len : Nat) :
    ∀ n i, (∀ j, i ≤ j → j < i + n → watch_hit g addr j = false) →
      update_loop g addr len n i = none := by
  intro n
  induction n with
  | zero => intro i _; rfl
  | succ n ih =>
    intro i h
    unfold update_loop
    rw [h i (le_refl _) (by omega)]
    simp only [Bool.false_eq_true, if_false]
    exact ih (i + 1) (fun j h1 h2 => h j (by omega) (by omega))

theorem insert_loop_spec (g : avr_gdb_t) (kind : Int) (addr len k : Nat)
    (hk : g.watchmap &&& (1 <<< k) = 0) :
    ∀ n i, i ≤ k → k < i + n → (∀ j, i ≤ j → j < k → g.watchmap &&& (1 <<< j) ≠ 0) →
      insert_loop g kind addr len n i =
        some { watchmap := g.watchmap ||| (1 <<< k),
               watch := fun j =>
                 if j = k then { pc := addr, len := len, kind := kind } else g.watch j } := by
  intro n
  induction n with
  | zero => intro i h1 h2; omega
  | succ n ih =>
    intro i h1 h2 hlow
    unfold insert_loop
    by_cases hik : i = k
    · subst hik
      rw [if_pos hk]
    · rw [if_neg (hlow i (le_refl _) (by omega))]
      exact ih (i + 1) (by omega) (by omega) (fun j h3 h4 => hlow j (by omega) h4)

/-- The first hit of a decidable test below a bound. -/
theorem first_below (p : Nat → Bool) (n : Nat) (h : ∃ i, i < n ∧ p i = true) :
    ∃ k, k < n ∧ p k = true ∧ ∀ j, j < k → p j = false := by
  have hex : ∃ i, i < n ∧ p i = true := h
  refine ⟨Nat.find hex, (Nat.find_spec hex).1, (Nat.find_spec hex).2, ?_⟩
  intro j hj
  have := Nat.find_min hex hj
  have hjn : j < n := lt_trans hj (Nat.find_spec hex).1
  cases hp : p j
  · rfl
  · exact absurd ⟨hjn, hp⟩ this

theorem count_bits_le (w : Nat) : ∀ n, count_bits w n ≤ n := by
  intro n
  induction n with
  | zero => exact le_refl _
  | succ n ih =>
    unfold count_bits
    split <;> omega

theorem count_bits_eq_iff (w : Nat) :
    ∀ n, count_bits w n = n ↔ ∀ j, j < n → w &&& (1 <<< j) ≠ 0 := by
  intro n
  induction n with
  | zero => simp [count_bits]
  | succ n ih =>
    unfold count_bits
    have hle := count_bits_le w n
    constructor
    · intro h j hj
      by_cases hb : w &&& (1 <<< n) ≠ 0
      · rw [if_pos hb] at h
        by_cases hjn : j = n
        · rw [hjn]; exact hb
        · exact (ih.mp (by omega)) j (by omega)
      · rw [if_neg hb] at h
        omega
    · intro h
      rw [if_pos (h n (by omega)), ih.mpr (fun j hj => h j (by omega))]

theorem full_map_iff (w : Nat) (hw : w < 2 ^ 32) :
    count_bits w 32 = 32 ↔ w = 0xffffffff := by
  rw [count_bits_eq_iff]
  constructor
  · intro h
    apply Nat.eq_of_testBit_eq
    intro i
    have e : (0xffffffff : Nat) = 2 ^ 32 - 1 := by norm_num
    rw [e, Nat.testBit_two_pow_sub_one]
    by_cases hi : i < 32
    · have := (and_one_shiftLeft_ne_zero w i).mp (h i hi)
      simp [hi, this]
    · have h2 : 2 ^ 32 ≤ 2 ^ i := Nat.pow_le_pow_right (by norm_num) (by omega)
      have : w.testBit i = false := Nat.testBit_lt_two_pow (by omega)
      simp [hi, this]
  · intro h j hj
    rw [and_one_shiftLeft_ne_zero, h]
    have e : (0xffffffff : Nat) = 2 ^ 32 - 1 := by norm_num
    rw [e, Nat.testBit_two_pow_sub_one]
    simp [hj]

theorem free_slot_of_not_full (w : Nat) (hw : w < 2 ^ 32) (h : w ≠ 0xffffffff) :
    ∃ i, i < 32 ∧ w &&& (1 <<< i) = 0 := by
  by_contra hc
  apply h
  apply (full_map_iff w hw).mp
  rw [count_bits_eq_iff]
  intro j hj hz
  exact hc ⟨j, hj, hz⟩

theorem count_bits_or (w k : Nat) (hk : w &&& (1 <<< k) = 0) :
    ∀ n, count_bits (w ||| (1 <<< k)) n = count_bits w n + (if k < n then 1 else 0) := by
  intro n
  induction n with
  | zero => simp [count_bits]
  | succ n ih =>
    unfold count_bits
    rw [ih]
    by_cases hkn : k = n
    · subst hkn
      have h1 : (w ||| (1 <<< k)) &&& (1 <<< k) ≠ 0 := by
        rw [and_one_shiftLeft_ne_zero, Nat.testBit_or, Nat.one_shiftLeft,
          Nat.testBit_two_pow_self]
        simp
      rw [if_pos h1, if_neg (Nat.lt_irrefl k),
        if_neg (show ¬ (w &&& (1 <<< k) ≠ 0) from fun hne => hne hk),
        if_pos (Nat.lt_succ_self k)]
    · have hbit : ((w ||| (1 <<< k)) &&& (1 <<< n) ≠ 0) ↔ (w &&& (1 <<< n) ≠ 0) := by
        rw [and_one_shiftLeft_ne_zero, and_one_shiftLeft_ne_zero, Nat.testBit_or,
          Nat.one_shiftLeft, Nat.testBit_two_pow]
        simp [hkn]
      by_cases hb : w &&& (1 <<< n) ≠ 0
      · rw [if_pos hb, if_pos (hbit.mpr hb)]
        by_cases h1 : k < n
        · rw [if_pos h1, if_pos (by omega)]
        · rw [if_neg h1, if_neg (by omega)]
      · rw [if_neg hb, if_neg (fun h => hb (hbit.mp h))]
        by_cases h1 : k < n
        · rw [if_pos h1, if_pos (by omega)]
        · rw [if_neg h1, if_neg (by omega)]

/-- On a table that is not full, a `Z` for an address that is in the table
updates `len` of the first slot that holds it and changes nothing else. -/
theorem update_existing_when_not_full (g : avr_gdb_t) (kind : Int) (addr len : Nat)
    (hnf : g.watchmap ≠ 0xffffffff) (hin : ∃ i, i < 32 ∧ watch_hit g addr i = true) :
    ∃ k, k < 32 ∧ watch_hit g addr k = true ∧ (∀ j, j < k → watch_hit g addr j = false) ∧
      gdb_change_breakpoint g true kind addr len =
        ({ g with watch := fun j =>
            if j = k then { g.watch k with len := len } else g.watch j }, 0) := by
  obtain ⟨k, hk, hhit, hlow⟩ := first_below (watch_hit g addr) 32 hin
  refine ⟨k, hk, hhit, hlow, ?_⟩
  unfold gdb_change_breakpoint
  rw [if_pos rfl, if_neg hnf,
    update_loop_spec g addr len k hhit 32 0 (by omega) (by omega) (fun j _ h => hlow j h)]

/-- Claim C19, failing input: the table is full and slot 16 holds the breakpoint
at 0x20 with `len == 2`; `Z0,20,4` returns -1 through the map-full test, the
entry keeps `len == 2` and the reply is E01, while on the table `demo_gdb`, which
is not full, the same kind of request updates `len` in place. -/
theorem update_on_full_table_fails :
    watch_hit full_gdb 0x20 16 = true ∧
    (gdb_change_breakpoint full_gdb true 0 0x20 4).2 = -1 ∧
    ((gdb_change_breakpoint full_gdb true 0 0x20 4).1.watch 16).len = 2 ∧
    (gdb_handle_breakpoint full_gdb 0x3fff 'Z' 0 0x20 4).2 = "E01" ∧
    (gdb_change_breakpoint demo_gdb true 0 0x80 4).2 = 0 ∧
    ((gdb_change_breakpoint demo_gdb true 0 0x80 4).1.watch 1).len = 4 ∧
    (gdb_change_breakpoint demo_gdb true 0 0x80 4).1.watchmap = 3 := by
  refine ⟨by decide, by decide, by decide, by decide, by decide, by decide, by decide⟩

/-- Claim C20: the table holds up to 32 entries. A `Z` (kind 0 or 1, address
within flash) for an address that no active slot holds succeeds exactly when
fewer than 32 entries are active: then the call returns 0, the reply is OK, the
first free slot becomes active with the given address, `len` and kind, the other
slots keep their content and one more entry is active; with 32 active entries
the call returns -1, the reply is E01 and the table is unchanged. -/
theorem insert_new_breakpoint (g : avr_gdb_t) (kind addr len flashend : Nat)
    (hmap : g.watchmap < 2 ^ 32) (hnew : ∀ i, i < 32 → watch_hit g addr i = false)
    (hkind : kind = 0 ∨ kind = 1) (haddr : addr ≤ flashend) :
    active_count g ≤ 32 ∧
    (active_count g < 32 →
      ∃ k, k < 32 ∧ g.watchmap &&& (1 <<< k) = 0 ∧
        (∀ j, j < k → g.watchmap &&& (1 <<< j) ≠ 0) ∧
        gdb_change_breakpoint g true (kind : Int) addr len =
          ({ watchmap := g.watchmap ||| (1 <<< k),
             watch := fun j =>
               if j = k then { pc := addr, len := len, kind := (kind : Int) }
               else g.watch j }, 0) ∧
        watch_hit (gdb_change_breakpoint g true (kind : Int) addr len).1 addr k = true ∧
        active_count (gdb_change_breakpoint g true (kind : Int) addr len).1
          = active_count g + 1 ∧
        gdb_handle_breakpoint g flashend 'Z' kind addr len =
          ((gdb_change_breakpoint g true (kind : Int) addr len).1, "OK")) ∧
    (¬ active_count g < 32 →
      gdb_change_breakpoint g true (kind : Int) addr len = (g, -1) ∧
      gdb_handle_breakpoint g flashend 'Z' kind addr len = (g, "E01")) := by
  have hle : active_count g ≤ 32 := count_bits_le g.watchmap 32
  have hZ : (('Z' : Char) == 'Z') = true := by decide
  refine ⟨hle, ?_, ?_⟩
  · intro hlt
    have hnf : g.watchmap ≠ 0xffffffff := by
      intro hfull
      have := (full_map_iff g.watchmap hmap).mpr hfull
      unfold active_count at hlt
      omega
    obtain ⟨i, hi, hfree⟩ := free_slot_of_not_full g.watchmap hmap hnf
    obtain ⟨k, hk, hkfree, hlow⟩ := first_below (fun j => decide (g.watchmap &&& (1 <<< j) = 0))
      32 ⟨i, hi, by simpa using hfree⟩
    have hkfree2 : g.watchmap &&& (1 <<< k) = 0 := by simpa using hkfree
    have hlow2 : ∀ j, j < k → g.watchmap &&& (1 <<< j) ≠ 0 := by
      intro j hj
      simpa using hlow j hj
    have hres : gdb_change_breakpoint g true (kind : Int) addr len =
        ({ watchmap := g.watchmap ||| (1 <<< k),
           watch := fun j =>
             if j = k then { pc := addr, len := len, kind := (kind : Int) }
             else g.watch j }, 0) := by
      unfold gdb_change_breakpoint
      rw [if_pos rfl, if_neg hnf,
        update_loop_none g addr len 32 0 (fun j _ h => hnew j (by omega)),
        insert_loop_spec g (kind : Int) addr len k hkfree2 32 0 (by omega) (by omega)
          (fun j _ h => hlow2 j h)]
    refine ⟨k, hk, hkfree2, hlow2, hres, ?_, ?_, ?_⟩
    · rw [hres]
      unfold watch_hit
      have h1 : (g.watchmap ||| (1 <<< k)) &&& (1 <<< k) ≠ 0 := by
        rw [and_one_shiftLeft_ne_zero, Nat.testBit_or, Nat.one_shiftLeft,
          Nat.testBit_two_pow_self]
        simp
      simp [h1]
    · rw [hres]
      unfold active_count
      rw [count_bits_or g.watchmap k hkfree2 32, if_pos hk]
    · unfold gdb_handle_breakpoint
      rw [if_pos hkind, if_pos haddr, hZ, hres]
      simp
  · intro hge
    have hfull : g.watchmap = 0xffffffff := by
      apply (full_map_iff g.watchmap hmap).mp
      unfold active_count at hge hle
      omega
    have hres := change_on_full g (kind : Int) addr len hfull
    refine ⟨hres, ?_⟩
    unfold gdb_handle_breakpoint
    rw [if_pos hkind, if_pos haddr, hZ, hres]
    simp

/-- Claim C20, witness: `Z1,100,2` on the table that holds 0x40 and 0x80 takes
slot 2; on the full table a `Z` for the new address 0x100 is answered E01. -/
theorem insert_new_breakpoint_witness :
    (demo_gdb.watchmap < 2 ^ 32 ∧ (∀ i, i < 32 → watch_hit demo_gdb 0x100 i = false) ∧
      ((1 : Nat) = 0 ∨ (1 : Nat) = 1) ∧ (0x100 : Nat) ≤ 0x3fff) ∧
    (gdb_change_breakpoint demo_gdb true 1 0x100 2).2 = 0 ∧
    (gdb_change_breakpoint demo_gdb true 1 0x100 2).1.watchmap = 7 ∧
    (gdb_change_breakpoint demo_gdb true 1 0x100 2).1.watch 2 =
      { pc := 0x100, len := 2, kind := 1 } ∧
    (gdb_handle_breakpoint full_gdb 0x3fff 'Z' 1 0x100 2).2 = "E01" ∧
    (gdb_change_breakpoint full_gdb true 1 0x100 2).2 = -1 ∧
    (active_count demo_gdb ≤ 32 ∧
    (active_count demo_gdb < 32 →
      ∃ k, k < 32 ∧ demo_gdb.watchmap &&& (1 <<< k) = 0 ∧
        (∀ j, j < k → demo_gdb.watchmap &&& (1 <<< j) ≠ 0) ∧
        gdb_change_breakpoint demo_gdb true ((1 : Nat) : Int) 0x100 2 =
          ({ watchmap := demo_gdb.watchmap ||| (1 <<< k),
             watch := fun j =>
               if j = k then { pc := 0x100, len := 2, kind := ((1 : Nat) : Int) }
               else demo_gdb.watch j }, 0) ∧
        watch_hit (gdb_change_breakpoint demo_gdb true ((1 : Nat) : Int) 0x100 2).1 0x100 k
          = true ∧
        active_count (gdb_change_breakpoint demo_gdb true ((1 : Nat) : Int) 0x100 2).1
          = active_count demo_gdb + 1 ∧
        gdb_handle_breakpoint demo_gdb 0x3fff 'Z' 1 0x100 2 =
          ((gdb_change_breakpoint demo_gdb true ((1 : Nat) : Int) 0x100 2).1, "OK")) ∧
    (¬ active_count demo_gdb < 32 →
      gdb_change_breakpoint demo_gdb true ((1 : Nat) : Int) 0x100 2 = (demo_gdb, -1) ∧
      gdb_handle_breakpoint demo_gdb 0x3fff 'Z' 1 0x100 2 = (demo_gdb, "E01"))) :=
  ⟨⟨by decide, by decide, by decide, by decide⟩, by decide, by decide, by decide, by decide,
   by decide,
   insert_new_breakpoint demo_gdb 1 0x100 2 0x3fff (by decide) (by decide) (by decide)
     (by decide)⟩

/-! ## Connected IRQs whose callbacks raise nothing else -/

/-- The hook loop over a stretch of `m` hooks whose callbacks raise nothing. -/
theorem walk_hooks_quiet_stretch (cb : callbacks)
    (raise : irq_bus → Nat → Nat → Option irq_bus) (p value : Nat)
    (l : List avr_irq_hook_t) :
    ∀ m n k (w : irq_bus), (w.irqs p).hook = l → k + m ≤ l.length →
      (∀ h ∈ (l.drop k).take m, cb h.notify p value h.param = []) →
      walk_hooks cb raise p value (n + m) k w =
        walk_hooks cb raise p value n (k + m)
          { irqs := w.irqs,
            calls := w.calls ++
              (((l.drop k).take m).filter hook_fires).map (call_of p value) } := by
  intro m
  induction m with
  | zero =>
    intro n k w _ _ _
    simp
  | succ m ih =>
    intro n k w hl hlen hcb
    have hklt : k < l.length := by omega
    have hdrop : l.drop k = l[k] :: l.drop (k + 1) := List.drop_eq_getElem_cons hklt
    have hk : (w.irqs p).hook[k]? = some l[k] := by
      rw [hl]; exact List.getElem?_eq_getElem hklt
    have hmemk : l[k] ∈ (l.drop k).take (m + 1) := by
      rw [hdrop, List.take_succ_cons]
      exact List.mem_cons_self _ _
    have hhead : cb l[k].notify p value l[k].param = [] := hcb _ hmemk
    have hrest : ∀ h ∈ (l.drop (k + 1)).take m, cb h.notify p value h.param = [] := by
      intro h hm
      apply hcb
      rw [hdrop, List.take_succ_cons]
      exact List.mem_cons_of_mem _ hm
    have e1 : n + (m + 1) = (n + m) + 1 := by omega
    have e2 : k + (m + 1) = (k + 1) + m := by omega
    rw [e1, e2, walk_hooks, hk]
    dsimp only
    by_cases hf : l[k].notify ≠ 0 ∧ l[k].busy = 0
    · rw [if_pos hf, hhead]
      simp only [run_raises]
      rw [set_busy_back w p k l[k] _ hk hf.2]
      rw [ih n (k + 1) _ (by exact hl) (by omega) hrest, hdrop, List.take_succ_cons]
      have : hook_fires l[k] = true := by
        unfold hook_fires; simp [hf.1, hf.2]
      simp [List.filter, this, call_of, set_busy_calls]
    · rw [if_neg hf]
      rw [ih n (k + 1) w hl (by omega) hrest, hdrop, List.take_succ_cons]
      have : hook_fires l[k] = false := by
        unfold hook_fires
        by_cases h1 : l[k].notify = 0
        · simp [h1]
        · have : l[k].busy ≠ 0 := fun h2 => hf ⟨h1, h2⟩
          simp [this]
      simp [List.filter, this]

theorem register_calls (w : irq_bus) (irq notify param : Nat) :
    (avr_irq_register_notify w irq notify param).calls = w.calls := by
  unfold avr_irq_register_notify
  split
  · rfl
  · split <;> rfl

theorem register_value (w : irq_bus) (irq notify param a : Nat) :
    ((avr_irq_register_notify w irq notify param).irqs a).value = (w.irqs a).value := by
  unfold avr_irq_register_notify
  split
  · rfl
  · split
    · rfl
    · by_cases ha : a = irq
      · subst ha; simp [set_irq]
      · simp [set_irq, ha]

/-- A raise of a changed value on an IRQ one of whose hooks is a connection to
`dst`, the callbacks of the other hooks and of the hooks of `dst` raising
nothing. -/
theorem raise_through_connection (cb : callbacks) (connect fuel : Nat) (w0 : irq_bus)
    (src dst v b : Nat) (pre post : List avr_irq_hook_t)
    (hsrc : src ≠ 0) (hdst : dst ≠ 0) (hsd : src ≠ dst) (hconn : connect ≠ 0)
    (hcb : cb connect src v dst = [(dst, b)])
    (hl : (w0.irqs src).hook = pre ++ { notify := connect, param := dst, busy := 0 } :: post)
    (hpre : ∀ h ∈ pre, cb h.notify src v h.param = [])
    (hpost : ∀ h ∈ post, cb h.notify src v h.param = [])
    (hqd : ∀ h ∈ (w0.irqs dst).hook, cb h.notify dst b h.param = [])
    (hv : (w0.irqs src).value ≠ v) :
    ∃ w1, avr_raise_irq cb (fuel + 2) w0 src v = some w1 ∧
      (w1.irqs dst).value = b ∧ (w1.irqs src).value = v ∧
      w1.calls = w0.calls ++ (pre.filter hook_fires).map (call_of src v) ++
        [{ notify := connect, irq := src, value := v, param := dst }] ++
        (if (w0.irqs dst).value = b then []
         else ((w0.irqs dst).hook.filter hook_fires).map (call_of dst b)) ++
        (post.filter hook_fires).map (call_of src v) := by
  generalize hc0 : ({ notify := connect, param := dst, busy := 0 } : avr_irq_hook_t) = c0 at hl
  have hc0n : c0.notify = connect := by rw [← hc0]
  have hc0p : c0.param = dst := by rw [← hc0]
  have hc0b : c0.busy = 0 := by rw [← hc0]
  generalize hlist : pre ++ c0 :: post = l at hl
  have hlen : l.length = post.length + 1 + pre.length := by
    rw [← hlist]; simp; omega
  have hget : l[pre.length]? = some c0 := by
    rw [← hlist, List.getElem?_append_right (le_refl _)]
    simp
  -- the stretch before the connection hook
  have hstretch := walk_hooks_quiet_stretch cb (avr_raise_irq cb (fuel + 1)) src v l
    pre.length (post.length + 1) 0 w0 hl (by omega)
    (by
      intro h hm
      apply hpre
      rw [← hlist] at hm
      simpa using hm)
  have htake : (l.drop 0).take pre.length = pre := by
    rw [← hlist]; simp
  rw [htake, Nat.zero_add] at hstretch
  obtain ⟨wA, hwA⟩ : ∃ wA : irq_bus, wA =
      irq_bus.mk w0.irqs (w0.calls ++ (pre.filter hook_fires).map (call_of src v)) :=
    ⟨_, rfl⟩
  rw [← hwA] at hstretch
  have hAirqs : wA.irqs = w0.irqs := by rw [hwA]
  have hAcalls : wA.calls = w0.calls ++ (pre.filter hook_fires).map (call_of src v) := by
    rw [hwA]
  have hAk : (wA.irqs src).hook[pre.length]? = some c0 := by
    rw [hAirqs, hl]; exact hget
  -- the connection hook and the nested raise of `dst`
  have hBdst : (({ set_busy wA src pre.length (fun b => b + 1) with
        calls := (set_busy wA src pre.length (fun b => b + 1)).calls ++
          [{ notify := c0.notify, irq := src, value := v, param := c0.param }] } :
        irq_bus).irqs dst) = w0.irqs dst := by
    simp [set_busy, set_irq, hsd.symm, hAirqs]
  have hq2 : ∀ h ∈ (({ set_busy wA src pre.length (fun b => b + 1) with
        calls := (set_busy wA src pre.length (fun b => b + 1)).calls ++
          [{ notify := c0.notify, irq := src, value := v, param := c0.param }] } :
        irq_bus).irqs dst).hook, cb h.notify dst b h.param = [] := by
    intro h hm
    rw [hBdst] at hm
    exact hqd h hm
  obtain ⟨w3, e3, v3, f3, c3⟩ := raise_quiet_target cb fuel _ dst b hdst hq2
  have hrun : run_raises (avr_raise_irq cb (fuel + 1)) (cb c0.notify src v c0.param)
      { set_busy wA src pre.length (fun b => b + 1) with
        calls := (set_busy wA src pre.length (fun b => b + 1)).calls ++
          [{ notify := c0.notify, irq := src, value := v, param := c0.param }] }
      = some w3 := by
    have hcb2 : cb c0.notify src v c0.param = [(dst, b)] := by
      rw [hc0n, hc0p]; exact hcb
    rw [hcb2]
    simp only [run_raises]
    rw [e3]
  have hstep := walk_hooks_fire cb (avr_raise_irq cb (fuel + 1)) src v post.length pre.length
    wA w3 c0 hAk ⟨by rw [hc0n]; exact hconn, hc0b⟩ hrun
  -- the state after the connection hook
  have h3src : w3.irqs src = (set_busy wA src pre.length (fun b => b + 1)).irqs src :=
    f3 src hsd
  have h4hook : ((set_busy w3 src pre.length (fun b => b - 1)).irqs src).hook = l := by
    have hback := modify_busy_back l pre.length c0 hget hc0b
    simp only [set_busy, set_irq, if_true, h3src, hAirqs, hl]
    exact hback
  have h4dst : (set_busy w3 src pre.length (fun b => b - 1)).irqs dst = w3.irqs dst := by
    simp [set_busy, set_irq, hsd.symm]
  have hdrop : l.drop (pre.length + 1) = post := by
    rw [← hlist]; simp
  have hrest := walk_hooks_quiet_from cb (avr_raise_irq cb (fuel + 1)) src v l
    post.length (pre.length + 1) (set_busy w3 src pre.length (fun b => b - 1)) h4hook
    (by omega) (by rw [hdrop]; exact hpost)
  rw [hdrop] at hrest
  have hwalk : walk_hooks cb (avr_raise_irq cb (fuel + 1)) src v (w0.irqs src).hook.length 0 w0
      = some { irqs := (set_busy w3 src pre.length (fun b => b - 1)).irqs,
               calls := (set_busy w3 src pre.length (fun b => b - 1)).calls ++
                 (post.filter hook_fires).map (call_of src v) } := by
    rw [hl, hlen, hstretch, hstep, hrest]
  have hne : ¬ (src = 0 ∨ (w0.irqs src).value = v) := by
    intro hh
    rcases hh with hh | hh
    · exact hsrc hh
    · exact hv hh
  have hres : avr_raise_irq cb (fuel + 1 + 1) w0 src v =
      some (set_irq
        { irqs := (set_busy w3 src pre.length (fun b => b - 1)).irqs,
          calls := (set_busy w3 src pre.length (fun b => b - 1)).calls ++
            (post.filter hook_fires).map (call_of src v) }
        src
        { (set_busy w3 src pre.length (fun b => b - 1)).irqs src with value := v }) := by
    rw [avr_raise_irq, if_neg hne, hwalk]
  refine ⟨_, hres, ?_, ?_, ?_⟩
  · simp [set_irq, hsd.symm, h4dst, v3]
  · simp [set_irq]
  · have hd1 : (set_busy wA src pre.length (fun b => b + 1)).irqs dst = w0.irqs dst := by
      simp [set_busy, set_irq, hsd.symm, hAirqs]
    simp only [set_irq, set_busy_calls, c3, hAcalls, hc0n, hc0p]
    simp [List.append_assoc, hd1]

/-- The whole trace of a raise through a connection when the other callbacks on
`src` and those on `dst` raise nothing: after `avr_connect_irq(src, dst)` (two
distinct non-null IRQs, the hook list of `src` free of repeated pairs, a
connection that is already there not being busy) an `avr_raise_irq(src, v)`
with a changed `v` returns; the connection hook is invoked once and raises
`dst` with 1 if `v != 0` and 0 if `v == 0`, which is the value of `dst`
afterwards; the hooks of `dst` are invoked exactly when that value differs from
the one `dst` had, and then once each. -/
theorem connect_raise_quiet (cb : callbacks) (connect fuel : Nat) (w : irq_bus)
    (src dst v : Nat)
    (hsrc : src ≠ 0) (hdst : dst ≠ 0) (hsd : src ≠ dst) (hconn : connect ≠ 0)
    (hcb : ∀ irq value param, cb connect irq value param = _avr_irq_connect irq value param)
    (hnodup : ((w.irqs src).hook.map hook_pair).Nodup)
    (hbusy : ∀ h ∈ (w.irqs src).hook, h.notify = connect → h.param = dst → h.busy = 0)
    (hqs : ∀ h ∈ (w.irqs src).hook, ¬ (h.notify = connect ∧ h.param = dst) →
      cb h.notify src v h.param = [])
    (hqd : ∀ h ∈ (w.irqs dst).hook,
      cb h.notify dst (if v ≠ 0 then 1 else 0) h.param = [])
    (hv : (w.irqs src).value ≠ v) :
    ∃ w1 pre post,
      ((avr_connect_irq connect w src dst).irqs src).hook =
        pre ++ { notify := connect, param := dst, busy := 0 } :: post ∧
      avr_raise_irq cb (fuel + 2) (avr_connect_irq connect w src dst) src v = some w1 ∧
      (w1.irqs dst).value = (if v ≠ 0 then 1 else 0) ∧
      (w1.irqs src).value = v ∧
      w1.calls = w.calls ++ (pre.filter hook_fires).map (call_of src v) ++
        [{ notify := connect, irq := src, value := v, param := dst }] ++
        (if (w.irqs dst).value = (if v ≠ 0 then 1 else 0) then []
         else ((w.irqs dst).hook.filter hook_fires).map
           (call_of dst (if v ≠ 0 then 1 else 0))) ++
        (post.filter hook_fires).map (call_of src v) := by
  have hcalls : (avr_connect_irq connect w src dst).calls = w.calls :=
    register_calls w src connect dst
  have hdstirq : (avr_connect_irq connect w src dst).irqs dst = w.irqs dst :=
    register_other_irq w src connect dst dst (fun e => hsd e.symm)
  have hval : ((avr_connect_irq connect w src dst).irqs src).value = (w.irqs src).value :=
    register_value w src connect dst src
  have hcbv : cb connect src v dst = [(dst, if v ≠ 0 then 1 else 0)] := by
    rw [hcb, _avr_irq_connect]
  -- where the connection hook stands on the list of `src`
  have hdec : ∃ pre post,
      ((avr_connect_irq connect w src dst).irqs src).hook =
        pre ++ { notify := connect, param := dst, busy := 0 } :: post ∧
      (∀ h ∈ pre, cb h.notify src v h.param = []) ∧
      (∀ h ∈ post, cb h.notify src v h.param = []) := by
    by_cases hp : ∃ h ∈ (w.irqs src).hook, h.notify = connect ∧ h.param = dst
    · obtain ⟨h, hm, h1, h2⟩ := hp
      have h3 := hbusy h hm h1 h2
      have hh : h = { notify := connect, param := dst, busy := 0 } := by
        cases h with
        | mk n q b =>
          simp only at h1 h2 h3
          subst h1 h2 h3
          rfl
      obtain ⟨pre, post, hsplit⟩ := List.append_of_mem hm
      have hsame : avr_connect_irq connect w src dst = w :=
        register_noop_of_present w src connect dst ⟨h, hm, h1, h2⟩
      rw [hsplit, List.map_append, List.map_cons] at hnodup
      have hmid := List.nodup_middle.mp hnodup
      rw [List.nodup_cons, List.mem_append] at hmid
      have hnot : ∀ x, x ∈ pre ∨ x ∈ post → ¬ (x.notify = connect ∧ x.param = dst) := by
        intro x hx hxx
        apply hmid.1
        have hpx : hook_pair x = hook_pair h := by
          unfold hook_pair
          rw [hxx.1, hxx.2, h1, h2]
        rcases hx with hx | hx
        · exact Or.inl (hpx ▸ List.mem_map_of_mem hook_pair hx)
        · exact Or.inr (hpx ▸ List.mem_map_of_mem hook_pair hx)
      refine ⟨pre, post, ?_, ?_, ?_⟩
      · rw [hsame, hsplit, hh]
      · intro x hx
        apply hqs x _ (hnot x (Or.inl hx))
        rw [hsplit]; exact List.mem_append_left _ hx
      · intro x hx
        apply hqs x _ (hnot x (Or.inr hx))
        rw [hsplit]
        exact List.mem_append_right _ (List.mem_cons_of_mem _ hx)
    · have hnew : ∀ h ∈ (w.irqs src).hook, ¬ (h.notify = connect ∧ h.param = dst) :=
        fun h hm hh => hp ⟨h, hm, hh⟩
      refine ⟨[], (w.irqs src).hook, ?_, ?_, ?_⟩
      · unfold avr_connect_irq
        rw [register_new w src connect dst hsrc hconn hnew]
        simp [set_irq]
      · intro x hx
        simp at hx
      · intro x hx
        exact hqs x hx (hnew x hx)
  obtain ⟨pre, post, hl, hpre, hpost⟩ := hdec
  obtain ⟨w1, e1, v1, s1, c1⟩ := raise_through_connection cb connect fuel
    (avr_connect_irq connect w src dst) src dst v (if v ≠ 0 then 1 else 0) pre post
    hsrc hdst hsd hconn hcbv hl hpre hpost (by rw [hdstirq]; exact hqd)
    (by rw [hval]; exact hv)
  refine ⟨w1, pre, post, hl, e1, v1, s1, ?_⟩
  rw [c1, hcalls, hdstirq]

/-! ## Removing breakpoints -/

theorem watch_hit_iff (g : avr_gdb_t) (addr i : Nat) :
    watch_hit g addr i = true ↔ g.watchmap.testBit i = true ∧ (g.watch i).pc = addr := by
  unfold watch_hit
  rw [Bool.and_eq_true, decide_eq_true_eq, decide_eq_true_eq, and_one_shiftLeft_ne_zero]

theorem remove_loop_spec (g : avr_gdb_t) (addr k : Nat)
    (hk : watch_hit g addr k = true) :
    ∀ n i, i ≤ k → k < i + n → (∀ j, i ≤ j → j < k → watch_hit g addr j = false) →
      remove_loop g addr n i =
        some { watchmap := g.watchmap &&& ((1 <<< k) ^^^ 0xffffffff),
               watch := fun j => if j = k then { pc := 0, len := 0, kind := 0 } else g.watch j } := by
  intro n
  induction n with
  | zero => intro i h1 h2; omega
  | succ n ih =>
    intro i h1 h2 hlow
    unfold remove_loop
    by_cases hik : i = k
    · subst hik
      rw [if_pos hk]
    · have hi : watch_hit g addr i = false := hlow i (Nat.le_refl i) (by omega)
      rw [hi]
      simp only [Bool.false_eq_true, if_false]
      exact ih (i + 1) (by omega) (by omega) (fun j hj1 hj2 => hlow j (by omega) hj2)

theorem remove_loop_none (g : avr_gdb_t) (addr : Nat) :
    ∀ n i, (∀ j, i ≤ j → j < i + n → watch_hit g addr j = false) →
      remove_loop g addr n i = none := by
  intro n
  induction n with
  | zero => intro i _; rfl
  | succ n ih =>
    intro i h
    unfold remove_loop
    rw [h i (Nat.le_refl i) (by omega)]
    simp only [Bool.false_eq_true, if_false]
    exact ih (i + 1) (fun j hj1 hj2 => h j (by omega) (by omega))

theorem update_loop_some (g : avr_gdb_t) (addr len : Nat) :
    ∀ n i g1, update_loop g addr len n i = some g1 →
      ∃ k, k < i + n ∧ watch_hit g addr k = true ∧
        g1 = { g with watch := fun j =>
          if j = k then { g.watch k with len := len } else g.watch j } := by
  intro n
  induction n with
  | zero => intro i g1 h; simp [update_loop] at h
  | succ n ih =>
    intro i g1 h
    unfold update_loop at h
    by_cases hi : watch_hit g addr i = true
    · rw [if_pos hi] at h
      exact ⟨i, by omega, hi, (Option.some.inj h).symm⟩
    · rw [if_neg hi] at h
      obtain ⟨k, hk, hh, hg⟩ := ih (i + 1) g1 h
      exact ⟨k, by omega, hh, hg⟩

theorem insert_loop_some (g : avr_gdb_t) (kind : Int) (addr len : Nat) :
    ∀ n i g1, insert_loop g kind addr len n i = some g1 →
      ∃ k, k < i + n ∧ g.watchmap &&& (1 <<< k) = 0 ∧
        g1 = { watchmap := g.watchmap ||| (1 <<< k),
               watch := fun j =>
                 if j = k then { pc := addr, len := len, kind := kind } else g.watch j } := by
  intro n
  induction n with
  | zero => intro i g1 h; simp [insert_loop] at h
  | succ n ih =>
    intro i g1 h
    unfold insert_loop at h
    by_cases hi : g.watchmap &&& (1 <<< i) = 0
    · rw [if_pos hi] at h
      exact ⟨i, by omega, hi, (Option.some.inj h).symm⟩
    · rw [if_neg hi] at h
      obtain ⟨k, hk, hh, hg⟩ := ih (i + 1) g1 h
      exact ⟨k, by omega, hh, hg⟩

theorem remove_loop_some (g : avr_gdb_t) (addr : Nat) :
    ∀ n i g1, remove_loop g addr n i = some g1 →
      ∃ k, k < i + n ∧ watch_hit g addr k = true ∧
        g1 = { watchmap := g.watchmap &&& ((1 <<< k) ^^^ 0xffffffff),
               watch := fun j => if j = k then { pc := 0, len := 0, kind := 0 } else g.watch j } := by
  intro n
  induction n with
  | zero => intro i g1 h; simp [remove_loop] at h
  | succ n ih =>
    intro i g1 h
    unfold remove_loop at h
    by_cases hi : watch_hit g addr i = true
    · rw [if_pos hi] at h
      exact ⟨i, by omega, hi, (Option.some.inj h).symm⟩
    · rw [if_neg hi] at h
      obtain ⟨k, hk, hh, hg⟩ := ih (i + 1) g1 h
      exact ⟨k, by omega, hh, hg⟩

/-- Every call of `gdb_change_breakpoint` leaves the table alone, or changes the
length of an active slot, or fills a free slot, or zeroes an active slot. -/
theorem change_cases (g : avr_gdb_t) (set : Bool) (kind : Int) (addr len : Nat) :
    (gdb_change_breakpoint g set kind addr len).1 = g ∨
    (∃ k, k < 32 ∧ watch_hit g addr k = true ∧
      (gdb_change_breakpoint g set kind addr len).1 =
        { g with watch := fun j =>
          if j = k then { g.watch k with len := len } else g.watch j }) ∨
    (∃ k, k < 32 ∧ g.watchmap &&& (1 <<< k) = 0 ∧
      (gdb_change_breakpoint g set kind addr len).1 =
        { watchmap := g.watchmap ||| (1 <<< k),
          watch := fun j =>
            if j = k then { pc := addr, len := len, kind := kind } else g.watch j }) ∨
    (∃ k, k < 32 ∧ watch_hit g addr k = true ∧
      (gdb_change_breakpoint g set kind addr len).1 =
        { watchmap := g.watchmap &&& ((1 <<< k) ^^^ 0xffffffff),
          watch := fun j => if j = k then { pc := 0, len := 0, kind := 0 } else g.watch j }) := by
  unfold gdb_change_breakpoint
  cases set with
  | true =>
    simp only [if_true]
    by_cases hfull : g.watchmap = 0xffffffff
    · rw [if_pos hfull]; exact Or.inl rfl
    · rw [if_neg hfull]
      cases hu : update_loop g addr len 32 0 with
      | some g1 =>
        obtain ⟨k, hk, hh, hg⟩ := update_loop_some g addr len 32 0 g1 hu
        exact Or.inr (Or.inl ⟨k, by omega, hh, hg⟩)
      | none =>
        cases hi : insert_loop g kind addr len 32 0 with
        | some g1 =>
          obtain ⟨k, hk, hh, hg⟩ := insert_loop_some g kind addr len 32 0 g1 hi
          exact Or.inr (Or.inr (Or.inl ⟨k, by omega, hh, hg⟩))
        | none => exact Or.inl rfl
  | false =>
    simp only [Bool.false_eq_true, if_false]
    cases hr : remove_loop g addr 32 0 with
    | some g1 =>
      obtain ⟨k, hk, hh, hg⟩ := remove_loop_some g addr 32 0 g1 hr
      exact Or.inr (Or.inr (Or.inr ⟨k, by omega, hh, hg⟩))
    | none => exact Or.inl rfl

theorem clear_bit_testBit (w k j : Nat) (hw : w < 2 ^ 32) :
    (w &&& ((1 <<< k) ^^^ 0xffffffff)).testBit j = (w.testBit j && decide (j ≠ k)) := by
  rw [Nat.testBit_and, Nat.testBit_xor, Nat.one_shiftLeft, Nat.testBit_two_pow]
  by_cases hj : j < 32
  · have h1 : (0xffffffff : Nat).testBit j = true := by
      rw [show (0xffffffff : Nat) = 2 ^ 32 - 1 from by norm_num, Nat.testBit_two_pow_sub_one]
      simpa using hj
    rw [h1]
    by_cases hjk : k = j
    · subst hjk; simp
    · have : j ≠ k := fun h => hjk h.symm
      simp [hjk, this]
  · have h2 : w.testBit j = false :=
      Nat.testBit_lt_two_pow (Nat.lt_of_lt_of_le hw (Nat.pow_le_pow_right (by omega) (by omega)))
    rw [h2]; simp

theorem clear_after_set (w k : Nat) (hw : w < 2 ^ 32) (hk32 : k < 32)
    (hk : w &&& (1 <<< k) = 0) :
    (w ||| (1 <<< k)) &&& ((1 <<< k) ^^^ 0xffffffff) = w := by
  have hk2 := (and_one_shiftLeft_eq_zero w k).mp hk
  apply Nat.eq_of_testBit_eq
  intro j
  rw [Nat.testBit_and, Nat.testBit_xor, Nat.testBit_or, Nat.one_shiftLeft, Nat.testBit_two_pow]
  by_cases hjk : k = j
  · subst hjk
    have h1 : (0xffffffff : Nat).testBit k = true := by
      rw [show (0xffffffff : Nat) = 2 ^ 32 - 1 from by norm_num, Nat.testBit_two_pow_sub_one]
      simpa using hk32
    rw [hk2, h1]; simp
  · by_cases hj : j < 32
    · have h1 : (0xffffffff : Nat).testBit j = true := by
        rw [show (0xffffffff : Nat) = 2 ^ 32 - 1 from by norm_num, Nat.testBit_two_pow_sub_one]
        simpa using hj
      rw [h1]; simp [hjk]
    · have h2 : w.testBit j = false :=
        Nat.testBit_lt_two_pow
          (Nat.lt_of_lt_of_le hw (Nat.pow_le_pow_right (by omega) (by omega)))
      rw [h2]; simp [hjk]

/-- In a table built from the zeroed one the bitmap has 32 bits and every
inactive slot is zeroed. -/
theorem reachable_inactive_zero (g : avr_gdb_t) (h : gdb_reachable g) :
    g.watchmap < 2 ^ 32 ∧
    ∀ j, g.watchmap.testBit j = false → g.watch j = { pc := 0, len := 0, kind := 0 } := by
  induction h with
  | init => exact ⟨by decide, fun j _ => rfl⟩
  | change g set kind addr len _ ih =>
    obtain ⟨hw, hz⟩ := ih
    rcases change_cases g set kind addr len with h | ⟨k, hk, hh, h⟩ | ⟨k, hk, hh, h⟩ | ⟨k, hk, hh, h⟩
    · rw [h]; exact ⟨hw, hz⟩
    · rw [h]
      refine ⟨hw, ?_⟩
      intro j hj
      have hkb := ((watch_hit_iff g addr k).mp hh).1
      have hjk : j ≠ k := by
        intro e; subst e
        simp only at hj
        rw [hkb] at hj; exact Bool.noConfusion hj
      simp only [if_neg hjk]
      exact hz j hj
    · rw [h]
      refine ⟨?_, ?_⟩
      · apply Nat.or_lt_two_pow hw
        rw [Nat.one_shiftLeft]
        exact Nat.pow_lt_pow_right (by omega) hk
      · intro j hj
        simp only [Nat.testBit_or, Nat.one_shiftLeft, Nat.testBit_two_pow,
          Bool.or_eq_false_iff, decide_eq_false_iff_not] at hj
        have hjk : j ≠ k := fun e => hj.2 e.symm
        simp only [if_neg hjk]
        exact hz j hj.1
    · rw [h]
      refine ⟨Nat.lt_of_le_of_lt Nat.and_le_left hw, ?_⟩
      intro j hj
      by_cases hjk : j = k
      · simp only [if_pos hjk]
      · simp only [if_neg hjk]
        apply hz j
        simp only at hj
        rw [clear_bit_testBit g.watchmap k j hw] at hj
        simpa [hjk] using hj

/-- Inserting an address the table does not hold takes the first free slot. -/
theorem insert_at_first_free (g : avr_gdb_t) (kind : Int) (addr len : Nat)
    (hmap : g.watchmap < 2 ^ 32) (hnf : g.watchmap ≠ 0xffffffff)
    (hnew : ∀ i, i < 32 → watch_hit g addr i = false) :
    ∃ k, k < 32 ∧ g.watchmap &&& (1 <<< k) = 0 ∧
      (∀ j, j < k → g.watchmap &&& (1 <<< j) ≠ 0) ∧
      gdb_change_breakpoint g true kind addr len =
        ({ watchmap := g.watchmap ||| (1 <<< k),
           watch := fun j =>
             if j = k then { pc := addr, len := len, kind := kind } else g.watch j }, 0) := by
  obtain ⟨i, hi, hfree⟩ := free_slot_of_not_full g.watchmap hmap hnf
  obtain ⟨k, hk, hkfree, hlow⟩ := first_below (fun j => decide (g.watchmap &&& (1 <<< j) = 0))
    32 ⟨i, hi, by simpa using hfree⟩
  have hkfree2 : g.watchmap &&& (1 <<< k) = 0 := by simpa using hkfree
  have hlow2 : ∀ j, j < k → g.watchmap &&& (1 <<< j) ≠ 0 := by
    intro j hj
    simpa using hlow j hj
  refine ⟨k, hk, hkfree2, hlow2, ?_⟩
  unfold gdb_change_breakpoint
  rw [if_pos rfl, if_neg hnf,
    update_loop_none g addr len 32 0 (fun j _ h => hnew j (by omega)),
    insert_loop_spec g kind addr len k hkfree2 32 0 (by omega) (by omega)
      (fun j _ h => hlow2 j h)]

/-- Removing the address of an active slot zeroes the first such slot. -/
theorem remove_first_hit (g : avr_gdb_t) (kind : Int) (addr len : Nat)
    (hin : ∃ i, i < 32 ∧ watch_hit g addr i = true) :
    ∃ k, k < 32 ∧ watch_hit g addr k = true ∧ (∀ j, j < k → watch_hit g addr j = false) ∧
      gdb_change_breakpoint g false kind addr len =
        ({ watchmap := g.watchmap &&& ((1 <<< k) ^^^ 0xffffffff),
           watch := fun j =>
             if j = k then { pc := 0, len := 0, kind := 0 } else g.watch j }, 0) := by
  obtain ⟨k, hk, hhit, hlow⟩ := first_below (fun j => watch_hit g addr j) 32 hin
  refine ⟨k, hk, hhit, hlow, ?_⟩
  unfold gdb_change_breakpoint
  rw [if_neg (by simp),
    remove_loop_spec g addr k hhit 32 0 (by omega) (by omega) (fun j _ h => hlow j h)]

/-- Removing an address no active slot holds fails and changes nothing. -/
theorem remove_absent (g : avr_gdb_t) (kind : Int) (addr len : Nat)
    (hnew : ∀ i, i < 32 → watch_hit g addr i = false) :
    gdb_change_breakpoint g false kind addr len = (g, -1) := by
  unfold gdb_change_breakpoint
  rw [if_neg (by simp), remove_loop_none g addr 32 0 (fun j _ h => hnew j (by omega))]

/-- Insert a new address, then remove it: the table is the one before. -/
theorem insert_then_remove (g : avr_gdb_t) (kind kind2 : Int) (addr len len2 : Nat)
    (hr : gdb_reachable g) (hnf : g.watchmap ≠ 0xffffffff)
    (hnew : ∀ i, i < 32 → watch_hit g addr i = false) :
    (gdb_change_breakpoint g true kind addr len).2 = 0 ∧
    gdb_change_breakpoint (gdb_change_breakpoint g true kind addr len).1 false kind2 addr len2
      = (g, 0) := by
  obtain ⟨hmap, hzero⟩ := reachable_inactive_zero g hr
  obtain ⟨k, hk, hfree, hlow, hres⟩ := insert_at_first_free g kind addr len hmap hnf hnew
  have hkb := (and_one_shiftLeft_eq_zero g.watchmap k).mp hfree
  rw [hres]
  refine ⟨rfl, ?_⟩
  simp only
  obtain ⟨g1, hg1⟩ : ∃ g1 : avr_gdb_t, g1 = avr_gdb_t.mk (g.watchmap ||| (1 <<< k))
      (fun j => if j = k then { pc := addr, len := len, kind := kind } else g.watch j) :=
    ⟨_, rfl⟩
  rw [← hg1]
  have hhit : watch_hit g1 addr k = true := by
    rw [watch_hit_iff, hg1]
    simp [Nat.testBit_or, Nat.one_shiftLeft, Nat.testBit_two_pow]
  have hbelow : ∀ j, j < k → watch_hit g1 addr j = false := by
    intro j hj
    have hjk : j ≠ k := by omega
    have hkj : ¬ k = j := by omega
    have := hnew j (by omega)
    rw [← Bool.not_eq_true, watch_hit_iff] at this ⊢
    rw [hg1]
    simpa [Nat.testBit_or, Nat.one_shiftLeft, Nat.testBit_two_pow, hjk, hkj] using this
  unfold gdb_change_breakpoint
  rw [if_neg (by simp),
    remove_loop_spec g1 addr k hhit 32 0 (by omega) (by omega) (fun j _ h => hbelow j h)]
  simp only
  congr 1
  rw [hg1]
  cases g with
  | mk w t =>
    simp only at hmap hzero hfree hkb ⊢
    rw [clear_after_set w k hmap hk hfree]
    congr 1
    funext j
    by_cases hjk : j = k
    · subst hjk
      simp only [if_true]
      exact (hzero j hkb).symm
    · simp only [if_neg hjk]

/-- C21: removing the address of an active slot succeeds and deactivates exactly
the first slot that holds it (bit cleared, slot zeroed), every other slot and
bit as before; removing an address no active slot holds returns -1 and leaves
the table as it was; in a table built from the zeroed one that is not full,
inserting a new address and then removing it gives back the table exactly. -/
theorem remove_breakpoint (g : avr_gdb_t) (kind kind2 : Int) (addr len len2 : Nat)
    (hmap : g.watchmap < 2 ^ 32) :
    ((∃ i, i < 32 ∧ watch_hit g addr i = true) →
      ∃ k, k < 32 ∧ watch_hit g addr k = true ∧ (∀ j, j < k → watch_hit g addr j = false) ∧
        (gdb_change_breakpoint g false kind addr len).2 = 0 ∧
        (gdb_change_breakpoint g false kind addr len).1.watchmap &&& (1 <<< k) = 0 ∧
        (gdb_change_breakpoint g false kind addr len).1.watch k
          = { pc := 0, len := 0, kind := 0 } ∧
        ∀ j, j ≠ k →
          (gdb_change_breakpoint g false kind addr len).1.watch j = g.watch j ∧
          (gdb_change_breakpoint g false kind addr len).1.watchmap.testBit j
            = g.watchmap.testBit j) ∧
    ((∀ i, i < 32 → watch_hit g addr i = false) →
      gdb_change_breakpoint g false kind addr len = (g, -1)) ∧
    (gdb_reachable g → g.watchmap ≠ 0xffffffff →
      (∀ i, i < 32 → watch_hit g addr i = false) →
      (gdb_change_breakpoint g true kind addr len).2 = 0 ∧
      gdb_change_breakpoint (gdb_change_breakpoint g true kind addr len).1 false kind2 addr len2
        = (g, 0)) := by
  refine ⟨?_, ?_, ?_⟩
  · intro hin
    obtain ⟨k, hk, hhit, hlow, hres⟩ := remove_first_hit g kind addr len hin
    refine ⟨k, hk, hhit, hlow, ?_⟩
    rw [hres]
    refine ⟨rfl, ?_, ?_, ?_⟩
    · rw [and_one_shiftLeft_eq_zero]
      simp only
      rw [clear_bit_testBit g.watchmap k k hmap]
      simp
    · simp
    · intro j hj
      refine ⟨by simp [hj], ?_⟩
      simp only
      rw [clear_bit_testBit g.watchmap k j hmap]
      simp [hj]
  · exact remove_absent g kind addr len
  · intro hr hnf hnew
    exact insert_then_remove g kind kind2 addr len len2 hr hnf hnew

theorem remove_breakpoint_witness :
    (demo_gdb.watchmap < 2 ^ 32 ∧ (∃ i, i < 32 ∧ watch_hit demo_gdb 0x80 i = true) ∧
      (∀ i, i < 32 → watch_hit demo_gdb 0x100 i = false)) ∧
    (gdb_change_breakpoint demo_gdb false 1 0x80 2).1.watchmap = 1 ∧
    (gdb_change_breakpoint demo_gdb false 1 0x80 2).1.watch 0 = demo_gdb.watch 0 ∧
    (gdb_handle_breakpoint demo_gdb 0x3fff 'z' 1 0x80 2).2 = "OK" ∧
    (gdb_handle_breakpoint demo_gdb 0x3fff 'z' 1 0x100 2).2 = "E01" ∧
    (gdb_reachable demo_gdb_one ∧ demo_gdb_one.watchmap < 2 ^ 32 ∧
      demo_gdb_one.watchmap ≠ 0xffffffff ∧
      (∀ i, i < 32 → watch_hit demo_gdb_one 0x100 i = false)) ∧
    (∃ k, k < 32 ∧ watch_hit demo_gdb 0x80 k = true ∧
      (∀ j, j < k → watch_hit demo_gdb 0x80 j = false) ∧
      (gdb_change_breakpoint demo_gdb false 1 0x80 2).2 = 0 ∧
      (gdb_change_breakpoint demo_gdb false 1 0x80 2).1.watchmap &&& (1 <<< k) = 0 ∧
      (gdb_change_breakpoint demo_gdb false 1 0x80 2).1.watch k
        = { pc := 0, len := 0, kind := 0 } ∧
      ∀ j, j ≠ k →
        (gdb_change_breakpoint demo_gdb false 1 0x80 2).1.watch j = demo_gdb.watch j ∧
        (gdb_change_breakpoint demo_gdb false 1 0x80 2).1.watchmap.testBit j
          = demo_gdb.watchmap.testBit j) ∧
    gdb_change_breakpoint demo_gdb false 1 0x100 2 = (demo_gdb, -1) ∧
    ((gdb_change_breakpoint demo_gdb_one true 0 0x100 2).2 = 0 ∧
      gdb_change_breakpoint (gdb_change_breakpoint demo_gdb_one true 0 0x100 2).1 false 1 0x100 4
        = (demo_gdb_one, 0)) :=
  have hr : gdb_reachable demo_gdb_one := gdb_reachable.change _ _ _ _ _ gdb_reachable.init
  ⟨⟨by decide, ⟨1, by decide, by decide⟩, by decide⟩, by decide, by decide, by decide, by decide,
    ⟨hr, by decide, by decide, by decide⟩,
    (remove_breakpoint demo_gdb 1 1 0x80 2 2 (by decide)).1 ⟨1, by decide, by decide⟩,
    (remove_breakpoint demo_gdb 1 1 0x100 2 2 (by decide)).2.1 (by decide),
    (remove_breakpoint demo_gdb_one 0 1 0x100 2 4 (by decide)).2.2 hr (by decide) (by decide)⟩

/-! ## GDB packets -/

set_option maxRecDepth 100000 in
theorem hex2_eq_toDigits :
    ∀ n, n < 256 →
      hex2 n = (if n < 16 then '0' :: Nat.toDigits 16 n else Nat.toDigits 16 n) := by
  decide

theorem reply_loop_eq :
    ∀ (p : List Char) (check : Nat) (reply : List Char), check < 256 →
      (∀ c ∈ p, c.toNat ≠ 0) →
      reply_loop p check reply =
        ((check + (p.map Char.toNat).sum) % 256, reply ++ p)
  | [], check, reply, hc, _ => by
    simp [reply_loop, Nat.mod_eq_of_lt hc]
  | c :: p, check, reply, _, h => by
    have hc : c.toNat ≠ 0 := h c (List.mem_cons_self c p)
    unfold reply_loop
    rw [if_neg hc, reply_loop_eq p _ _ (Nat.mod_lt _ (by omega))
      (fun d hd => h d (List.mem_cons_of_mem c hd))]
    simp only [List.map_cons, List.sum_cons, List.append_assoc, List.singleton_append]
    congr 1
    omega

theorem reply_packet_eq (p : List Char) (hnul : ∀ c ∈ p, c.toNat ≠ 0) :
    reply_packet p = '$' :: p ++ '#' :: hex2 ((p.map Char.toNat).sum % 256) := by
  unfold reply_packet
  rw [reply_loop_eq p 0 ['$'] (by omega) hnul]
  simp

/-- C23: for a payload without NUL that fits the buffer `reply[1024]`,
`gdb_send_reply` sends the dollar sign, the payload, the hash sign and the two
lower-case hexadecimal digits of the sum of the payload bytes modulo 256, which
are the payload length plus four bytes; the empty payload gives `$#00`. -/
theorem send_reply_frame (g : gdb_conn) (p : List Char) (hnul : ∀ c ∈ p, c.toNat ≠ 0)
    (_hbyte : ∀ c ∈ p, c.toNat < 256) (_hfit : p.length + 5 ≤ 1024) :
    (gdb_send_reply g p).sent
      = g.sent ++ ['$' :: p ++ '#' :: hex2 ((p.map Char.toNat).sum % 256)] ∧
    (gdb_send_reply g p).table = g.table ∧
    ('$' :: p ++ '#' :: hex2 ((p.map Char.toNat).sum % 256)).length = p.length + 4 ∧
    hex2 ((p.map Char.toNat).sum % 256) =
      (if (p.map Char.toNat).sum % 256 < 16
        then '0' :: Nat.toDigits 16 ((p.map Char.toNat).sum % 256)
        else Nat.toDigits 16 ((p.map Char.toNat).sum % 256)) ∧
    (gdb_send_reply g []).sent = g.sent ++ ["$#00".toList] := by
  refine ⟨?_, rfl, ?_, hex2_eq_toDigits _ (Nat.mod_lt _ (by omega)), ?_⟩
  · unfold gdb_send_reply
    simp only
    rw [reply_packet_eq p hnul]
  · simp [hex2]
  · rfl

theorem send_reply_frame_witness :
    ((∀ c ∈ "OK".toList, c.toNat ≠ 0) ∧ (∀ c ∈ "OK".toList, c.toNat < 256) ∧
      "OK".toList.length + 5 ≤ 1024) ∧
    (gdb_send_reply (demo_conn "") "OK".toList).sent = ["$OK#9a".toList] ∧
    (gdb_send_reply (demo_conn "") "E01".toList).sent = ["$E01#a6".toList] ∧
    ((gdb_send_reply (demo_conn "") "OK".toList).sent
      = (demo_conn "").sent
        ++ ['$' :: "OK".toList ++ '#' :: hex2 (("OK".toList.map Char.toNat).sum % 256)] ∧
    (gdb_send_reply (demo_conn "") "OK".toList).table = (demo_conn "").table ∧
    ('$' :: "OK".toList ++ '#' :: hex2 (("OK".toList.map Char.toNat).sum % 256)).length
      = "OK".toList.length + 4 ∧
    hex2 (("OK".toList.map Char.toNat).sum % 256) =
      (if ("OK".toList.map Char.toNat).sum % 256 < 16
        then '0' :: Nat.toDigits 16 (("OK".toList.map Char.toNat).sum % 256)
        else Nat.toDigits 16 (("OK".toList.map Char.toNat).sum % 256)) ∧
    (gdb_send_reply (demo_conn "") []).sent = (demo_conn "").sent ++ ["$#00".toList]) :=
  ⟨⟨by decide, by decide, by decide⟩, by decide, by decide,
    send_reply_frame (demo_conn "") "OK".toList (by decide) (by decide) (by decide)⟩

/-! ## GDB commands -/

set_option maxRecDepth 100000 in
theorem sscanf_x_hex2 : ∀ n, n < 256 → sscanf_x (hex2 n) 0 = n := by
  decide

/-- The reply to a `p` command is the text chosen by the scanned number. -/
theorem handle_p (env : gdb_env) (avr : avr_t) (g : gdb_conn) (cmd : List Char)
    (hq : c_string g.query = 'p' :: cmd) :
    gdb_handle_command env avr g = some (avr, gdb_send_reply g
      (if sscanf_x cmd 0 ≤ 31 then hex2 (avr.data (sscanf_x cmd 0))
        else if sscanf_x cmd 0 = 32 then hex2 (avr.data R_SREG)
        else if sscanf_x cmd 0 = 33 then hex2 (avr.data R_SPL) ++ hex2 (avr.data R_SPH)
        else if sscanf_x cmd 0 = 34 then
          hex2 (avr.pc &&& 0xff) ++ hex2 ((avr.pc >>> 8) &&& 0xff)
            ++ hex2 ((avr.pc >>> 16) &&& 0xff) ++ "00".toList
        else env.rep)) := by
  unfold gdb_handle_command
  rw [hq]
  simp only [show ¬ ('p' = '?') from by decide, if_false, if_true]

/-- C24: a `p` command reads its register number as hexadecimal (two digits
scan to the number they spell, ` 22` to 34); the reply holds the two digits of
`data[regnum]` for 0 to 31, of the SREG byte for 32, the four digits of SPL then
SPH for 33, and for 34 the three low bytes of `pc`, lowest first, then `00`. -/
theorem read_register_reply (env : gdb_env) (avr : avr_t) (g : gdb_conn) (cmd : List Char)
    (hq : c_string g.query = 'p' :: cmd) :
    (∀ n, n < 256 → sscanf_x (hex2 n) 0 = n) ∧
    sscanf_x " 22".toList 0 = 34 ∧
    (sscanf_x cmd 0 ≤ 31 →
      gdb_handle_command env avr g
        = some (avr, gdb_send_reply g (hex2 (avr.data (sscanf_x cmd 0))))) ∧
    (sscanf_x cmd 0 = 32 →
      gdb_handle_command env avr g = some (avr, gdb_send_reply g (hex2 (avr.data R_SREG)))) ∧
    (sscanf_x cmd 0 = 33 →
      gdb_handle_command env avr g
        = some (avr, gdb_send_reply g (hex2 (avr.data R_SPL) ++ hex2 (avr.data R_SPH)))) ∧
    (sscanf_x cmd 0 = 34 →
      gdb_handle_command env avr g
        = some (avr, gdb_send_reply g
            (hex2 (avr.pc &&& 0xff) ++ hex2 ((avr.pc >>> 8) &&& 0xff)
              ++ hex2 ((avr.pc >>> 16) &&& 0xff) ++ ['0', '0'])) ∧
      (hex2 (avr.pc &&& 0xff) ++ hex2 ((avr.pc >>> 8) &&& 0xff)
        ++ hex2 ((avr.pc >>> 16) &&& 0xff) ++ ['0', '0']).length = 8) := by
  refine ⟨sscanf_x_hex2, by decide, ?_, ?_, ?_, ?_⟩
  · intro h
    rw [handle_p env avr g cmd hq, if_pos h]
  · intro h
    rw [handle_p env avr g cmd hq, h]
    rfl
  · intro h
    rw [handle_p env avr g cmd hq, h]
    rfl
  · intro h
    refine ⟨?_, by simp [hex2]⟩
    rw [handle_p env avr g cmd hq, h]
    rfl

theorem read_register_reply_witness :
    c_string (demo_conn "p22").query = 'p' :: "22".toList ∧
    sscanf_x "22".toList 0 = 34 ∧
    (gdb_handle_command demo_env demo_avr (demo_conn "p22")).map (fun r => r.2.sent)
      = some ["$00010000#81".toList] ∧
    (gdb_handle_command demo_env demo_avr (demo_conn "p21")).map (fun r => r.2.sent)
      = some ["$ff04#30".toList] ∧
    (gdb_handle_command demo_env demo_avr (demo_conn "p22")
      = some (demo_avr, gdb_send_reply (demo_conn "p22")
          (hex2 (demo_avr.pc &&& 0xff) ++ hex2 ((demo_avr.pc >>> 8) &&& 0xff)
            ++ hex2 ((demo_avr.pc >>> 16) &&& 0xff) ++ ['0', '0'])) ∧
      (hex2 (demo_avr.pc &&& 0xff) ++ hex2 ((demo_avr.pc >>> 8) &&& 0xff)
        ++ hex2 ((demo_avr.pc >>> 16) &&& 0xff) ++ ['0', '0']).length = 8) :=
  ⟨by decide, by decide, by decide, by decide,
    (read_register_reply demo_env demo_avr (demo_conn "p22") "22".toList
      (by decide)).2.2.2.2.2 (by decide)⟩

/-- What an `m` command does once `addr` and `len` are scanned. -/
theorem handle_m (env : gdb_env) (avr : avr_t) (g : gdb_conn) (cmd : List Char)
    (hq : c_string g.query = 'm' :: cmd) :
    gdb_handle_command env avr g =
      (if (sscanf_x_x cmd env.addr env.len).1 < 0xffff then
        some (avr, gdb_send_reply g
          (dump_loop (fun i => avr.flash ((sscanf_x_x cmd env.addr env.len).1 + i))
            (sscanf_x_x cmd env.addr env.len).2 0))
      else if (sscanf_x_x cmd env.addr env.len).1 ≥ 0x800000 ∧
          (sscanf_x_x cmd env.addr env.len).1 - 0x800000 ≤ avr.ramend then
        some (avr, gdb_send_reply g
          (dump_loop (fun i => avr.data ((sscanf_x_x cmd env.addr env.len).1 - 0x800000 + i))
            (sscanf_x_x cmd env.addr env.len).2 0))
      else if (sscanf_x_x cmd env.addr env.len).1 ≥ 0x810000 ∧
          (sscanf_x_x cmd env.addr env.len).1 - 0x810000 ≤ 16 * 1024 then
        match env.ee avr ((sscanf_x_x cmd env.addr env.len).1 - 0x810000) with
        | some src =>
          some ((avr_ioctl env.hooks avr env.eeprom_get
                  ((sscanf_x_x cmd env.addr env.len).1 - 0x810000)).1,
            gdb_send_reply g (dump_loop src (sscanf_x_x cmd env.addr env.len).2 0))
        | none =>
          if (sscanf_x_x cmd env.addr env.len).2 = 0 then
            some ((avr_ioctl env.hooks avr env.eeprom_get
                    ((sscanf_x_x cmd env.addr env.len).1 - 0x810000)).1,
              gdb_send_reply (gdb_send_reply g "E01".toList) [])
          else none
      else some (avr, gdb_send_reply g "E01".toList)) := by
  unfold gdb_handle_command
  rw [hq]
  simp only [show ¬ ('m' = '?') from by decide, show ¬ ('m' = 'p') from by decide,
    if_false, if_true]

/-- The text of an `m` reply: the two digits of each of the `len` bytes. -/
theorem dump_loop_eq (src : Nat → Nat) :
    ∀ len i, dump_loop src len i = (List.range len).flatMap (fun k => hex2 (src (i + k))) := by
  intro len
  induction len with
  | zero => intro i; rfl
  | succ n ih =>
    intro i
    unfold dump_loop
    rw [ih (i + 1), List.range_succ_eq_map, List.flatMap_cons, List.flatMap_map]
    simp only [Nat.add_zero, Function.comp_def]
    congr 2
    funext k
    rw [Nat.add_assoc, Nat.add_comm 1 k]

/-- An `m` command below 0xffff reads flash from byte `addr` on. -/
theorem m_reads_flash (env : gdb_env) (avr : avr_t) (g : gdb_conn) (cmd : List Char)
    (addr len : Nat) (hq : c_string g.query = 'm' :: cmd)
    (hscan : sscanf_x_x cmd env.addr env.len = (addr, len)) (haddr : addr < 0xffff) :
    gdb_handle_command env avr g = some (avr, gdb_send_reply g
      ((List.range len).flatMap (fun k => hex2 (avr.flash (addr + k))))) := by
  rw [handle_m env avr g cmd hq, hscan]
  simp only
  rw [if_pos haddr, dump_loop_eq]
  simp

/-- An `m` command in the data window reads `data[addr - 0x800000]` on. -/
theorem m_reads_data (env : gdb_env) (avr : avr_t) (g : gdb_conn) (cmd : List Char)
    (addr len : Nat) (hq : c_string g.query = 'm' :: cmd)
    (hscan : sscanf_x_x cmd env.addr env.len = (addr, len))
    (hlo : 0x800000 ≤ addr) (hhi : addr ≤ 0x800000 + avr.ramend) :
    gdb_handle_command env avr g = some (avr, gdb_send_reply g
      ((List.range len).flatMap (fun k => hex2 (avr.data (addr - 0x800000 + k))))) := by
  rw [handle_m env avr g cmd hq, hscan]
  simp only
  rw [if_neg (by omega), if_pos ⟨hlo, by omega⟩, dump_loop_eq]
  simp

/-- An `m` command outside the code's flash, data and EEPROM tests gets `E01`. -/
theorem m_outside_windows (env : gdb_env) (avr : avr_t) (g : gdb_conn) (cmd : List Char)
    (addr len : Nat) (hq : c_string g.query = 'm' :: cmd)
    (hscan : sscanf_x_x cmd env.addr env.len = (addr, len))
    (hflash : 0xffff ≤ addr) (hdata : addr < 0x800000 ∨ 0x800000 + avr.ramend < addr)
    (hee : addr < 0x810000 ∨ 0x810000 + 16 * 1024 < addr) :
    gdb_handle_command env avr g = some (avr, gdb_send_reply g "E01".toList) := by
  rw [handle_m env avr g cmd hq, hscan]
  simp only
  rw [if_neg (by omega), if_neg (by omega), if_neg (by omega)]

/-- C25: the packet `mffff,1` is answered with `E01` on every MCU, whatever its
flash holds at byte 0xffff, where the claim has the reply read flash; the
packet `mfffe,1` is answered with the two digits of `flash[0xfffe]`. -/
theorem read_memory_at_ffff (env : gdb_env) (avr : avr_t) (table : avr_gdb_t)
    (sent : List (List Char)) :
    gdb_handle_command env avr
        { table := table, query_len := 0, query := "mffff,1".toList, sent := sent }
      = some (avr, { table := table, query_len := 0, query := "mffff,1".toList,
                     sent := sent ++ ["$E01#a6".toList] }) ∧
    gdb_handle_command env avr
        { table := table, query_len := 0, query := "mfffe,1".toList, sent := sent }
      = some (avr, { table := table, query_len := 0, query := "mfffe,1".toList,
                     sent := sent ++ [reply_packet (hex2 (avr.flash 0xfffe))] }) ∧
    demo_avr_64k.flashend = 0xffff ∧ demo_avr_64k.flash 0xffff = 0xff ∧
    (gdb_handle_command demo_env demo_avr_64k (demo_conn "mffff,1")).map (fun r => r.2.sent)
      = some ["$E01#a6".toList] ∧
    (gdb_handle_command demo_env demo_avr_64k (demo_conn "mfffe,1")).map (fun r => r.2.sent)
      = some ["$ff#cc".toList] := by
  refine ⟨?_, ?_, by decide, by decide, by decide, by decide⟩
  · rw [m_outside_windows env avr
      { table := table, query_len := 0, query := "mffff,1".toList, sent := sent }
      "ffff,1".toList 0xffff 1 rfl rfl (by omega) (Or.inl (by omega))
      (Or.inl (by omega))]
    rfl
  · rw [m_reads_flash env avr
      { table := table, query_len := 0, query := "mfffe,1".toList, sent := sent }
      "fffe,1".toList 0xfffe 1 rfl rfl (by omega)]
    rfl

/-! ## Unsupported requests -/

/-- A command letter without a case gets the empty reply; nothing else changes. -/
theorem unknown_command (env : gdb_env) (avr : avr_t) (g : gdb_conn) (command : Char)
    (cmd : List Char) (hq : c_string g.query = command :: cmd)
    (h : command ∉ ['?', 'p', 'm', 'M', 'c', 's', 'Z', 'z']) :
    gdb_handle_command env avr g = some (avr, gdb_send_reply g []) := by
  simp only [List.mem_cons, List.mem_singleton, List.not_mem_nil, or_false, not_or] at h
  obtain ⟨h1, h2, h3, h4, h5, h6, h7, h8⟩ := h
  unfold gdb_handle_command
  rw [hq]
  simp only [h1, h2, h3, h4, h5, h6, h7, h8, if_false, or_self]

/-- An empty query gets the empty reply; nothing else changes. -/
theorem empty_command (env : gdb_env) (avr : avr_t) (g : gdb_conn)
    (hq : c_string g.query = []) :
    gdb_handle_command env avr g = some (avr, gdb_send_reply g []) := by
  unfold gdb_handle_command
  rw [hq]

theorem after_colon_none : ∀ cmd : List Char, ':' ∉ cmd → after_colon cmd = none
  | [], _ => rfl
  | c :: rest, h => by
    have hc : ¬ c = ':' := fun e => h (e ▸ List.mem_cons_self c rest)
    unfold after_colon
    rw [if_neg hc]
    exact after_colon_none rest (fun hm => h (List.mem_cons_of_mem c hm))

/-- An `M` command without a colon gets `E01`; nothing else changes. -/
theorem M_without_colon (env : gdb_env) (avr : avr_t) (g : gdb_conn) (cmd : List Char)
    (hq : c_string g.query = 'M' :: cmd) (h : ':' ∉ cmd) :
    gdb_handle_command env avr g = some (avr, gdb_send_reply g "E01".toList) := by
  unfold gdb_handle_command
  rw [hq]
  simp only [show ¬ ('M' = '?') from by decide, show ¬ ('M' = 'p') from by decide,
    show ¬ ('M' = 'm') from by decide, if_false, if_true, after_colon_none cmd h]

/-- What a `Z` or `z` command does once `kind`, `addr` and `len` are scanned. -/
theorem handle_Z (env : gdb_env) (avr : avr_t) (g : gdb_conn) (command : Char)
    (cmd : List Char) (hq : c_string g.query = command :: cmd)
    (hc : command = 'Z' ∨ command = 'z') :
    gdb_handle_command env avr g =
      some (avr,
        gdb_send_reply
          { g with table :=
              (gdb_handle_breakpoint g.table avr.flashend command
                (sscanf_d_x_x cmd env.kind env.addr env.len).1
                (sscanf_d_x_x cmd env.kind env.addr env.len).2.1
                (sscanf_d_x_x cmd env.kind env.addr env.len).2.2).1 }
          (gdb_handle_breakpoint g.table avr.flashend command
            (sscanf_d_x_x cmd env.kind env.addr env.len).1
            (sscanf_d_x_x cmd env.kind env.addr env.len).2.1
            (sscanf_d_x_x cmd env.kind env.addr env.len).2.2).2.toList) := by
  unfold gdb_handle_command
  rw [hq]
  rcases hc with hc | hc <;> subst hc <;>
    simp only [show ¬ ('Z' = '?') from by decide, show ¬ ('Z' = 'p') from by decide,
      show ¬ ('Z' = 'm') from by decide, show ¬ ('Z' = 'M') from by decide,
      show ¬ ('Z' = 'c') from by decide, show ¬ ('Z' = 's') from by decide,
      show ¬ ('z' = '?') from by decide, show ¬ ('z' = 'p') from by decide,
      show ¬ ('z' = 'm') from by decide, show ¬ ('z' = 'M') from by decide,
      show ¬ ('z' = 'c') from by decide, show ¬ ('z' = 's') from by decide,
      if_false, if_true, true_or, or_true]

/-- A `Z` or `z` command of kind 0 or 1 above `flashend` gets `E01`; nothing
else changes. -/
theorem Z_above_flashend (env : gdb_env) (avr : avr_t) (g : gdb_conn) (command : Char)
    (cmd : List Char) (kind addr len : Nat) (hq : c_string g.query = command :: cmd)
    (hc : command = 'Z' ∨ command = 'z')
    (hscan : sscanf_d_x_x cmd env.kind env.addr env.len = (kind, addr, len))
    (hkind : kind = 0 ∨ kind = 1) (haddr : avr.flashend < addr) :
    gdb_handle_command env avr g = some (avr, gdb_send_reply g "E01".toList) := by
  rw [handle_Z env avr g command cmd hq hc, hscan]
  simp only
  unfold gdb_handle_breakpoint
  rw [if_pos hkind, if_neg (by omega)]

/-- A `Z` or `z` command of a kind other than 0 and 1 gets the empty reply;
nothing else changes. -/
theorem Z_watchpoint_kind (env : gdb_env) (avr : avr_t) (g : gdb_conn) (command : Char)
    (cmd : List Char) (kind addr len : Nat) (hq : c_string g.query = command :: cmd)
    (hc : command = 'Z' ∨ command = 'z')
    (hscan : sscanf_d_x_x cmd env.kind env.addr env.len = (kind, addr, len))
    (hkind : 2 ≤ kind) :
    gdb_handle_command env avr g = some (avr, gdb_send_reply g []) := by
  rw [handle_Z env avr g command cmd hq hc, hscan]
  simp only
  unfold gdb_handle_breakpoint
  rw [if_neg (by omega)]
  rfl

/-- C28: the packet `p23` (register number 35, above 34) is answered on every
MCU with whatever the uninitialised buffer `rep` holds, here `junk`, and not
with `E01` or the empty packet; the MCU state and the table stay as they
were. -/
theorem read_register_above_34 (env : gdb_env) (avr : avr_t) (table : avr_gdb_t)
    (sent : List (List Char)) :
    sscanf_x "23".toList 0 = 35 ∧
    gdb_handle_command env avr
        { table := table, query_len := 0, query := "p23".toList, sent := sent }
      = some (avr, { table := table, query_len := 0, query := "p23".toList,
                     sent := sent ++ [reply_packet env.rep] }) ∧
    demo_env.rep = "junk".toList ∧
    (gdb_handle_command demo_env demo_avr (demo_conn "p23")).map (fun r => r.2.sent)
      = some ["$junk#b8".toList] ∧
    reply_packet "E01".toList = "$E01#a6".toList ∧ reply_packet [] = "$#00".toList := by
  refine ⟨by decide, ?_, rfl, by decide, by decide, by decide⟩
  rw [handle_p env avr
    { table := table, query_len := 0, query := "p23".toList, sent := sent } "23".toList rfl]
  rfl

/-! ## Breakpoint hits -/

theorem hex_digit_ne_nul (n : Nat) : (hex_digit n).toNat ≠ 0 := by
  have h : ∀ k, k < 16 → ("0123456789abcdef".toList.getD k '0').toNat ≠ 0 := by decide
  exact h (n % 16) (Nat.mod_lt n (by omega))

theorem hex2_ne_nul (n : Nat) : ∀ c ∈ hex2 n, c.toNat ≠ 0 := by
  intro c hc
  simp only [hex2, List.mem_cons, List.mem_singleton, List.not_mem_nil, or_false] at hc
  rcases hc with h | h <;> rw [h] <;> exact hex_digit_ne_nul _

theorem quick_status_ne_nul (avr : avr_t) (signal : Nat) :
    ∀ c ∈ quick_status avr signal, c.toNat ≠ 0 := by
  intro c hc
  unfold quick_status at hc
  simp only [List.mem_cons, List.mem_append] at hc
  have hlit : ∀ s : List Char, (∀ d ∈ s, d.toNat ≠ 0) → c ∈ s → c.toNat ≠ 0 :=
    fun s hs hm => hs c hm
  rcases hc with ((((((((((h | h) | h) | h) | h) | h) | h) | h) | h) | h) | h) | h
  · rw [h]; decide
  all_goals first
    | exact hex2_ne_nul _ c h
    | exact hlit "20:".toList (by decide) h
    | exact hlit ";21:".toList (by decide) h
    | exact hlit ";22:".toList (by decide) h
    | exact hlit "00;".toList (by decide) h

theorem hit_loop_eq : ∀ (n i : Nat) (avr : avr_t) (g : gdb_conn),
    hit_loop avr g n i =
      (if hit_count g.table avr.pc n i = 0 then avr else { avr with state := cpu_Stopped },
       { g with sent := g.sent ++
           List.replicate (hit_count g.table avr.pc n i) (reply_packet (quick_status avr 0)) })
  | 0, i, avr, g => by
    simp [hit_loop, hit_count]
  | n + 1, i, avr, g => by
    unfold hit_loop hit_count
    by_cases hh : watch_hit g.table avr.pc i = true
    · rw [if_pos hh, if_pos hh, hit_loop_eq n (i + 1)]
      have h1 : ¬ (1 + hit_count g.table avr.pc n (i + 1) = 0) := by omega
      rw [if_neg h1]
      have hq : quick_status { avr with state := cpu_Stopped } 0 = quick_status avr 0 := rfl
      rw [hq]
      simp only [gdb_send_quick_status, gdb_send_reply, List.append_assoc,
        List.singleton_append, ite_self, Nat.add_comm 1, List.replicate_succ]
    · rw [if_neg hh, if_neg hh, hit_loop_eq n (i + 1), Nat.zero_add]

theorem hit_count_zero (t : avr_gdb_t) (pc : Nat) :
    ∀ n i, (∀ j, i ≤ j → j < i + n → watch_hit t pc j = false) → hit_count t pc n i = 0 := by
  intro n
  induction n with
  | zero => intro i _; rfl
  | succ n ih =>
    intro i h
    unfold hit_count
    rw [h i (Nat.le_refl i) (by omega), ih (i + 1) (fun j h1 h2 => h j (by omega) (by omega))]
    rfl

theorem hit_count_pos (t : avr_gdb_t) (pc : Nat) :
    ∀ n i, (∃ j, i ≤ j ∧ j < i + n ∧ watch_hit t pc j = true) → 0 < hit_count t pc n i := by
  intro n
  induction n with
  | zero => intro i ⟨j, h1, h2, _⟩; omega
  | succ n ih =>
    intro i ⟨j, h1, h2, h3⟩
    unfold hit_count
    by_cases hji : j = i
    · subst hji
      rw [if_pos h3]; omega
    · have := ih (i + 1) ⟨j, by omega, by omega, h3⟩
      omega

/-- A successful `Z` insert leaves an active slot that holds the address. -/
theorem set_success_hit (g : avr_gdb_t) (kind : Int) (addr len : Nat)
    (hok : (gdb_change_breakpoint g true kind addr len).2 = 0) :
    ∃ i, i < 32 ∧ watch_hit (gdb_change_breakpoint g true kind addr len).1 addr i = true := by
  unfold gdb_change_breakpoint at hok ⊢
  simp only [if_true] at hok ⊢
  by_cases hfull : g.watchmap = 0xffffffff
  · rw [if_pos hfull] at hok
    simp at hok
  · rw [if_neg hfull] at hok ⊢
    cases hu : update_loop g addr len 32 0 with
    | some g1 =>
      obtain ⟨k, hk, hh, hg⟩ := update_loop_some g addr len 32 0 g1 hu
      refine ⟨k, by omega, ?_⟩
      simp only
      rw [hg, watch_hit_iff]
      rw [watch_hit_iff] at hh
      simpa using hh
    | none =>
      rw [hu] at hok
      simp only at hok ⊢
      cases hi : insert_loop g kind addr len 32 0 with
      | some g1 =>
        obtain ⟨k, hk, _, hg⟩ := insert_loop_some g kind addr len 32 0 g1 hi
        refine ⟨k, by omega, ?_⟩
        simp only
        rw [hg, watch_hit_iff]
        simp [Nat.testBit_or, Nat.one_shiftLeft, Nat.testBit_two_pow]
      | none =>
        rw [hi] at hok
        simp at hok

/-- The packet of a stop reply: dollar sign, status text, hash sign, checksum. -/
theorem stop_reply_packet (avr : avr_t) :
    reply_packet (quick_status avr 0) =
      "$T00".toList ++ ("20:".toList ++ hex2 (avr.data R_SREG) ++ ";21:".toList
        ++ hex2 (avr.data R_SPL) ++ hex2 (avr.data R_SPH) ++ ";22:".toList
        ++ hex2 (avr.pc &&& 0xff) ++ hex2 ((avr.pc >>> 8) &&& 0xff)
        ++ hex2 ((avr.pc >>> 16) &&& 0xff) ++ "00;".toList
        ++ '#' :: hex2 (((quick_status avr 0).map Char.toNat).sum % 256)) := by
  rw [reply_packet_eq _ (quick_status_ne_nul avr 0)]
  simp [quick_status, hex2, hex_digit]

/-- The function `avr_gdb_processor` when the two tests leave no command to
handle. -/
theorem gdb_processor_idle (env : gdb_env) (m : avr_sim) (g : gdb_conn)
    (hg : m.gdb = some g) (r : avr_t × gdb_conn)
    (hr : gdb_check_step (gdb_check_breakpoints m.avr g).1 (gdb_check_breakpoints m.avr g).2 = r)
    (hq : r.2.query_len = 0) :
    avr_gdb_processor env m = some (avr_sim.mk r.1 (some r.2) m.gdb_port) := by
  unfold avr_gdb_processor
  rw [hg]
  simp only []
  rw [hr, if_neg (by simp [hq])]

/-! ## Single step -/

/-- C27 as the code has it: `avr_sadly_crashed` sets the CPU state Stopped; when
no stub is attached and none is started (`gdb_port` is 0, or the socket cannot
be set up) the process exits with status 1; when a stub is attached the
function returns. -/
theorem crash_stops_and_exits (ok : Bool) (m : avr_sim) (signal : Nat) :
    (∀ m1, returned_state (avr_sadly_crashed ok m signal) = some m1 →
      m1.avr.state = cpu_Stopped) ∧
    (m.gdb = none → m.gdb_port = 0 ∨ ok = false →
      avr_sadly_crashed ok m signal =
        run_result.exited 1 { m with avr := { m.avr with state := cpu_Stopped } }) ∧
    (m.gdb ≠ none →
      avr_sadly_crashed ok m signal =
        run_result.returned { m with avr := { m.avr with state := cpu_Stopped } } 0) := by
  refine ⟨?_, ?_, ?_⟩
  · intro m1 h
    unfold avr_sadly_crashed at h
    cases hg : m.gdb with
    | none =>
      by_cases hp : m.gdb_port = 0
      · simp [hg, hp, returned_state] at h
      · cases ok with
        | true =>
          simp [hg, hp, returned_state, avr_gdb_init] at h
          rw [← h]
        | false => simp [hg, hp, returned_state, avr_gdb_init] at h
    | some g =>
      simp [hg, returned_state] at h
      rw [← h]
  · intro hg hno
    unfold avr_sadly_crashed
    rcases hno with hp | hok
    · simp [hg, hp]
    · by_cases hp : m.gdb_port = 0
      · simp [hg, hp]
      · simp [hg, hp, hok, avr_gdb_init]
  · intro hg
    unfold avr_sadly_crashed
    cases hg2 : m.gdb with
    | none => exact absurd hg2 hg
    | some g => simp [hg2]

theorem crash_stops_and_exits_witness :
    ((demo_sim 0x100).gdb ≠ none ∧
      (avr_sim.mk demo_avr none 0).gdb = none ∧ (avr_sim.mk demo_avr none 0).gdb_port = 0) ∧
    exit_status (avr_sadly_crashed true (avr_sim.mk demo_avr none 0) 11) = some 1 ∧
    exit_status (avr_sadly_crashed false (avr_sim.mk demo_avr none 1234) 11) = some 1 ∧
    exit_status (avr_sadly_crashed true (avr_sim.mk demo_avr none 1234) 11) = none ∧
    avr_sadly_crashed true (avr_sim.mk demo_avr none 0) 11 =
      run_result.exited 1
        { avr_sim.mk demo_avr none 0 with avr := { demo_avr with state := cpu_Stopped } } ∧
    avr_sadly_crashed true (demo_sim 0x100) 11 =
      run_result.returned
        { demo_sim 0x100 with avr := { (demo_sim 0x100).avr with state := cpu_Stopped } } 0 :=
  ⟨⟨by simp [demo_sim], rfl, rfl⟩, by decide, by decide, by decide,
    (crash_stops_and_exits true (avr_sim.mk demo_avr none 0) 11).2.1 rfl (Or.inl rfl),
    (crash_stops_and_exits true (demo_sim 0x100) 11).2.2 (by simp [demo_sim])⟩

/-- C27, counterexample: the state `avr_sadly_crashed` leaves on a running MCU
with a stub attached is Stopped, not Crashed. -/
theorem crash_state_is_stopped :
    (demo_sim 0x100).avr.state = cpu_Running ∧
    (returned_state (avr_sadly_crashed true (demo_sim 0x100) 11)).map (fun m => m.avr.state)
      = some cpu_Stopped ∧
    (returned_state (avr_sadly_crashed true (demo_sim 0x100) 11)).map (fun m => m.avr.state)
      ≠ some cpu_Crashed := by
  decide

/-! ## SREG mirror (`simavr.c`) -/

theorem scan_bits_state (s : avr_t) (bi : Nat) :
    ∀ n ii, (scan_bits s bi n ii).state = s.state := by
  intro n
  induction n with
  | zero => intro ii; rfl
  | succ n ih =>
    intro ii
    unfold scan_bits
    split
    · exact (service_vector_misc s _).2.1
    · exact ih (ii + 1)

theorem scan_words_state (s : avr_t) : ∀ n bi, (scan_words s n bi).state = s.state := by
  intro n
  induction n with
  | zero => intro bi; rfl
  | succ n ih =>
    intro bi
    unfold scan_words
    split
    · exact scan_bits_state s bi 32 0
    · exact ih (bi + 1)

/-- Interrupt servicing leaves the CPU state as it is. -/
theorem service_state (s : avr_t) : (avr_service_interupts s).state = s.state := by
  unfold avr_service_interupts
  split
  · rfl
  · split
    · split
      · dsimp only
        split
        · rw [scan_words_state]
        · rfl
      · rfl
    · rfl

/-- A completed SREG loop: flags and state as before, every flag it visited at
most 1, and in the byte the bits of the visited flags that are 1 added. -/
theorem sreg_loop_done :
    ∀ (n i : Nat) (avr avr1 : avr_t), i + n ≤ 8 → avr.data R_SREG < 256 →
      sreg_loop n i avr = outcome.done avr1 →
      avr1.sreg = avr.sreg ∧ avr1.state = avr.state ∧ avr1.data R_SREG < 256 ∧
      (∀ j, i ≤ j → j < i + n → avr.sreg j ≤ 1) ∧
      (∀ k, (avr1.data R_SREG).testBit k = true ↔
        ((avr.data R_SREG).testBit k = true ∨ (i ≤ k ∧ k < i + n ∧ avr.sreg k = 1)))
  | 0, i, avr, avr1, _, hd, h => by
    unfold sreg_loop at h
    have e : avr = avr1 := outcome.done.inj h
    subst e
    refine ⟨rfl, rfl, hd, fun j h1 h2 => by omega, fun k => ?_⟩
    constructor
    · intro hk; exact Or.inl hk
    · rintro (hk | ⟨h1, h2, _⟩)
      · exact hk
      · omega
  | n + 1, i, avr, avr1, hin, hd, h => by
    unfold sreg_loop at h
    by_cases hbig : avr.sreg i > 1
    · rw [if_pos hbig] at h
      exact outcome.noConfusion h
    · rw [if_neg hbig] at h
      by_cases hset : avr.sreg i ≠ 0
      · rw [if_pos hset] at h
        have hone : avr.sreg i = 1 := by omega
        have hd2 : (set_data avr R_SREG (avr.data R_SREG ||| (1 <<< i))).data R_SREG < 256 := by
          simp only [set_data, if_true]
          exact Nat.mod_lt _ (by omega)
        obtain ⟨h1, h2, h3, h4, h5⟩ := sreg_loop_done n (i + 1) _ avr1 (by omega) hd2 h
        have hsreg : (set_data avr R_SREG (avr.data R_SREG ||| (1 <<< i))).sreg = avr.sreg := rfl
        rw [hsreg] at h1 h4 h5
        refine ⟨h1, h2, h3, ?_, ?_⟩
        · intro j hj1 hj2
          by_cases hji : j = i
          · rw [hji]; omega
          · exact h4 j (by omega) (by omega)
        · intro k
          rw [h5 k]
          have hbit : ((set_data avr R_SREG (avr.data R_SREG ||| (1 <<< i))).data R_SREG).testBit k
              = true ↔ ((avr.data R_SREG).testBit k = true ∨ k = i) := by
            simp only [set_data, if_true]
            rw [show (256 : Nat) = 2 ^ 8 from rfl, Nat.testBit_mod_two_pow, Nat.testBit_or,
              Nat.one_shiftLeft, Nat.testBit_two_pow]
            simp only [Bool.and_eq_true, decide_eq_true_eq, Bool.or_eq_true]
            constructor
            · rintro ⟨_, h | h⟩
              · exact Or.inl h
              · exact Or.inr h.symm
            · rintro (h | h)
              · refine ⟨?_, Or.inl h⟩
                by_contra hk8
                have hpow : 2 ^ 8 ≤ 2 ^ k := Nat.pow_le_pow_right (by omega) (by omega)
                have : (avr.data R_SREG).testBit k = false :=
                  Nat.testBit_lt_two_pow (Nat.lt_of_lt_of_le hd hpow)
                rw [this] at h
                exact Bool.noConfusion h
              · exact ⟨by omega, Or.inr h.symm⟩
          rw [hbit]
          constructor
          · rintro ((h | h) | ⟨ha, hb, hc⟩)
            · exact Or.inl h
            · exact Or.inr ⟨by omega, by omega, by rw [h]; exact hone⟩
            · exact Or.inr ⟨by omega, by omega, hc⟩
          · rintro (h | ⟨ha, hb, hc⟩)
            · exact Or.inl (Or.inl h)
            · by_cases hki : k = i
              · exact Or.inl (Or.inr hki)
              · exact Or.inr ⟨by omega, by omega, hc⟩
      · rw [if_neg hset] at h
        have hzero : avr.sreg i = 0 := by omega
        obtain ⟨h1, h2, h3, h4, h5⟩ := sreg_loop_done n (i + 1) avr avr1 (by omega) hd h
        refine ⟨h1, h2, h3, ?_, ?_⟩
        · intro j hj1 hj2
          by_cases hji : j = i
          · rw [hji]; omega
          · exact h4 j (by omega) (by omega)
        · intro k
          rw [h5 k]
          constructor
          · rintro (h | ⟨ha, hb, hc⟩)
            · exact Or.inl h
            · exact Or.inr ⟨by omega, by omega, hc⟩
          · rintro (h | ⟨ha, hb, hc⟩)
            · exact Or.inl h
            · by_cases hki : k = i
              · rw [hki, hzero] at hc; omega
              · exact Or.inr ⟨by omega, by omega, hc⟩

/-- The SREG loop completes when every flag it visits is at most 1. -/
theorem sreg_loop_total :
    ∀ (n i : Nat) (avr : avr_t), (∀ j, i ≤ j → j < i + n → avr.sreg j ≤ 1) →
      ∃ avr1, sreg_loop n i avr = outcome.done avr1
  | 0, _, avr, _ => ⟨avr, rfl⟩
  | n + 1, i, avr, h => by
    unfold sreg_loop
    rw [if_neg (by have := h i (Nat.le_refl i) (by omega); omega)]
    by_cases hset : avr.sreg i ≠ 0
    · rw [if_pos hset]
      exact sreg_loop_total n (i + 1) _ (fun j h1 h2 => h j (by omega) (by omega))
    · rw [if_neg hset]
      exact sreg_loop_total n (i + 1) avr (fun j h1 h2 => h j (by omega) (by omega))

/-- The SREG loop ends in `CRASH()` when a flag it visits is above 1. -/
theorem sreg_loop_crash :
    ∀ (n i : Nat) (avr : avr_t), (∃ j, i ≤ j ∧ j < i + n ∧ avr.sreg j > 1) →
      ∃ avr1, sreg_loop n i avr = outcome.crash avr1
  | 0, i, avr, ⟨j, h1, h2, _⟩ => by omega
  | n + 1, i, avr, ⟨j, h1, h2, h3⟩ => by
    unfold sreg_loop
    by_cases hbig : avr.sreg i > 1
    · rw [if_pos hbig]; exact ⟨avr, rfl⟩
    · rw [if_neg hbig]
      have hji : j ≠ i := fun e => hbig (e ▸ h3)
      by_cases hset : avr.sreg i ≠ 0
      · rw [if_pos hset]
        exact sreg_loop_crash n (i + 1) _ ⟨j, by omega, by omega, h3⟩
      · rw [if_neg hset]
        exact sreg_loop_crash n (i + 1) avr ⟨j, by omega, by omega, h3⟩

/-- The end of a tick of `simavr.c` that returns with the CPU Running or
Sleeping leaves the SREG byte as the pack of the flags. -/
theorem finish_mirror (env : run_env) (a avr1 : avr_t) (ran n : Nat)
    (hret : avr_run_finish_simavr env a ran = run_result.returned avr1 n)
    (hstate : avr1.state = cpu_Running ∨ avr1.state = cpu_Sleeping) :
    avr1.data R_SREG < 256 ∧ (∀ i, i < 8 → avr1.sreg i ≤ 1) ∧
    (∀ i, i < 8 → ((avr1.data R_SREG).testBit i = true ↔ avr1.sreg i = 1)) := by
  unfold avr_run_finish_simavr at hret
  by_cases hex : a.state = cpu_Sleeping ∧ a.sreg S_I = 0
  · rw [if_pos hex] at hret
    exact run_result.noConfusion hret
  · rw [if_neg hex] at hret
    simp only [] at hret
    obtain ⟨a1, ha1⟩ : ∃ a1 : avr_t, a1 =
        (if a.state = cpu_Sleeping then { a with cycle := a.cycle + env.sleep a } else a) :=
      ⟨_, rfl⟩
    rw [← ha1] at hret
    by_cases hst : a1.state = cpu_Running ∨ a1.state = cpu_Sleeping
    · rw [if_pos hst] at hret
      cases hloop : sreg_loop 8 0 (set_data (avr_service_interupts a1) R_SREG 0) with
      | crash avr2 =>
        rw [hloop] at hret
        exact run_result.noConfusion hret
      | done avr2 =>
        rw [hloop] at hret
        have e : avr2 = avr1 := (run_result.returned.inj hret).1
        subst e
        have hzero : (set_data (avr_service_interupts a1) R_SREG 0).data R_SREG = 0 := by
          simp [set_data]
        obtain ⟨h1, _, h3, h4, h5⟩ := sreg_loop_done 8 0 _ avr2 (by omega)
          (by rw [hzero]; omega) hloop
        have hsreg : (set_data (avr_service_interupts a1) R_SREG 0).sreg
            = (avr_service_interupts a1).sreg := rfl
        refine ⟨h3, ?_, ?_⟩
        · intro i hi
          rw [h1]
          exact h4 i (by omega) (by omega)
        · intro i hi
          rw [h5 i, hzero, h1]
          simp only [Nat.zero_testBit, Bool.false_eq_true, false_or]
          constructor
          · rintro ⟨_, _, h⟩; exact h
          · intro h; exact ⟨by omega, by omega, h⟩
    · rw [if_neg hst] at hret
      have e := (run_result.returned.inj hret).1
      rw [e] at hst
      exact absurd hstate hst

/-- C29: when the `avr_run` of `simavr.c` returns with the CPU Running or
Sleeping, the byte `data[R_SREG]` is the pack of the eight flags: below 256,
with bit `i` set exactly when `sreg[i] == 1`, every flag being 0 or 1; this
covers a tick that entered an interrupt and cleared I. A tick of an MCU that is
not Stopped ends in lines 349-371, and there, with the CPU Running, or Sleeping
with I set, the function returns when the flags after interrupt servicing are
all at most 1 and ends in `CRASH()` when one of them is above 1. -/
theorem sreg_mirror_after_run (env : run_env) :
    (∀ (avr avr1 : avr_t) (n : Nat),
      avr_run_simavr env avr = run_result.returned avr1 n →
      avr1.state = cpu_Running ∨ avr1.state = cpu_Sleeping →
      avr1.data R_SREG < 256 ∧ (∀ i, i < 8 → avr1.sreg i ≤ 1) ∧
      (∀ i, i < 8 → ((avr1.data R_SREG).testBit i = true ↔ avr1.sreg i = 1))) ∧
    (∀ (avr : avr_t) (r : avr_t × Nat), avr.state = cpu_Running →
      env.run_one avr = outcome.done r →
      avr_run_simavr env avr
        = avr_run_finish_simavr env (avr_run_io_simavr env r.1 r.2) 1) ∧
    (∀ avr : avr_t, avr.state ≠ cpu_Running → avr.state ≠ cpu_Stopped →
      avr_run_simavr env avr
        = avr_run_finish_simavr env
            (avr_run_io_simavr env { avr with cycle := avr.cycle + 1 } avr.pc) 0) ∧
    (∀ (a : avr_t) (ran : Nat),
      a.state = cpu_Running ∨ (a.state = cpu_Sleeping ∧ a.sreg S_I ≠ 0) →
      ((∀ i, i < 8 → (avr_service_interupts
          (if a.state = cpu_Sleeping then { a with cycle := a.cycle + env.sleep a } else a)).sreg i
            ≤ 1) →
        ∃ avr1, avr_run_finish_simavr env a ran = run_result.returned avr1 ran ∧
          avr1.state = a.state) ∧
      ((∃ i, i < 8 ∧ (avr_service_interupts
          (if a.state = cpu_Sleeping then { a with cycle := a.cycle + env.sleep a } else a)).sreg i
            > 1) →
        ∃ avr1, avr_run_finish_simavr env a ran = run_result.exited 1 avr1)) := by
  refine ⟨?_, ?_, ?_, ?_⟩
  · intro avr avr1 n hret hstate
    unfold avr_run_simavr at hret
    by_cases hs : avr.state = cpu_Stopped
    · rw [if_pos hs] at hret
      have e := (run_result.returned.inj hret).1
      rw [← e, hs] at hstate
      rcases hstate with h | h <;> exact absurd h (by decide)
    · rw [if_neg hs] at hret
      by_cases hr : avr.state = cpu_Running
      · rw [if_pos hr] at hret
        cases hone : env.run_one avr with
        | crash a =>
          rw [hone] at hret
          exact run_result.noConfusion hret
        | done r =>
          rw [hone] at hret
          exact finish_mirror env _ avr1 1 n hret hstate
      · rw [if_neg hr] at hret
        exact finish_mirror env _ avr1 0 n hret hstate
  · intro avr r hr hone
    unfold avr_run_simavr
    rw [if_neg (by rw [hr]; decide), if_pos hr, hone]
  · intro avr hr hs
    unfold avr_run_simavr
    rw [if_neg hs, if_neg hr]
  · intro a ran hst
    have hex : ¬ (a.state = cpu_Sleeping ∧ a.sreg S_I = 0) := by
      rintro ⟨h1, h2⟩
      rcases hst with h | ⟨_, h⟩
      · rw [h1] at h; exact absurd h (by decide)
      · exact h h2
    have hst2 : (if a.state = cpu_Sleeping then { a with cycle := a.cycle + env.sleep a }
        else a).state = cpu_Running ∨
        (if a.state = cpu_Sleeping then { a with cycle := a.cycle + env.sleep a }
        else a).state = cpu_Sleeping := by
      by_cases h : a.state = cpu_Sleeping
      · rw [if_pos h]; exact Or.inr h
      · rw [if_neg h]
        rcases hst with h1 | ⟨h1, _⟩
        · exact Or.inl h1
        · exact absurd h1 h
    have hsame : (if a.state = cpu_Sleeping then { a with cycle := a.cycle + env.sleep a }
        else a).state = a.state := by
      by_cases h : a.state = cpu_Sleeping
      · rw [if_pos h]
      · rw [if_neg h]
    constructor
    · intro hok
      obtain ⟨avr1, h1⟩ := sreg_loop_total 8 0
        (set_data (avr_service_interupts
          (if a.state = cpu_Sleeping then { a with cycle := a.cycle + env.sleep a } else a))
          R_SREG 0)
        (fun j _ h => hok j (by omega))
      refine ⟨avr1, ?_, ?_⟩
      · unfold avr_run_finish_simavr
        rw [if_neg hex]
        simp only []
        rw [if_pos hst2, h1]
      · have hd : (set_data (avr_service_interupts
            (if a.state = cpu_Sleeping then { a with cycle := a.cycle + env.sleep a } else a))
            R_SREG 0).data R_SREG < 256 := by
          simp [set_data]
        have := (sreg_loop_done 8 0 _ avr1 (by omega) hd h1).2.1
        rw [this]
        show (avr_service_interupts _).state = a.state
        rw [service_state, hsame]
    · rintro ⟨i, hi, hbig⟩
      obtain ⟨avr1, h1⟩ := sreg_loop_crash 8 0
        (set_data (avr_service_interupts
          (if a.state = cpu_Sleeping then { a with cycle := a.cycle + env.sleep a } else a))
          R_SREG 0)
        ⟨i, by omega, by omega, hbig⟩
      refine ⟨avr1, ?_⟩
      unfold avr_run_finish_simavr
      rw [if_neg hex]
      simp only []
      rw [if_pos hst2, h1]

theorem sreg_mirror_after_run_witness :
    (demo_avr_due.state = cpu_Running ∧ demo_avr_due.sreg S_I = 1 ∧
      demo_avr_due.data R_SREG = 0x80 ∧ demo_avr_bad_flag.sreg 0 = 2) ∧
    (returned_state (avr_run_simavr demo_run_env demo_avr_due)).map
        (fun a => (a.state, a.sreg S_I, a.data R_SREG, a.pc))
      = some (cpu_Running, 0, 0, 32) ∧
    (returned_state (avr_run_simavr demo_run_env demo_avr)).map
        (fun a => (a.state, a.sreg S_I, a.data R_SREG))
      = some (cpu_Sleeping, 1, 0x80) ∧
    exit_status (avr_run_simavr demo_run_env demo_avr_bad_flag) = some 1 ∧
    (∃ avr1 n, avr_run_simavr demo_run_env demo_avr_due = run_result.returned avr1 n ∧
      (avr1.state = cpu_Running ∨ avr1.state = cpu_Sleeping) ∧
      avr1.data R_SREG < 256 ∧ (∀ i, i < 8 → avr1.sreg i ≤ 1) ∧
      (∀ i, i < 8 → ((avr1.data R_SREG).testBit i = true ↔ avr1.sreg i = 1))) :=
  ⟨⟨by decide, by decide, by decide, by decide⟩, by decide, by decide, by decide,
    ⟨_, _, rfl, Or.inl rfl,
      (sreg_mirror_after_run demo_run_env).1 demo_avr_due _ _ rfl (Or.inl rfl)⟩⟩

/-! ## Initialisation -/

theorem reset_ports_keeps (ports : List avr_io_t)
    (h : ∀ p ∈ ports, ∀ f, p.reset = some f → keeps_flash_and_state f) :
    ∀ avr, (reset_ports ports avr).flash = avr.flash ∧
      (reset_ports ports avr).flashend = avr.flashend ∧
      (reset_ports ports avr).state = avr.state := by
  induction ports with
  | nil => intro avr; exact ⟨rfl, rfl, rfl⟩
  | cons p rest ih =>
    intro avr
    have ih2 := ih (fun q hq => h q (List.mem_cons_of_mem _ hq))
    unfold reset_ports
    cases hr : p.reset with
    | none => exact ih2 avr
    | some f =>
      simp only
      obtain ⟨h1, h2, h3⟩ := h p (List.mem_cons_self _ _) f hr avr
      obtain ⟨k1, k2, k3⟩ := ih2 (f avr)
      exact ⟨k1.trans h1, k2.trans h2, k3.trans h3⟩

/-- The function `avr_reset` leaves the flash and the CPU state as they are when
its handlers do. -/
theorem reset_keeps (hooks : avr_hooks) (avr : avr_t)
    (hreset : ∀ f, hooks.reset = some f → keeps_flash_and_state f)
    (hports : ∀ p ∈ hooks.io_port, ∀ f, p.reset = some f → keeps_flash_and_state f) :
    (avr_reset hooks avr).flash = avr.flash ∧
    (avr_reset hooks avr).flashend = avr.flashend ∧
    (avr_reset hooks avr).state = avr.state := by
  unfold avr_reset
  simp only []
  obtain ⟨k1, k2, k3⟩ := reset_ports_keeps hooks.io_port hports
    (match hooks.reset with
      | some f => f (clear_sreg { _avr_sp_set (clear_data avr) (clear_data avr).ramend with pc := 0 })
      | none => clear_sreg { _avr_sp_set (clear_data avr) (clear_data avr).ramend with pc := 0 })
  rw [k1, k2, k3]
  cases hr : hooks.reset with
  | none => exact ⟨rfl, rfl, rfl⟩
  | some f =>
    simp only
    obtain ⟨h1, h2, h3⟩ := hreset f hr
      (clear_sreg { _avr_sp_set (clear_data avr) (clear_data avr).ramend with pc := 0 })
    rw [h1, h2, h3]
    exact ⟨rfl, rfl, rfl⟩

/-- C30: with handlers that leave the flash alone, and reset handlers that
leave the CPU state alone, `avr_init` leaves every byte of `flash[0..flashend]`
at 0xFF and the CPU Running; `avr_loadcode(code, size, address)` after it puts
the bytes of `code` at `flash[address..address+size)`, leaves every other byte
of the flash at 0xFF and the CPU Running. -/
theorem init_fills_flash (hooks : avr_hooks) (avr : avr_t)
    (hinit : ∀ f, hooks.init = some f → keeps_flash f)
    (hreset : ∀ f, hooks.reset = some f → keeps_flash_and_state f)
    (hports : ∀ p ∈ hooks.io_port, ∀ f, p.reset = some f → keeps_flash_and_state f) :
    (avr_init hooks avr).flashend = avr.flashend ∧
    (∀ a, a ≤ avr.flashend → (avr_init hooks avr).flash a = 0xff) ∧
    (avr_init hooks avr).state = cpu_Running ∧
    (∀ (code : Nat → Nat) (size address a : Nat), a ≤ avr.flashend →
      (avr_loadcode (avr_init hooks avr) code size address).flash a
        = if address ≤ a ∧ a < address + size then code (a - address) else 0xff) ∧
    (∀ (code : Nat → Nat) (size address : Nat),
      (avr_loadcode (avr_init hooks avr) code size address).state = cpu_Running) := by
  have hflash : (avr_init hooks avr).flashend = avr.flashend ∧
      (∀ a, a ≤ avr.flashend → (avr_init hooks avr).flash a = 0xff) ∧
      (avr_init hooks avr).state = cpu_Running := by
    unfold avr_init
    simp only []
    cases hi : hooks.init with
    | none =>
      simp only
      obtain ⟨k1, k2, k3⟩ := reset_keeps hooks
        { ({ ({ ({ avr with flash := fun a => if a ≤ avr.flashend then 0xff else avr.flash a }
                  : avr_t) with data := fun a => if a ≤ avr.ramend then 0 else avr.data a }
              : avr_t) with state := cpu_Limbo } : avr_t) with state := cpu_Running }
        hreset hports
      refine ⟨k2, ?_, k3⟩
      intro a ha
      rw [k1]
      simp [ha]
    | some f =>
      simp only
      obtain ⟨h1, h2⟩ := hinit f hi
        { ({ ({ avr with flash := fun a => if a ≤ avr.flashend then 0xff else avr.flash a }
                : avr_t) with data := fun a => if a ≤ avr.ramend then 0 else avr.data a }
            : avr_t) with state := cpu_Limbo }
      obtain ⟨k1, k2, k3⟩ := reset_keeps hooks
        { f { ({ ({ avr with flash := fun a => if a ≤ avr.flashend then 0xff else avr.flash a }
                : avr_t) with data := fun a => if a ≤ avr.ramend then 0 else avr.data a }
            : avr_t) with state := cpu_Limbo } with state := cpu_Running }
        hreset hports
      refine ⟨k2.trans h2, ?_, k3⟩
      intro a ha
      rw [k1]
      show (f _).flash a = 0xff
      rw [h1]
      simp [ha]
  obtain ⟨h1, h2, h3⟩ := hflash
  refine ⟨h1, h2, h3, ?_, ?_⟩
  · intro code size address a ha
    unfold avr_loadcode
    simp only
    rw [h2 a ha]
  · intro code size address
    exact h3

theorem init_fills_flash_witness :
    ((∀ f, demo_hooks_init.init = some f → keeps_flash f) ∧
      (∀ f, demo_hooks_init.reset = some f → keeps_flash_and_state f) ∧
      (∀ p ∈ demo_hooks_init.io_port, ∀ f, p.reset = some f → keeps_flash_and_state f)) ∧
    demo_avr_raw.flash 3 = 3 ∧ demo_avr_raw.state = cpu_Stopped ∧
    (avr_init demo_hooks_init demo_avr_raw).flash 3 = 0xff ∧
    (avr_init demo_hooks_init demo_avr_raw).flash 0x3fff = 0xff ∧
    (avr_init demo_hooks_init demo_avr_raw).state = cpu_Running ∧
    (avr_loadcode (avr_init demo_hooks_init demo_avr_raw) (fun i => 0x10 + i) 2 0x100).flash 0x101
      = 0x11 ∧
    (avr_loadcode (avr_init demo_hooks_init demo_avr_raw) (fun i => 0x10 + i) 2 0x100).flash 0x102
      = 0xff ∧
    ((avr_init demo_hooks_init demo_avr_raw).flashend = demo_avr_raw.flashend ∧
    (∀ a, a ≤ demo_avr_raw.flashend → (avr_init demo_hooks_init demo_avr_raw).flash a = 0xff) ∧
    (avr_init demo_hooks_init demo_avr_raw).state = cpu_Running ∧
    (∀ (code : Nat → Nat) (size address a : Nat), a ≤ demo_avr_raw.flashend →
      (avr_loadcode (avr_init demo_hooks_init demo_avr_raw) code size address).flash a
        = if address ≤ a ∧ a < address + size then code (a - address) else 0xff) ∧
    (∀ (code : Nat → Nat) (size address : Nat),
      (avr_loadcode (avr_init demo_hooks_init demo_avr_raw) code size address).state
        = cpu_Running)) :=
  have hi : ∀ f, demo_hooks_init.init = some f → keeps_flash f := by
    intro f h
    cases h
    intro a
    exact ⟨rfl, rfl⟩
  have hr : ∀ f, demo_hooks_init.reset = some f → keeps_flash_and_state f := by
    intro f h
    cases h
    intro a
    exact ⟨rfl, rfl, rfl⟩
  have hp : ∀ p ∈ demo_hooks_init.io_port, ∀ f, p.reset = some f →
      keeps_flash_and_state f := by
    intro p hp f h
    simp only [demo_hooks_init, List.mem_singleton] at hp
    subst hp
    cases h
    intro a
    exact ⟨rfl, rfl, rfl⟩
  ⟨⟨hi, hr, hp⟩, by decide, by decide, by decide, by decide, by decide, by decide, by decide,
    init_fills_flash demo_hooks_init demo_avr_raw hi hr hp⟩

/-! ## Reset and the interrupt bookkeeping -/

/-- C36: with no core reset hook and no peripheral reset handler, `avr_reset`
leaves `pending[]`, `pending_wait`, `i_shadow`, `cycle`, the CPU state and the
vector table as they were, so every vector that was pending before the reset is
pending after it. -/
theorem reset_keeps_interrupt_bookkeeping (hooks : avr_hooks) (avr : avr_t)
    (hcore : hooks.reset = none) (hports : ∀ p ∈ hooks.io_port, p.reset = none) :
    (avr_reset hooks avr).pending = avr.pending ∧
    (avr_reset hooks avr).pending_wait = avr.pending_wait ∧
    (avr_reset hooks avr).i_shadow = avr.i_shadow ∧
    (avr_reset hooks avr).cycle = avr.cycle ∧
    (avr_reset hooks avr).state = avr.state ∧
    (avr_reset hooks avr).vector = avr.vector ∧
    (∀ vec, avr_is_interupt_pending (avr_reset hooks avr) vec
      = avr_is_interupt_pending avr vec) ∧
    avr_has_pending_interupts (avr_reset hooks avr) = avr_has_pending_interupts avr := by
  rw [reset_no_hooks hooks avr hcore hports]
  exact ⟨rfl, rfl, rfl, rfl, rfl, rfl, fun _ => rfl, rfl⟩

theorem reset_keeps_interrupt_bookkeeping_witness :
    (demo_hooks.reset = none ∧ (∀ p ∈ demo_hooks.io_port, p.reset = none)) ∧
    avr_is_interupt_pending demo_avr_pending demo_vector ≠ 0 ∧
    demo_avr_pending.pending_wait = 1 ∧
    avr_is_interupt_pending (avr_reset demo_hooks demo_avr_pending) demo_vector ≠ 0 ∧
    (avr_reset demo_hooks demo_avr_pending).pending_wait = 1 ∧
    (avr_reset demo_hooks demo_avr_pending).pc = 0 ∧
    ((avr_reset demo_hooks demo_avr_pending).pending = demo_avr_pending.pending ∧
    (avr_reset demo_hooks demo_avr_pending).pending_wait = demo_avr_pending.pending_wait ∧
    (avr_reset demo_hooks demo_avr_pending).i_shadow = demo_avr_pending.i_shadow ∧
    (avr_reset demo_hooks demo_avr_pending).cycle = demo_avr_pending.cycle ∧
    (avr_reset demo_hooks demo_avr_pending).state = demo_avr_pending.state ∧
    (avr_reset demo_hooks demo_avr_pending).vector = demo_avr_pending.vector ∧
    (∀ vec, avr_is_interupt_pending (avr_reset demo_hooks demo_avr_pending) vec
      = avr_is_interupt_pending demo_avr_pending vec) ∧
    avr_has_pending_interupts (avr_reset demo_hooks demo_avr_pending)
      = avr_has_pending_interupts demo_avr_pending) :=
  have hp : ∀ p ∈ demo_hooks.io_port, p.reset = none := by
    intro p hp
    simp only [demo_hooks, avr_register_io, demo_hooks_empty, List.mem_cons,
      List.mem_singleton, List.not_mem_nil, or_false] at hp
    rcases hp with h | h | h | h <;> rw [h] <;> rfl
  ⟨⟨rfl, hp⟩, by decide, by decide, by decide, by decide, by decide,
    reset_keeps_interrupt_bookkeeping demo_hooks demo_avr_pending rfl hp⟩

/-! ## The stored value during the hooks -/

/-- With callbacks that raise nothing, every callback of the loop is entered in
a state whose IRQ still holds the value it had before the loop, and there is
one entry per hook that fires. -/
theorem hook_entries_quiet (cb : callbacks) (raise : irq_bus → Nat → Nat → Option irq_bus)
    (p value : Nat) (l : List avr_irq_hook_t)
    (hcb : ∀ h ∈ l, cb h.notify p value h.param = []) :
    ∀ n k (w : irq_bus), (w.irqs p).hook = l → l.length ≤ n + k →
      (∀ e ∈ hook_entries cb raise p value n k w, (e.irqs p).value = (w.irqs p).value) ∧
      (hook_entries cb raise p value n k w).map (fun e => e.calls.getLast?)
        = ((l.drop k).filter hook_fires).map (fun h => some (call_of p value h)) := by
  intro n
  induction n with
  | zero =>
    intro k w _ hlen
    have : l.drop k = [] := List.drop_eq_nil_of_le (by omega)
    simp [hook_entries, this]
  | succ n ih =>
    intro k w hl hlen
    unfold hook_entries
    cases hk : (w.irqs p).hook[k]? with
    | none =>
      have hk2 : l.length ≤ k := by
        rw [hl] at hk
        exact List.getElem?_eq_none_iff.mp hk
      have : l.drop k = [] := List.drop_eq_nil_of_le hk2
      simp [this]
    | some h =>
      have hkl : l[k]? = some h := by rw [← hl]; exact hk
      have hklt : k < l.length := by
        by_contra hc
        rw [List.getElem?_eq_none_iff.mpr (by omega)] at hkl
        exact Option.noConfusion hkl
      have hget : l[k] = h := by
        have h2 : l[k]? = some l[k] := List.getElem?_eq_getElem hklt
        rw [h2] at hkl
        exact Option.some.inj hkl
      have hmem : h ∈ l := by rw [← hget]; exact List.getElem_mem _
      have hdrop : l.drop k = h :: l.drop (k + 1) := by
        rw [List.drop_eq_getElem_cons hklt, hget]
      simp only
      by_cases hf : h.notify ≠ 0 ∧ h.busy = 0
      · rw [if_pos hf, hcb h hmem]
        simp only [run_raises]
        rw [set_busy_back w p k h _ hk hf.2]
        obtain ⟨ih1, ih2⟩ := ih (k + 1)
          { irqs := w.irqs,
            calls := (set_busy w p k (fun b => b + 1)).calls ++
              [{ notify := h.notify, irq := p, value := value, param := h.param }] }
          hl (by omega)
        have hfire : hook_fires h = true := by
          unfold hook_fires
          simp [hf.1, hf.2]
        constructor
        · intro e he
          rcases List.mem_cons.mp he with he | he
          · rw [he]
            simp [set_busy, set_irq]
          · exact ih1 e he
        · rw [List.map_cons, ih2, hdrop, List.filter_cons_of_pos hfire, List.map_cons]
          simp [call_of]
      · rw [if_neg hf]
        obtain ⟨ih1, ih2⟩ := ih (k + 1) w hl (by omega)
        have hfire : ¬ (hook_fires h = true) := by
          unfold hook_fires
          intro hh
          simp only [Bool.and_eq_true, decide_eq_true_eq] at hh
          exact hf hh
        refine ⟨ih1, ?_⟩
        rw [ih2, hdrop, List.filter_cons_of_neg hfire]

/-- A call of `avr_raise_irq` on an IRQ that returns leaves `value` stored. -/
theorem raise_value_at_return (cb : callbacks) (fuel : Nat) (w w1 : irq_bus) (irq v : Nat)
    (hirq : irq ≠ 0) (h : avr_raise_irq cb (fuel + 1) w irq v = some w1) :
    (w1.irqs irq).value = v := by
  unfold avr_raise_irq at h
  by_cases hc : irq = 0 ∨ (w.irqs irq).value = v
  · rw [if_pos hc] at h
    have e : w = w1 := Option.some.inj h
    rw [← e]
    rcases hc with hc | hc
    · exact absurd hc hirq
    · exact hc
  · rw [if_neg hc] at h
    cases hw : walk_hooks cb (avr_raise_irq cb fuel) irq v (w.irqs irq).hook.length 0 w with
    | none =>
      rw [hw] at h
      exact Option.noConfusion h
    | some w2 =>
      rw [hw] at h
      have e := Option.some.inj h
      rw [← e]
      simp [set_irq]

/-- C31 as the code has it: `avr_raise_irq(irq, v)` with `v` other than the
current value stores `v` after the hook loop. Whenever the call returns the IRQ
holds `v`. When the callbacks raise nothing the call returns, each hook that
fires is invoked once, in list order, and each of these callbacks is entered
with the IRQ still holding its previous value, which is not `v`; the new value
reaches the callback as its argument. -/
theorem raise_stores_value_after_hooks (cb : callbacks) (fuel : Nat) (w : irq_bus)
    (irq v : Nat) (hirq : irq ≠ 0) (hv : (w.irqs irq).value ≠ v) :
    (∀ w1, avr_raise_irq cb (fuel + 1) w irq v = some w1 → (w1.irqs irq).value = v) ∧
    ((∀ h ∈ (w.irqs irq).hook, cb h.notify irq v h.param = []) →
      (∃ w1, avr_raise_irq cb (fuel + 1) w irq v = some w1 ∧ (w1.irqs irq).value = v ∧
        w1.calls = w.calls ++ ((w.irqs irq).hook.filter hook_fires).map (call_of irq v)) ∧
      (raise_entries cb fuel w irq v).map (fun e => e.calls.getLast?)
        = ((w.irqs irq).hook.filter hook_fires).map (fun h => some (call_of irq v h)) ∧
      (∀ e ∈ raise_entries cb fuel w irq v,
        (e.irqs irq).value = (w.irqs irq).value ∧ (e.irqs irq).value ≠ v)) := by
  refine ⟨fun w1 h => raise_value_at_return cb fuel w w1 irq v hirq h, ?_⟩
  intro hcb
  have hent : raise_entries cb fuel w irq v =
      hook_entries cb (avr_raise_irq cb fuel) irq v (w.irqs irq).hook.length 0 w := by
    unfold raise_entries
    rw [if_neg (by intro h; rcases h with h | h; exact hirq h; exact hv h)]
  obtain ⟨h1, h2⟩ := hook_entries_quiet cb (avr_raise_irq cb fuel) irq v (w.irqs irq).hook hcb
    (w.irqs irq).hook.length 0 w rfl (by omega)
  refine ⟨⟨_, raise_quiet cb fuel w irq v hirq hv hcb, ?_, ?_⟩, ?_, ?_⟩
  · simp [set_irq]
  · simp [set_irq]
  · rw [hent, h2, List.drop_zero]
  · intro e he
    rw [hent] at he
    rw [h1 e he]
    exact ⟨rfl, hv⟩

theorem raise_stores_value_after_hooks_witness :
    ((10 : Nat) ≠ 0 ∧ (demo_bus_two.irqs 10).value ≠ 1 ∧
      (∀ h ∈ (demo_bus_two.irqs 10).hook, quiet_callbacks h.notify 10 1 h.param = [])) ∧
    (raise_entries quiet_callbacks 0 demo_bus_two 10 1).map (fun e => (e.irqs 10).value)
      = [0, 0] ∧
    (avr_raise_irq quiet_callbacks 1 demo_bus_two 10 1).map (fun w => (w.irqs 10).value)
      = some 1 ∧
    ((∃ w1, avr_raise_irq quiet_callbacks (0 + 1) demo_bus_two 10 1 = some w1 ∧
        (w1.irqs 10).value = 1 ∧
        w1.calls = demo_bus_two.calls
          ++ ((demo_bus_two.irqs 10).hook.filter hook_fires).map (call_of 10 1)) ∧
      (raise_entries quiet_callbacks 0 demo_bus_two 10 1).map (fun e => e.calls.getLast?)
        = ((demo_bus_two.irqs 10).hook.filter hook_fires).map
            (fun h => some (call_of 10 1 h)) ∧
      (∀ e ∈ raise_entries quiet_callbacks 0 demo_bus_two 10 1,
        (e.irqs 10).value = (demo_bus_two.irqs 10).value ∧ (e.irqs 10).value ≠ 1)) :=
  ⟨⟨by decide, by decide, fun _ _ => rfl⟩, by decide, by decide,
    (raise_stores_value_after_hooks quiet_callbacks 0 demo_bus_two 10 1 (by decide)
      (by decide)).2 (fun _ _ => rfl)⟩

/-- C31, counterexample: IRQ 10 holds 0 and has the hooks B = (2, 200) and
A = (1, 100); during `avr_raise_irq(irq, 1)` both callbacks are entered with the
IRQ still holding 0, and the value 1 is stored when the call returns. With a
callback A that raises the IRQ again with the same value 1, that nested call is
not dropped as a raise of the current value: it invokes B a second time. -/
theorem hooks_see_previous_value :
    (demo_bus_two.irqs 10).value = 0 ∧
    (raise_entries quiet_callbacks 0 demo_bus_two 10 1).map
        (fun e => ((e.irqs 10).value, e.calls.getLast?))
      = [(0, some { notify := 2, irq := 10, value := 1, param := 200 }),
         (0, some { notify := 1, irq := 10, value := 1, param := 100 })] ∧
    (avr_raise_irq quiet_callbacks 1 demo_bus_two 10 1).map (fun w => (w.irqs 10).value)
      = some 1 ∧
    (raise_entries reraising_callbacks 2 demo_bus_two 10 1).map (fun e => (e.irqs 10).value)
      = [0, 0] ∧
    (avr_raise_irq reraising_callbacks 3 demo_bus_two 10 1).map (fun w => w.calls.length)
      = some 3 := by
  decide

/-! ## The TWI vector of the megax8 descriptor -/

/-- C32: in the megax8 descriptor the enable selector of the TWI vector is
(TWCR, TWIE) and its raised selector is (TWSR, TWINT), not (TWCR, TWINT): on the
ATmega48/88/168 it selects bit 7 of the register at 0xb9 while TWINT is bit 7 of
TWCR at 0xbc, so `avr_raise_interupt` on this vector sets bit 7 of `data[TWSR]`
and leaves `data[TWCR]` as it is. -/
theorem twi_raised_selector_names_twsr (c : twi_names) :
    (megax8_twi c).twi.enable = AVR_IO_REGBIT c.TWCR c.TWIE ∧
    (megax8_twi c).twi.raised = AVR_IO_REGBIT c.TWSR c.TWINT ∧
    (megax8_twi mega88_twi_names).twi.raised = { reg := 0xb9, bit := 7, mask := 1 } ∧
    AVR_IO_REGBIT mega88_twi_names.TWCR mega88_twi_names.TWINT
      = { reg := 0xbc, bit := 7, mask := 1 } ∧
    (megax8_twi mega88_twi_names).twi.raised
      ≠ AVR_IO_REGBIT mega88_twi_names.TWCR mega88_twi_names.TWINT ∧
    demo_avr_twi.data 0xb9 = 0 ∧ demo_avr_twi.data 0xbc = 0x05 ∧
    (avr_raise_interupt demo_avr_twi (some (megax8_twi mega88_twi_names).twi)).2 = 1 ∧
    (avr_raise_interupt demo_avr_twi (some (megax8_twi mega88_twi_names).twi)).1.data 0xb9
      = 0x80 ∧
    (avr_raise_interupt demo_avr_twi (some (megax8_twi mega88_twi_names).twi)).1.data 0xbc
      = 0x05 := by
  refine ⟨rfl, rfl, by decide, by decide, by decide, by decide, by decide, by decide,
    by decide, by decide⟩

/-! ## Invariant of the breakpoint table -/

theorem update_loop_eq_none (g : avr_gdb_t) (addr len : Nat) :
    ∀ n i, update_loop g addr len n i = none →
      ∀ j, i ≤ j → j < i + n → watch_hit g addr j = false := by
  intro n
  induction n with
  | zero => intro i _ j h1 h2; omega
  | succ n ih =>
    intro i h j h1 h2
    unfold update_loop at h
    by_cases hi : watch_hit g addr i = true
    · rw [if_pos hi] at h
      exact Option.noConfusion h
    · rw [if_neg hi] at h
      by_cases hji : j = i
      · rw [hji]
        exact Bool.eq_false_iff.mpr hi
      · exact ih (i + 1) h j (by omega) (by omega)

/-- The insert branch of `gdb_change_breakpoint` is taken only for an address no
active slot holds. -/
theorem change_cases_strong (g : avr_gdb_t) (set : Bool) (kind : Int) (addr len : Nat) :
    (gdb_change_breakpoint g set kind addr len).1 = g ∨
    (∃ k, k < 32 ∧ watch_hit g addr k = true ∧
      (gdb_change_breakpoint g set kind addr len).1 =
        { g with watch := fun j =>
          if j = k then { g.watch k with len := len } else g.watch j }) ∨
    (∃ k, k < 32 ∧ g.watchmap &&& (1 <<< k) = 0 ∧
      (∀ j, j < 32 → watch_hit g addr j = false) ∧
      (gdb_change_breakpoint g set kind addr len).1 =
        { watchmap := g.watchmap ||| (1 <<< k),
          watch := fun j =>
            if j = k then { pc := addr, len := len, kind := kind } else g.watch j }) ∨
    (∃ k, k < 32 ∧ watch_hit g addr k = true ∧
      (gdb_change_breakpoint g set kind addr len).1 =
        { watchmap := g.watchmap &&& ((1 <<< k) ^^^ 0xffffffff),
          watch := fun j => if j = k then { pc := 0, len := 0, kind := 0 } else g.watch j }) := by
  unfold gdb_change_breakpoint
  cases set with
  | true =>
    simp only [if_true]
    by_cases hfull : g.watchmap = 0xffffffff
    · rw [if_pos hfull]; exact Or.inl rfl
    · rw [if_neg hfull]
      cases hu : update_loop g addr len 32 0 with
      | some g1 =>
        obtain ⟨k, hk, hh, hg⟩ := update_loop_some g addr len 32 0 g1 hu
        exact Or.inr (Or.inl ⟨k, by omega, hh, hg⟩)
      | none =>
        have hnone := update_loop_eq_none g addr len 32 0 hu
        cases hi : insert_loop g kind addr len 32 0 with
        | some g1 =>
          obtain ⟨k, hk, hh, hg⟩ := insert_loop_some g kind addr len 32 0 g1 hi
          exact Or.inr (Or.inr (Or.inl
            ⟨k, by omega, hh, fun j hj => hnone j (by omega) (by omega), hg⟩))
        | none => exact Or.inl rfl
  | false =>
    simp only [Bool.false_eq_true, if_false]
    cases hr : remove_loop g addr 32 0 with
    | some g1 =>
      obtain ⟨k, hk, hh, hg⟩ := remove_loop_some g addr 32 0 g1 hr
      exact Or.inr (Or.inr (Or.inr ⟨k, by omega, hh, hg⟩))
    | none => exact Or.inl rfl

/-- In a table built from the zeroed one no two active slots hold the same
address. -/
theorem reachable_no_duplicates (g : avr_gdb_t) (h : gdb_reachable g) :
    ∀ i j, i ≠ j → g.watchmap.testBit i = true → g.watchmap.testBit j = true →
      (g.watch i).pc ≠ (g.watch j).pc := by
  induction h with
  | init =>
    intro i j _ hi _
    simp [empty_gdb] at hi
  | change g set kind addr len hr ih =>
    have hw := (reachable_inactive_zero g hr).1
    rcases change_cases_strong g set kind addr len with
      h | ⟨k, hk, hh, h⟩ | ⟨k, hk, hfree, hnew, h⟩ | ⟨k, hk, hh, h⟩
    · rw [h]; exact ih
    · rw [h]
      intro i j hij hi hj
      have := ih i j hij hi hj
      by_cases hik : i = k <;> by_cases hjk : j = k <;> simp only [hik, hjk, if_true, if_false]
      · exact absurd (hik.trans hjk.symm) hij
      · rw [hik] at this; exact this
      · rw [hjk] at this; exact this
      · exact this
    · rw [h]
      intro i j hij hi hj
      simp only [Nat.testBit_or, Nat.one_shiftLeft, Nat.testBit_two_pow, Bool.or_eq_true,
        decide_eq_true_eq] at hi hj
      have hold : ∀ a, a ≠ k → g.watchmap.testBit a = true → (g.watch a).pc ≠ addr := by
        intro a hak hab hpc
        have ha32 : a < 32 := by
          by_contra hc
          have hpow : 2 ^ 32 ≤ 2 ^ a := Nat.pow_le_pow_right (by omega) (by omega)
          have := Nat.testBit_lt_two_pow (Nat.lt_of_lt_of_le hw hpow)
          rw [this] at hab
          exact Bool.noConfusion hab
        have := hnew a ha32
        rw [← Bool.not_eq_true, watch_hit_iff] at this
        exact this ⟨hab, hpc⟩
      by_cases hik : i = k <;> by_cases hjk : j = k <;> simp only [hik, hjk, if_true, if_false]
      · exact absurd (hik.trans hjk.symm) hij
      · have hjb : g.watchmap.testBit j = true := by
          rcases hj with h1 | h1
          · exact h1
          · exact absurd h1.symm hjk
        exact fun e => hold j hjk hjb e.symm
      · have hib : g.watchmap.testBit i = true := by
          rcases hi with h1 | h1
          · exact h1
          · exact absurd h1.symm hik
        exact hold i hik hib
      · have hib : g.watchmap.testBit i = true := by
          rcases hi with h1 | h1
          · exact h1
          · exact absurd h1.symm hik
        have hjb : g.watchmap.testBit j = true := by
          rcases hj with h1 | h1
          · exact h1
          · exact absurd h1.symm hjk
        exact ih i j hij hib hjb
    · rw [h]
      intro i j hij hi hj
      simp only at hi hj
      rw [clear_bit_testBit g.watchmap k i hw] at hi
      rw [clear_bit_testBit g.watchmap k j hw] at hj
      simp only [Bool.and_eq_true, decide_eq_true_eq] at hi hj
      simp only [if_neg hi.2, if_neg hj.2]
      exact ih i j hij hi.1 hj.1

theorem filter_range_length (w : Nat) :
    ∀ n, ((List.range n).filter (fun i => decide (w &&& (1 <<< i) ≠ 0))).length
      = count_bits w n := by
  intro n
  induction n with
  | zero => rfl
  | succ n ih =>
    rw [List.range_succ, List.filter_append, List.length_append, ih]
    have hc : count_bits w (n + 1)
        = count_bits w n + (if w &&& (1 <<< n) ≠ 0 then 1 else 0) := rfl
    rw [hc]
    by_cases hb : w &&& (1 <<< n) ≠ 0
    · simp [hb]
    · simp [hb]

/-- C33: in every table built from the zeroed table by calls of
`gdb_change_breakpoint`, the bitmap has no bit beyond the 32 slots, no two
active slots hold the same address, every inactive slot has `pc`, `len` and
`kind` all 0, and the active slots hold as many distinct addresses as bits are
set in `watchmap`, at most 32. -/
theorem reachable_table_invariant (g : avr_gdb_t) (h : gdb_reachable g) :
    g.watchmap < 2 ^ 32 ∧
    (∀ j, 32 ≤ j → g.watchmap &&& (1 <<< j) = 0) ∧
    (∀ i j, i ≠ j → g.watchmap &&& (1 <<< i) ≠ 0 → g.watchmap &&& (1 <<< j) ≠ 0 →
      (g.watch i).pc ≠ (g.watch j).pc) ∧
    (∀ j, g.watchmap &&& (1 <<< j) = 0 → g.watch j = { pc := 0, len := 0, kind := 0 }) ∧
    (active_addrs g).Nodup ∧
    (active_addrs g).length = active_count g ∧
    active_count g ≤ 32 := by
  obtain ⟨hw, hz⟩ := reachable_inactive_zero g h
  have hnd := reachable_no_duplicates g h
  refine ⟨hw, ?_, ?_, ?_, ?_, ?_, count_bits_le g.watchmap 32⟩
  · intro j hj
    rw [and_one_shiftLeft_eq_zero]
    have hpow : 2 ^ 32 ≤ 2 ^ j := Nat.pow_le_pow_right (by omega) hj
    exact Nat.testBit_lt_two_pow (Nat.lt_of_lt_of_le hw hpow)
  · intro i j hij hi hj
    exact hnd i j hij ((and_one_shiftLeft_ne_zero _ _).mp hi)
      ((and_one_shiftLeft_ne_zero _ _).mp hj)
  · intro j hj
    exact hz j ((and_one_shiftLeft_eq_zero _ _).mp hj)
  · unfold active_addrs
    apply List.Nodup.map_on
    · intro i hi j hj hpc
      by_contra hij
      simp only [List.mem_filter, decide_eq_true_eq] at hi hj
      exact hnd i j hij ((and_one_shiftLeft_ne_zero _ _).mp hi.2)
        ((and_one_shiftLeft_ne_zero _ _).mp hj.2) hpc
    · exact List.Nodup.filter _ (List.nodup_range 32)
  · unfold active_addrs active_count
    rw [List.length_map, filter_range_length]

theorem reachable_table_invariant_witness :
    gdb_reachable demo_gdb_seq ∧
    demo_gdb_seq.watchmap = 3 ∧ active_addrs demo_gdb_seq = [0x100, 0x80] ∧
    active_count demo_gdb_seq = 2 ∧
    demo_gdb_seq.watch 0 = { pc := 0x100, len := 4, kind := 0 } ∧
    demo_gdb_seq.watch 2 = { pc := 0, len := 0, kind := 0 } ∧
    (demo_gdb_seq.watchmap < 2 ^ 32 ∧
    (∀ j, 32 ≤ j → demo_gdb_seq.watchmap &&& (1 <<< j) = 0) ∧
    (∀ i j, i ≠ j → demo_gdb_seq.watchmap &&& (1 <<< i) ≠ 0 →
      demo_gdb_seq.watchmap &&& (1 <<< j) ≠ 0 →
      (demo_gdb_seq.watch i).pc ≠ (demo_gdb_seq.watch j).pc) ∧
    (∀ j, demo_gdb_seq.watchmap &&& (1 <<< j) = 0 →
      demo_gdb_seq.watch j = { pc := 0, len := 0, kind := 0 }) ∧
    (active_addrs demo_gdb_seq).Nodup ∧
    (active_addrs demo_gdb_seq).length = active_count demo_gdb_seq ∧
    active_count demo_gdb_seq ≤ 32) :=
  have hr : gdb_reachable demo_gdb_seq :=
    gdb_reachable.change _ _ _ _ _ (gdb_reachable.change _ _ _ _ _
      (gdb_reachable.change _ _ _ _ _ (gdb_reachable.change _ _ _ _ _ gdb_reachable.init)))
  ⟨hr, by decide, by decide, by decide, by decide, by decide,
    reachable_table_invariant demo_gdb_seq hr⟩

/-! ## Decoding hexadecimal text -/

set_option maxRecDepth 100000 in
theorem nibbles_to_byte : ∀ b, b < 16 → ∀ d, d < 16 → ((b <<< 4) ||| d) % 256 = 16 * b + d := by
  decide

theorem hex_value_lt (c : Char) (d : Nat) (h : hex_value c = some d) : d < 16 := by
  unfold hex_value at h
  by_cases h1 : 'a' ≤ c ∧ c ≤ 'f'
  · rw [if_pos h1] at h
    have hle : c.toNat ≤ 102 := h1.2
    have := Option.some.inj h
    omega
  · rw [if_neg h1] at h
    by_cases h2 : 'A' ≤ c ∧ c ≤ 'F'
    · rw [if_pos h2] at h
      have hle : c.toNat ≤ 70 := h2.2
      have := Option.some.inj h
      omega
    · rw [if_neg h2] at h
      by_cases h3 : '0' ≤ c ∧ c ≤ '9'
      · rw [if_pos h3] at h
        have hle : c.toNat ≤ 57 := h3.2
        have := Option.some.inj h
        omega
      · rw [if_neg h3] at h
        exact Option.noConfusion h

/-- One round of the loop of `read_hex_string` on a character that is not the
NUL, with `maxlen` not used up. -/
theorem read_hex_step (c : Char) (src : List Char) (maxlen : Int) (ls b : Nat)
    (out : List Nat) (hc : c.toNat ≠ 0) (hm : maxlen ≠ 0) :
    read_hex_loop (c :: src) maxlen ls b out =
      match hex_value c with
      | some d =>
        if ls % 2 = 1 then
          read_hex_loop src (maxlen - 1) (ls + 1) 0 (out ++ [((b <<< 4) ||| d) % 256])
        else read_hex_loop src (maxlen - 1) (ls + 1) (((b <<< 4) ||| d) % 256) out
      | none =>
        if 32 < c.toNat ∧ c.toNat < 128 then (out, -1)
        else read_hex_loop src (maxlen - 1) ls b out := by
  have h0 : ¬ (c.toNat = 0 ∨ maxlen = 0) := by
    rintro (h | h)
    · exact hc h
    · exact hm h
  unfold hex_value
  rw [read_hex_loop, if_neg h0]
  by_cases h1 : 'a' ≤ c ∧ c ≤ 'f'
  · rw [if_pos h1, if_pos h1]
  · rw [if_neg h1, if_neg h1]
    by_cases h2 : 'A' ≤ c ∧ c ≤ 'F'
    · rw [if_pos h2, if_pos h2]
    · rw [if_neg h2, if_neg h2]
      by_cases h3 : '0' ≤ c ∧ c ≤ '9'
      · rw [if_pos h3, if_pos h3]
      · rw [if_neg h3, if_neg h3]

theorem hex_input_nil (maxlen : Nat) : hex_input [] maxlen = [] := by
  simp [hex_input, c_string]

theorem hex_input_nul (c : Char) (src : List Char) (maxlen : Nat) (hc : c.toNat = 0) :
    hex_input (c :: src) maxlen = [] := by
  simp [hex_input, c_string, hc]

theorem hex_input_zero (src : List Char) : hex_input src 0 = [] := by
  simp [hex_input]

theorem hex_input_cons (c : Char) (src : List Char) (m : Nat) (hc : c.toNat ≠ 0) :
    hex_input (c :: src) (m + 1) = c :: hex_input src m := by
  simp [hex_input, c_string, hc]

theorem pair_bytes_length : ∀ (n : Nat) (l : List Nat), l.length ≤ n →
    (pair_bytes l).length = l.length / 2
  | 0, l, h => by
    have : l = [] := List.length_eq_zero.mp (by omega)
    rw [this]; rfl
  | n + 1, l, h => by
    match l with
    | [] => rfl
    | [a] => simp [pair_bytes]
    | a :: b :: rest =>
      simp only [pair_bytes, List.length_cons] at h ⊢
      rw [pair_bytes_length n rest (by omega)]
      omega

/-- The loop of `read_hex_string` on text whose characters are hexadecimal
digits or at most `' '`: the bytes stored are the digit values paired, in front
of them the pending digit when `ls` is odd, and the value returned is their
number. -/
theorem read_hex_loop_spec :
    ∀ (src : List Char) (maxlen ls b : Nat) (out : List Nat),
      (∀ c ∈ hex_input src maxlen, c.toNat ≤ 32 ∨ hex_value c ≠ none) →
      b < 16 → (ls % 2 = 0 → b = 0) →
      read_hex_loop src (maxlen : Int) ls b out =
        (out ++ pair_bytes ((if ls % 2 = 1 then [b] else [])
            ++ hex_digits (hex_input src maxlen)),
         ((out ++ pair_bytes ((if ls % 2 = 1 then [b] else [])
            ++ hex_digits (hex_input src maxlen))).length : Int))
  | [], maxlen, ls, b, out, _, _, _ => by
    rw [hex_input_nil]
    unfold read_hex_loop
    by_cases hls : ls % 2 = 1 <;> simp [hls, hex_digits, pair_bytes]
  | c :: src, maxlen, ls, b, out, hok, hb, hev => by
    by_cases hc : c.toNat = 0
    · rw [hex_input_nul c src maxlen hc]
      unfold read_hex_loop
      rw [if_pos (Or.inl hc)]
      by_cases hls : ls % 2 = 1 <;> simp [hls, hex_digits, pair_bytes]
    · cases maxlen with
      | zero =>
        rw [hex_input_zero]
        unfold read_hex_loop
        rw [if_pos (Or.inr (by simp))]
        by_cases hls : ls % 2 = 1 <;> simp [hls, hex_digits, pair_bytes]
      | succ m =>
        have hm : ((m + 1 : Nat) : Int) ≠ 0 := by omega
        have hm1 : ((m + 1 : Nat) : Int) - 1 = (m : Int) := by omega
        rw [read_hex_step c src _ ls b out hc hm, hm1, hex_input_cons c src m hc]
        rw [hex_input_cons c src m hc] at hok
        have hok2 : ∀ x ∈ hex_input src m, x.toNat ≤ 32 ∨ hex_value x ≠ none :=
          fun x hx => hok x (List.mem_cons_of_mem c hx)
        cases hv : hex_value c with
        | none =>
          have hsp : c.toNat ≤ 32 := by
            rcases hok c (List.mem_cons_self c _) with h | h
            · exact h
            · exact absurd hv h
          simp only
          rw [if_neg (by omega), read_hex_loop_spec src m ls b out hok2 hb hev]
          simp [hex_digits, List.filterMap_cons, hv]
        | some d =>
          have hd : d < 16 := hex_value_lt c d hv
          simp only
          have hdig : hex_digits (c :: hex_input src m) = d :: hex_digits (hex_input src m) := by
            simp [hex_digits, List.filterMap_cons, hv]
          rw [hdig]
          by_cases hls : ls % 2 = 1
          · rw [if_pos hls, read_hex_loop_spec src m (ls + 1) 0 _ hok2 (by omega) (fun _ => rfl),
              nibbles_to_byte b hb d hd]
            have h2 : ¬ ((ls + 1) % 2 = 1) := by omega
            simp [hls, h2, pair_bytes]
          · have hb0 : b = 0 := hev (by omega)
            subst hb0
            have hnew : ((0 <<< 4) ||| d) % 256 = d := by
              rw [nibbles_to_byte 0 (by omega) d hd]; omega
            rw [if_neg hls, hnew,
              read_hex_loop_spec src m (ls + 1) d out hok2 hd (fun h => by omega)]
            have h2 : (ls + 1) % 2 = 1 := by omega
            simp [hls, h2]

/-- The loop of `read_hex_string` returns -1 when a character above `' '` that
is no hexadecimal digit is among the ASCII characters it looks at. -/
theorem read_hex_loop_bad :
    ∀ (src : List Char) (maxlen ls b : Nat) (out : List Nat),
      (∀ c ∈ src, c.toNat < 128) →
      (∃ c ∈ hex_input src maxlen, 32 < c.toNat ∧ hex_value c = none) →
      (read_hex_loop src (maxlen : Int) ls b out).2 = -1
  | [], maxlen, ls, b, out, _, ⟨c, hc, _⟩ => by
    rw [hex_input_nil] at hc
    exact absurd hc (List.not_mem_nil c)
  | c :: src, maxlen, ls, b, out, hasc, ⟨x, hx, hx32, hxv⟩ => by
    by_cases hc : c.toNat = 0
    · rw [hex_input_nul c src maxlen hc] at hx
      exact absurd hx (List.not_mem_nil x)
    · cases maxlen with
      | zero =>
        rw [hex_input_zero] at hx
        exact absurd hx (List.not_mem_nil x)
      | succ m =>
        have hm : ((m + 1 : Nat) : Int) ≠ 0 := by omega
        have hm1 : ((m + 1 : Nat) : Int) - 1 = (m : Int) := by omega
        rw [read_hex_step c src _ ls b out hc hm, hm1]
        rw [hex_input_cons c src m hc] at hx
        have hasc2 : ∀ y ∈ src, y.toNat < 128 := fun y hy => hasc y (List.mem_cons_of_mem c hy)
        cases hv : hex_value c with
        | none =>
          simp only
          by_cases hbad : 32 < c.toNat ∧ c.toNat < 128
          · rw [if_pos hbad]
          · rw [if_neg hbad]
            have hne : x ≠ c := by
              intro e
              rw [e] at hx32
              exact hbad ⟨hx32, hasc c (List.mem_cons_self c src)⟩
            have hx2 : x ∈ hex_input src m := by
              rcases List.mem_cons.mp hx with h | h
              · exact absurd h hne
              · exact h
            exact read_hex_loop_bad src m ls b out hasc2 ⟨x, hx2, hx32, hxv⟩
        | some d =>
          simp only
          have hne : x ≠ c := by
            intro e
            rw [e, hv] at hxv
            exact Option.noConfusion hxv
          have hx2 : x ∈ hex_input src m := by
            rcases List.mem_cons.mp hx with h | h
            · exact absurd h hne
            · exact h
          by_cases hls : ls % 2 = 1
          · rw [if_pos hls]
            exact read_hex_loop_bad src m (ls + 1) 0 _ hasc2 ⟨x, hx2, hx32, hxv⟩
          · rw [if_neg hls]
            exact read_hex_loop_bad src m (ls + 1) _ out hasc2 ⟨x, hx2, hx32, hxv⟩

/-- C35: for an ASCII string `src` and `maxlen >= 0`, `read_hex_string` returns
-1 exactly when one of the first `maxlen` characters in front of the NUL is
above `' '` and no hexadecimal digit; otherwise it returns half the number `d`
of hexadecimal digits among these characters, rounded down, and stores exactly
that many bytes, at most `maxlen / 2`: the digit values paired in order, high
digit first, the characters up to `' '` left out wherever they stand, a last
unpaired digit dropped. -/
theorem read_hex_string_result (src : List Char) (maxlen : Nat)
    (hascii : ∀ c ∈ src, c.toNat < 128) :
    ((read_hex_string src (maxlen : Int)).2 = -1 ↔
      ∃ c ∈ hex_input src maxlen, 32 < c.toNat ∧ hex_value c = none) ∧
    ((∀ c ∈ hex_input src maxlen, c.toNat ≤ 32 ∨ hex_value c ≠ none) →
      read_hex_string src (maxlen : Int) =
        (pair_bytes (hex_digits (hex_input src maxlen)),
         (((hex_digits (hex_input src maxlen)).length / 2 : Nat) : Int)) ∧
      (pair_bytes (hex_digits (hex_input src maxlen))).length
        = (hex_digits (hex_input src maxlen)).length / 2 ∧
      (hex_digits (hex_input src maxlen)).length / 2 ≤ maxlen / 2) := by
  have hlen : (pair_bytes (hex_digits (hex_input src maxlen))).length
      = (hex_digits (hex_input src maxlen)).length / 2 :=
    pair_bytes_length _ _ (Nat.le_refl _)
  have hgood : (∀ c ∈ hex_input src maxlen, c.toNat ≤ 32 ∨ hex_value c ≠ none) →
      read_hex_string src (maxlen : Int) =
        (pair_bytes (hex_digits (hex_input src maxlen)),
         (((hex_digits (hex_input src maxlen)).length / 2 : Nat) : Int)) := by
    intro hok
    unfold read_hex_string
    rw [read_hex_loop_spec src maxlen 0 0 [] hok (by omega) (fun _ => rfl)]
    simp [hlen]
  refine ⟨⟨?_, ?_⟩, ?_⟩
  · intro hret
    by_contra hno
    have hok : ∀ c ∈ hex_input src maxlen, c.toNat ≤ 32 ∨ hex_value c ≠ none := by
      intro c hc
      by_cases h32 : c.toNat ≤ 32
      · exact Or.inl h32
      · refine Or.inr (fun hv => hno ⟨c, hc, by omega, hv⟩)
    rw [hgood hok] at hret
    simp only at hret
    omega
  · intro hbad
    unfold read_hex_string
    exact read_hex_loop_bad src maxlen 0 0 [] hascii hbad
  · intro hok
    refine ⟨hgood hok, hlen, ?_⟩
    have h1 : (hex_digits (hex_input src maxlen)).length ≤ (hex_input src maxlen).length :=
      List.length_filterMap_le _ _
    have h2 : (hex_input src maxlen).length ≤ maxlen := by
      unfold hex_input
      rw [List.length_take]
      exact Nat.min_le_left _ _
    exact Nat.div_le_div_right (Nat.le_trans h1 h2)

theorem read_hex_string_result_witness :
    ((∀ c ∈ "4 1abc".toList, c.toNat < 128) ∧
      (∀ c ∈ hex_input "4 1abc".toList 6, c.toNat ≤ 32 ∨ hex_value c ≠ none)) ∧
    read_hex_string "4 1abc".toList 6 = ([0x41, 0xab], 2) ∧
    read_hex_string "4 1abc".toList 3 = ([0x41], 1) ∧
    read_hex_string "41g1".toList 4 = ([0x41], -1) ∧
    read_hex_string "41g1".toList 2 = ([0x41], 1) ∧
    hex_digits (hex_input "4 1abc".toList 6) = [4, 1, 10, 11, 12] ∧
    (read_hex_string "4 1abc".toList ((6 : Nat) : Int) =
        (pair_bytes (hex_digits (hex_input "4 1abc".toList 6)),
         (((hex_digits (hex_input "4 1abc".toList 6)).length / 2 : Nat) : Int)) ∧
      (pair_bytes (hex_digits (hex_input "4 1abc".toList 6))).length
        = (hex_digits (hex_input "4 1abc".toList 6)).length / 2 ∧
      (hex_digits (hex_input "4 1abc".toList 6)).length / 2 ≤ 6 / 2) :=
  ⟨⟨by decide, by decide⟩, by decide, by decide, by decide, by decide, by decide,
    (read_hex_string_result "4 1abc".toList 6 (by decide)).2 (by decide)⟩

theorem c_string_no_nul : ∀ s : List Char, (∀ c ∈ s, c.toNat ≠ 0) → c_string s = s
  | [], _ => rfl
  | c :: s, h => by
    unfold c_string
    rw [if_neg (h c (List.mem_cons_self c s)),
      c_string_no_nul s (fun x hx => h x (List.mem_cons_of_mem c hx))]

theorem hex_input_full (s : List Char) (h : ∀ c ∈ s, c.toNat ≠ 0) :
    hex_input s s.length = s := by
  unfold hex_input
  rw [c_string_no_nul s h, List.take_length]

theorem hex_digit_decodes :
    ∀ k, k < 16 →
      hex_value (hex_digit k) = some k ∧ (hex_digit k).toNat ≠ 0 ∧
      hex_value (hex_digit k).toUpper = some k ∧ (hex_digit k).toUpper.toNat ≠ 0 := by
  decide

/-- Text made of two digit characters per byte, high digit first, decodes to the
bytes, whatever characters stand for the sixteen digit values. -/
theorem decode_encoded (dc : Nat → Char)
    (hdc : ∀ k, k < 16 → hex_value (dc k) = some k ∧ (dc k).toNat ≠ 0)
    (bs : List Nat) (hbs : ∀ n ∈ bs, n < 256) :
    (bs.flatMap (fun n => [dc (n / 16 % 16), dc (n % 16)])).length = 2 * bs.length ∧
    read_hex_string (bs.flatMap (fun n => [dc (n / 16 % 16), dc (n % 16)]))
        ((2 * bs.length : Nat) : Int)
      = (bs, (bs.length : Int)) := by
  have hlen : (bs.flatMap (fun n => [dc (n / 16 % 16), dc (n % 16)])).length
      = 2 * bs.length := by
    induction bs with
    | nil => rfl
    | cons n rest ih =>
      rw [List.flatMap_cons, List.length_append,
        ih (fun x hx => hbs x (List.mem_cons_of_mem n hx))]
      simp only [List.length_cons, List.length_nil]
      omega
  have hnul : ∀ c ∈ bs.flatMap (fun n => [dc (n / 16 % 16), dc (n % 16)]), c.toNat ≠ 0 := by
    intro c hc
    simp only [List.mem_flatMap, List.mem_cons, List.mem_singleton, List.not_mem_nil,
      or_false] at hc
    obtain ⟨n, _, h | h⟩ := hc
    · rw [h]; exact (hdc _ (Nat.mod_lt _ (by omega))).2
    · rw [h]; exact (hdc _ (Nat.mod_lt _ (by omega))).2
  have hhex : ∀ c ∈ bs.flatMap (fun n => [dc (n / 16 % 16), dc (n % 16)]),
      c.toNat ≤ 32 ∨ hex_value c ≠ none := by
    intro c hc
    simp only [List.mem_flatMap, List.mem_cons, List.mem_singleton, List.not_mem_nil,
      or_false] at hc
    obtain ⟨n, _, h | h⟩ := hc
    · rw [h, (hdc _ (Nat.mod_lt _ (by omega))).1]; exact Or.inr (by simp)
    · rw [h, (hdc _ (Nat.mod_lt _ (by omega))).1]; exact Or.inr (by simp)
  have hdig : ∀ l : List Nat, (∀ n ∈ l, n < 256) →
      pair_bytes (hex_digits (l.flatMap (fun n => [dc (n / 16 % 16), dc (n % 16)]))) = l := by
    intro l
    induction l with
    | nil => intro _; rfl
    | cons n rest ih =>
      intro hl
      have hn : n < 256 := hl n (List.mem_cons_self n rest)
      rw [List.flatMap_cons]
      unfold hex_digits at ih ⊢
      rw [List.filterMap_append]
      simp only [List.filterMap_cons, (hdc _ (Nat.mod_lt (n / 16) (by omega))).1,
        (hdc _ (Nat.mod_lt n (by omega))).1, List.filterMap_nil, List.cons_append,
        List.nil_append, pair_bytes]
      rw [ih (fun x hx => hl x (List.mem_cons_of_mem n hx))]
      congr 1
      omega
  refine ⟨hlen, ?_⟩
  have hin := hex_input_full _ hnul
  rw [hlen] at hin
  unfold read_hex_string
  rw [read_hex_loop_spec _ (2 * bs.length) 0 0 [] (by rw [hin]; exact hhex) (by omega)
    (fun _ => rfl), hin]
  simp [hdig bs hbs]

/-- C34: for bytes `bs`, the text of the two lower-case digits of each byte,
which is how the `m` reply prints memory, is twice as long as `bs` and
`read_hex_string` with `maxlen` its length stores exactly `bs` and returns the
number of bytes; the same text in upper case decodes to the same bytes. -/
theorem read_hex_inverts_hex2 (bs : List Nat) (hbs : ∀ n ∈ bs, n < 256) :
    (bs.flatMap hex2).length = 2 * bs.length ∧
    read_hex_string (bs.flatMap hex2) ((2 * bs.length : Nat) : Int) = (bs, (bs.length : Int)) ∧
    ((bs.flatMap hex2).map Char.toUpper).length = 2 * bs.length ∧
    read_hex_string ((bs.flatMap hex2).map Char.toUpper) ((2 * bs.length : Nat) : Int)
      = (bs, (bs.length : Int)) ∧
    (∀ (src : Nat → Nat) (len : Nat), bs = (List.range len).map src →
      dump_loop src len 0 = bs.flatMap hex2) := by
  have hlow := decode_encoded hex_digit
    (fun k hk => ⟨(hex_digit_decodes k hk).1, (hex_digit_decodes k hk).2.1⟩) bs hbs
  have hup := decode_encoded (fun k => (hex_digit k).toUpper)
    (fun k hk => ⟨(hex_digit_decodes k hk).2.2.1, (hex_digit_decodes k hk).2.2.2⟩) bs hbs
  have hmap : (bs.flatMap hex2).map Char.toUpper
      = bs.flatMap (fun n => [(hex_digit (n / 16 % 16)).toUpper, (hex_digit (n % 16)).toUpper]) := by
    rw [List.map_flatMap]
    rfl
  refine ⟨hlow.1, hlow.2, ?_, ?_, ?_⟩
  · rw [hmap]; exact hup.1
  · rw [hmap]; exact hup.2
  · intro src len hsrc
    rw [dump_loop_eq, hsrc, List.flatMap_map]
    simp

theorem read_hex_inverts_hex2_witness :
    (∀ n ∈ [0x00, 0x1f, 0xab, 0xff], n < 256) ∧
    [0x00, 0x1f, 0xab, 0xff].flatMap hex2 = "001fabff".toList ∧
    ([0x00, 0x1f, 0xab, 0xff].flatMap hex2).map Char.toUpper = "001FABFF".toList ∧
    read_hex_string "001fabff".toList 8 = ([0x00, 0x1f, 0xab, 0xff], 4) ∧
    read_hex_string "001FABFF".toList 8 = ([0x00, 0x1f, 0xab, 0xff], 4) ∧
    ((gdb_handle_command demo_env demo_avr (demo_conn "M100,2:abCD")).bind
        (fun r => gdb_handle_command demo_env r.1 (demo_conn "m100,2"))).map
        (fun r => r.2.sent)
      = some ["$abcd#8a".toList] ∧
    (([0x00, 0x1f, 0xab, 0xff].flatMap hex2).length = 2 * [0x00, 0x1f, 0xab, 0xff].length ∧
    read_hex_string ([0x00, 0x1f, 0xab, 0xff].flatMap hex2)
        ((2 * [0x00, 0x1f, 0xab, 0xff].length : Nat) : Int)
      = ([0x00, 0x1f, 0xab, 0xff], ([0x00, 0x1f, 0xab, 0xff].length : Int)) ∧
    (([0x00, 0x1f, 0xab, 0xff].flatMap hex2).map Char.toUpper).length
      = 2 * [0x00, 0x1f, 0xab, 0xff].length ∧
    read_hex_string (([0x00, 0x1f, 0xab, 0xff].flatMap hex2).map Char.toUpper)
        ((2 * [0x00, 0x1f, 0xab, 0xff].length : Nat) : Int)
      = ([0x00, 0x1f, 0xab, 0xff], ([0x00, 0x1f, 0xab, 0xff].length : Int)) ∧
    (∀ (src : Nat → Nat) (len : Nat), [0x00, 0x1f, 0xab, 0xff] = (List.range len).map src →
      dump_loop src len 0 = [0x00, 0x1f, 0xab, 0xff].flatMap hex2)) :=
  ⟨by decide, by decide, by decide, by decide, by decide, by decide,
    read_hex_inverts_hex2 [0x00, 0x1f, 0xab, 0xff] (by decide)⟩

/-! ## Claim on breakpoint hits -/

/-- On a table without two active slots of one address at most one slot holds
`pc`. -/
theorem hit_count_le_one (t : avr_gdb_t) (pc : Nat)
    (hnd : ∀ a b, a ≠ b → t.watchmap.testBit a = true → t.watchmap.testBit b = true →
      (t.watch a).pc ≠ (t.watch b).pc) :
    ∀ n i, hit_count t pc n i ≤ 1 := by
  intro n
  induction n with
  | zero => intro i; simp [hit_count]
  | succ n ih =>
    intro i
    unfold hit_count
    by_cases hi : watch_hit t pc i = true
    · have hz : hit_count t pc n (i + 1) = 0 := by
        apply hit_count_zero
        intro j hj _
        cases hjh : watch_hit t pc j with
        | false => rfl
        | true =>
          exfalso
          have h1 := (watch_hit_iff t pc i).mp hi
          have h2 := (watch_hit_iff t pc j).mp hjh
          exact hnd i j (by omega) h1.1 h2.1 (h1.2.trans h2.2.symm)
      rw [hz, if_pos hi]
    · rw [if_neg hi]
      have := ih (i + 1)
      omega

/-- Claim C22 (as amended): with a stub attached, no command waiting and the MCU
Running, a breakpoint address equal to `pc` (a byte address, as every address
of the table; byte 0x40 is word index 0x20) makes `avr_gdb_processor` set the
state Stopped and send one stop reply beginning `T00` per slot that holds it, at
least one, and exactly one on a table built by `gdb_change_breakpoint` from the
zeroed one; a successful `Z` insert of the address leaves such a slot; when no
active slot holds `pc` the call changes nothing: the state stays Running and
nothing is sent. -/
theorem breakpoint_hit_stops (env : gdb_env) (m : avr_sim) (g : gdb_conn)
    (hg : m.gdb = some g) (hq : g.query_len = 0) (hrun : m.avr.state = cpu_Running) :
    (∀ (t : avr_gdb_t) (kind : Int) (len : Nat),
      (gdb_change_breakpoint t true kind m.avr.pc len).2 = 0 →
      ∃ i, i < 32 ∧
        watch_hit (gdb_change_breakpoint t true kind m.avr.pc len).1 m.avr.pc i = true) ∧
    ((∃ i, i < 32 ∧ watch_hit g.table m.avr.pc i = true) →
      0 < hit_count g.table m.avr.pc 32 0 ∧
      avr_gdb_processor env m =
        some (avr_sim.mk { m.avr with state := cpu_Stopped }
          (some (gdb_conn.mk g.table g.query_len g.query
            (g.sent ++ List.replicate (hit_count g.table m.avr.pc 32 0)
              (reply_packet (quick_status m.avr 0)))))
          m.gdb_port) ∧
      (∃ rest, reply_packet (quick_status m.avr 0) = "$T00".toList ++ rest) ∧
      (gdb_reachable g.table → hit_count g.table m.avr.pc 32 0 = 1)) ∧
    ((∀ i, i < 32 → watch_hit g.table m.avr.pc i = false) →
      avr_gdb_processor env m = some m) := by
  refine ⟨fun t kind len hok => set_success_hit t kind m.avr.pc len hok, ?_, ?_⟩
  · intro ⟨i, hi, hhit⟩
    have hpos : 0 < hit_count g.table m.avr.pc 32 0 :=
      hit_count_pos g.table m.avr.pc 32 0 ⟨i, by omega, by omega, hhit⟩
    refine ⟨hpos, ?_, ⟨_, stop_reply_packet m.avr⟩, ?_⟩
    swap
    · intro hreach
      have hle := hit_count_le_one g.table m.avr.pc
        (fun a b hab ha hb heq =>
          reachable_no_duplicates g.table hreach a b hab ha hb heq) 32 0
      omega
    have hmap : g.table.watchmap ≠ 0 := by
      intro h0
      have := ((watch_hit_iff g.table m.avr.pc i).mp hhit).1
      rw [h0] at this
      simp at this
    have hbp : gdb_check_breakpoints m.avr g =
        ({ m.avr with state := cpu_Stopped },
          gdb_conn.mk g.table g.query_len g.query
            (g.sent ++ List.replicate (hit_count g.table m.avr.pc 32 0)
              (reply_packet (quick_status m.avr 0)))) := by
      unfold gdb_check_breakpoints
      rw [if_pos ⟨hmap, hrun⟩, hit_loop_eq 32 0 m.avr g, if_neg (by omega)]
    have hst : gdb_check_step { m.avr with state := cpu_Stopped }
        (gdb_conn.mk g.table g.query_len g.query
          (g.sent ++ List.replicate (hit_count g.table m.avr.pc 32 0)
            (reply_packet (quick_status m.avr 0)))) =
        ({ m.avr with state := cpu_Stopped },
          gdb_conn.mk g.table g.query_len g.query
            (g.sent ++ List.replicate (hit_count g.table m.avr.pc 32 0)
              (reply_packet (quick_status m.avr 0)))) := by
      unfold gdb_check_step
      rw [if_neg (by simp)]
    exact gdb_processor_idle env m g hg
      ({ m.avr with state := cpu_Stopped },
        gdb_conn.mk g.table g.query_len g.query
          (g.sent ++ List.replicate (hit_count g.table m.avr.pc 32 0)
            (reply_packet (quick_status m.avr 0))))
      (by rw [hbp]; exact hst) hq
  · intro hnone
    have hzero : hit_count g.table m.avr.pc 32 0 = 0 :=
      hit_count_zero g.table m.avr.pc 32 0 (fun j _ h => hnone j (by omega))
    have hstep : ¬ (m.avr.state = cpu_StepDone) := by rw [hrun]; decide
    have hsame : gdb_check_breakpoints m.avr g = (m.avr, g) := by
      unfold gdb_check_breakpoints
      by_cases hc : g.table.watchmap ≠ 0 ∧ m.avr.state = cpu_Running
      · rw [if_pos hc, hit_loop_eq 32 0 m.avr g, hzero]
        simp
      · rw [if_neg hc]
    have hstep2 : gdb_check_step m.avr g = (m.avr, g) := by
      unfold gdb_check_step
      rw [if_neg hstep]
    rw [gdb_processor_idle env m g hg (m.avr, g) (by rw [hsame]; exact hstep2) hq]
    cases m with
    | mk a gg p =>
      simp only at hg
      rw [hg]

/-- Claim C22, witness: the table after `Z0,0x0040,2`, the MCU Running at word
index 0x20, that is with the byte address 0x40 in `pc`, and no command
waiting. -/
theorem breakpoint_hit_stops_witness :
    ((demo_sim 0x40).gdb = some (demo_conn "") ∧ (demo_conn "").query_len = 0 ∧
      (demo_sim 0x40).avr.state = cpu_Running ∧ (demo_sim 0x40).avr.pc = 0x40 ∧
      (demo_sim 0x40).avr.pc >>> 1 = 0x20 ∧
      (gdb_change_breakpoint empty_gdb true 0 0x40 2).2 = 0 ∧
      (∃ i, i < 32 ∧ watch_hit (demo_conn "").table (demo_sim 0x40).avr.pc i = true) ∧
      gdb_reachable (demo_conn "").table) ∧
    (avr_gdb_processor demo_env (demo_sim 0x40)).map
        (fun m => (m.avr.state, m.gdb.map (fun g => g.sent)))
      = some (cpu_Stopped, some ["$T0020:00;21:ff04;22:40000000;#50".toList]) ∧
    (0 < hit_count (demo_conn "").table (demo_sim 0x40).avr.pc 32 0 ∧
      avr_gdb_processor demo_env (demo_sim 0x40) =
        some (avr_sim.mk { (demo_sim 0x40).avr with state := cpu_Stopped }
          (some (gdb_conn.mk (demo_conn "").table (demo_conn "").query_len (demo_conn "").query
            ((demo_conn "").sent
              ++ List.replicate (hit_count (demo_conn "").table (demo_sim 0x40).avr.pc 32 0)
                (reply_packet (quick_status (demo_sim 0x40).avr 0)))))
          (demo_sim 0x40).gdb_port) ∧
      (∃ rest, reply_packet (quick_status (demo_sim 0x40).avr 0) = "$T00".toList ++ rest) ∧
      (gdb_reachable (demo_conn "").table →
        hit_count (demo_conn "").table (demo_sim 0x40).avr.pc 32 0 = 1)) ∧
    avr_gdb_processor demo_env (demo_sim 0x100) = some (demo_sim 0x100) :=
  ⟨⟨rfl, by decide, by decide, by decide, by decide, by decide, ⟨0, by decide, by decide⟩,
      gdb_reachable.change empty_gdb true 0 0x40 2 gdb_reachable.init⟩,
    by decide,
    (breakpoint_hit_stops demo_env (demo_sim 0x40) (demo_conn "") rfl (by decide)
      (by decide)).2.1 ⟨0, by decide, by decide⟩,
    (breakpoint_hit_stops demo_env (demo_sim 0x100) (demo_conn "") rfl (by decide)
      (by decide)).2.2 (by decide)⟩

/-- Claim C22, counterexample: a command that waits in the query buffer is handled
in the same call, after the breakpoint test. With the table after
`Z0,0x0040,2` and the MCU Running at the byte address 0x40 (word index 0x20),
a waiting `c` leaves the state Running once the stop reply is sent; with the
MCU Running at 0x100, where no breakpoint is, a waiting `s` leaves the state
Step and a waiting `?` sends the reply `S00`. -/
theorem breakpoint_with_command_waiting :
    ((demo_sim_waiting 0x40 "c").avr.state = cpu_Running ∧
      (demo_sim_waiting 0x40 "c").avr.pc >>> 1 = 0x20 ∧
      (demo_sim_waiting 0x40 "c").gdb.map
          (fun g => (g.table.watchmap, g.table.watch 0, g.query_len))
        = some (1, { pc := 0x40, len := 2, kind := 0 }, 1)) ∧
    (avr_gdb_processor demo_env (demo_sim_waiting 0x40 "c")).map
        (fun m => (m.avr.state, m.gdb.map (fun g => g.sent)))
      = some (cpu_Running, some ["$T0020:00;21:ff04;22:40000000;#50".toList]) ∧
    ((demo_sim_waiting 0x100 "s").avr.state = cpu_Running ∧
      (∀ i, i < 32 →
        watch_hit (demo_conn "s").table (demo_sim_waiting 0x100 "s").avr.pc i = false)) ∧
    (avr_gdb_processor demo_env (demo_sim_waiting 0x100 "s")).map
        (fun m => (m.avr.state, m.gdb.map (fun g => g.sent)))
      = some (cpu_Step, some []) ∧
    (avr_gdb_processor demo_env (demo_sim_waiting 0x100 "?")).map
        (fun m => (m.avr.state, m.gdb.map (fun g => g.sent)))
      = some (cpu_Running, some ["$S00#b3".toList]) := by
  refine ⟨⟨by decide, by decide, by decide⟩, by decide, ⟨by decide, by decide⟩,
    by decide, by decide⟩

/-! ## Frames of a raise -/

theorem modify_inc_dec (l : List avr_irq_hook_t) :
    ∀ k, List.modify (fun x : avr_irq_hook_t => { x with busy := x.busy - 1 }) k
        (List.modify (fun x : avr_irq_hook_t => { x with busy := x.busy + 1 }) k l) = l := by
  induction l with
  | nil => intro k; cases k <;> simp [List.modify]
  | cons a t ih =>
    intro k
    cases k with
    | zero => simp [List.modify]
    | succ k =>
      simp [List.modify]
      exact ih k

theorem same_hooks_refl (w : irq_bus) : same_hooks w w := fun _ => rfl

theorem same_hooks_trans {w w1 w2 : irq_bus} (h1 : same_hooks w w1) (h2 : same_hooks w1 w2) :
    same_hooks w w2 := fun a => (h2 a).trans (h1 a)

theorem same_hooks_symm {w w1 : irq_bus} (h1 : same_hooks w w1) : same_hooks w1 w :=
  fun a => (h1 a).symm

theorem same_hooks_calls (w : irq_bus) (c : List hook_call) :
    same_hooks w { w with calls := c } := fun _ => rfl

theorem same_hooks_set_busy {w w1 : irq_bus} (h : same_hooks w w1) (p k : Nat)
    (f : Nat → Nat) : same_hooks (set_busy w p k f) (set_busy w1 p k f) := by
  intro a
  unfold set_busy set_irq
  by_cases ha : a = p
  · subst ha
    simp only [if_true]
    rw [h a]
  · simp only [if_neg ha]
    exact h a

theorem same_hooks_busy_back (w : irq_bus) (p k : Nat) :
    same_hooks w (set_busy (set_busy w p k (fun b => b + 1)) p k (fun b => b - 1)) := by
  intro a
  unfold set_busy set_irq
  by_cases ha : a = p
  · subst ha
    simp only [if_true]
    exact modify_inc_dec _ k
  · simp only [if_neg ha]

theorem same_hooks_after_callback {w wk w3 : irq_bus} (p k : Nat) (hk : same_hooks w wk)
    (h3 : same_hooks (set_busy wk p k (fun b => b + 1)) w3) :
    same_hooks w (set_busy w3 p k (fun b => b - 1)) :=
  same_hooks_trans hk
    (same_hooks_trans (same_hooks_busy_back wk p k) (same_hooks_set_busy h3 p k _))

theorem new_calls_append (w w1 : irq_bus) (ext : List hook_call)
    (h : w1.calls = w.calls ++ ext) : new_calls w w1 = ext := by
  unfold new_calls
  rw [h]
  simp

/-- The raises of a callback body keep an invariant `R` of the bus and compose a
reflexive and transitive relation `P` between the bus before and after. -/
theorem run_raises_frame (raise : irq_bus → Nat → Nat → Option irq_bus)
    (R : irq_bus → Prop) (P : irq_bus → irq_bus → Prop)
    (hrefl : ∀ w, P w w) (htrans : ∀ a b c, P a b → P b c → P a c) :
    ∀ (acts : List (Nat × Nat)),
      (∀ q ∈ acts, ∀ w1 w2, R w1 → raise w1 q.1 q.2 = some w2 → R w2 ∧ P w1 w2) →
      ∀ w1 w2, R w1 → run_raises raise acts w1 = some w2 → R w2 ∧ P w1 w2 := by
  intro acts
  induction acts with
  | nil =>
    intro _ w1 w2 hR h
    simp only [run_raises, Option.some.injEq] at h
    subst h
    exact ⟨hR, hrefl _⟩
  | cons q rest ih =>
    intro hq w1 w2 hR h
    obtain ⟨t, u⟩ := q
    simp only [run_raises] at h
    cases hr : raise w1 t u with
    | none => rw [hr] at h; simp at h
    | some wm =>
      rw [hr] at h
      have h1 := hq (t, u) (List.mem_cons_self _ _) w1 wm hR hr
      have h2 := ih (fun q hq2 => hq q (List.mem_cons_of_mem _ hq2)) wm w2 h1.1 h
      exact ⟨h2.1, htrans _ _ _ h1.2 h2.2⟩

/-- The relation between a bus and a later one with the same hook lists whose
trace extends the earlier trace. -/
theorem walk_hooks_frame (cb : callbacks) (raise : irq_bus → Nat → Nat → Option irq_bus)
    (p value : Nat)
    (hraise : ∀ w t u w1, raise w t u = some w1 →
      same_hooks w w1 ∧ ∃ ext, w1.calls = w.calls ++ ext) :
    ∀ n k w w1, walk_hooks cb raise p value n k w = some w1 →
      same_hooks w w1 ∧ ∃ ext, w1.calls = w.calls ++ ext := by
  intro n
  induction n with
  | zero =>
    intro k w w1 h
    simp only [walk_hooks, Option.some.injEq] at h
    subst h
    exact ⟨same_hooks_refl _, [], by simp⟩
  | succ n ih =>
    intro k w w1 h
    unfold walk_hooks at h
    cases hk : (w.irqs p).hook[k]? with
    | none =>
      rw [hk] at h
      simp only [Option.some.injEq] at h
      subst h
      exact ⟨same_hooks_refl _, [], by simp⟩
    | some hh =>
      rw [hk] at h
      dsimp only at h
      by_cases hf : hh.notify ≠ 0 ∧ hh.busy = 0
      · rw [if_pos hf] at h
        cases hr : run_raises raise (cb hh.notify p value hh.param)
            { set_busy w p k (fun b => b + 1) with
              calls := (set_busy w p k (fun b => b + 1)).calls ++
                [{ notify := hh.notify, irq := p, value := value, param := hh.param }] } with
        | none => rw [hr] at h; simp at h
        | some w3 =>
          rw [hr] at h
          dsimp only at h
          have h3 := run_raises_frame raise (fun _ => True)
            (fun a b => same_hooks a b ∧ ∃ ext, b.calls = a.calls ++ ext)
            (fun a => ⟨same_hooks_refl a, [], by simp⟩)
            (fun a b c hab hbc => by
              obtain ⟨e1, he1⟩ := hab.2
              obtain ⟨e2, he2⟩ := hbc.2
              exact ⟨same_hooks_trans hab.1 hbc.1, e1 ++ e2, by rw [he2, he1, List.append_assoc]⟩)
            (cb hh.notify p value hh.param)
            (fun q _ w1 w2 _ hq => ⟨trivial, hraise w1 q.1 q.2 w2 hq⟩) _ w3 trivial hr
          have h4 := ih (k + 1) _ w1 h
          obtain ⟨e3, he3⟩ := h3.2.2
          obtain ⟨e4, he4⟩ := h4.2
          refine ⟨?_, ?_⟩
          · exact same_hooks_trans
              (same_hooks_after_callback p k (same_hooks_refl w)
                (same_hooks_trans (same_hooks_calls _ _) h3.2.1)) h4.1
          · refine ⟨[{ notify := hh.notify, irq := p, value := value, param := hh.param }]
              ++ e3 ++ e4, ?_⟩
            rw [he4, set_busy_calls, he3]
            simp [set_busy_calls]
      · rw [if_neg hf] at h
        exact ih (k + 1) w w1 h

/-- A call of `avr_raise_irq` that returns leaves every hook list as it was, busy
counters included, and only appends to the trace. -/
theorem raise_frame (cb : callbacks) :
    ∀ fuel w irq v w1, avr_raise_irq cb fuel w irq v = some w1 →
      same_hooks w w1 ∧ ∃ ext, w1.calls = w.calls ++ ext := by
  intro fuel
  induction fuel with
  | zero => intro w irq v w1 h; simp [avr_raise_irq] at h
  | succ fuel ih =>
    intro w irq v w1 h
    unfold avr_raise_irq at h
    by_cases hc : irq = 0 ∨ (w.irqs irq).value = v
    · rw [if_pos hc] at h
      simp only [Option.some.injEq] at h
      subst h
      exact ⟨same_hooks_refl _, [], by simp⟩
    · rw [if_neg hc] at h
      cases hw : walk_hooks cb (avr_raise_irq cb fuel) irq v (w.irqs irq).hook.length 0 w with
      | none => rw [hw] at h; simp at h
      | some w2 =>
        rw [hw] at h
        simp only [Option.some.injEq] at h
        subst h
        have h2 := walk_hooks_frame cb _ irq v ih _ 0 w w2 hw
        refine ⟨?_, h2.2⟩
        intro a
        unfold set_irq
        by_cases ha : a = irq
        · subst ha
          simp only [if_true]
          exact h2.1 a
        · simp only [if_neg ha]
          exact h2.1 a

/-- A returning `avr_raise_irq` of a non-null IRQ leaves the value raised in
it. -/
theorem raise_stores_value (cb : callbacks) (fuel : Nat) (w : irq_bus) (irq v : Nat)
    (w1 : irq_bus) (hirq : irq ≠ 0) (h : avr_raise_irq cb fuel w irq v = some w1) :
    (w1.irqs irq).value = v := by
  cases fuel with
  | zero => simp [avr_raise_irq] at h
  | succ fuel =>
    unfold avr_raise_irq at h
    by_cases hc : irq = 0 ∨ (w.irqs irq).value = v
    · rw [if_pos hc] at h
      simp only [Option.some.injEq] at h
      subst h
      rcases hc with hc | hc
      · exact absurd hc hirq
      · exact hc
    · rw [if_neg hc] at h
      cases hw : walk_hooks cb (avr_raise_irq cb fuel) irq v (w.irqs irq).hook.length 0 w with
      | none => rw [hw] at h; simp at h
      | some w2 =>
        rw [hw] at h
        simp only [Option.some.injEq] at h
        subst h
        simp [set_irq]

/-! ## Termination of a raise -/

theorem filter_fires_busy (l : List avr_irq_hook_t) :
    ∀ k h, l[k]? = some h → hook_fires h = true →
      ((List.modify (fun x : avr_irq_hook_t => { x with busy := x.busy + 1 }) k l).filter
        hook_fires).length + 1 = (l.filter hook_fires).length := by
  induction l with
  | nil => intro k h hk; simp at hk
  | cons a t ih =>
    intro k h hk hf
    cases k with
    | zero =>
      simp at hk
      subst hk
      have hnot : hook_fires { a with busy := a.busy + 1 } = false := by
        simp [hook_fires]
      simp [List.modify, List.filter, hf, hnot]
    | succ k =>
      simp at hk
      have := ih k h hk hf
      simp only [List.modify_succ_cons]
      by_cases ha : hook_fires a = true
      · simp [List.filter, ha]
        omega
      · simp [List.filter, ha]
        omega

theorem idle_hooks_same {w w1 : irq_bus} (h : same_hooks w w1) (S : List Nat) :
    idle_hooks w1 S = idle_hooks w S := by
  unfold idle_hooks
  congr 1
  apply List.map_congr_left
  intro a _
  rw [h a]

theorem idle_hooks_busy (w : irq_bus) (S : List Nat) (p k : Nat) (h : avr_irq_hook_t)
    (hp : p ∈ S) (hk : (w.irqs p).hook[k]? = some h) (hf : hook_fires h = true) :
    idle_hooks (set_busy w p k (fun b => b + 1)) S < idle_hooks w S := by
  unfold idle_hooks
  apply List.sum_lt_sum
  · intro a _
    unfold set_busy set_irq
    by_cases ha : a = p
    · subst ha
      simp only [if_true]
      have := filter_fires_busy _ k h hk hf
      omega
    · simp only [if_neg ha]
      exact Nat.le_refl _
  · refine ⟨p, hp, ?_⟩
    unfold set_busy set_irq
    simp only [if_true]
    have := filter_fires_busy _ k h hk hf
    omega

theorem run_raises_returns (raise : irq_bus → Nat → Nat → Option irq_bus)
    (R : irq_bus → Prop)
    (hret : ∀ w t u, R w → ∃ w1, raise w t u = some w1 ∧ R w1) :
    ∀ (acts : List (Nat × Nat)) w, R w → ∃ w1, run_raises raise acts w = some w1 ∧ R w1 := by
  intro acts
  induction acts with
  | nil => intro w hR; exact ⟨w, rfl, hR⟩
  | cons q rest ih =>
    intro w hR
    obtain ⟨t, u⟩ := q
    obtain ⟨w1, h1, hR1⟩ := hret w t u hR
    obtain ⟨w2, h2, hR2⟩ := ih w1 hR1
    refine ⟨w2, ?_, hR2⟩
    simp only [run_raises]
    rw [h1]
    exact h2

theorem walk_hooks_returns (cb : callbacks) (raise : irq_bus → Nat → Nat → Option irq_bus)
    (S : List Nat) (fuel p value : Nat)
    (hframe : ∀ w t u w1, raise w t u = some w1 → same_hooks w w1)
    (hret : ∀ w t u, (∀ a, a ∉ S → (w.irqs a).hook.filter hook_fires = []) →
      idle_hooks w S < fuel → ∃ w1, raise w t u = some w1) :
    ∀ n k w, (∀ a, a ∉ S → (w.irqs a).hook.filter hook_fires = []) →
      idle_hooks w S ≤ fuel → ∃ w1, walk_hooks cb raise p value n k w = some w1 := by
  intro n
  induction n with
  | zero => intro k w _ _; exact ⟨w, rfl⟩
  | succ n ih =>
    intro k w hfin hfuel
    unfold walk_hooks
    cases hk : (w.irqs p).hook[k]? with
    | none => exact ⟨w, rfl⟩
    | some h =>
      dsimp only
      by_cases hf : h.notify ≠ 0 ∧ h.busy = 0
      · rw [if_pos hf]
        have hfire : hook_fires h = true := by
          unfold hook_fires; simp [hf.1, hf.2]
        have hp : p ∈ S := by
          by_contra hp
          have h0 := hfin p hp
          have hmem : h ∈ (w.irqs p).hook := by
            obtain ⟨hklt, hget⟩ := List.getElem?_eq_some.mp hk
            rw [← hget]; exact List.getElem_mem _
          have : h ∈ (w.irqs p).hook.filter hook_fires := List.mem_filter.mpr ⟨hmem, hfire⟩
          rw [h0] at this
          simp at this
        have hlt := idle_hooks_busy w S p k h hp hk hfire
        obtain ⟨w3, h3, hR3⟩ := run_raises_returns raise
          (fun x => same_hooks (set_busy w p k (fun b => b + 1)) x)
          (fun x t u hx => by
            have hx1 : ∀ a, a ∉ S → (x.irqs a).hook.filter hook_fires = [] := by
              intro a ha
              rw [hx a]
              unfold set_busy set_irq
              have hap : a ≠ p := fun e => ha (e ▸ hp)
              simp only [if_neg hap]
              exact hfin a ha
            have hx2 : idle_hooks x S < fuel := by
              rw [idle_hooks_same hx]; omega
            obtain ⟨w1, h1⟩ := hret x t u hx1 hx2
            exact ⟨w1, h1, same_hooks_trans hx (hframe x t u w1 h1)⟩)
          (cb h.notify p value h.param)
          { set_busy w p k (fun b => b + 1) with
            calls := (set_busy w p k (fun b => b + 1)).calls ++
              [{ notify := h.notify, irq := p, value := value, param := h.param }] }
          (same_hooks_calls _ _)
        rw [h3]
        dsimp only
        have hback : same_hooks w (set_busy w3 p k (fun b => b - 1)) :=
          same_hooks_after_callback p k (same_hooks_refl w) hR3
        apply ih (k + 1)
        · intro a ha
          rw [hback a]
          exact hfin a ha
        · rw [idle_hooks_same hback]
          exact hfuel
      · rw [if_neg hf]
        exact ih (k + 1) w hfin hfuel

/-- A call of `avr_raise_irq` returns when the nesting bound exceeds the number
of hooks that can be invoked: every nesting level holds one more hook busy. -/
theorem raise_returns (cb : callbacks) (S : List Nat) :
    ∀ fuel w irq v, (∀ a, a ∉ S → (w.irqs a).hook.filter hook_fires = []) →
      idle_hooks w S < fuel → ∃ w1, avr_raise_irq cb fuel w irq v = some w1 := by
  intro fuel
  induction fuel with
  | zero => intro w irq v _ h; omega
  | succ fuel ih =>
    intro w irq v hfin hfuel
    unfold avr_raise_irq
    by_cases hc : irq = 0 ∨ (w.irqs irq).value = v
    · rw [if_pos hc]
      exact ⟨w, rfl⟩
    · rw [if_neg hc]
      obtain ⟨w2, h2⟩ := walk_hooks_returns cb (avr_raise_irq cb fuel) S fuel irq v
        (fun w t u w1 h => (raise_frame cb fuel w t u w1 h).1)
        (fun w t u h1 h2 => ih w t u h1 h2)
        (w.irqs irq).hook.length 0 w hfin (by omega)
      rw [h2]
      exact ⟨_, rfl⟩

/-! ## Hooks invoked once -/

/-- The loop of `avr_raise_irq` over the hooks of `irq`, from the `k`-th hook on:
when no raise made from the callbacks invokes a hook of `irq`, the invocations
the loop makes of hooks of `irq` are those of the hooks that fire, once each and
in list order. -/
theorem walk_each_once (cb : callbacks) (raise : irq_bus → Nat → Nat → Option irq_bus)
    (w : irq_bus) (irq v : Nat)
    (hraise : ∀ w t u w1, raise w t u = some w1 →
      same_hooks w w1 ∧ ∃ ext, w1.calls = w.calls ++ ext)
    (hnest : ∀ k h, (w.irqs irq).hook[k]? = some h → hook_fires h = true →
      ∀ q ∈ cb h.notify irq v h.param, ∀ w1 w2,
        same_hooks (set_busy w irq k (fun b => b + 1)) w1 → raise w1 q.1 q.2 = some w2 →
        ∀ c ∈ new_calls w1 w2, c.irq ≠ irq) :
    ∀ n k wk w1, same_hooks w wk → (w.irqs irq).hook.length ≤ n + k →
      walk_hooks cb raise irq v n k wk = some w1 →
      same_hooks w w1 ∧ ∃ ext, w1.calls = wk.calls ++ ext ∧
        ext.filter (fun c => decide (c.irq = irq)) =
          (((w.irqs irq).hook.drop k).filter hook_fires).map (call_of irq v) := by
  intro n
  induction n with
  | zero =>
    intro k wk w1 hs hlen h
    simp only [walk_hooks, Option.some.injEq] at h
    subst h
    have : (w.irqs irq).hook.drop k = [] := List.drop_eq_nil_of_le (by omega)
    exact ⟨hs, [], by simp, by simp [this]⟩
  | succ n ih =>
    intro k wk w1 hs hlen h
    unfold walk_hooks at h
    rw [hs irq] at h
    cases hk : (w.irqs irq).hook[k]? with
    | none =>
      rw [hk] at h
      simp only [Option.some.injEq] at h
      subst h
      have : (w.irqs irq).hook.drop k = [] :=
        List.drop_eq_nil_of_le (List.getElem?_eq_none_iff.mp hk)
      exact ⟨hs, [], by simp, by simp [this]⟩
    | some hh =>
      rw [hk] at h
      dsimp only at h
      obtain ⟨hklt, hget⟩ := List.getElem?_eq_some.mp hk
      have hdrop : (w.irqs irq).hook.drop k = hh :: (w.irqs irq).hook.drop (k + 1) := by
        rw [← hget]; exact List.drop_eq_getElem_cons hklt
      by_cases hf : hh.notify ≠ 0 ∧ hh.busy = 0
      · rw [if_pos hf] at h
        have hfire : hook_fires hh = true := by
          unfold hook_fires; simp [hf.1, hf.2]
        cases hr : run_raises raise (cb hh.notify irq v hh.param)
            { set_busy wk irq k (fun b => b + 1) with
              calls := (set_busy wk irq k (fun b => b + 1)).calls ++
                [{ notify := hh.notify, irq := irq, value := v, param := hh.param }] } with
        | none => rw [hr] at h; simp at h
        | some w3 =>
          rw [hr] at h
          dsimp only at h
          have h3 := run_raises_frame raise
            (fun x => same_hooks (set_busy w irq k (fun b => b + 1)) x)
            (fun a b => ∃ ext, b.calls = a.calls ++ ext ∧ ∀ c ∈ ext, c.irq ≠ irq)
            (fun a => ⟨[], by simp, by simp⟩)
            (fun a b c hab hbc => by
              obtain ⟨e1, he1, hn1⟩ := hab
              obtain ⟨e2, he2, hn2⟩ := hbc
              refine ⟨e1 ++ e2, by rw [he2, he1, List.append_assoc], ?_⟩
              intro x hx
              rcases List.mem_append.mp hx with hx | hx
              · exact hn1 x hx
              · exact hn2 x hx)
            (cb hh.notify irq v hh.param)
            (fun q hq x y hx hxy => by
              have hfr := hraise x q.1 q.2 y hxy
              obtain ⟨e, he⟩ := hfr.2
              refine ⟨same_hooks_trans hx hfr.1, e, he, ?_⟩
              have := hnest k hh hk hfire q hq x y hx hxy
              rw [new_calls_append x y e he] at this
              exact this)
            _ w3
            (same_hooks_trans (same_hooks_set_busy hs irq k _) (same_hooks_calls _ _)) hr
          obtain ⟨hs3, e3, he3, hn3⟩ := h3
          have hback : same_hooks w (set_busy w3 irq k (fun b => b - 1)) :=
            same_hooks_trans (same_hooks_busy_back w irq k) (same_hooks_set_busy hs3 irq k _)
          obtain ⟨hs4, e4, he4, hf4⟩ := ih (k + 1) _ w1 hback (by omega) h
          refine ⟨hs4, [{ notify := hh.notify, irq := irq, value := v, param := hh.param }]
            ++ e3 ++ e4, ?_, ?_⟩
          · rw [he4, set_busy_calls, he3]
            simp [set_busy_calls]
          · have hz : e3.filter (fun c => decide (c.irq = irq)) = [] := by
              apply List.filter_eq_nil_iff.mpr
              intro c hc
              simp [hn3 c hc]
            rw [List.filter_append, List.filter_append, hz, hf4, hdrop]
            simp [List.filter, hfire, call_of]
      · rw [if_neg hf] at h
        have hnf : hook_fires hh = false := by
          unfold hook_fires
          by_cases h1 : hh.notify = 0
          · simp [h1]
          · have : hh.busy ≠ 0 := fun h2 => hf ⟨h1, h2⟩
            simp [this]
        obtain ⟨hs4, e4, he4, hf4⟩ := ih (k + 1) wk w1 hs (by omega) h
        refine ⟨hs4, e4, he4, ?_⟩
        rw [hf4, hdrop]
        simp [List.filter, hnf]

/-- One `avr_raise_irq` of a changed value, when no raise made from the callbacks
invokes a hook of `irq` and the nesting bound exceeds the number of hooks that
can be invoked: the call returns, the invocations it makes of hooks of `irq` are
those of the hooks that fire, once each and in list order, the value is stored
and the hook lists are as before. -/
theorem raise_each_once (cb : callbacks) (S : List Nat) (fuel : Nat) (w : irq_bus)
    (irq v : Nat) (hirq : irq ≠ 0) (hv : (w.irqs irq).value ≠ v)
    (hfin : ∀ a, a ∉ S → (w.irqs a).hook.filter hook_fires = [])
    (hfuel : idle_hooks w S ≤ fuel)
    (hnest : ∀ k h, (w.irqs irq).hook[k]? = some h → hook_fires h = true →
      ∀ q ∈ cb h.notify irq v h.param, ∀ w1 w2,
        same_hooks (set_busy w irq k (fun b => b + 1)) w1 →
        avr_raise_irq cb fuel w1 q.1 q.2 = some w2 →
        ∀ c ∈ new_calls w1 w2, c.irq ≠ irq) :
    ∃ w1, avr_raise_irq cb (fuel + 1) w irq v = some w1 ∧
      same_hooks w w1 ∧ (w1.irqs irq).value = v ∧
      (∃ ext, w1.calls = w.calls ++ ext) ∧
      (new_calls w w1).filter (fun c => decide (c.irq = irq)) =
        ((w.irqs irq).hook.filter hook_fires).map (call_of irq v) := by
  obtain ⟨w1, h1⟩ := raise_returns cb S (fuel + 1) w irq v hfin (by omega)
  refine ⟨w1, h1, (raise_frame cb _ w irq v w1 h1).1,
    raise_stores_value cb _ w irq v w1 hirq h1, (raise_frame cb _ w irq v w1 h1).2, ?_⟩
  unfold avr_raise_irq at h1
  rw [if_neg (by intro h; rcases h with h | h; exact hirq h; exact hv h)] at h1
  cases hw : walk_hooks cb (avr_raise_irq cb fuel) irq v (w.irqs irq).hook.length 0 w with
  | none => rw [hw] at h1; simp at h1
  | some w2 =>
    rw [hw] at h1
    simp only [Option.some.injEq] at h1
    subst h1
    obtain ⟨_, e, he, hfl⟩ := walk_each_once cb (avr_raise_irq cb fuel) w irq v
      (raise_frame cb fuel) hnest _ 0 w w2 (same_hooks_refl w) (by omega) hw
    have hn : new_calls w (set_irq w2 irq { w2.irqs irq with value := v }) = e :=
      new_calls_append _ _ e he
    rw [hn, hfl]
    simp

/-! ## Raises that stay within a set of IRQs -/

theorem modify_busy_pairs (f : Nat → Nat) (l : List avr_irq_hook_t) :
    ∀ k, (List.modify (fun x : avr_irq_hook_t => { x with busy := f x.busy }) k l).map hook_pair
      = l.map hook_pair := by
  induction l with
  | nil => intro k; cases k <;> simp [List.modify]
  | cons a t ih =>
    intro k
    cases k with
    | zero => simp [List.modify, hook_pair]
    | succ k =>
      simp only [List.modify_succ_cons, List.map_cons]
      rw [ih k]

theorem same_hook_pairs_of_same {w w1 : irq_bus} (h : same_hooks w w1) :
    same_hook_pairs w w1 := fun a => by rw [h a]

theorem same_hook_pairs_trans {w w1 w2 : irq_bus} (h1 : same_hook_pairs w w1)
    (h2 : same_hook_pairs w1 w2) : same_hook_pairs w w2 := fun a => (h2 a).trans (h1 a)

theorem same_hook_pairs_set_busy (w : irq_bus) (p k : Nat) (f : Nat → Nat) :
    same_hook_pairs w (set_busy w p k f) := by
  intro a
  unfold set_busy set_irq
  by_cases ha : a = p
  · subst ha
    simp only [if_true]
    exact modify_busy_pairs f _ k
  · simp only [if_neg ha]

theorem set_busy_value (w : irq_bus) (p k : Nat) (f : Nat → Nat) (a : Nat) :
    ((set_busy w p k f).irqs a).value = (w.irqs a).value := by
  unfold set_busy set_irq
  by_cases ha : a = p
  · subst ha
    simp only [if_true]
  · simp only [if_neg ha]

theorem walk_hooks_within (cb : callbacks) (raise : irq_bus → Nat → Nat → Option irq_bus)
    (T : Nat → Prop) (H : irq_bus) (t u : Nat) (ht : T t)
    (hclosed : ∀ h ∈ (H.irqs t).hook, ∀ q ∈ cb h.notify t u h.param, T q.1)
    (hframe : ∀ w x y w1, raise w x y = some w1 →
      same_hooks w w1 ∧ ∃ ext, w1.calls = w.calls ++ ext)
    (hraise : ∀ w x y w1, same_hook_pairs H w → T x → raise w x y = some w1 →
      (∀ c ∈ new_calls w w1, T c.irq) ∧ ∀ a, ¬ T a → (w1.irqs a).value = (w.irqs a).value) :
    ∀ n k w w1, same_hook_pairs H w → walk_hooks cb raise t u n k w = some w1 →
      (∀ c ∈ new_calls w w1, T c.irq) ∧ ∀ a, ¬ T a → (w1.irqs a).value = (w.irqs a).value := by
  intro n
  induction n with
  | zero =>
    intro k w w1 _ h
    simp only [walk_hooks, Option.some.injEq] at h
    subst h
    exact ⟨by simp [new_calls], fun _ _ => rfl⟩
  | succ n ih =>
    intro k w w1 hp h
    unfold walk_hooks at h
    cases hk : (w.irqs t).hook[k]? with
    | none =>
      rw [hk] at h
      simp only [Option.some.injEq] at h
      subst h
      exact ⟨by simp [new_calls], fun _ _ => rfl⟩
    | some hh =>
      rw [hk] at h
      dsimp only at h
      by_cases hf : hh.notify ≠ 0 ∧ hh.busy = 0
      · rw [if_pos hf] at h
        have hmem : hh ∈ (w.irqs t).hook := by
          obtain ⟨hklt, hget⟩ := List.getElem?_eq_some.mp hk
          rw [← hget]; exact List.getElem_mem _
        have hpair : hook_pair hh ∈ (H.irqs t).hook.map hook_pair := by
          rw [← hp t]; exact List.mem_map_of_mem _ hmem
        obtain ⟨h0, hm0, hp0⟩ := List.mem_map.mp hpair
        have hn0 : h0.notify = hh.notify := congrArg Prod.fst hp0
        have hq0 : h0.param = hh.param := congrArg Prod.snd hp0
        have hcl : ∀ q ∈ cb hh.notify t u hh.param, T q.1 := by
          intro q hq
          rw [← hn0, ← hq0] at hq
          exact hclosed h0 hm0 q hq
        cases hr : run_raises raise (cb hh.notify t u hh.param)
            { set_busy w t k (fun b => b + 1) with
              calls := (set_busy w t k (fun b => b + 1)).calls ++
                [{ notify := hh.notify, irq := t, value := u, param := hh.param }] } with
        | none => rw [hr] at h; simp at h
        | some w3 =>
          rw [hr] at h
          dsimp only at h
          have h3 := run_raises_frame raise (fun x => same_hook_pairs H x)
            (fun a b => (∃ ext, b.calls = a.calls ++ ext ∧ ∀ c ∈ ext, T c.irq) ∧
              ∀ x, ¬ T x → (b.irqs x).value = (a.irqs x).value)
            (fun a => ⟨⟨[], by simp, by simp⟩, fun _ _ => rfl⟩)
            (fun a b c hab hbc => by
              obtain ⟨⟨e1, he1, hn1⟩, hv1⟩ := hab
              obtain ⟨⟨e2, he2, hn2⟩, hv2⟩ := hbc
              refine ⟨⟨e1 ++ e2, by rw [he2, he1, List.append_assoc], ?_⟩, ?_⟩
              · intro x hx
                rcases List.mem_append.mp hx with hx | hx
                · exact hn1 x hx
                · exact hn2 x hx
              · intro x hx
                rw [hv2 x hx, hv1 x hx])
            (cb hh.notify t u hh.param)
            (fun q hq x y hx hxy => by
              have hfr := hframe x q.1 q.2 y hxy
              obtain ⟨e, he⟩ := hfr.2
              have hin := hraise x q.1 q.2 y hx (hcl q hq) hxy
              rw [new_calls_append x y e he] at hin
              exact ⟨same_hook_pairs_trans hx (same_hook_pairs_of_same hfr.1),
                ⟨e, he, hin.1⟩, hin.2⟩)
            _ w3
            (same_hook_pairs_trans hp
              (same_hook_pairs_trans (same_hook_pairs_set_busy w t k _)
                (same_hook_pairs_of_same (same_hooks_calls _ _)))) hr
          obtain ⟨hs3, ⟨e3, he3, hn3⟩, hv3⟩ := h3
          have h4 := ih (k + 1) _ w1
            (same_hook_pairs_trans hs3 (same_hook_pairs_set_busy w3 t k _)) h
          obtain ⟨_, e4, he4⟩ := walk_hooks_frame cb raise t u hframe n (k + 1) _ w1 h
          rw [new_calls_append _ _ e4 he4] at h4
          have hall : w1.calls = w.calls ++
              ([{ notify := hh.notify, irq := t, value := u, param := hh.param }]
                ++ e3 ++ e4) := by
            rw [he4, set_busy_calls, he3]
            simp [set_busy_calls]
          rw [new_calls_append _ _ _ hall]
          refine ⟨?_, ?_⟩
          · intro c hc
            rcases List.mem_append.mp hc with hc | hc
            · rcases List.mem_append.mp hc with hc | hc
              · simp only [List.mem_singleton] at hc
                subst hc
                exact ht
              · exact hn3 c hc
            · exact h4.1 c hc
          · intro a ha
            rw [h4.2 a ha, set_busy_value, hv3 a ha]
            exact set_busy_value w t k _ a
      · rw [if_neg hf] at h
        exact ih (k + 1) w w1 hp h

/-- A set `T` of IRQs that the callbacks of its hooks do not leave: every raise
of an IRQ of `T` invokes hooks of IRQs of `T` only and leaves the values of the
IRQs outside `T` alone. -/
theorem raise_within (cb : callbacks) (T : Nat → Prop) (H : irq_bus)
    (hclosed : ∀ t, T t → ∀ h ∈ (H.irqs t).hook, ∀ u, ∀ q ∈ cb h.notify t u h.param, T q.1) :
    ∀ fuel w t u w1, same_hook_pairs H w → T t → avr_raise_irq cb fuel w t u = some w1 →
      (∀ c ∈ new_calls w w1, T c.irq) ∧ ∀ a, ¬ T a → (w1.irqs a).value = (w.irqs a).value := by
  intro fuel
  induction fuel with
  | zero => intro w t u w1 _ _ h; simp [avr_raise_irq] at h
  | succ fuel ih =>
    intro w t u w1 hp ht h
    unfold avr_raise_irq at h
    by_cases hc : t = 0 ∨ (w.irqs t).value = u
    · rw [if_pos hc] at h
      simp only [Option.some.injEq] at h
      subst h
      exact ⟨by simp [new_calls], fun _ _ => rfl⟩
    · rw [if_neg hc] at h
      cases hw : walk_hooks cb (avr_raise_irq cb fuel) t u (w.irqs t).hook.length 0 w with
      | none => rw [hw] at h; simp at h
      | some w2 =>
        rw [hw] at h
        simp only [Option.some.injEq] at h
        subst h
        have h2 := walk_hooks_within cb (avr_raise_irq cb fuel) T H t u ht
          (fun h hh q hq => hclosed t ht h hh u q hq) (raise_frame cb fuel) ih
          _ 0 w w2 hp hw
        refine ⟨h2.1, ?_⟩
        intro a ha
        have hat : a ≠ t := fun e => ha (e ▸ ht)
        unfold set_irq
        simp only [if_neg hat]
        exact h2.2 a ha

/-! ## Claims on nested raises -/

/-- The IRQs 20, 30 and 40 of `demo_bus_chain` are not left by the callbacks of
their hooks. -/
theorem demo_chain_closed :
    ∀ t, (t = 20 ∨ t = 30 ∨ t = 40) → ∀ h ∈ (demo_bus_chain.irqs t).hook, ∀ u,
      ∀ q ∈ connect_callbacks h.notify t u h.param, (q.1 = 20 ∨ q.1 = 30 ∨ q.1 = 40) := by
  intro t ht h hh u q hq
  rcases ht with rfl | rfl | rfl
  · have hl : (demo_bus_chain.irqs 20).hook =
        [{ notify := 9, param := 40, busy := 0 }, { notify := 3, param := 300, busy := 0 }] := by
      decide
    rw [hl] at hh
    simp only [List.mem_cons, List.mem_singleton, List.not_mem_nil, or_false] at hh
    rcases hh with rfl | rfl
    · simp [connect_callbacks, _avr_irq_connect] at hq
      subst hq
      simp
    · simp [connect_callbacks] at hq
  · have hl : (demo_bus_chain.irqs 30).hook = [{ notify := 6, param := 600, busy := 0 }] := by
      decide
    rw [hl] at hh
    simp only [List.mem_singleton] at hh
    subst hh
    simp [connect_callbacks] at hq
  · have hl : (demo_bus_chain.irqs 40).hook = [{ notify := 5, param := 500, busy := 0 }] := by
      decide
    rw [hl] at hh
    simp only [List.mem_singleton] at hh
    subst hh
    simp [connect_callbacks] at hq

/-- The callbacks of the hooks of IRQ 10 of `demo_bus_chain` raise IRQs 20 and 30
only. -/
theorem demo_chain_out (v : Nat) :
    ∀ h ∈ (demo_bus_chain.irqs 10).hook, ∀ q ∈ connect_callbacks h.notify 10 v h.param,
      (q.1 = 20 ∨ q.1 = 30 ∨ q.1 = 40) := by
  intro h hh q hq
  have hl : (demo_bus_chain.irqs 10).hook =
      [{ notify := 9, param := 30, busy := 0 }, { notify := 4, param := 400, busy := 0 },
       { notify := 9, param := 20, busy := 0 }] := by
    decide
  rw [hl] at hh
  simp only [List.mem_cons, List.mem_singleton, List.not_mem_nil, or_false] at hh
  rcases hh with rfl | rfl | rfl
  · simp [connect_callbacks, _avr_irq_connect] at hq
    subst hq
    simp
  · simp [connect_callbacks] at hq
  · simp [connect_callbacks, _avr_irq_connect] at hq
    subst hq
    simp

/-- The hooks of `demo_bus_chain` are on the IRQs 10, 20, 30 and 40. -/
theorem demo_chain_support :
    ∀ a, a ∉ [10, 20, 30, 40] → (demo_bus_chain.irqs a).hook.filter hook_fires = [] := by
  intro a ha
  simp only [List.mem_cons, List.mem_singleton, List.not_mem_nil, or_false, not_or] at ha
  obtain ⟨h10, h20, h30, h40⟩ := ha
  have hl : (demo_bus_chain.irqs a).hook = [] := by
    simp [demo_bus_chain, demo_bus_connected, demo_bus_dst, avr_connect_irq,
      avr_irq_register_notify, set_irq, empty_bus, h10, h20, h30, h40]
  rw [hl]
  rfl

theorem mem_of_getElem_some {α : Type} (l : List α) (k : Nat) (x : α)
    (h : l[k]? = some x) : x ∈ l := by
  obtain ⟨hklt, hget⟩ := List.getElem?_eq_some.mp h
  rw [← hget]
  exact List.getElem_mem _

/-- A raise of an IRQ of a set `T` that the callbacks do not leave, made while
hook `k` of an IRQ `irq` outside `T` is busy, invokes no hook of `irq` and
leaves its value alone. -/
theorem raise_within_avoids (cb : callbacks) (T : Nat → Prop) (w : irq_bus) (irq : Nat)
    (hT : ¬ T irq)
    (hclosed : ∀ t, T t → ∀ h ∈ (w.irqs t).hook, ∀ u, ∀ q ∈ cb h.notify t u h.param, T q.1)
    (fuel p k : Nat) (f : Nat → Nat) (w1 w2 : irq_bus) (t u : Nat) (ht : T t)
    (hs : same_hooks (set_busy w p k f) w1)
    (h : avr_raise_irq cb fuel w1 t u = some w2) :
    (∀ c ∈ new_calls w1 w2, c.irq ≠ irq) ∧ (w2.irqs irq).value = (w1.irqs irq).value := by
  have hp : same_hook_pairs w w1 :=
    same_hook_pairs_trans (same_hook_pairs_set_busy w p k f) (same_hook_pairs_of_same hs)
  have hin := raise_within cb T w hclosed fuel w1 t u w2 hp ht h
  refine ⟨?_, hin.2 irq hT⟩
  intro c hc e
  exact hT (e ▸ hin.1 c hc)

/-- Claim C9 (as amended): for an IRQ whose hooks are registered (callback set,
not busy) and a value `v` other than its current value, one `avr_raise_irq`
invokes each hook exactly once, in list order, when no raise made from inside
the callbacks invokes a hook of this IRQ; the callbacks may raise other IRQs,
to any depth, and the call returns for every nesting bound above the number of
hooks that can be invoked. In particular each hook is invoked exactly once when
the callbacks raise no IRQ, and a hook that is alone on its IRQ and whose
callback raises that same IRQ again is invoked exactly once, its re-entry being
dropped by its busy guard. -/
theorem raise_invokes_each_hook_once (cb : callbacks) (fuel : Nat) (w : irq_bus)
    (irq v : Nat) (hirq : irq ≠ 0) (hv : (w.irqs irq).value ≠ v)
    (hreg : ∀ h ∈ (w.irqs irq).hook, h.notify ≠ 0 ∧ h.busy = 0) :
    (∀ S : List Nat, (∀ a, a ∉ S → (w.irqs a).hook.filter hook_fires = []) →
      idle_hooks w S ≤ fuel →
      (∀ k h, (w.irqs irq).hook[k]? = some h → ∀ q ∈ cb h.notify irq v h.param,
        ∀ w1 w2, same_hooks (set_busy w irq k (fun b => b + 1)) w1 →
          avr_raise_irq cb fuel w1 q.1 q.2 = some w2 →
          ∀ c ∈ new_calls w1 w2, c.irq ≠ irq) →
      ∃ w1, avr_raise_irq cb (fuel + 1) w irq v = some w1 ∧
        (∃ ext, w1.calls = w.calls ++ ext) ∧
        (new_calls w w1).filter (fun c => decide (c.irq = irq))
          = (w.irqs irq).hook.map (call_of irq v) ∧
        (w1.irqs irq).value = v ∧ same_hooks w w1 ∧
        (((w.irqs irq).hook.map (fun h => (h.notify, h.param))).Nodup →
          ∀ h ∈ (w.irqs irq).hook, (new_calls w w1).count (call_of irq v h) = 1)) ∧
    ((∀ h ∈ (w.irqs irq).hook, cb h.notify irq v h.param = []) →
      ∃ w1, avr_raise_irq cb (fuel + 1) w irq v = some w1 ∧
        w1.calls = w.calls ++ (w.irqs irq).hook.map (call_of irq v) ∧
        (w1.irqs irq).value = v ∧ (w1.irqs irq).hook = (w.irqs irq).hook ∧
        (((w.irqs irq).hook.map (fun h => (h.notify, h.param))).Nodup →
          ∀ h ∈ (w.irqs irq).hook,
            ((w.irqs irq).hook.map (call_of irq v)).count (call_of irq v h) = 1)) ∧
    (∀ h, (w.irqs irq).hook = [h] → (∀ q ∈ cb h.notify irq v h.param, q.1 = irq) →
      ∃ w1, avr_raise_irq cb (fuel + 2) w irq v = some w1 ∧
        w1.calls = w.calls ++ [call_of irq v h] ∧
        (w1.irqs irq).value = v ∧ (w1.irqs irq).hook = [h]) := by
  refine ⟨?_, ?_, ?_⟩
  · intro S hfin hfuel hnest
    obtain ⟨w1, h1, hs, hval, hext, hfl⟩ := raise_each_once cb S fuel w irq v hirq hv hfin hfuel
      (fun k h hk _ => hnest k h hk)
    rw [filter_all_fire _ hreg] at hfl
    refine ⟨w1, h1, hext, hfl, hval, hs, ?_⟩
    intro hd h hmem
    have hc : (call_of irq v h).irq = irq := rfl
    have hcf : List.count (call_of irq v h)
        (List.filter (fun c => decide (c.irq = irq)) (new_calls w w1))
        = List.count (call_of irq v h) (new_calls w w1) :=
      List.count_filter (by simp [hc])
    rw [← hcf, hfl]
    exact List.count_eq_one_of_mem (call_of_nodup irq v _ hd) (List.mem_map_of_mem _ hmem)
  · intro hcb
    refine ⟨_, raise_quiet cb fuel w irq v hirq hv hcb, ?_, ?_, ?_, ?_⟩
    · simp [set_irq, filter_all_fire _ hreg]
    · simp [set_irq]
    · simp [set_irq]
    · intro hd h hmem
      exact List.count_eq_one_of_mem (call_of_nodup irq v _ hd) (List.mem_map_of_mem _ hmem)
  · intro h hl hq
    have hh : h ∈ (w.irqs irq).hook := by rw [hl]; exact List.mem_singleton_self h
    exact raise_single_reentrant cb fuel w irq v h hirq hv hl (hreg h hh).1 (hreg h hh).2 hq

/-- Claim C9, witness: on `demo_bus_chain` the three hooks of IRQ 10, two of them
connections whose raises go on to IRQs 30, 20 and 40, are invoked once each; the
lone hook A that re-raises its IRQ is invoked once; with quiet callbacks the
hooks B and A are invoked once each. -/
theorem raise_invokes_each_hook_once_witness :
    ((10 : Nat) ≠ 0 ∧ (demo_bus_chain.irqs 10).value ≠ 5 ∧
      (∀ h ∈ (demo_bus_chain.irqs 10).hook, h.notify ≠ 0 ∧ h.busy = 0) ∧
      idle_hooks demo_bus_chain [10, 20, 30, 40] ≤ 7 ∧
      (demo_bus_one.irqs 10).value ≠ 1 ∧
      (∀ h ∈ (demo_bus_one.irqs 10).hook, h.notify ≠ 0 ∧ h.busy = 0) ∧
      (demo_bus_two.irqs 10).value ≠ 1 ∧
      (∀ h ∈ (demo_bus_two.irqs 10).hook, h.notify ≠ 0 ∧ h.busy = 0)) ∧
    (avr_raise_irq connect_callbacks 8 demo_bus_chain 10 5).map (fun w => w.calls)
      = some [{ notify := 9, irq := 10, value := 5, param := 30 },
              { notify := 6, irq := 30, value := 1, param := 600 },
              { notify := 4, irq := 10, value := 5, param := 400 },
              { notify := 9, irq := 10, value := 5, param := 20 },
              { notify := 9, irq := 20, value := 1, param := 40 },
              { notify := 5, irq := 40, value := 1, param := 500 },
              { notify := 3, irq := 20, value := 1, param := 300 }] ∧
    (avr_raise_irq reraising_callbacks 2 demo_bus_one 10 1).map (fun w => w.calls)
      = some [{ notify := 1, irq := 10, value := 1, param := 100 }] ∧
    (avr_raise_irq quiet_callbacks 1 demo_bus_two 10 1).map (fun w => w.calls)
      = some [{ notify := 2, irq := 10, value := 1, param := 200 },
              { notify := 1, irq := 10, value := 1, param := 100 }] ∧
    (∃ w1, avr_raise_irq connect_callbacks (7 + 1) demo_bus_chain 10 5 = some w1 ∧
      (∃ ext, w1.calls = demo_bus_chain.calls ++ ext) ∧
      (new_calls demo_bus_chain w1).filter (fun c => decide (c.irq = 10))
        = (demo_bus_chain.irqs 10).hook.map (call_of 10 5) ∧
      (w1.irqs 10).value = 5 ∧ same_hooks demo_bus_chain w1 ∧
      (((demo_bus_chain.irqs 10).hook.map (fun h => (h.notify, h.param))).Nodup →
        ∀ h ∈ (demo_bus_chain.irqs 10).hook,
          (new_calls demo_bus_chain w1).count (call_of 10 5 h) = 1)) ∧
    (∃ w1, avr_raise_irq quiet_callbacks (0 + 1) demo_bus_two 10 1 = some w1 ∧
      w1.calls = demo_bus_two.calls ++ (demo_bus_two.irqs 10).hook.map (call_of 10 1) ∧
      (w1.irqs 10).value = 1 ∧ (w1.irqs 10).hook = (demo_bus_two.irqs 10).hook ∧
      (((demo_bus_two.irqs 10).hook.map (fun h => (h.notify, h.param))).Nodup →
        ∀ h ∈ (demo_bus_two.irqs 10).hook,
          ((demo_bus_two.irqs 10).hook.map (call_of 10 1)).count (call_of 10 1 h) = 1)) ∧
    (∃ w1, avr_raise_irq reraising_callbacks (0 + 2) demo_bus_one 10 1 = some w1 ∧
      w1.calls = demo_bus_one.calls ++ [call_of 10 1 { notify := 1, param := 100, busy := 0 }] ∧
      (w1.irqs 10).value = 1 ∧
      (w1.irqs 10).hook = [{ notify := 1, param := 100, busy := 0 }]) :=
  ⟨⟨by decide, by decide, by decide, by decide, by decide, by decide, by decide, by decide⟩,
   by decide, by decide, by decide,
   (raise_invokes_each_hook_once connect_callbacks 7 demo_bus_chain 10 5 (by decide)
     (by decide) (by decide)).1 [10, 20, 30, 40] demo_chain_support (by decide)
     (fun k h hk q hq w1 w2 hs hr =>
       (raise_within_avoids connect_callbacks (fun a => a = 20 ∨ a = 30 ∨ a = 40)
         demo_bus_chain 10 (by decide) demo_chain_closed 7 10 k _ w1 w2 q.1 q.2
         (demo_chain_out 5 h (mem_of_getElem_some _ k h hk) q hq) hs hr).1),
   (raise_invokes_each_hook_once quiet_callbacks 0 demo_bus_two 10 1 (by decide)
     (by decide) (by decide)).2.1 (fun _ _ => rfl),
   (raise_invokes_each_hook_once reraising_callbacks 0 demo_bus_one 10 1 (by decide)
     (by decide) (by decide)).2.2 { notify := 1, param := 100, busy := 0 } (by decide)
     (by decide)⟩

/-- Claim C9, counterexample: hooks A = (1, 100) and B = (2, 200) are on IRQ 10
and the callback of A raises the IRQ again; one `avr_raise_irq` of a changed
value invokes B twice, once from the nested call. -/
theorem reentry_invokes_other_hook_twice :
    (demo_bus_two.irqs 10).hook =
      [{ notify := 2, param := 200, busy := 0 }, { notify := 1, param := 100, busy := 0 }] ∧
    (demo_bus_two.irqs 10).value ≠ 1 ∧
    reraising_callbacks 1 10 1 100 = [(10, 1)] ∧
    (avr_raise_irq reraising_callbacks 3 demo_bus_two 10 1).map (fun w => w.calls)
      = some [{ notify := 2, irq := 10, value := 1, param := 200 },
              { notify := 1, irq := 10, value := 1, param := 100 },
              { notify := 2, irq := 10, value := 1, param := 200 }] ∧
    (avr_raise_irq reraising_callbacks 3 demo_bus_two 10 1).map
        (fun w => w.calls.count { notify := 2, irq := 10, value := 1, param := 200 })
      = some 2 := by
  refine ⟨by decide, by decide, by decide, by decide, by decide⟩

/-! ## A raise through a connection -/

theorem raise_same_value (cb : callbacks) (fuel : Nat) (w w1 : irq_bus) (irq v : Nat)
    (hv : (w.irqs irq).value = v) (h : avr_raise_irq cb fuel w irq v = some w1) :
    w1 = w := by
  cases fuel with
  | zero => simp [avr_raise_irq] at h
  | succ fuel =>
    unfold avr_raise_irq at h
    rw [if_pos (Or.inr hv)] at h
    simp only [Option.some.injEq] at h
    exact h.symm

/-- After `avr_connect_irq(src, dst)` a connection hook to `dst` that fires is on
the hook list of `src`, a connection that was there before not being busy. -/
theorem connect_hook_on_list (connect : Nat) (w : irq_bus) (src dst : Nat)
    (hsrc : src ≠ 0) (hconn : connect ≠ 0)
    (hbusy : ∀ h ∈ (w.irqs src).hook, h.notify = connect → h.param = dst → h.busy = 0) :
    ∃ (j : Nat) (h : avr_irq_hook_t),
      ((avr_connect_irq connect w src dst).irqs src).hook[j]? = some h ∧
      hook_fires h = true ∧ h.notify = connect ∧ h.param = dst := by
  by_cases hp : ∃ h ∈ (w.irqs src).hook, h.notify = connect ∧ h.param = dst
  · obtain ⟨h, hm, h1, h2⟩ := hp
    have hsame : avr_connect_irq connect w src dst = w :=
      register_noop_of_present w src connect dst ⟨h, hm, h1, h2⟩
    obtain ⟨j, hj⟩ := List.getElem?_of_mem hm
    refine ⟨j, h, by rw [hsame]; exact hj, ?_, h1, h2⟩
    unfold hook_fires
    simp [h1, hconn, hbusy h hm h1 h2]
  · have hnew : ∀ h ∈ (w.irqs src).hook, ¬ (h.notify = connect ∧ h.param = dst) :=
      fun h hm hh => hp ⟨h, hm, hh⟩
    refine ⟨0, { notify := connect, param := dst, busy := 0 }, ?_, ?_, rfl, rfl⟩
    · unfold avr_connect_irq
      rw [register_new w src connect dst hsrc hconn hnew]
      simp [set_irq]
    · unfold hook_fires
      simp [hconn]

/-- The loop of `avr_raise_irq` over the hooks of `src`, from the `k`-th hook on,
seen from `dst`: a connection hook that fires leaves the normalized value `b` in
`dst`, by a raise that is void when `dst` holds `b`; the raises of the other
hooks leave `dst` alone. -/
theorem walk_connect (cb : callbacks) (fuel : Nat) (W : irq_bus)
    (src dst v b connect : Nat) (Q : List hook_call → Prop)
    (hsd : src ≠ dst) (hdst : dst ≠ 0)
    (hcb : ∀ p, cb connect src v p = [(p, b)])
    (hother : ∀ k h, (W.irqs src).hook[k]? = some h →
      ¬ (h.notify = connect ∧ h.param = dst) →
      ∀ q ∈ cb h.notify src v h.param, ∀ w1 w2,
        same_hooks (set_busy W src k (fun x => x + 1)) w1 →
        avr_raise_irq cb fuel w1 q.1 q.2 = some w2 →
        (∀ c ∈ new_calls w1 w2, c.irq ≠ dst) ∧ (w2.irqs dst).value = (w1.irqs dst).value)
    (hconn : ∀ k h, (W.irqs src).hook[k]? = some h → hook_fires h = true →
      h.notify = connect → h.param = dst → ∀ w1 w2,
        same_hooks (set_busy W src k (fun x => x + 1)) w1 → (w1.irqs dst).value ≠ b →
        avr_raise_irq cb fuel w1 dst b = some w2 → Q (new_calls w1 w2)) :
    ∀ n k wk w1, same_hooks W wk → (W.irqs src).hook.length ≤ n + k →
      walk_hooks cb (avr_raise_irq cb fuel) src v n k wk = some w1 →
      ∃ ext, w1.calls = wk.calls ++ ext ∧
        ((wk.irqs dst).value = b → (w1.irqs dst).value = b ∧ ∀ c ∈ ext, c.irq ≠ dst) ∧
        ((wk.irqs dst).value ≠ b →
          (∃ j h, k ≤ j ∧ (W.irqs src).hook[j]? = some h ∧ hook_fires h = true ∧
            h.notify = connect ∧ h.param = dst) →
          (w1.irqs dst).value = b ∧
          ∃ pre mid post, ext = pre ++ mid ++ post ∧ (∀ c ∈ pre, c.irq ≠ dst) ∧
            (∀ c ∈ post, c.irq ≠ dst) ∧ Q mid) := by
  intro n
  induction n with
  | zero =>
    intro k wk w1 hs hlen h
    simp only [walk_hooks, Option.some.injEq] at h
    subst h
    refine ⟨[], by simp, fun hb => ⟨hb, by simp⟩, ?_⟩
    intro _ ⟨j, h, hkj, hj, _⟩
    have := (List.getElem?_eq_some.mp hj).1
    omega
  | succ n ih =>
    intro k wk w1 hs hlen h
    unfold walk_hooks at h
    rw [hs src] at h
    cases hk : (W.irqs src).hook[k]? with
    | none =>
      rw [hk] at h
      simp only [Option.some.injEq] at h
      subst h
      refine ⟨[], by simp, fun hb => ⟨hb, by simp⟩, ?_⟩
      intro _ ⟨j, h, hkj, hj, _⟩
      have h1 := (List.getElem?_eq_some.mp hj).1
      have h2 := List.getElem?_eq_none_iff.mp hk
      omega
    | some hh =>
      rw [hk] at h
      dsimp only at h
      by_cases hf : hh.notify ≠ 0 ∧ hh.busy = 0
      · rw [if_pos hf] at h
        have hfire : hook_fires hh = true := by
          unfold hook_fires; simp [hf.1, hf.2]
        have hcall : ∀ c ∈ [call_of src v hh], c.irq ≠ dst := by
          intro c hc
          simp only [List.mem_singleton] at hc
          subst hc
          exact hsd
        have hw2s : same_hooks (set_busy W src k (fun x => x + 1))
            { set_busy wk src k (fun b => b + 1) with
              calls := (set_busy wk src k (fun b => b + 1)).calls ++
                [{ notify := hh.notify, irq := src, value := v, param := hh.param }] } :=
          same_hooks_trans (same_hooks_set_busy hs src k _) (same_hooks_calls _ _)
        cases hr : run_raises (avr_raise_irq cb fuel) (cb hh.notify src v hh.param)
            { set_busy wk src k (fun b => b + 1) with
              calls := (set_busy wk src k (fun b => b + 1)).calls ++
                [{ notify := hh.notify, irq := src, value := v, param := hh.param }] } with
        | none => rw [hr] at h; simp at h
        | some w3 =>
          rw [hr] at h
          dsimp only at h
          by_cases hc : hh.notify = connect ∧ hh.param = dst
          · -- the connection hook
            rw [hc.1, hcb hh.param, hc.2] at hr
            simp only [run_raises] at hr
            cases hr3 : avr_raise_irq cb fuel
                { set_busy wk src k (fun b => b + 1) with
                  calls := (set_busy wk src k (fun b => b + 1)).calls ++
                    [{ notify := connect, irq := src, value := v, param := dst }] }
                dst b with
            | none => rw [hr3] at hr; simp at hr
            | some w3x =>
              rw [hr3] at hr
              simp only [Option.some.injEq] at hr
              subst hr
              rw [hc.1, hc.2] at hw2s
              obtain ⟨hs3, e3, he3⟩ := raise_frame cb fuel _ dst b w3x hr3
              have hb3 : (w3x.irqs dst).value = b :=
                raise_stores_value cb fuel _ dst b w3x hdst hr3
              have hback : same_hooks W (set_busy w3x src k (fun b => b - 1)) :=
                same_hooks_trans (same_hooks_busy_back W src k)
                  (same_hooks_set_busy (same_hooks_trans hw2s hs3) src k _)
              obtain ⟨e4, he4, h4a, _⟩ := ih (k + 1) _ w1 hback (by omega) h
              have hb4 := h4a (by rw [set_busy_value]; exact hb3)
              have hv2 : ∀ (c : List hook_call),
                  ((({ set_busy wk src k (fun b => b + 1) with calls := c } : irq_bus).irqs
                    dst).value) = (wk.irqs dst).value := by
                intro c
                exact set_busy_value wk src k _ dst
              refine ⟨[{ notify := connect, irq := src, value := v, param := dst }]
                ++ e3 ++ e4, ?_, ?_, ?_⟩
              · rw [he4, set_busy_calls, he3]
                simp [set_busy_calls]
              · intro hb
                have hsame := raise_same_value cb fuel _ w3x dst b
                  (by rw [hv2]; exact hb) hr3
                have he0 : e3 = [] := by
                  rw [hsame] at he3
                  simpa using he3
                refine ⟨hb4.1, ?_⟩
                intro c hcm
                rw [he0] at hcm
                simp only [List.append_nil, List.mem_append, List.mem_singleton] at hcm
                rcases hcm with hcm | hcm
                · subst hcm; exact hsd
                · exact hb4.2 c hcm
              · intro hnb _
                refine ⟨hb4.1, [{ notify := connect, irq := src, value := v, param := dst }],
                  e3, e4, rfl, ?_, hb4.2, ?_⟩
                · intro c hcm
                  simp only [List.mem_singleton] at hcm
                  subst hcm
                  exact hsd
                · have hq := hconn k hh hk hfire hc.1 hc.2 _ w3x hw2s
                    (by rw [hv2]; exact hnb) hr3
                  rw [new_calls_append _ _ e3 he3] at hq
                  exact hq
          · -- another hook
            have h3 := run_raises_frame (avr_raise_irq cb fuel)
              (fun x => same_hooks (set_busy W src k (fun b => b + 1)) x)
              (fun a c => (∃ ext, c.calls = a.calls ++ ext ∧ ∀ x ∈ ext, x.irq ≠ dst) ∧
                (c.irqs dst).value = (a.irqs dst).value)
              (fun a => ⟨⟨[], by simp, by simp⟩, rfl⟩)
              (fun a b c hab hbc => by
                obtain ⟨⟨e1, he1, hn1⟩, hv1⟩ := hab
                obtain ⟨⟨e2, he2, hn2⟩, hv2⟩ := hbc
                refine ⟨⟨e1 ++ e2, by rw [he2, he1, List.append_assoc], ?_⟩, by rw [hv2, hv1]⟩
                intro x hx
                rcases List.mem_append.mp hx with hx | hx
                · exact hn1 x hx
                · exact hn2 x hx)
              (cb hh.notify src v hh.param)
              (fun q hq x y hx hxy => by
                have hfr := raise_frame cb fuel x q.1 q.2 y hxy
                obtain ⟨e, he⟩ := hfr.2
                have ho := hother k hh hk hc q hq x y hx hxy
                rw [new_calls_append x y e he] at ho
                exact ⟨same_hooks_trans hx hfr.1, ⟨e, he, ho.1⟩, ho.2⟩)
              _ w3 hw2s hr
            obtain ⟨hs3, ⟨e3, he3, hn3⟩, hv3⟩ := h3
            have hback : same_hooks W (set_busy w3 src k (fun b => b - 1)) :=
              same_hooks_trans (same_hooks_busy_back W src k) (same_hooks_set_busy hs3 src k _)
            obtain ⟨e4, he4, h4a, h4b⟩ := ih (k + 1) _ w1 hback (by omega) h
            have hv4 : ((set_busy w3 src k (fun b => b - 1)).irqs dst).value
                = (wk.irqs dst).value := by
              rw [set_busy_value, hv3]
              exact set_busy_value wk src k _ dst
            refine ⟨[{ notify := hh.notify, irq := src, value := v, param := hh.param }]
              ++ e3 ++ e4, ?_, ?_, ?_⟩
            · rw [he4, set_busy_calls, he3]
              simp [set_busy_calls]
            · intro hb
              have hb4 := h4a (by rw [hv4]; exact hb)
              refine ⟨hb4.1, ?_⟩
              intro c hcm
              rcases List.mem_append.mp hcm with hcm | hcm
              · rcases List.mem_append.mp hcm with hcm | hcm
                · exact hcall c hcm
                · exact hn3 c hcm
              · exact hb4.2 c hcm
            · intro hnb ⟨j, hj, hkj, hjl, hjf, hjn, hjp⟩
              have hjk : k + 1 ≤ j := by
                rcases Nat.lt_or_ge k j with hlt | hge
                · exact hlt
                · exfalso
                  have hjeq : j = k := by omega
                  subst hjeq
                  rw [hk] at hjl
                  simp only [Option.some.injEq] at hjl
                  subst hjl
                  exact hc ⟨hjn, hjp⟩
              obtain ⟨hb4, pre, mid, post, hex, hpre, hpost, hq⟩ :=
                h4b (by rw [hv4]; exact hnb) ⟨j, hj, hjk, hjl, hjf, hjn, hjp⟩
              refine ⟨hb4, [{ notify := hh.notify, irq := src, value := v, param := hh.param }]
                ++ e3 ++ pre, mid, post, ?_, ?_, hpost, hq⟩
              · rw [hex]
                simp [List.append_assoc]
              · intro c hcm
                rcases List.mem_append.mp hcm with hcm | hcm
                · rcases List.mem_append.mp hcm with hcm | hcm
                  · exact hcall c hcm
                  · exact hn3 c hcm
                · exact hpre c hcm
      · rw [if_neg hf] at h
        have hnf : hook_fires hh = false := by
          unfold hook_fires
          by_cases h1 : hh.notify = 0
          · simp [h1]
          · have : hh.busy ≠ 0 := fun h2 => hf ⟨h1, h2⟩
            simp [this]
        obtain ⟨e4, he4, h4a, h4b⟩ := ih (k + 1) wk w1 hs (by omega) h
        refine ⟨e4, he4, h4a, ?_⟩
        intro hnb ⟨j, hj, hkj, hjl, hjf, hjn, hjp⟩
        have hjk : k + 1 ≤ j := by
          rcases Nat.lt_or_ge k j with hlt | hge
          · exact hlt
          · exfalso
            have hjeq : j = k := by omega
            subst hjeq
            rw [hk] at hjl
            simp only [Option.some.injEq] at hjl
            subst hjl
            rw [hnf] at hjf
            simp at hjf
        exact h4b hnb ⟨j, hj, hjk, hjl, hjf, hjn, hjp⟩

/-! ## Claim on connected IRQs -/

/-- A raise of an IRQ of a set `T` that the callbacks do not leave, on a bus with
the hook pairs of `H`, invokes no hook of an IRQ outside `T` and leaves its
value alone. -/
theorem raise_within_avoids_pairs (cb : callbacks) (T : Nat → Prop) (H : irq_bus) (x : Nat)
    (hT : ¬ T x)
    (hclosed : ∀ t, T t → ∀ h ∈ (H.irqs t).hook, ∀ u, ∀ q ∈ cb h.notify t u h.param, T q.1)
    (fuel : Nat) (w1 w2 : irq_bus) (t u : Nat) (ht : T t)
    (hp : same_hook_pairs H w1)
    (h : avr_raise_irq cb fuel w1 t u = some w2) :
    (∀ c ∈ new_calls w1 w2, c.irq ≠ x) ∧ (w2.irqs x).value = (w1.irqs x).value := by
  have hin := raise_within cb T H hclosed fuel w1 t u w2 hp ht h
  refine ⟨?_, hin.2 x hT⟩
  intro c hc e
  exact hT (e ▸ hin.1 c hc)

theorem pairs_under_busy {H W w1 : irq_bus} (p k : Nat) (f : Nat → Nat)
    (hH : same_hook_pairs H W) (hs : same_hooks (set_busy W p k f) w1) :
    same_hook_pairs H w1 :=
  same_hook_pairs_trans hH
    (same_hook_pairs_trans (same_hook_pairs_set_busy W p k f) (same_hook_pairs_of_same hs))

theorem pairs_under_busy_twice {H W w1 : irq_bus} (p k : Nat) (f : Nat → Nat)
    (p2 k2 : Nat) (f2 : Nat → Nat)
    (hH : same_hook_pairs H W)
    (hs : same_hooks (set_busy (set_busy W p k f) p2 k2 f2) w1) :
    same_hook_pairs H w1 :=
  pairs_under_busy p2 k2 f2
    (same_hook_pairs_trans hH (same_hook_pairs_set_busy W p k f)) hs

/-- The hooks of IRQ 30 of `demo_bus_chain` raise nothing. -/
theorem demo_chain_closed_30 :
    ∀ t, t = 30 → ∀ h ∈ (demo_bus_chain.irqs t).hook, ∀ u,
      ∀ q ∈ connect_callbacks h.notify t u h.param, q.1 = 30 := by
  intro t ht h hh u q hq
  subst ht
  have hl : (demo_bus_chain.irqs 30).hook = [{ notify := 6, param := 600, busy := 0 }] := by
    decide
  rw [hl] at hh
  simp only [List.mem_singleton] at hh
  subst hh
  simp [connect_callbacks] at hq

/-- The hooks of IRQ 40 of `demo_bus_chain` raise nothing. -/
theorem demo_chain_closed_40 :
    ∀ t, t = 40 → ∀ h ∈ (demo_bus_chain.irqs t).hook, ∀ u,
      ∀ q ∈ connect_callbacks h.notify t u h.param, q.1 = 40 := by
  intro t ht h hh u q hq
  subst ht
  have hl : (demo_bus_chain.irqs 40).hook = [{ notify := 5, param := 500, busy := 0 }] := by
    decide
  rw [hl] at hh
  simp only [List.mem_singleton] at hh
  subst hh
  simp [connect_callbacks] at hq

/-- The hooks of IRQ 10 of `demo_bus_chain` other than the connection to IRQ 20
raise IRQ 30 only. -/
theorem demo_chain_other_out (v k : Nat) (h : avr_irq_hook_t)
    (hk : (demo_bus_chain.irqs 10).hook[k]? = some h) (hc : ¬ (h.notify = 9 ∧ h.param = 20)) :
    ∀ q ∈ connect_callbacks h.notify 10 v h.param, q.1 = 30 := by
  intro q hq
  have hh := mem_of_getElem_some _ k h hk
  have hl : (demo_bus_chain.irqs 10).hook =
      [{ notify := 9, param := 30, busy := 0 }, { notify := 4, param := 400, busy := 0 },
       { notify := 9, param := 20, busy := 0 }] := by
    decide
  rw [hl] at hh
  simp only [List.mem_cons, List.mem_singleton, List.not_mem_nil, or_false] at hh
  rcases hh with rfl | rfl | rfl
  · simp [connect_callbacks, _avr_irq_connect] at hq
    subst hq
    rfl
  · simp [connect_callbacks] at hq
  · exact absurd ⟨rfl, rfl⟩ hc

/-- The hooks of IRQ 20 of `demo_bus_chain` raise IRQ 40 only. -/
theorem demo_chain_dst_out (u j : Nat) (h : avr_irq_hook_t)
    (hj : (demo_bus_chain.irqs 20).hook[j]? = some h) :
    ∀ q ∈ connect_callbacks h.notify 20 u h.param, q.1 = 40 := by
  intro q hq
  have hh := mem_of_getElem_some _ j h hj
  have hl : (demo_bus_chain.irqs 20).hook =
      [{ notify := 9, param := 40, busy := 0 }, { notify := 3, param := 300, busy := 0 }] := by
    decide
  rw [hl] at hh
  simp only [List.mem_cons, List.mem_singleton, List.not_mem_nil, or_false] at hh
  rcases hh with rfl | rfl
  · simp [connect_callbacks, _avr_irq_connect] at hq
    subst hq
    rfl
  · simp [connect_callbacks] at hq

/-- The bus `demo_bus_chain_high` has the hook lists of `demo_bus_chain`. -/
theorem demo_chain_high_hooks : same_hooks demo_bus_chain demo_bus_chain_high := by
  intro a
  unfold demo_bus_chain_high set_irq
  by_cases ha : a = 20
  · subst ha; rfl
  · simp only [if_neg ha]

/-- Claim C12 (as amended): after `avr_connect_irq(src, dst)` on two distinct
non-null IRQs, a connection that was there before not being busy, an
`avr_raise_irq(src, v)` with a changed `v` returns (for every nesting bound
above the number of hooks that can be invoked) and leaves in `dst` the
normalized value, 1 if `v != 0` and 0 if `v == 0`, provided the raises made by
the other hooks of `src` leave `dst` alone (they neither invoke its hooks nor
change its value): `src` may have further hooks and connections, and the hooks
of `dst` may raise on. When `dst` held that value already no hook of `dst` is
invoked; when it held another value, and no raise made from the callbacks of
the hooks of `dst` invokes a hook of `dst`, each hook of `dst` that fires is
invoked once with the normalized value. When the other callbacks on `src` and
those on `dst` raise nothing, the whole trace is the one of the last part. -/
theorem connect_raises_normalized (cb : callbacks) (connect fuel : Nat) (w : irq_bus)
    (src dst v : Nat)
    (hsrc : src ≠ 0) (hdst : dst ≠ 0) (hsd : src ≠ dst) (hconn : connect ≠ 0)
    (hcb : ∀ irq value param, cb connect irq value param = _avr_irq_connect irq value param)
    (hbusy : ∀ h ∈ (w.irqs src).hook, h.notify = connect → h.param = dst → h.busy = 0)
    (hv : (w.irqs src).value ≠ v) :
    (∀ S : List Nat,
      (∀ a, a ∉ S →
        ((avr_connect_irq connect w src dst).irqs a).hook.filter hook_fires = []) →
      idle_hooks (avr_connect_irq connect w src dst) S ≤ fuel + 1 →
      (∀ k h, ((avr_connect_irq connect w src dst).irqs src).hook[k]? = some h →
        ¬ (h.notify = connect ∧ h.param = dst) →
        ∀ q ∈ cb h.notify src v h.param, ∀ w1 w2,
          same_hooks (set_busy (avr_connect_irq connect w src dst) src k (fun b => b + 1)) w1 →
          avr_raise_irq cb (fuel + 1) w1 q.1 q.2 = some w2 →
          (∀ c ∈ new_calls w1 w2, c.irq ≠ dst) ∧
            (w2.irqs dst).value = (w1.irqs dst).value) →
      ∃ w1, avr_raise_irq cb (fuel + 2) (avr_connect_irq connect w src dst) src v = some w1 ∧
        (w1.irqs dst).value = (if v ≠ 0 then 1 else 0) ∧
        (w1.irqs src).value = v ∧
        same_hooks (avr_connect_irq connect w src dst) w1 ∧
        (∃ ext, w1.calls = w.calls ++ ext) ∧
        ((w.irqs dst).value = (if v ≠ 0 then 1 else 0) →
          ∀ c ∈ new_calls (avr_connect_irq connect w src dst) w1, c.irq ≠ dst) ∧
        ((w.irqs dst).value ≠ (if v ≠ 0 then 1 else 0) →
          (∀ kc j h, (w.irqs dst).hook[j]? = some h →
            ∀ q ∈ cb h.notify dst (if v ≠ 0 then 1 else 0) h.param, ∀ w1 w2,
              same_hooks
                (set_busy
                  (set_busy (avr_connect_irq connect w src dst) src kc (fun b => b + 1))
                  dst j (fun b => b + 1)) w1 →
              avr_raise_irq cb fuel w1 q.1 q.2 = some w2 →
              ∀ c ∈ new_calls w1 w2, c.irq ≠ dst) →
          (new_calls (avr_connect_irq connect w src dst) w1).filter
              (fun c => decide (c.irq = dst))
            = ((w.irqs dst).hook.filter hook_fires).map
                (call_of dst (if v ≠ 0 then 1 else 0)))) ∧
    (((w.irqs src).hook.map hook_pair).Nodup →
      (∀ h ∈ (w.irqs src).hook, ¬ (h.notify = connect ∧ h.param = dst) →
        cb h.notify src v h.param = []) →
      (∀ h ∈ (w.irqs dst).hook, cb h.notify dst (if v ≠ 0 then 1 else 0) h.param = []) →
      ∃ w1 pre post,
        ((avr_connect_irq connect w src dst).irqs src).hook =
          pre ++ { notify := connect, param := dst, busy := 0 } :: post ∧
        avr_raise_irq cb (fuel + 2) (avr_connect_irq connect w src dst) src v = some w1 ∧
        (w1.irqs dst).value = (if v ≠ 0 then 1 else 0) ∧
        (w1.irqs src).value = v ∧
        w1.calls = w.calls ++ (pre.filter hook_fires).map (call_of src v) ++
          [{ notify := connect, irq := src, value := v, param := dst }] ++
          (if (w.irqs dst).value = (if v ≠ 0 then 1 else 0) then []
           else ((w.irqs dst).hook.filter hook_fires).map
             (call_of dst (if v ≠ 0 then 1 else 0))) ++
          (post.filter hook_fires).map (call_of src v)) := by
  refine ⟨?_, fun hnodup hqs hqd =>
    connect_raise_quiet cb connect fuel w src dst v hsrc hdst hsd hconn hcb hnodup hbusy
      hqs hqd hv⟩
  intro S hfin hfuel hother
  have hcalls : (avr_connect_irq connect w src dst).calls = w.calls :=
    register_calls w src connect dst
  have hdstirq : (avr_connect_irq connect w src dst).irqs dst = w.irqs dst :=
    register_other_irq w src connect dst dst (fun e => hsd e.symm)
  have hval : ((avr_connect_irq connect w src dst).irqs src).value = (w.irqs src).value :=
    register_value w src connect dst src
  obtain ⟨W, hW⟩ : ∃ W, W = avr_connect_irq connect w src dst := ⟨_, rfl⟩
  rw [← hW] at hfin hfuel hother hcalls hdstirq hval ⊢
  obtain ⟨b, hb⟩ : ∃ b : Nat, b = (if v ≠ 0 then 1 else 0) := ⟨_, rfl⟩
  rw [← hb]
  have hcbv : ∀ p, cb connect src v p = [(p, b)] := by
    intro p
    rw [hcb, _avr_irq_connect, hb]
  obtain ⟨jc, hc, hjc, hcf, hcn, hcp⟩ := connect_hook_on_list connect w src dst hsrc hconn hbusy
  rw [← hW] at hjc
  have hsrcS : src ∈ S := by
    by_contra hns
    have h0 := hfin src hns
    have hm : hc ∈ (W.irqs src).hook.filter hook_fires :=
      List.mem_filter.mpr ⟨mem_of_getElem_some _ jc hc hjc, hcf⟩
    rw [h0] at hm
    simp at hm
  obtain ⟨w1, h1⟩ := raise_returns cb S (fuel + 2) W src v hfin (by omega)
  have hframe := raise_frame cb _ W src v w1 h1
  have hsv := raise_stores_value cb _ W src v w1 hsrc h1
  have hne : ¬ (src = 0 ∨ (W.irqs src).value = v) := by
    intro hh
    rcases hh with hh | hh
    · exact hsrc hh
    · exact hv (hval ▸ hh)
  have h1x : avr_raise_irq cb (fuel + 1 + 1) W src v = some w1 := h1
  unfold avr_raise_irq at h1x
  rw [if_neg hne] at h1x
  cases hw : walk_hooks cb (avr_raise_irq cb (fuel + 1)) src v (W.irqs src).hook.length 0 W with
  | none => rw [hw] at h1x; simp at h1x
  | some w2 =>
    rw [hw] at h1x
    simp only [Option.some.injEq] at h1x
    have hdv : (w1.irqs dst).value = (w2.irqs dst).value := by
      rw [← h1x]
      simp [set_irq, hsd.symm]
    have hnc : ∀ e, w2.calls = W.calls ++ e → new_calls W w1 = e := by
      intro e he
      apply new_calls_append
      rw [← h1x]
      exact he
    -- the value of `dst` and the case of a void raise
    obtain ⟨e, he, hA, hB⟩ := walk_connect cb (fuel + 1) W src dst v b connect (fun _ => True)
      hsd hdst hcbv hother (fun _ _ _ _ _ _ _ _ _ _ _ => trivial)
      _ 0 W w2 (same_hooks_refl W) (by omega) hw
    have hfinal : (w1.irqs dst).value = b := by
      rw [hdv]
      by_cases hbv : (W.irqs dst).value = b
      · exact (hA hbv).1
      · exact (hB hbv ⟨jc, hc, Nat.zero_le _, hjc, hcf, hcn, hcp⟩).1
    refine ⟨w1, h1, hfinal, hsv, hframe.1, ?_, ?_, ?_⟩
    · rw [← hcalls]
      exact hframe.2
    · intro hbv
      rw [hnc e he]
      exact (hA (by rw [hdstirq]; exact hbv)).2
    · intro hbv hnest
      -- the hooks of `dst` under the nested raise
      obtain ⟨e2, he2, _, hB2⟩ := walk_connect cb (fuel + 1) W src dst v b connect
        (fun mid => mid.filter (fun c => decide (c.irq = dst))
          = ((w.irqs dst).hook.filter hook_fires).map (call_of dst b))
        hsd hdst hcbv hother
        (fun k h hk hkf _ _ x y hx hxv hxy => by
          have hxd : (x.irqs dst).hook = (w.irqs dst).hook := by
            rw [hx dst, ← hdstirq]
            simp [set_busy, set_irq, hsd.symm]
          have hxfin : ∀ a, a ∉ S → (x.irqs a).hook.filter hook_fires = [] := by
            intro a ha
            have hasrc : a ≠ src := fun e => ha (e ▸ hsrcS)
            rw [hx a]
            simp only [set_busy, set_irq, if_neg hasrc]
            exact hfin a ha
          have hxfuel : idle_hooks x S ≤ fuel := by
            rw [idle_hooks_same hx]
            have := idle_hooks_busy W S src k h hsrcS hk hkf
            omega
          obtain ⟨y2, hy2, _, _, ⟨ey, hey⟩, hfl⟩ := raise_each_once cb S fuel x dst b hdst hxv
            hxfin hxfuel
            (fun j hj hjk _ q hq x1 x2 hx1 hx12 =>
              hnest k j hj (by rw [← hxd]; exact hjk) q hq x1 x2
                (same_hooks_trans (same_hooks_set_busy hx dst j _) hx1) hx12)
          rw [hxy] at hy2
          simp only [Option.some.injEq] at hy2
          subst hy2
          beta_reduce
          rw [hfl, hxd])
        _ 0 W w2 (same_hooks_refl W) (by omega) hw
      obtain ⟨_, pre, mid, post, hex, hpre, hpost, hq⟩ :=
        hB2 (by rw [hdstirq]; exact hbv) ⟨jc, hc, Nat.zero_le _, hjc, hcf, hcn, hcp⟩
      rw [hnc e2 he2, hex, List.filter_append, List.filter_append, hq]
      have hz1 : pre.filter (fun c => decide (c.irq = dst)) = [] := by
        apply List.filter_eq_nil_iff.mpr
        intro c hcm
        simp [hpre c hcm]
      have hz2 : post.filter (fun c => decide (c.irq = dst)) = [] := by
        apply List.filter_eq_nil_iff.mpr
        intro c hcm
        simp [hpost c hcm]
      rw [hz1, hz2]
      simp

/-- On `demo_bus_chain` IRQ 10 is connected to IRQ 20 already. -/
theorem demo_chain_connected : avr_connect_irq 9 demo_bus_chain 10 20 = demo_bus_chain := rfl

/-- On `demo_bus_chain_high` IRQ 10 is connected to IRQ 20 already. -/
theorem demo_chain_high_connected :
    avr_connect_irq 9 demo_bus_chain_high 10 20 = demo_bus_chain_high := rfl

/-- Claim C12, witness: on `demo_bus_chain` IRQ 10 fans out to IRQs 30 and 20 and
IRQ 20 is connected on to IRQ 40; raising 10 with 5 leaves 1 in IRQ 20 and
invokes the two hooks of IRQ 20 once each with 1; on `demo_bus_chain_high`,
where IRQ 20 holds 1 already, no hook of IRQ 20 is invoked; on
`demo_bus_connected`, whose callbacks raise nothing else, the whole trace is
given, and a following raise of 10 with 0 stores 0 in IRQ 20. -/
theorem connect_raises_normalized_witness :
    ((10 : Nat) ≠ 0 ∧ (20 : Nat) ≠ 0 ∧ (10 : Nat) ≠ 20 ∧ (9 : Nat) ≠ 0 ∧
      (∀ h ∈ (demo_bus_chain.irqs 10).hook, h.notify = 9 → h.param = 20 → h.busy = 0) ∧
      (demo_bus_chain.irqs 10).value ≠ 5 ∧
      idle_hooks (avr_connect_irq 9 demo_bus_chain 10 20) [10, 20, 30, 40] ≤ 6 + 1 ∧
      (demo_bus_chain.irqs 20).value ≠ (if (5 : Nat) ≠ 0 then 1 else 0) ∧
      (demo_bus_chain_high.irqs 20).value = (if (5 : Nat) ≠ 0 then 1 else 0) ∧
      ((demo_bus_connected.irqs 10).hook.map hook_pair).Nodup ∧
      (∀ h ∈ (demo_bus_connected.irqs 10).hook, ¬ (h.notify = 9 ∧ h.param = 20) →
        connect_callbacks h.notify 10 5 h.param = []) ∧
      (∀ h ∈ (demo_bus_connected.irqs 20).hook,
        connect_callbacks h.notify 20 (if (5 : Nat) ≠ 0 then 1 else 0) h.param = [])) ∧
    (avr_raise_irq connect_callbacks 8 (avr_connect_irq 9 demo_bus_chain 10 20) 10 5).map
        (fun w => ((w.irqs 20).value, w.calls))
      = some (1, [{ notify := 9, irq := 10, value := 5, param := 30 },
                  { notify := 6, irq := 30, value := 1, param := 600 },
                  { notify := 4, irq := 10, value := 5, param := 400 },
                  { notify := 9, irq := 10, value := 5, param := 20 },
                  { notify := 9, irq := 20, value := 1, param := 40 },
                  { notify := 5, irq := 40, value := 1, param := 500 },
                  { notify := 3, irq := 20, value := 1, param := 300 }]) ∧
    (avr_raise_irq connect_callbacks 8 (avr_connect_irq 9 demo_bus_chain_high 10 20) 10 5).map
        (fun w => ((w.irqs 20).value, w.calls))
      = some (1, [{ notify := 9, irq := 10, value := 5, param := 30 },
                  { notify := 6, irq := 30, value := 1, param := 600 },
                  { notify := 4, irq := 10, value := 5, param := 400 },
                  { notify := 9, irq := 10, value := 5, param := 20 }]) ∧
    ((avr_raise_irq connect_callbacks 2 (avr_connect_irq 9 demo_bus_dst 10 20) 10 5).bind
        (fun w => avr_raise_irq connect_callbacks 2 w 10 0)).map
        (fun w => ((w.irqs 20).value, w.calls))
      = some (0, [{ notify := 9, irq := 10, value := 5, param := 20 },
                  { notify := 3, irq := 20, value := 1, param := 300 },
                  { notify := 9, irq := 10, value := 0, param := 20 },
                  { notify := 3, irq := 20, value := 0, param := 300 }]) ∧
    (∃ w1, avr_raise_irq connect_callbacks (6 + 2) (avr_connect_irq 9 demo_bus_chain 10 20) 10 5
        = some w1 ∧
      (w1.irqs 20).value = (if (5 : Nat) ≠ 0 then 1 else 0) ∧
      (w1.irqs 10).value = 5 ∧
      same_hooks (avr_connect_irq 9 demo_bus_chain 10 20) w1 ∧
      (new_calls (avr_connect_irq 9 demo_bus_chain 10 20) w1).filter
          (fun c => decide (c.irq = 20))
        = ((demo_bus_chain.irqs 20).hook.filter hook_fires).map
            (call_of 20 (if (5 : Nat) ≠ 0 then 1 else 0))) ∧
    (∃ w1, avr_raise_irq connect_callbacks (6 + 2)
        (avr_connect_irq 9 demo_bus_chain_high 10 20) 10 5 = some w1 ∧
      (w1.irqs 20).value = (if (5 : Nat) ≠ 0 then 1 else 0) ∧
      ∀ c ∈ new_calls (avr_connect_irq 9 demo_bus_chain_high 10 20) w1, c.irq ≠ 20) ∧
    (∃ w1 pre post,
      ((avr_connect_irq 9 demo_bus_connected 10 20).irqs 10).hook =
        pre ++ { notify := 9, param := 20, busy := 0 } :: post ∧
      avr_raise_irq connect_callbacks (0 + 2) (avr_connect_irq 9 demo_bus_connected 10 20) 10 5
        = some w1 ∧
      (w1.irqs 20).value = (if (5 : Nat) ≠ 0 then 1 else 0) ∧
      (w1.irqs 10).value = 5 ∧
      w1.calls = demo_bus_connected.calls ++ (pre.filter hook_fires).map (call_of 10 5) ++
        [{ notify := 9, irq := 10, value := 5, param := 20 }] ++
        (if (demo_bus_connected.irqs 20).value = (if (5 : Nat) ≠ 0 then 1 else 0) then []
         else ((demo_bus_connected.irqs 20).hook.filter hook_fires).map
           (call_of 20 (if (5 : Nat) ≠ 0 then 1 else 0))) ++
        (post.filter hook_fires).map (call_of 10 5)) := by
  refine ⟨⟨by decide, by decide, by decide, by decide, by decide, by decide, by decide,
    by decide, by decide, by decide, by decide, by decide⟩, by decide, by decide, by decide,
    ?_, ?_, ?_⟩
  · obtain ⟨w1, h1, h2, h3, h4, _, _, h7⟩ :=
      (connect_raises_normalized connect_callbacks 9 6 demo_bus_chain 10 20 5 (by decide)
        (by decide) (by decide) (by decide) (fun _ _ _ => rfl) (by decide) (by decide)).1
        [10, 20, 30, 40]
        (by rw [demo_chain_connected]; exact demo_chain_support)
        (by decide)
        (fun k h hk hc q hq w1 w2 hs hr =>
          raise_within_avoids_pairs connect_callbacks (fun a => a = 30) demo_bus_chain 20
            (by decide) demo_chain_closed_30 7 w1 w2 q.1 q.2
            (demo_chain_other_out 5 k h (by rw [demo_chain_connected] at hk; exact hk) hc q hq)
            (pairs_under_busy 10 k _
              (by rw [demo_chain_connected]; exact fun _ => rfl) hs) hr)
    exact ⟨w1, h1, h2, h3, h4, h7 (by decide)
      (fun kc j h hj q hq w1 w2 hs hr =>
        (raise_within_avoids_pairs connect_callbacks (fun a => a = 40) demo_bus_chain 20
          (by decide) demo_chain_closed_40 6 w1 w2 q.1 q.2
          (demo_chain_dst_out _ j h hj q hq)
          (pairs_under_busy_twice 10 kc _ 20 j _
            (by rw [demo_chain_connected]; exact fun _ => rfl) hs) hr).1)⟩
  · obtain ⟨w1, h1, h2, _, _, _, h6, _⟩ :=
      (connect_raises_normalized connect_callbacks 9 6 demo_bus_chain_high 10 20 5 (by decide)
        (by decide) (by decide) (by decide) (fun _ _ _ => rfl) (by decide) (by decide)).1
        [10, 20, 30, 40]
        (by
          rw [demo_chain_high_connected]
          intro a ha
          rw [demo_chain_high_hooks a]
          exact demo_chain_support a ha)
        (by decide)
        (fun k h hk hc q hq w1 w2 hs hr =>
          raise_within_avoids_pairs connect_callbacks (fun a => a = 30) demo_bus_chain 20
            (by decide) demo_chain_closed_30 7 w1 w2 q.1 q.2
            (demo_chain_other_out 5 k h
              (by rw [demo_chain_high_connected, demo_chain_high_hooks 10] at hk; exact hk)
              hc q hq)
            (pairs_under_busy 10 k _
              (by
                rw [demo_chain_high_connected]
                exact same_hook_pairs_of_same demo_chain_high_hooks) hs) hr)
    exact ⟨w1, h1, h2, h6 (by decide)⟩
  · exact (connect_raises_normalized connect_callbacks 9 0 demo_bus_connected 10 20 5
      (by decide) (by decide) (by decide) (by decide) (fun _ _ _ => rfl) (by decide)
      (by decide)).2 (by decide) (by decide) (by decide)

/-- Claim C12, counterexample: an IRQ connected to itself ends with the raised
value 5 and not with the normalized 1; a hook of `src` registered before the
connection whose callback raises `dst` with 7 leaves 7 in `dst`; such a hook
registered after the connection has the hooks of `dst` invoked, twice, although
`dst` holds the normalized 1 before and after the call; and while the
connection hook is busy a raise of `src` does not reach `dst`. -/
theorem connect_to_itself_keeps_raw_value :
    (((avr_connect_irq 9 empty_bus 10 10).irqs 10).value ≠ 5 ∧
      (avr_raise_irq connect_callbacks 3 (avr_connect_irq 9 empty_bus 10 10) 10 5).map
          (fun w => ((w.irqs 10).value, w.calls))
        = some (5, [{ notify := 9, irq := 10, value := 5, param := 10 }])) ∧
    (((avr_connect_irq 9 demo_bus_override 10 20).irqs 10).hook
        = [{ notify := 9, param := 20, busy := 0 }, { notify := 7, param := 20, busy := 0 }] ∧
      (avr_raise_irq override_callbacks 3 (avr_connect_irq 9 demo_bus_override 10 20) 10 5).map
          (fun w => ((w.irqs 20).value, w.calls))
        = some (7, [{ notify := 9, irq := 10, value := 5, param := 20 },
                    { notify := 3, irq := 20, value := 1, param := 300 },
                    { notify := 7, irq := 10, value := 5, param := 20 },
                    { notify := 3, irq := 20, value := 7, param := 300 }])) ∧
    (((avr_connect_irq 9 demo_bus_override_late 10 20).irqs 10).hook
        = [{ notify := 7, param := 20, busy := 0 }, { notify := 9, param := 20, busy := 0 }] ∧
      ((avr_connect_irq 9 demo_bus_override_late 10 20).irqs 20).value = 1 ∧
      (avr_raise_irq override_callbacks 3
          (avr_connect_irq 9 demo_bus_override_late 10 20) 10 5).map
          (fun w => ((w.irqs 20).value, w.calls))
        = some (1, [{ notify := 7, irq := 10, value := 5, param := 20 },
                    { notify := 3, irq := 20, value := 7, param := 300 },
                    { notify := 9, irq := 10, value := 5, param := 20 },
                    { notify := 3, irq := 20, value := 1, param := 300 }])) ∧
    (((avr_connect_irq 9 demo_bus_busy 10 20).irqs 10).hook
        = [{ notify := 9, param := 20, busy := 1 }] ∧
      (avr_raise_irq connect_callbacks 3 (avr_connect_irq 9 demo_bus_busy 10 20) 10 5).map
          (fun w => ((w.irqs 20).value, (w.irqs 10).value, w.calls))
        = some (0, 5, [])) := by
  refine ⟨⟨by decide, by decide⟩, ⟨by decide, by decide⟩, ⟨by decide, by decide, by decide⟩,
    by decide, by decide⟩

end Simavr
